import Mathlib

/-!
BrickGame v2.0 : the Snake engine.

Shallow embedding of `src/brick_game/GameCommon.h`, `src/brick_game/snake/snake.h`
and `src/brick_game/snake/snake.cpp`.

Modelling conventions.

* C++ `int` is embedded as `Int`.  No reachable state of the engine comes near the
  32-bit range (coordinates stay within one step of the 10x20 board, the score is
  bounded by the number of cells), so no wrap-around is modelled.
* `int** game_field_` always points to `FIELD_HEIGHT` rows of `FIELD_WIDTH` cells; it is
  embedded as a total function `Fin 20 → Fin 10 → Int` (row first, then column, as in
  `game_field_[y][x]`).  A write through a coordinate pair outside the grid is undefined
  behaviour in C++; `setCell` leaves the grid unchanged there.
* `std::deque<Point> snake_` is a `List Point`, head of the snake first.
* `rand()` is embedded as an explicit list of pending draws (each a natural number, as
  `rand()` returns a value in `0..RAND_MAX`).  Every function that may call `rand()` takes
  the pending draws and returns the updated engine together with the draws it did not
  consume.  `none` means: the reject-and-resample loop of `generateFood` has not placed the
  food within the given draws (or, in `moveSnake`, that the deque is empty, where
  `front()` is undefined behaviour).
-/

namespace s21

/-! ## GameCommon.h -/

/-- Board width, `const int FIELD_WIDTH = 10`. -/
def FIELD_WIDTH : Int := 10

/-- Board height, `const int FIELD_HEIGHT = 20`. -/
def FIELD_HEIGHT : Int := 20

/-- Cell label `EMPTY = 0` of `enum CellState`. -/
def EMPTY : Int := 0

/-- Cell label `HEAD = 1` of `enum CellState`. -/
def HEAD : Int := 1

/-- Cell label `BODY = 2` of `enum CellState`. -/
def BODY : Int := 2

/-- Cell label `FOOD = 3` of `enum CellState`. -/
def FOOD : Int := 3

/-- The largest value of an `int` (32 bits, two's complement). -/
def INT_MAX : Int := 2147483647

/-- The smallest value of an `int`. -/
def INT_MIN : Int := -2147483648

/-- The value an `int` variable holds after an arithmetic operation whose result in the
integers is `x`: reduction modulo `2^32` into `INT_MIN..INT_MAX`. -/
def wrapInt (x : Int) : Int :=
  (x + 2147483648) % 4294967296 - 2147483648

/-- The value `operator>>` of a stream stores into an `int` for the decimal integer `x` read
from the stream: `x` when it fits, otherwise the nearest of `INT_MIN` and `INT_MAX`. -/
def clampInt (x : Int) : Int :=
  max INT_MIN (min INT_MAX x)

/-- The value the conversion `%d` of `fscanf` stores into an `int` for the decimal integer `x`
read from the file: the digits are converted as by `strtol`, which saturates at the bounds of
a 64-bit `long`, and the `long` is then stored into the `int`. -/
def scanInt (x : Int) : Int :=
  wrapInt (max (-9223372036854775808) (min 9223372036854775807 x))

/-- User actions, `UserAction_t`. -/
inductive UserAction_t where
  | Start
  | Pause
  | Terminate
  | Left
  | Right
  | Up
  | Down
  | Action
  deriving DecidableEq, Repr

/-- States of the finite state machine, `GameState`. -/
inductive GameState where
  | START_SCREEN
  | GAME_RUNNING
  | PAUSED
  | GAME_OVER_WIN
  | GAME_OVER_LOSE
  | TERMINATE_GAME
  deriving DecidableEq, Repr

/-- The main board: `FIELD_HEIGHT` rows of `FIELD_WIDTH` cells. -/
abbrev Field := Fin 20 → Fin 10 → Int

/-- The 4x4 preview grid (unused by Snake, always zero). -/
abbrev NextField := Fin 4 → Fin 4 → Int

/-- Render-ready snapshot, `GameInfo_t`. -/
structure GameInfo_t where
  field : Field
  next : NextField
  score : Int
  high_score : Int
  level : Int
  speed : Int
  pause : Int
  current_game_state : GameState

/-! ## snake.h -/

/-- A point of the game field, `struct Point`. -/
structure Point where
  x : Int
  y : Int
  deriving DecidableEq, Repr

/-- Componentwise comparison, `Point::operator==`. -/
def Point.eq (a other : Point) : Bool :=
  a.x == other.x && a.y == other.y

/-- Vector addition, `Point::operator+`. -/
def Point.add (a other : Point) : Point :=
  ⟨a.x + other.x, a.y + other.y⟩

/-- The data members of `class Game`. -/
structure Game where
  current_state_ : GameState
  game_field_ : Field
  next_field_ : NextField
  snake_ : List Point
  food_position_ : Point
  score_ : Int
  high_score_ : Int
  level_ : Int
  speed_ : Int
  snake_direction_ : Point

/-! ## snake.cpp -/

/-- The assignment `game_field_[y][x] = v`. -/
def setCell (f : Field) (y x : Int) (v : Int) : Field :=
  fun r c => if (r.val : Int) = y ∧ (c.val : Int) = x then v else f r c

/-- The loop of `initializeGame` that paints `snake_[1..]` as `BODY`. -/
def placeBody (f : Field) : List Point → Field
  | [] => f
  | p :: ps => placeBody (setCell f p.y p.x BODY) ps

/-- Food placement, `Game::generateFood`: two draws per round, resample while the drawn cell
is occupied by the snake. -/
def generateFood (g : Game) : List Nat → Option (Game × List Nat)
  | r1 :: r2 :: rest =>
    let food_x : Int := (r1 : Int) % FIELD_WIDTH
    let food_y : Int := (r2 : Int) % FIELD_HEIGHT
    let occupied : Bool :=
      g.snake_.any (fun segment => segment.x == food_x && segment.y == food_y)
    if !occupied then
      some ({ g with
                food_position_ := ⟨food_x, food_y⟩
                game_field_ := setCell g.game_field_ food_y food_x FOOD }, rest)
    else
      generateFood g rest
  | _ => none

/-- Board and snake set-up, `Game::initializeGame`. -/
def initializeGame (g : Game) (draws : List Nat) : Option (Game × List Nat) :=
  let field0 : Field := fun _ _ => 0
  let next0 : NextField := fun _ _ => 0
  let head : Point := ⟨FIELD_WIDTH / 2, FIELD_HEIGHT / 2⟩
  let body : List Point :=
    [⟨FIELD_WIDTH / 2 - 1, FIELD_HEIGHT / 2⟩,
     ⟨FIELD_WIDTH / 2 - 2, FIELD_HEIGHT / 2⟩,
     ⟨FIELD_WIDTH / 2 - 3, FIELD_HEIGHT / 2⟩]
  let field1 : Field := placeBody (setCell field0 head.y head.x HEAD) body
  generateFood
    { g with
        game_field_ := field1
        next_field_ := next0
        snake_ := head :: body
        snake_direction_ := ⟨1, 0⟩ }
    draws

/-- Explicit reset, `Game::resetGame`. -/
def resetGame (g : Game) (draws : List Nat) : Option (Game × List Nat) :=
  match initializeGame { g with score_ := 0, level_ := 1, speed_ := 500 } draws with
  | some (g1, rest) => some ({ g1 with current_state_ := GameState.START_SCREEN }, rest)
  | none => none

/-- Speed-up on level-up, `Game::increaseSnakeSpeed`. -/
def increaseSnakeSpeed (g : Game) : Game :=
  { g with speed_ := max 100 (g.speed_ - 40) }

/-- One movement step, `Game::moveSnake`. -/
def moveSnake (g : Game) (draws : List Nat) : Option (Game × List Nat) :=
  match g.snake_ with
  | [] => none
  | old_head :: body =>
    let new_head : Point := old_head.add g.snake_direction_
    if new_head.x < 0 ∨ new_head.x ≥ FIELD_WIDTH ∨ new_head.y < 0 ∨
        new_head.y ≥ FIELD_HEIGHT then
      some ({ g with current_state_ := GameState.GAME_OVER_LOSE }, draws)
    else
      let food_eaten : Bool :=
        new_head.x == g.food_position_.x && new_head.y == g.food_position_.y
      let checked : List Point :=
        (old_head :: body).take ((old_head :: body).length - (if food_eaten then 0 else 1))
      if checked.any (fun s => new_head.eq s) then
        some ({ g with current_state_ := GameState.GAME_OVER_LOSE }, draws)
      else
        let g1 : Game :=
          if !food_eaten then
            let tail : Point := (old_head :: body).getLast (List.cons_ne_nil old_head body)
            { g with
                game_field_ := setCell g.game_field_ tail.y tail.x EMPTY
                snake_ := (old_head :: body).dropLast }
          else g
        let g2 : Game :=
          { g1 with
              snake_ := new_head :: g1.snake_
              game_field_ :=
                setCell (setCell g1.game_field_ new_head.y new_head.x HEAD)
                  old_head.y old_head.x BODY }
        if food_eaten then
          let g3 : Game := { g2 with score_ := g2.score_ + 1 }
          let g4 : Game :=
            if g3.score_ > g3.high_score_ then { g3 with high_score_ := g3.score_ } else g3
          let g5 : Game :=
            if g4.score_ % 5 = 0 ∧ g4.level_ < 10 then
              increaseSnakeSpeed { g4 with level_ := g4.level_ + 1 }
            else g4
          if g5.snake_.length ≥ 200 then
            some ({ g5 with current_state_ := GameState.GAME_OVER_WIN }, draws)
          else
            generateFood g5 draws
        else
          some (g2, draws)

/-- The finite state machine, `Game::handleUserInput`.  The flag `hold` is discarded
(`(void)hold`). -/
def handleUserInput (g : Game) (action : UserAction_t) (_hold : Bool) (draws : List Nat) :
    Option (Game × List Nat) :=
  match g.current_state_ with
  | GameState.START_SCREEN =>
    if action = UserAction_t.Start then
      some ({ g with current_state_ := GameState.GAME_RUNNING }, draws)
    else if action = UserAction_t.Terminate then
      some ({ g with current_state_ := GameState.TERMINATE_GAME }, draws)
    else some (g, draws)
  | GameState.GAME_RUNNING =>
    if action = UserAction_t.Pause then
      some ({ g with current_state_ := GameState.PAUSED }, draws)
    else if action = UserAction_t.Terminate then
      some ({ g with current_state_ := GameState.TERMINATE_GAME }, draws)
    else if action = UserAction_t.Left then
      if g.snake_direction_.x ≠ 0 then
        some ({ g with snake_direction_ := ⟨0, -g.snake_direction_.x⟩ }, draws)
      else
        some ({ g with snake_direction_ := ⟨g.snake_direction_.y, 0⟩ }, draws)
    else if action = UserAction_t.Right then
      if g.snake_direction_.x ≠ 0 then
        some ({ g with snake_direction_ := ⟨0, g.snake_direction_.x⟩ }, draws)
      else
        some ({ g with snake_direction_ := ⟨-g.snake_direction_.y, 0⟩ }, draws)
    else if action = UserAction_t.Action then
      moveSnake g draws
    else some (g, draws)
  | GameState.PAUSED =>
    if action = UserAction_t.Pause then
      some ({ g with current_state_ := GameState.GAME_RUNNING }, draws)
    else if action = UserAction_t.Terminate then
      some ({ g with current_state_ := GameState.TERMINATE_GAME }, draws)
    else if action = UserAction_t.Start then
      resetGame g draws
    else some (g, draws)
  | GameState.GAME_OVER_WIN =>
    if action = UserAction_t.Start then
      resetGame g draws
    else if action = UserAction_t.Terminate then
      some ({ g with current_state_ := GameState.TERMINATE_GAME }, draws)
    else some (g, draws)
  | GameState.GAME_OVER_LOSE =>
    if action = UserAction_t.Start then
      resetGame g draws
    else if action = UserAction_t.Terminate then
      some ({ g with current_state_ := GameState.TERMINATE_GAME }, draws)
    else some (g, draws)
  | GameState.TERMINATE_GAME => some (g, draws)

/-- Periodic update, `Game::updateGameLogic`. -/
def updateGameLogic (g : Game) (draws : List Nat) : Option (Game × List Nat) :=
  if g.current_state_ = GameState.GAME_RUNNING then moveSnake g draws else some (g, draws)

/-- The snapshot assembled at the end of `Game::getCurrentState`. -/
def snapshot (g : Game) : GameInfo_t :=
  { field := fun i j => g.game_field_ i j
    next := fun i j => g.next_field_ i j
    score := g.score_
    high_score := g.high_score_
    level := g.level_
    speed := g.speed_
    pause := if g.current_state_ = GameState.PAUSED then 1 else 0
    current_game_state := g.current_state_ }

/-- Advance and read, `Game::getCurrentState`: first `updateGameLogic`, then the snapshot. -/
def getCurrentState (g : Game) (draws : List Nat) : Option (Game × GameInfo_t × List Nat) :=
  match updateGameLogic g draws with
  | some (g1, rest) => some (g1, snapshot g1, rest)
  | none => none

/-- High-score read, `Game::loadHighScore`.  The file is `some v` when it starts with the
decimal integer `v`, which `file >> high_score_` stores as `clampInt v`, and `none` when it is
absent or does not start with an integer, which leaves 0. -/
def loadHighScore (g : Game) (file : Option Int) : Game :=
  match file with
  | some v => { g with high_score_ := clampInt v }
  | none => { g with high_score_ := 0 }

/-- Engine construction, `Game::Game()`: member initialisers, then `loadHighScore`, then
`initializeGame`.  The grids and the food position have no initialiser; `initializeGame`
overwrites all of them, so the placeholders below are never observed. -/
def Game.construct (file : Option Int) (draws : List Nat) : Option (Game × List Nat) :=
  let g0 : Game :=
    { current_state_ := GameState.START_SCREEN
      game_field_ := fun _ _ => 0
      next_field_ := fun _ _ => 0
      snake_ := []
      food_position_ := ⟨0, 0⟩
      score_ := 0
      high_score_ := 0
      level_ := 1
      speed_ := 500
      snake_direction_ := ⟨1, 0⟩ }
  initializeGame (loadHighScore g0 file) draws

/-! ## Vocabulary of the specification -/

/-- The point lies on the board: `0 <= x < 10` and `0 <= y < 20`. -/
def inBoard (p : Point) : Prop :=
  0 ≤ p.x ∧ p.x < 10 ∧ 0 ≤ p.y ∧ p.y < 20

instance (p : Point) : Decidable (inBoard p) :=
  inferInstanceAs (Decidable (0 ≤ p.x ∧ p.x < 10 ∧ 0 ≤ p.y ∧ p.y < 20))

/-- Collision of a step as the specification words it: the new head is off the board, or it
equals a body segment, the last segment being left out of the comparison exactly when the
food is not eaten (`new_head ≠ food`). -/
def stepCollides (g : Game) (new_head : Point) : Prop :=
  ¬ inBoard new_head ∨
    new_head ∈ (if new_head = g.food_position_ then g.snake_ else g.snake_.dropLast)

instance (g : Game) (p : Point) : Decidable (stepCollides g p) :=
  inferInstanceAs (Decidable (¬ inBoard p ∨
    p ∈ (if p = g.food_position_ then g.snake_ else g.snake_.dropLast)))

/-- One of the four unit vectors along an axis. -/
def unitDirection (d : Point) : Prop :=
  d = ⟨1, 0⟩ ∨ d = ⟨-1, 0⟩ ∨ d = ⟨0, 1⟩ ∨ d = ⟨0, -1⟩

instance (d : Point) : Decidable (unitDirection d) :=
  inferInstanceAs (Decidable (d = ⟨1, 0⟩ ∨ d = ⟨-1, 0⟩ ∨ d = ⟨0, 1⟩ ∨ d = ⟨0, -1⟩))

/-- Two cells differ by exactly one unit along exactly one axis. -/
def adjacent (a b : Point) : Prop :=
  (a.x = b.x ∧ (a.y = b.y + 1 ∨ b.y = a.y + 1)) ∨
    (a.y = b.y ∧ (a.x = b.x + 1 ∨ b.x = a.x + 1))

instance (a b : Point) : Decidable (adjacent a b) :=
  inferInstanceAs (Decidable ((a.x = b.x ∧ (a.y = b.y + 1 ∨ b.y = a.y + 1)) ∨
    (a.y = b.y ∧ (a.x = b.x + 1 ∨ b.x = a.x + 1))))

/-- Every pair of consecutive segments is adjacent. -/
def consecutiveAdjacent : List Point → Prop
  | a :: b :: rest => adjacent a b ∧ consecutiveAdjacent (b :: rest)
  | _ => True

instance consecutiveAdjacent.decidable : (s : List Point) → Decidable (consecutiveAdjacent s)
  | [] => isTrue trivial
  | [_] => isTrue trivial
  | _ :: b :: rest =>
    @instDecidableAnd _ _ _ (consecutiveAdjacent.decidable (b :: rest))

/-- The body invariant of the data model: segments pairwise distinct, consecutive segments
grid-adjacent, every segment on the board. -/
def bodyInvariant (s : List Point) : Prop :=
  s.Nodup ∧ consecutiveAdjacent s ∧ ∀ p ∈ s, inBoard p

instance (s : List Point) : Decidable (bodyInvariant s) :=
  inferInstanceAs (Decidable (s.Nodup ∧ consecutiveAdjacent s ∧ ∀ p ∈ s, inBoard p))

/-- Two direction vectors are perpendicular. -/
def perpendicular (d e : Point) : Prop :=
  d.x * e.x + d.y * e.y = 0

instance (d e : Point) : Decidable (perpendicular d e) :=
  inferInstanceAs (Decidable (d.x * e.x + d.y * e.y = 0))

/-- The opposite vector. -/
def Point.neg (d : Point) : Point :=
  ⟨-d.x, -d.y⟩

/-- The body right after a reset, head first. -/
def initialSnake : List Point :=
  [⟨5, 10⟩, ⟨4, 10⟩, ⟨3, 10⟩, ⟨2, 10⟩]

/-- The transition table of the specification (section 4.1), on state labels. -/
def transitionTable : GameState → UserAction_t → GameState
  | GameState.START_SCREEN, UserAction_t.Start => GameState.GAME_RUNNING
  | GameState.GAME_RUNNING, UserAction_t.Pause => GameState.PAUSED
  | GameState.PAUSED, UserAction_t.Pause => GameState.GAME_RUNNING
  | GameState.PAUSED, UserAction_t.Start => GameState.START_SCREEN
  | GameState.GAME_OVER_WIN, UserAction_t.Start => GameState.START_SCREEN
  | GameState.GAME_OVER_LOSE, UserAction_t.Start => GameState.START_SCREEN
  | GameState.START_SCREEN, UserAction_t.Terminate => GameState.TERMINATE_GAME
  | GameState.GAME_RUNNING, UserAction_t.Terminate => GameState.TERMINATE_GAME
  | GameState.PAUSED, UserAction_t.Terminate => GameState.TERMINATE_GAME
  | GameState.GAME_OVER_WIN, UserAction_t.Terminate => GameState.TERMINATE_GAME
  | GameState.GAME_OVER_LOSE, UserAction_t.Terminate => GameState.TERMINATE_GAME
  | s, _ => s

/-- States of the engine reachable through its public interface: construction, `resetGame`,
`userInput` (that is `handleUserInput`) and the tick `updateGameLogic` run by
`updateCurrentState`, for every outcome of the random draws. -/
inductive Reachable : Game → Prop where
  | construct (file : Option Int) (draws : List Nat) (g : Game) (rest : List Nat) :
      Game.construct file draws = some (g, rest) → Reachable g
  | reset (g0 : Game) (draws : List Nat) (g : Game) (rest : List Nat) :
      resetGame g0 draws = some (g, rest) → Reachable g
  | input (g : Game) (action : UserAction_t) (hold : Bool) (draws : List Nat)
      (g' : Game) (rest : List Nat) :
      Reachable g → handleUserInput g action hold draws = some (g', rest) → Reachable g'
  | tick (g : Game) (draws : List Nat) (g' : Game) (rest : List Nat) :
      Reachable g → updateGameLogic g draws = some (g', rest) → Reachable g'

/-! ## Branch results of `generateFood` and `moveSnake`, and the run invariant -/

/-- The cell selected by one round of draws of `generateFood`. -/
def drawnCell (r1 r2 : Nat) : Point :=
  ⟨(r1 : Int) % FIELD_WIDTH, (r2 : Int) % FIELD_HEIGHT⟩

/-- The engine once `generateFood` has accepted the cell `p`. -/
def withFood (g : Game) (p : Point) : Game :=
  { g with food_position_ := p, game_field_ := setCell g.game_field_ p.y p.x FOOD }

/-- The engine at the end of the non-eating branch of `moveSnake`: tail cell cleared and popped,
new head pushed and painted, old head repainted as body. -/
def advanced (g : Game) (old_head : Point) (body : List Point) : Game :=
  let new_head := old_head.add g.snake_direction_
  let tail := (old_head :: body).getLast (List.cons_ne_nil old_head body)
  { g with
      snake_ := new_head :: (old_head :: body).dropLast
      game_field_ :=
        setCell (setCell (setCell g.game_field_ tail.y tail.x EMPTY) new_head.y new_head.x HEAD)
          old_head.y old_head.x BODY }

/-- The engine in the eating branch of `moveSnake` just before the win test: new head pushed and
painted, score, high score, level and interval updated. -/
def grown (g : Game) (old_head : Point) (body : List Point) : Game :=
  let new_head := old_head.add g.snake_direction_
  { g with
      snake_ := new_head :: old_head :: body
      game_field_ :=
        setCell (setCell g.game_field_ new_head.y new_head.x HEAD) old_head.y old_head.x BODY
      score_ := g.score_ + 1
      high_score_ := if g.score_ + 1 > g.high_score_ then g.score_ + 1 else g.high_score_
      level_ := if (g.score_ + 1) % 5 = 0 ∧ g.level_ < 10 then g.level_ + 1 else g.level_
      speed_ :=
        if (g.score_ + 1) % 5 = 0 ∧ g.level_ < 10 then max 100 (g.speed_ - 40) else g.speed_ }

/-- The invariant carried along every run: body invariant, non-empty body, unit direction. -/
def engineInvariant (g : Game) : Prop :=
  bodyInvariant g.snake_ ∧ g.snake_ ≠ [] ∧ unitDirection g.snake_direction_

/-! ## Concrete engine states used as test inputs -/

/-- An engine with every member zeroed, as before `initializeGame` has run. -/
def blankGame : Game :=
  { current_state_ := GameState.START_SCREEN
    game_field_ := fun _ _ => 0
    next_field_ := fun _ _ => 0
    snake_ := []
    food_position_ := ⟨0, 0⟩
    score_ := 0
    high_score_ := 0
    level_ := 1
    speed_ := 500
    snake_direction_ := ⟨1, 0⟩ }

/-- The engine after `resetGame` when the draws are 7 and 3: food at (7,3). -/
def freshGame : Game :=
  { current_state_ := GameState.START_SCREEN
    game_field_ :=
      setCell
        (placeBody (setCell (fun _ _ => 0) 10 5 HEAD) [⟨4, 10⟩, ⟨3, 10⟩, ⟨2, 10⟩])
        3 7 FOOD
    next_field_ := fun _ _ => 0
    snake_ := initialSnake
    food_position_ := ⟨7, 3⟩
    score_ := 0
    high_score_ := 0
    level_ := 1
    speed_ := 500
    snake_direction_ := ⟨1, 0⟩ }

/-- The engine `freshGame` after the action Start. -/
def runningGame : Game :=
  { freshGame with current_state_ := GameState.GAME_RUNNING }

/-- A running engine whose head stands in the last column, heading right. -/
def wallGame : Game :=
  { runningGame with
      snake_ := [⟨9, 10⟩, ⟨8, 10⟩, ⟨7, 10⟩, ⟨6, 10⟩]
      game_field_ := fun r c =>
        if r.val = 10 ∧ c.val = 9 then HEAD
        else if r.val = 10 ∧ 6 ≤ c.val then BODY
        else if r.val = 3 ∧ c.val = 7 then FOOD
        else EMPTY }

/-- A running engine heading left: the state reached from `runningGame` by the actions Left,
Left. -/
def leftwardGame : Game :=
  { runningGame with snake_direction_ := ⟨-1, 0⟩ }

/-- A running engine whose food lies in the cell right in front of the head. -/
def eatingGame : Game :=
  { runningGame with
      food_position_ := ⟨6, 10⟩
      game_field_ :=
        setCell
          (placeBody (setCell (fun _ _ => 0) 10 5 HEAD) [⟨4, 10⟩, ⟨3, 10⟩, ⟨2, 10⟩])
          10 6 FOOD }

/-- A running engine with eight segments, the score 4 at level 1, whose food lies in the cell
right in front of the head: the next step brings the score to 5. -/
def levelUpGame : Game :=
  { runningGame with
      snake_ := [⟨5, 10⟩, ⟨4, 10⟩, ⟨3, 10⟩, ⟨2, 10⟩, ⟨1, 10⟩, ⟨0, 10⟩, ⟨0, 11⟩, ⟨1, 11⟩]
      food_position_ := ⟨6, 10⟩
      score_ := 4
      high_score_ := 4
      game_field_ :=
        setCell
          (placeBody (setCell (fun _ _ => 0) 10 5 HEAD)
            [⟨4, 10⟩, ⟨3, 10⟩, ⟨2, 10⟩, ⟨1, 10⟩, ⟨0, 10⟩, ⟨0, 11⟩, ⟨1, 11⟩])
          10 6 FOOD }

/-- Cell number `i` of the serpentine path that sweeps the board row by row, even rows from
left to right and odd rows from right to left. -/
def serpentCell (i : Nat) : Point :=
  ⟨if (i / 10) % 2 = 0 then ((i % 10 : Nat) : Int) else 9 - ((i % 10 : Nat) : Int),
   ((i / 10 : Nat) : Int)⟩

/-- A body of 199 segments along the serpentine path: tail at (0,0), head at (1,19). -/
def serpent : List Point :=
  ((List.range 199).map serpentCell).reverse

/-- A running engine one step before the win: the body fills every cell but (0,19), the food
lies there and the head at (1,19) moves left onto it. -/
def winGame : Game :=
  { current_state_ := GameState.GAME_RUNNING
    game_field_ := fun r c =>
      if r.val = 19 ∧ c.val = 1 then HEAD
      else if r.val = 19 ∧ c.val = 0 then FOOD
      else BODY
    next_field_ := fun _ _ => 0
    snake_ := serpent
    food_position_ := ⟨0, 19⟩
    score_ := 195
    high_score_ := 195
    level_ := 10
    speed_ := 140
    snake_direction_ := ⟨-1, 0⟩ }

/-! ## The Tetris engine: tetris.h and tetris.c

Conventions of the embedding.

* The static variables of `tetris.c` are the fields of `Tetris`; the functions of the file are
  functions on that record (`is_valid_position`, which only reads the board, takes the board).
* C `int` is `Int`, `/` and `%` of C are `Int.tdiv` and `Int.tmod` (rounding toward zero);
  the additions and subtractions on `score` and `lines_cleared_for_level_up`, which grow
  without a bound along a game, are reduced by `wrapInt` to the 32 bits of an `int`; the other
  `int` variables stay within a few thousands.  `unsigned long long game_timer_ticks` is a
  `Nat` reduced modulo `2^64`.
* `int game_board[20][10]` is a `Field` (row first).  A loop over the ten columns of a row is
  a function on `Fin 10`; reading a row or a cell through an index outside the array is
  undefined behaviour in C and yields `EMPTY` here; reading the shape table through a type or
  rotation outside the table yields 0 (no block).
* `rand()` is called at most once per call of `userInput` or `updateCurrentState`; the value it
  would return is the argument `rnd`.
* The high-score file is the field `high_score_file`: `some v` when it starts with the decimal
  integer `v`, `none` when the file is absent or does not start with an integer.  Opening it
  for writing is taken to succeed.
* `malloc` is taken to succeed when the snapshot is built.
-/

namespace tetris

/-- The preprocessor constant `TETRIS_BOARD_WIDTH`. -/
def TETRIS_BOARD_WIDTH : Int := 10

/-- The preprocessor constant `TETRIS_BOARD_HEIGHT`. -/
def TETRIS_BOARD_HEIGHT : Int := 20

/-- The preprocessor constant `TETROMINO_GRID_SIZE`. -/
def TETROMINO_GRID_SIZE : Nat := 4

/-- The preprocessor constant `NUM_TETROMINO_TYPES`. -/
def NUM_TETROMINO_TYPES : Int := 7

/-- The preprocessor constant `NUM_TETROMINO_ROTATIONS`. -/
def NUM_TETROMINO_ROTATIONS : Int := 4

/-- The constant `INITIAL_SPEED_MS`. -/
def INITIAL_SPEED_MS : Int := 500

/-- The constant `MAX_LEVEL`. -/
def MAX_LEVEL : Int := 10

/-- The constant `POINTS_PER_LEVEL_UP`. -/
def POINTS_PER_LEVEL_UP : Int := 600

/-- State of the falling piece, `CurrentPieceState`. -/
structure CurrentPieceState where
  x : Int
  y : Int
  type : Int
  rotation : Int
  active : Bool
  deriving DecidableEq, Repr

/-- Inner states of the piece machine, `TetrisFSMState_t`. -/
inductive TetrisFSMState_t where
  | TETRIS_STATE_START_SCREEN
  | TETRIS_STATE_SPAWN
  | TETRIS_STATE_MOVING
  | TETRIS_STATE_LOCKING
  | TETRIS_STATE_LINE_CLEAR
  | TETRIS_STATE_GAME_OVER
  deriving DecidableEq, Repr

/-- The table `tetrominoes[7][4]` of 4x4 occupancy grids, in the order I, J, L, O, S, T, Z. -/
def tetrominoes : List (List (List (List Int))) :=
  [ [ [[0,0,0,0], [1,1,1,1], [0,0,0,0], [0,0,0,0]],
      [[0,1,0,0], [0,1,0,0], [0,1,0,0], [0,1,0,0]],
      [[0,0,0,0], [1,1,1,1], [0,0,0,0], [0,0,0,0]],
      [[0,1,0,0], [0,1,0,0], [0,1,0,0], [0,1,0,0]] ],
    [ [[1,0,0,0], [1,1,1,0], [0,0,0,0], [0,0,0,0]],
      [[0,1,1,0], [0,1,0,0], [0,1,0,0], [0,0,0,0]],
      [[0,0,0,0], [1,1,1,0], [0,0,1,0], [0,0,0,0]],
      [[0,1,0,0], [0,1,0,0], [1,1,0,0], [0,0,0,0]] ],
    [ [[0,0,1,0], [1,1,1,0], [0,0,0,0], [0,0,0,0]],
      [[0,1,0,0], [0,1,0,0], [0,1,1,0], [0,0,0,0]],
      [[0,0,0,0], [1,1,1,0], [1,0,0,0], [0,0,0,0]],
      [[1,1,0,0], [0,1,0,0], [0,1,0,0], [0,0,0,0]] ],
    [ [[0,1,1,0], [0,1,1,0], [0,0,0,0], [0,0,0,0]],
      [[0,1,1,0], [0,1,1,0], [0,0,0,0], [0,0,0,0]],
      [[0,1,1,0], [0,1,1,0], [0,0,0,0], [0,0,0,0]],
      [[0,1,1,0], [0,1,1,0], [0,0,0,0], [0,0,0,0]] ],
    [ [[0,1,1,0], [1,1,0,0], [0,0,0,0], [0,0,0,0]],
      [[0,1,0,0], [0,1,1,0], [0,0,1,0], [0,0,0,0]],
      [[0,1,1,0], [1,1,0,0], [0,0,0,0], [0,0,0,0]],
      [[0,1,0,0], [0,1,1,0], [0,0,1,0], [0,0,0,0]] ],
    [ [[0,1,0,0], [1,1,1,0], [0,0,0,0], [0,0,0,0]],
      [[0,1,0,0], [0,1,1,0], [0,1,0,0], [0,0,0,0]],
      [[0,0,0,0], [1,1,1,0], [0,1,0,0], [0,0,0,0]],
      [[0,1,0,0], [1,1,0,0], [0,1,0,0], [0,0,0,0]] ],
    [ [[1,1,0,0], [0,1,1,0], [0,0,0,0], [0,0,0,0]],
      [[0,0,1,0], [0,1,1,0], [0,1,0,0], [0,0,0,0]],
      [[1,1,0,0], [0,1,1,0], [0,0,0,0], [0,0,0,0]],
      [[0,0,1,0], [0,1,1,0], [0,1,0,0], [0,0,0,0]] ] ]

/-- The table entry `tetrominoes[type][rotation].shape[r][c]`. -/
def shapeAt (type rotation : Int) (r c : Nat) : Int :=
  if type < 0 ∨ rotation < 0 then 0
  else (((tetrominoes.getD type.toNat []).getD rotation.toNat []).getD r []).getD c 0

/-- The static variables of `tetris.c`, with the content of the high-score file. -/
structure Tetris where
  game_board : Field
  current_piece : CurrentPieceState
  next_piece_type : Int
  score : Int
  high_score : Int
  level : Int
  game_speed_ms : Int
  paused : Bool
  current_fsm_state : TetrisFSMState_t
  overall_game_state : GameState
  game_timer_ticks : Nat
  lines_cleared_for_level_up : Int
  is_initialized : Bool
  high_score_file : Option Int

/-- The read `game_board[r][c]`. -/
def cellAt (b : Field) (r c : Int) : Int :=
  if h : 0 ≤ r ∧ r < 20 ∧ 0 ≤ c ∧ c < 10 then
    b ⟨r.toNat, by omega⟩ ⟨c.toNat, by omega⟩
  else EMPTY

/-- The row `game_board[r]`. -/
def rowAt (b : Field) (r : Nat) : Fin 10 → Int :=
  fun c => if h : r < 20 then b ⟨r, h⟩ c else EMPTY

/-- The loop `for c: game_board[r][c] = row[c]`. -/
def setRow (b : Field) (r : Nat) (row : Fin 10 → Int) : Field :=
  fun i c => if i.val = r then row c else b i c

/-- High-score read, `load_high_score_from_file`: `fscanf` with `%d` stores `scanInt v`. -/
def load_high_score_from_file (s : Tetris) : Tetris :=
  match s.high_score_file with
  | some v => { s with high_score := scanInt v }
  | none => { s with high_score := 0 }

/-- High-score write, `save_high_score_to_file`. -/
def save_high_score_to_file (s : Tetris) : Tetris :=
  { s with high_score_file := some s.high_score }

/-- Step interval from level, `calculate_speed_from_level`. -/
def calculate_speed_from_level (s : Tetris) : Tetris :=
  let s1 : Tetris := if s.level > MAX_LEVEL then { s with level := MAX_LEVEL } else s
  let s2 : Tetris := if s1.level < 1 then { s1 with level := 1 } else s1
  let s3 : Tetris := { s2 with game_speed_ms := INITIAL_SPEED_MS - (s2.level - 1) * 40 }
  if s3.game_speed_ms < 50 then { s3 with game_speed_ms := 50 } else s3

/-- Board and counters reset, `reset_game_state`. -/
def reset_game_state (s : Tetris) : Tetris :=
  calculate_speed_from_level
    { s with
        game_board := fun _ _ => EMPTY
        current_piece := { s.current_piece with active := false }
        score := 0
        level := 1
        lines_cleared_for_level_up := 0 }
    |> fun s1 => { s1 with paused := false, game_timer_ticks := 0 }

/-- Engine initialisation, `initialize_tetris_game`. -/
def initialize_tetris_game (s : Tetris) (rnd : Nat) : Tetris :=
  let s1 := reset_game_state (load_high_score_from_file s)
  { s1 with
      next_piece_type := Int.tmod (rnd : Int) NUM_TETROMINO_TYPES
      current_fsm_state := TetrisFSMState_t.TETRIS_STATE_START_SCREEN
      overall_game_state := GameState.START_SCREEN }

/-- Placement test, `is_valid_position`, with the board it reads as an argument: every block
of the shape lies on the board and on an `EMPTY` cell. -/
def is_valid_position (game_board : Field) (piece_x piece_y type rotation : Int) : Bool :=
  (List.range TETROMINO_GRID_SIZE).all fun r_offset =>
    (List.range TETROMINO_GRID_SIZE).all fun c_offset =>
      if shapeAt type rotation r_offset c_offset = 1 then
        let board_r : Int := piece_y + r_offset
        let board_c : Int := piece_x + c_offset
        if board_c < 0 ∨ board_c ≥ TETRIS_BOARD_WIDTH ∨ board_r < 0 ∨
            board_r ≥ TETRIS_BOARD_HEIGHT then false
        else if cellAt game_board board_r board_c ≠ EMPTY then false
        else true
      else true

/-- Piece spawn, `spawn_new_piece`. -/
def spawn_new_piece (s : Tetris) (rnd : Nat) : Tetris :=
  let piece : CurrentPieceState :=
    { x := Int.tdiv TETRIS_BOARD_WIDTH 2 - Int.tdiv (TETROMINO_GRID_SIZE : Int) 2
      y := 0
      type := s.next_piece_type
      rotation := 0
      active := true }
  let s1 : Tetris :=
    { s with
        current_piece := piece
        next_piece_type := Int.tmod (rnd : Int) NUM_TETROMINO_TYPES }
  let s2 : Tetris :=
    if !is_valid_position s1.game_board piece.x piece.y piece.type piece.rotation then
      let s3 : Tetris :=
        { s1 with
            current_fsm_state := TetrisFSMState_t.TETRIS_STATE_GAME_OVER
            overall_game_state := GameState.GAME_OVER_LOSE
            current_piece := { piece with active := false } }
      if s3.score > s3.high_score then
        save_high_score_to_file { s3 with high_score := s3.score }
      else s3
    else
      { s1 with
          current_fsm_state := TetrisFSMState_t.TETRIS_STATE_MOVING
          overall_game_state := GameState.GAME_RUNNING }
  { s2 with game_timer_ticks := 0 }

/-- The double loop of `lock_current_piece` over the 4x4 grid of the shape. -/
def lockCells (b : Field) (p : CurrentPieceState) : Field :=
  (List.range TETROMINO_GRID_SIZE).foldl
    (fun b1 r_offset =>
      (List.range TETROMINO_GRID_SIZE).foldl
        (fun b2 c_offset =>
          if shapeAt p.type p.rotation r_offset c_offset = 1 then
            let board_r : Int := p.y + r_offset
            let board_c : Int := p.x + c_offset
            if board_r ≥ 0 ∧ board_r < TETRIS_BOARD_HEIGHT ∧ board_c ≥ 0 ∧
                board_c < TETRIS_BOARD_WIDTH then
              setCell b2 board_r board_c BODY
            else b2
          else b2)
        b1)
    b

/-- Piece locking, `lock_current_piece`. -/
def lock_current_piece (s : Tetris) : Tetris :=
  if !s.current_piece.active then s
  else
    { s with
        game_board := lockCells s.game_board s.current_piece
        current_piece := { s.current_piece with active := false }
        current_fsm_state := TetrisFSMState_t.TETRIS_STATE_LINE_CLEAR }

/-- The test `line_complete` of `clear_completed_lines`: no cell of row `r` is `EMPTY`. -/
def line_complete (b : Field) (r : Nat) : Bool :=
  (List.finRange 10).all fun c => rowAt b r c != EMPTY

/-- The loop `for (move_r = r; move_r > 0; --move_r)` of `clear_completed_lines`: row
`move_r` receives row `move_r - 1`. -/
def shiftRowsDown (b : Field) : Nat → Field
  | 0 => b
  | move_r + 1 => shiftRowsDown (setRow b (move_r + 1) (rowAt b move_r)) move_r

/-- The outer loop of `clear_completed_lines`, one body execution per unit of fuel: `r` is the
loop variable, `r++` followed by the `--r` of the loop header re-examines the same row. -/
def clearLoop : Nat → Field → Int → Int → Option (Field × Int)
  | 0, _, _, _ => none
  | fuel + 1, b, r, lines_cleared_count =>
    if r ≥ 0 then
      if line_complete b r.toNat then
        clearLoop fuel (setRow (shiftRowsDown b r.toNat) 0 (fun _ => EMPTY)) r
          (lines_cleared_count + 1)
      else
        clearLoop fuel b (r - 1) lines_cleared_count
    else some (b, lines_cleared_count)

/-- Line clearing, `clear_completed_lines`: the loop started at the bottom row, with the fuel
that every board is proved to stay within. -/
def clear_completed_lines (s : Tetris) : Tetris × Int :=
  match clearLoop 41 s.game_board (TETRIS_BOARD_HEIGHT - 1) 0 with
  | some (b, n) => ({ s with game_board := b }, n)
  | none => (s, 0)

/-- The points added by the `switch` of `update_score_and_level`, as an `int` expression. -/
def linePoints (lines_cleared_count : Int) : Int :=
  if lines_cleared_count = 1 then 100
  else if lines_cleared_count = 2 then 300
  else if lines_cleared_count = 3 then 700
  else if lines_cleared_count = 4 then 1500
  else wrapInt (1500 + wrapInt (wrapInt (lines_cleared_count - 4) * 800))

/-- Scoring and leveling, `update_score_and_level`. -/
def update_score_and_level (s : Tetris) (lines_cleared_count : Int) : Tetris :=
  if lines_cleared_count > 0 then
    let s1 : Tetris := { s with score := wrapInt (s.score + linePoints lines_cleared_count) }
    let s2 : Tetris := if s1.score > s1.high_score then { s1 with high_score := s1.score } else s1
    let s3 : Tetris :=
      { s2 with
          lines_cleared_for_level_up :=
            wrapInt (s2.lines_cleared_for_level_up + lines_cleared_count) }
    let old_level_threshold : Int :=
      Int.tdiv
        (wrapInt (s3.score -
          (if lines_cleared_count = 1 then 100
           else if lines_cleared_count = 2 then 300
           else if lines_cleared_count = 3 then 700
           else if lines_cleared_count = 4 then 1500
           else 0)))
        POINTS_PER_LEVEL_UP
    let new_level_threshold : Int := Int.tdiv s3.score POINTS_PER_LEVEL_UP
    if new_level_threshold > old_level_threshold ∧ s3.level < MAX_LEVEL then
      let s4 : Tetris := { s3 with level := new_level_threshold + 1 }
      let s5 : Tetris := if s4.level > MAX_LEVEL then { s4 with level := MAX_LEVEL } else s4
      calculate_speed_from_level s5
    else s3
  else s

/-- The snapshot grid, `copy_board_to_game_info_field`: the committed board with the blocks of
the active piece drawn as `BODY`. -/
def copy_board_to_game_info_field (s : Tetris) : Field :=
  fun r c =>
    if s.current_piece.active ∧
        (List.range TETROMINO_GRID_SIZE).any (fun pr =>
          (List.range TETROMINO_GRID_SIZE).any (fun pc =>
            shapeAt s.current_piece.type s.current_piece.rotation pr pc = 1 ∧
              s.current_piece.y + pr = r.val ∧ s.current_piece.x + pc = c.val)) then BODY
    else s.game_board r c

/-- The preview grid, `copy_next_piece_to_game_info_next`. -/
def copy_next_piece_to_game_info_next (s : Tetris) : NextField :=
  fun r c => if shapeAt s.next_piece_type 0 r.val c.val = 1 then BODY else EMPTY

/-- The lazy initialisation at the head of `userInput` and `updateCurrentState`. -/
def lazyInit (s : Tetris) (rnd : Nat) : Tetris :=
  if !s.is_initialized then { initialize_tetris_game s rnd with is_initialized := true } else s

/-- Action handler, `userInput`.  The flag `hold` is not read. -/
def userInput (s0 : Tetris) (action : UserAction_t) (_hold : Bool) (rnd : Nat) : Tetris :=
  let s := lazyInit s0 rnd
  if action = UserAction_t.Terminate then
    let s1 : Tetris :=
      { s with
          current_fsm_state := TetrisFSMState_t.TETRIS_STATE_GAME_OVER
          overall_game_state := GameState.TERMINATE_GAME }
    if s1.score > s1.high_score then save_high_score_to_file s1 else s1
  else if action = UserAction_t.Start then
    if s.current_fsm_state = TetrisFSMState_t.TETRIS_STATE_START_SCREEN ∨
        s.current_fsm_state = TetrisFSMState_t.TETRIS_STATE_GAME_OVER ∨
        s.overall_game_state = GameState.PAUSED then
      { load_high_score_from_file (reset_game_state s) with
          current_fsm_state := TetrisFSMState_t.TETRIS_STATE_SPAWN
          overall_game_state := GameState.GAME_RUNNING }
    else s
  else if s.current_fsm_state = TetrisFSMState_t.TETRIS_STATE_START_SCREEN ∨
      s.current_fsm_state = TetrisFSMState_t.TETRIS_STATE_GAME_OVER then s
  else if action = UserAction_t.Pause then
    let s1 : Tetris := { s with paused := !s.paused }
    if s1.paused then { s1 with overall_game_state := GameState.PAUSED }
    else { s1 with overall_game_state := GameState.GAME_RUNNING, game_timer_ticks := 0 }
  else if s.paused then s
  else if s.current_piece.active ∧
      s.current_fsm_state = TetrisFSMState_t.TETRIS_STATE_MOVING then
    let new_x : Int :=
      if action = UserAction_t.Left then s.current_piece.x - 1
      else if action = UserAction_t.Right then s.current_piece.x + 1
      else s.current_piece.x
    let new_y : Int :=
      if action = UserAction_t.Down then s.current_piece.y + 1 else s.current_piece.y
    let s1 : Tetris :=
      if action = UserAction_t.Down then { s with game_timer_ticks := 0 } else s
    let new_rotation : Int :=
      if action = UserAction_t.Action then
        Int.tmod (s.current_piece.rotation + 1) NUM_TETROMINO_ROTATIONS
      else s.current_piece.rotation
    if is_valid_position s1.game_board new_x new_y s1.current_piece.type new_rotation then
      { s1 with
          current_piece :=
            { s1.current_piece with x := new_x, y := new_y, rotation := new_rotation } }
    else if action = UserAction_t.Down then
      { s1 with current_fsm_state := TetrisFSMState_t.TETRIS_STATE_LOCKING }
    else s1
  else s

/-- The `switch` on the inner state in `updateCurrentState`, after `game_timer_ticks++`. -/
def fsmStep (s : Tetris) (rnd : Nat) : Tetris :=
  match s.current_fsm_state with
  | TetrisFSMState_t.TETRIS_STATE_START_SCREEN =>
    { s with overall_game_state := GameState.START_SCREEN }
  | TetrisFSMState_t.TETRIS_STATE_SPAWN =>
    let s1 := spawn_new_piece s rnd
    let s2 : Tetris :=
      if s1.current_fsm_state = TetrisFSMState_t.TETRIS_STATE_GAME_OVER then
        { s1 with overall_game_state := GameState.GAME_OVER_LOSE }
      else
        { s1 with
            current_fsm_state := TetrisFSMState_t.TETRIS_STATE_MOVING
            overall_game_state := GameState.GAME_RUNNING }
    { s2 with game_timer_ticks := 0 }
  | TetrisFSMState_t.TETRIS_STATE_MOVING =>
    let s1 : Tetris := { s with overall_game_state := GameState.GAME_RUNNING }
    if s1.current_piece.active then
      if is_valid_position s1.game_board s1.current_piece.x (s1.current_piece.y + 1)
          s1.current_piece.type s1.current_piece.rotation then
        { s1 with current_piece := { s1.current_piece with y := s1.current_piece.y + 1 } }
      else
        { s1 with current_fsm_state := TetrisFSMState_t.TETRIS_STATE_LOCKING }
    else
      { s1 with current_fsm_state := TetrisFSMState_t.TETRIS_STATE_SPAWN }
  | TetrisFSMState_t.TETRIS_STATE_LOCKING =>
    let (s1, lines) := clear_completed_lines (lock_current_piece s)
    let s2 : Tetris := if lines > 0 then update_score_and_level s1 lines else s1
    { s2 with current_fsm_state := TetrisFSMState_t.TETRIS_STATE_SPAWN }
  | TetrisFSMState_t.TETRIS_STATE_LINE_CLEAR =>
    let (s1, lines) := clear_completed_lines s
    let s2 : Tetris := if lines > 0 then update_score_and_level s1 lines else s1
    { s2 with current_fsm_state := TetrisFSMState_t.TETRIS_STATE_SPAWN }
  | TetrisFSMState_t.TETRIS_STATE_GAME_OVER =>
    let s1 : Tetris := { s with overall_game_state := GameState.GAME_OVER_LOSE }
    if s1.score > s1.high_score then
      save_high_score_to_file { s1 with high_score := s1.score }
    else s1

/-- The state change made by `updateCurrentState` before the snapshot is built. -/
def advance (s0 : Tetris) (rnd : Nat) : Tetris :=
  let s := lazyInit s0 rnd
  if !s.paused ∧ s.overall_game_state ≠ GameState.TERMINATE_GAME ∧
      s.overall_game_state ≠ GameState.START_SCREEN ∧
      s.overall_game_state ≠ GameState.GAME_OVER_LOSE then
    fsmStep { s with game_timer_ticks := (s.game_timer_ticks + 1) % 2 ^ 64 } rnd
  else if s.paused ∧ s.overall_game_state ≠ GameState.TERMINATE_GAME then
    { s with overall_game_state := GameState.PAUSED }
  else s

/-- Advance and read, `updateCurrentState`. -/
def updateCurrentState (s0 : Tetris) (rnd : Nat) : Tetris × GameInfo_t :=
  let s := advance s0 rnd
  (s,
    { field := copy_board_to_game_info_field s
      next := copy_next_piece_to_game_info_next s
      score := s.score
      high_score := s.high_score
      level := s.level
      speed := s.game_speed_ms
      pause := if s.paused then 1 else 0
      current_game_state := s.overall_game_state })

end tetris

/-! ## Vocabulary of the specification and test inputs for the Tetris engine -/

namespace tetris

/-- A row is full when none of its cells is `EMPTY`. -/
def rowFull (row : Fin 10 → Int) : Prop := ∀ c : Fin 10, row c ≠ EMPTY

instance (row : Fin 10 → Int) : Decidable (rowFull row) :=
  inferInstanceAs (Decidable (∀ c : Fin 10, row c ≠ EMPTY))

/-- The rows of a board, top row first. -/
def boardRows (b : Field) : List (Fin 10 → Int) := List.ofFn b

/-- A row whose cells are all `EMPTY`. -/
def emptyRow : Fin 10 → Int := fun _ => EMPTY

/-- The number of full rows of a board. -/
def fullRowCount (b : Field) : Nat :=
  (boardRows b).countP (fun row => decide (rowFull row))

/-- The number of full rows of a board strictly below row `r`. -/
def fullRowsBelow (b : Field) (r : Nat) : Nat :=
  ((boardRows b).drop (r + 1)).countP (fun row => decide (rowFull row))

/-- The rows the specification prescribes after line clearing: as many all-`EMPTY` rows as the
board had full rows, then the rows that were not full, in their order. -/
def clearedRows (b : Field) : List (Fin 10 → Int) :=
  List.replicate (fullRowCount b) emptyRow ++
    (boardRows b).filter (fun row => decide (¬ rowFull row))

/-- The points of the scoring table of the specification for `n` rows cleared by one lock. -/
def scoreTable (n : Int) : Int :=
  if n ≤ 0 then 0
  else if n = 1 then 100
  else if n = 2 then 300
  else if n = 3 then 700
  else if n = 4 then 1500
  else 1500 + 800 * (n - 4)

/-- The level the specification derives from a score: `floor(score / 600) + 1` clamped to 10. -/
def levelOfScore (score : Int) : Int :=
  min 10 (score / 600 + 1)

/-- The step interval the specification derives from a level. -/
def speedOfLevel (level : Int) : Int :=
  max 50 (500 - 40 * (level - 1))

/-- A placement is valid when every block of the shape lies inside the board and on an `EMPTY`
cell. -/
def validPlacement (b : Field) (piece_x piece_y type rotation : Int) : Prop :=
  ∀ r_offset < 4, ∀ c_offset < 4, shapeAt type rotation r_offset c_offset = 1 →
    0 ≤ piece_x + (c_offset : Int) ∧ piece_x + (c_offset : Int) < 10 ∧
    0 ≤ piece_y + (r_offset : Int) ∧ piece_y + (r_offset : Int) < 20 ∧
    cellAt b (piece_y + (r_offset : Int)) (piece_x + (c_offset : Int)) = EMPTY

instance (b : Field) (piece_x piece_y type rotation : Int) :
    Decidable (validPlacement b piece_x piece_y type rotation) :=
  inferInstanceAs (Decidable (∀ r_offset < 4, ∀ c_offset < 4,
    shapeAt type rotation r_offset c_offset = 1 →
    0 ≤ piece_x + (c_offset : Int) ∧ piece_x + (c_offset : Int) < 10 ∧
    0 ≤ piece_y + (r_offset : Int) ∧ piece_y + (r_offset : Int) < 20 ∧
    cellAt b (piece_y + (r_offset : Int)) (piece_x + (c_offset : Int)) = EMPTY))

/-- The board cell `(r, c)` is one of the cells occupied by the shape of the piece at its
anchor. -/
def pieceCell (p : CurrentPieceState) (r c : Int) : Prop :=
  ∃ r_offset < 4, ∃ c_offset < 4, shapeAt p.type p.rotation r_offset c_offset = 1 ∧
    r = p.y + (r_offset : Int) ∧ c = p.x + (c_offset : Int)

instance (p : CurrentPieceState) (r c : Int) : Decidable (pieceCell p r c) :=
  inferInstanceAs (Decidable (∃ r_offset < 4, ∃ c_offset < 4,
    shapeAt p.type p.rotation r_offset c_offset = 1 ∧
    r = p.y + (r_offset : Int) ∧ c = p.x + (c_offset : Int)))

/-- A running engine on an empty board: a T piece falling from the spawn position. -/
def playState : Tetris :=
  { game_board := fun _ _ => EMPTY
    current_piece := { x := 3, y := 0, type := 5, rotation := 0, active := true }
    next_piece_type := 0
    score := 0
    high_score := 0
    level := 1
    game_speed_ms := 500
    paused := false
    current_fsm_state := TetrisFSMState_t.TETRIS_STATE_MOVING
    overall_game_state := GameState.GAME_RUNNING
    game_timer_ticks := 0
    lines_cleared_for_level_up := 0
    is_initialized := true
    high_score_file := none }

/-- A running engine about to spawn: `playState` before its piece appeared. -/
def spawnState : Tetris :=
  { playState with
      current_piece := { x := 0, y := 0, type := 0, rotation := 0, active := false }
      next_piece_type := 5
      current_fsm_state := TetrisFSMState_t.TETRIS_STATE_SPAWN }

/-- A running engine whose T piece has landed in the gap of the bottom row: the bottom row is
occupied except for columns 3, 4 and 5, the piece covers those and the cell (18,4), and the
inner state is Locking. -/
def landedState : Tetris :=
  { playState with
      game_board := fun r c => if r.val = 19 ∧ (c.val < 3 ∨ 5 < c.val) then BODY else EMPTY
      current_piece := { x := 3, y := 18, type := 5, rotation := 0, active := true }
      current_fsm_state := TetrisFSMState_t.TETRIS_STATE_LOCKING }

/-- A running engine whose T piece stands against the left wall. -/
def leftWallState : Tetris :=
  { playState with
      current_piece := { x := 0, y := 5, type := 5, rotation := 0, active := true } }

/-- The engine `landedState` once its piece is locked: the bottom row is full, the cell (18,4)
holds the top block of the T piece, and the inner state is ClearingLines. -/
def lockedState : Tetris :=
  { playState with
      game_board := fun r c => if r.val = 19 ∨ (r.val = 18 ∧ c.val = 4) then BODY else EMPTY
      current_piece := { x := 3, y := 18, type := 5, rotation := 0, active := false }
      current_fsm_state := TetrisFSMState_t.TETRIS_STATE_LINE_CLEAR }

/-- The points that `update_score_and_level` takes back off the new score to recover the
previous one: the nested conditional of the source, which has no case for more than four
rows. -/
def prevPoints (lines_cleared_count : Int) : Int :=
  if lines_cleared_count = 1 then 100
  else if lines_cleared_count = 2 then 300
  else if lines_cleared_count = 3 then 700
  else if lines_cleared_count = 4 then 1500
  else 0

/-- The engine after the scoring part of `update_score_and_level`, before the level test. -/
def scored (s : Tetris) (n : Int) : Tetris :=
  { s with
      score := wrapInt (s.score + linePoints n)
      high_score :=
        if wrapInt (s.score + linePoints n) > s.high_score then wrapInt (s.score + linePoints n)
        else s.high_score
      lines_cleared_for_level_up := wrapInt (s.lines_cleared_for_level_up + n) }

end tetris

/-! ## Runs of the engines -/

/-- The test of `handleUserInput` under which Start resets the Snake engine. -/
def isResetInput (g : Game) (action : UserAction_t) : Prop :=
  action = UserAction_t.Start ∧
    (g.current_state_ = GameState.PAUSED ∨ g.current_state_ = GameState.GAME_OVER_WIN ∨
      g.current_state_ = GameState.GAME_OVER_LOSE)

instance (g : Game) (action : UserAction_t) : Decidable (isResetInput g action) :=
  inferInstanceAs (Decidable (action = UserAction_t.Start ∧
    (g.current_state_ = GameState.PAUSED ∨ g.current_state_ = GameState.GAME_OVER_WIN ∨
      g.current_state_ = GameState.GAME_OVER_LOSE)))

/-- A number of consecutive ticks, `updateGameLogic` run `n` times. -/
def tickN : Nat → Game → List Nat → Option (Game × List Nat)
  | 0, g, draws => some (g, draws)
  | n + 1, g, draws =>
    match updateGameLogic g draws with
    | some (g1, rest) => tickN n g1 rest
    | none => none

/-- States of the Snake engine reachable from its construction with the given content of the
high-score file, through `resetGame`, `handleUserInput` and the tick `updateGameLogic`. -/
inductive ReachableFrom (file : Option Int) : Game → Prop where
  | construct (draws : List Nat) (g : Game) (rest : List Nat) :
      Game.construct file draws = some (g, rest) → ReachableFrom file g
  | reset (g : Game) (draws : List Nat) (g' : Game) (rest : List Nat) :
      ReachableFrom file g → resetGame g draws = some (g', rest) → ReachableFrom file g'
  | input (g : Game) (action : UserAction_t) (hold : Bool) (draws : List Nat)
      (g' : Game) (rest : List Nat) :
      ReachableFrom file g → handleUserInput g action hold draws = some (g', rest) →
      ReachableFrom file g'
  | tick (g : Game) (draws : List Nat) (g' : Game) (rest : List Nat) :
      ReachableFrom file g → updateGameLogic g draws = some (g', rest) → ReachableFrom file g'

/-- The high score that `Game::loadHighScore` leaves for the given content of the file. -/
def storedHighScore (file : Option Int) : Int :=
  (loadHighScore blankGame file).high_score_

/-- The bounds on level and step interval carried along every run of the Snake engine. -/
def snakeStats (g : Game) : Prop :=
  1 ≤ g.level_ ∧ g.level_ ≤ 10 ∧ 100 ≤ g.speed_

/-- Progress between two states of the Snake engine: score and level do not decrease, the step
interval does not increase. -/
def snakeProgress (g g' : Game) : Prop :=
  g.score_ ≤ g'.score_ ∧ g.level_ ≤ g'.level_ ∧ g'.speed_ ≤ g.speed_

/-- The two shapes of the change of the counters of the Snake engine in one call that is not a
reset: no change, or the scoring of one eaten food. -/
def snakeCounterStep (g g' : Game) : Prop :=
  (g'.score_ = g.score_ ∧ g'.high_score_ = g.high_score_ ∧ g'.level_ = g.level_ ∧
    g'.speed_ = g.speed_) ∨
  (g'.score_ = g.score_ + 1 ∧ g'.high_score_ = max g.high_score_ (g.score_ + 1) ∧
    g'.level_ = (if (g.score_ + 1) % 5 = 0 ∧ g.level_ < 10 then g.level_ + 1 else g.level_) ∧
    g'.speed_ =
      (if (g.score_ + 1) % 5 = 0 ∧ g.level_ < 10 then max 100 (g.speed_ - 40) else g.speed_))

/-- The high-score facts carried along every run of the Snake engine started from a
non-negative stored value. -/
def snakeHighInvariant (g : Game) : Prop :=
  g.score_ ≤ g.high_score_ ∧ 0 ≤ g.high_score_

namespace tetris

/-- The static storage of `tetris.c` before the first call: every variable zero, beside the
given content of the high-score file. -/
def staticState (file : Option Int) : Tetris :=
  { game_board := fun _ _ => 0
    current_piece := { x := 0, y := 0, type := 0, rotation := 0, active := false }
    next_piece_type := 0
    score := 0
    high_score := 0
    level := 0
    game_speed_ms := 0
    paused := false
    current_fsm_state := TetrisFSMState_t.TETRIS_STATE_START_SCREEN
    overall_game_state := GameState.START_SCREEN
    game_timer_ticks := 0
    lines_cleared_for_level_up := 0
    is_initialized := false
    high_score_file := file }

/-- The high score that `load_high_score_from_file` leaves for the given content of the
file. -/
def storedHighScore (file : Option Int) : Int :=
  (load_high_score_from_file (staticState file)).high_score

/-- States of the Tetris engine reachable from process start with the given content of the
high-score file: the lazy initialisation of the first call, then `userInput` and
`updateCurrentState` in any order. -/
inductive ReachableFrom (file : Option Int) : Tetris → Prop where
  | init (rnd : Nat) : ReachableFrom file (lazyInit (staticState file) rnd)
  | input (s : Tetris) (action : UserAction_t) (hold : Bool) (rnd : Nat) :
      ReachableFrom file s → ReachableFrom file (userInput s action hold rnd)
  | tick (s : Tetris) (rnd : Nat) :
      ReachableFrom file s → ReachableFrom file (updateCurrentState s rnd).1

/-- The test of `userInput` under which Start is accepted. -/
def startAccepted (s : Tetris) : Prop :=
  s.current_fsm_state = TetrisFSMState_t.TETRIS_STATE_START_SCREEN ∨
    s.current_fsm_state = TetrisFSMState_t.TETRIS_STATE_GAME_OVER ∨
    s.overall_game_state = GameState.PAUSED

instance (s : Tetris) : Decidable (startAccepted s) :=
  inferInstanceAs (Decidable (
    s.current_fsm_state = TetrisFSMState_t.TETRIS_STATE_START_SCREEN ∨
    s.current_fsm_state = TetrisFSMState_t.TETRIS_STATE_GAME_OVER ∨
    s.overall_game_state = GameState.PAUSED))

/-- One call of the interface: a tick or an action. -/
inductive Event where
  | tick (rnd : Nat)
  | input (action : UserAction_t) (hold : Bool) (rnd : Nat)

/-- The engine after one call of the interface. -/
def step (s : Tetris) : Event → Tetris
  | Event.tick rnd => (updateCurrentState s rnd).1
  | Event.input action hold rnd => userInput s action hold rnd

/-- The engine after a sequence of calls. -/
def run (s : Tetris) (events : List Event) : Tetris :=
  events.foldl step s

/-- The calls that a paused engine is to ignore: ticks and the actions Left, Right, Up, Down
and Action. -/
def Event.playOnly : Event → Prop
  | Event.tick _ => True
  | Event.input action _ _ =>
    action = UserAction_t.Left ∨ action = UserAction_t.Right ∨ action = UserAction_t.Up ∨
      action = UserAction_t.Down ∨ action = UserAction_t.Action

/-- The calls that carry the action Start. -/
def Event.isStart : Event → Prop
  | Event.tick _ => False
  | Event.input action _ _ => action = UserAction_t.Start

/-- The combinations of inner state, outer state and pause flag met along the runs of the
Tetris engine. -/
def modeInvariant (s : Tetris) : Prop :=
  s.is_initialized = true ∧
  ((s.current_fsm_state = TetrisFSMState_t.TETRIS_STATE_START_SCREEN ∧
      s.overall_game_state = GameState.START_SCREEN ∧ s.paused = false) ∨
   ((s.current_fsm_state = TetrisFSMState_t.TETRIS_STATE_SPAWN ∨
       s.current_fsm_state = TetrisFSMState_t.TETRIS_STATE_MOVING ∨
       s.current_fsm_state = TetrisFSMState_t.TETRIS_STATE_LOCKING ∨
       s.current_fsm_state = TetrisFSMState_t.TETRIS_STATE_LINE_CLEAR) ∧
     ((s.paused = false ∧ s.overall_game_state = GameState.GAME_RUNNING) ∨
       (s.paused = true ∧ s.overall_game_state = GameState.PAUSED))) ∨
   (s.current_fsm_state = TetrisFSMState_t.TETRIS_STATE_GAME_OVER ∧
      s.overall_game_state = GameState.GAME_OVER_LOSE ∧ s.paused = false) ∨
   (s.current_fsm_state = TetrisFSMState_t.TETRIS_STATE_GAME_OVER ∧
      s.overall_game_state = GameState.TERMINATE_GAME))

/-- The bounds on score, level and step interval carried along every run of the Tetris
engine: the score is the value of an `int`, the level lies in 1..10 and the step interval is
`500 - 40 * (level - 1)`. -/
def tetrisStats (s : Tetris) : Prop :=
  INT_MIN ≤ s.score ∧ s.score ≤ INT_MAX ∧ 1 ≤ s.level ∧ s.level ≤ 10 ∧
    s.game_speed_ms = 500 - 40 * (s.level - 1)

/-- Progress between two states of the Tetris engine: the level does not decrease, the step
interval does not increase, and the score does not decrease when 1500 more points, the most a
lock gives, fit an `int`. -/
def tetrisProgress (s s' : Tetris) : Prop :=
  (s.score + 1500 ≤ INT_MAX → s.score ≤ s'.score) ∧ s.level ≤ s'.level ∧
    s'.game_speed_ms ≤ s.game_speed_ms

/-- The two shapes of the change of score, level and step interval in one call that is not a
reset: no change, or `update_score_and_level u n` for one to four rows on an engine `u` that
has the counters of `t`. -/
def scoreStep (t s' : Tetris) : Prop :=
  (s'.score = t.score ∧ s'.level = t.level ∧ s'.game_speed_ms = t.game_speed_ms) ∨
  ∃ (u : Tetris) (n : Int), 1 ≤ n ∧ n ≤ 4 ∧
    u.score = t.score ∧ u.level = t.level ∧ u.game_speed_ms = t.game_speed_ms ∧
    s'.score = (update_score_and_level u n).score ∧
    s'.level = (update_score_and_level u n).level ∧
    s'.game_speed_ms = (update_score_and_level u n).game_speed_ms

/-- The high-score facts carried along every run started from a stored value that loads as a
non-negative high score: the high score is at least the score, and the file loads as a
non-negative high score. -/
def highInvariant (s : Tetris) : Prop :=
  s.score ≤ s.high_score ∧ 0 ≤ storedHighScore s.high_score_file

/-- The engine of a fresh process, without high-score file, after the action Terminate. -/
def terminatedState : Tetris :=
  userInput (lazyInit (staticState none) 3) UserAction_t.Terminate false 3

/-- A running engine whose T piece rests on the floor of the empty board. -/
def flooredState : Tetris :=
  { playState with
      current_piece := { x := 3, y := 18, type := 5, rotation := 0, active := true } }

/-- The two shapes of the change of the counters in one tick of the inner state machine, from
`t` to `s'`: either the score, the level and the step interval stay and the high score is
raised to the score when the score exceeds it and the inner state becomes GameOver, or the
tick is a scoring one, `update_score_and_level u n` with `n > 0` on an engine `u` that has
the counters of `t`.  The pause flag and the initialisation flag stay in both. -/
def counterStep (t s' : Tetris) : Prop :=
  s'.paused = t.paused ∧
  s'.is_initialized = t.is_initialized ∧
  ((s'.score = t.score ∧ s'.level = t.level ∧ s'.game_speed_ms = t.game_speed_ms ∧
      s'.high_score = (if t.score > t.high_score ∧
          s'.current_fsm_state = TetrisFSMState_t.TETRIS_STATE_GAME_OVER
        then t.score else t.high_score) ∧
      s'.high_score_file = (if t.score > t.high_score ∧
          s'.current_fsm_state = TetrisFSMState_t.TETRIS_STATE_GAME_OVER
        then some t.score else t.high_score_file)) ∨
    ∃ (u : Tetris) (n : Int), n > 0 ∧
      u.score = t.score ∧ u.level = t.level ∧ u.game_speed_ms = t.game_speed_ms ∧
      u.high_score = t.high_score ∧ u.high_score_file = t.high_score_file ∧
      s'.score = (update_score_and_level u n).score ∧
      s'.level = (update_score_and_level u n).level ∧
      s'.game_speed_ms = (update_score_and_level u n).game_speed_ms ∧
      s'.high_score = (update_score_and_level u n).high_score ∧
      s'.high_score_file = t.high_score_file)

end tetris

/-! ## Scenarios and derived quantities -/

/-- One call of the Snake interface: a tick or an action. -/
inductive Call where
  | tick
  | input (action : UserAction_t) (hold : Bool)

/-- The Snake engine after one call of the interface. -/
def applyCall (g : Game) (draws : List Nat) : Call → Option (Game × List Nat)
  | Call.tick => updateGameLogic g draws
  | Call.input action hold => handleUserInput g action hold draws

/-- The Snake engine after a sequence of calls, the draws left by each call going to the
next. -/
def runCalls : List Call → Game → List Nat → Option (Game × List Nat)
  | [], g, draws => some (g, draws)
  | c :: cs, g, draws =>
    match applyCall g draws c with
    | some (g1, rest) => runCalls cs g1 rest
    | none => none

/-- The action has no defined effect in the state (section 4.1 of the specification): Up and
Down everywhere, Start while Running, Pause outside Running and Paused, Left, Right and Action
outside Running, and every action in Terminated. -/
def undefinedAction (state : GameState) (action : UserAction_t) : Prop :=
  action = UserAction_t.Up ∨ action = UserAction_t.Down ∨
  (action = UserAction_t.Start ∧ state = GameState.GAME_RUNNING) ∨
  (action = UserAction_t.Pause ∧
    (state = GameState.START_SCREEN ∨ state = GameState.GAME_OVER_WIN ∨
      state = GameState.GAME_OVER_LOSE)) ∨
  ((action = UserAction_t.Left ∨ action = UserAction_t.Right ∨
      action = UserAction_t.Action) ∧ state ≠ GameState.GAME_RUNNING) ∨
  state = GameState.TERMINATE_GAME

instance (state : GameState) (action : UserAction_t) : Decidable (undefinedAction state action) :=
  inferInstanceAs (Decidable (
    action = UserAction_t.Up ∨ action = UserAction_t.Down ∨
    (action = UserAction_t.Start ∧ state = GameState.GAME_RUNNING) ∨
    (action = UserAction_t.Pause ∧
      (state = GameState.START_SCREEN ∨ state = GameState.GAME_OVER_WIN ∨
        state = GameState.GAME_OVER_LOSE)) ∨
    ((action = UserAction_t.Left ∨ action = UserAction_t.Right ∨
        action = UserAction_t.Action) ∧ state ≠ GameState.GAME_RUNNING) ∨
    state = GameState.TERMINATE_GAME))

/-- The engine is Running and heads right along row 10: the head is in column `5 + k`, every
other segment lies in a lower column of that row, and at most `3 + k` segments follow the
head. -/
def straightRun (k : Nat) (g : Game) : Prop :=
  g.current_state_ = GameState.GAME_RUNNING ∧ g.snake_direction_ = ⟨1, 0⟩ ∧
  ∃ body : List Point, g.snake_ = (⟨5 + (k : Int), 10⟩ : Point) :: body ∧
    body.length ≤ 3 + k ∧ ∀ p ∈ body, p.y = 10 ∧ p.x < 5 + (k : Int)

/-- A sufficient supply of draws for a run along row 10: the food is off that row, or the
next two draws select a cell off that row. -/
def foodOffRow (g : Game) (draws : List Nat) : Prop :=
  g.food_position_.y ≠ 10 ∨
    ∃ (r1 r2 : Nat) (tl : List Nat), draws = r1 :: r2 :: tl ∧ (r2 : Int) % 20 ≠ 10

/-- The calls of the test `SpeedUp`: Start, then Action five times. -/
def speedUpCalls (hold : Bool) : List Call :=
  Call.input UserAction_t.Start hold :: List.replicate 5 (Call.input UserAction_t.Action hold)

/-- The calls of the test `GameOverSelfCollision`: Start, then a tick and three times Right
followed by a tick. -/
def loopCalls (hold : Bool) : List Call :=
  [Call.input UserAction_t.Start hold, Call.tick,
   Call.input UserAction_t.Right hold, Call.tick,
   Call.input UserAction_t.Right hold, Call.tick,
   Call.input UserAction_t.Right hold, Call.tick]

/-- The cells the head enters in the first three ticks of `loopCalls`. -/
def loopPath : List Point :=
  [⟨6, 10⟩, ⟨6, 11⟩, ⟨5, 11⟩]

/-- A stage of the run of `loopCalls`: the engine is Running with heading `D`, its snake is
the four cells `P` followed by the segments `t` gained by eating, which lie in row 10 at
columns up to 4; either nothing was eaten yet, the food is still the initial food `f0` and
`f0` is none of the cells `passed` so far, or something was eaten and `f0` is on the path. -/
def loopStage (P : List Point) (D : Point) (passed : List Point) (f0 : Point) (g : Game) :
    Prop :=
  g.current_state_ = GameState.GAME_RUNNING ∧ g.snake_direction_ = D ∧
  ∃ t : List Point, g.snake_ = P ++ t ∧ t.length ≤ passed.length ∧
    (∀ p ∈ t, p.y = 10 ∧ p.x ≤ 4) ∧
    ((t = [] ∧ g.food_position_ = f0 ∧ f0 ∉ passed) ∨ (t ≠ [] ∧ f0 ∈ loopPath))

/-- A sufficient supply of draws for the run of `loopCalls`: the food is off rows 10 and 11,
or the next two draws select a cell off these rows. -/
def foodOffLoop (g : Game) (draws : List Nat) : Prop :=
  (g.food_position_.y ≠ 10 ∧ g.food_position_.y ≠ 11) ∨
    ∃ (r1 r2 : Nat) (tl : List Nat), draws = r1 :: r2 :: tl ∧
      (r2 : Int) % 20 ≠ 10 ∧ (r2 : Int) % 20 ≠ 11

/-- The engine after `resetGame` when the draws are 6 and 10: food at (6,10), the cell in
front of the head. -/
def loopFoodGame : Game :=
  { freshGame with
      game_field_ :=
        setCell
          (placeBody (setCell (fun _ _ => 0) 10 5 HEAD) [⟨4, 10⟩, ⟨3, 10⟩, ⟨2, 10⟩])
          10 6 FOOD
      food_position_ := ⟨6, 10⟩ }

/-- A column of the board walked upwards or downwards between two rows. -/
def columnWalk (x : Nat) (top bottom : Nat) (upwards : Bool) : List Point :=
  let cells : List Point :=
    (List.range (bottom + 1 - top)).map fun i => ⟨(x : Int), ((top + i : Nat) : Int)⟩
  if upwards then cells.reverse else cells

/-- A path through all 200 cells of the board that begins with the initial snake, tail
first: along row 10 to the right wall, through rows 0..9 column by column from the right,
around the cells (0,10), (1,10), (1,11), (0,11), through rows 12..19 column by column from
the left, and back along row 11. -/
def winPath : List Point :=
  (List.range 8).map (fun i => (⟨((i + 2 : Nat) : Int), 10⟩ : Point)) ++
  (List.range 10).flatMap (fun i => columnWalk (9 - i) 0 9 (i % 2 == 0)) ++
  [⟨0, 10⟩, ⟨1, 10⟩, ⟨1, 11⟩, ⟨0, 11⟩] ++
  (List.range 10).flatMap (fun i => columnWalk i 12 19 (i % 2 == 1)) ++
  (List.range 8).map (fun i => (⟨((9 - i : Nat) : Int), 11⟩ : Point))

/-- The calls that take the head from `a` over `b` to `c`: the turn, if any, that changes the
heading `b - a` into `c - b`, then a tick. -/
def stepCalls (a b c : Point) : List Call :=
  let d : Point := ⟨b.x - a.x, b.y - a.y⟩
  let d' : Point := ⟨c.x - b.x, c.y - b.y⟩
  let left : Point := if d.x ≠ 0 then ⟨0, -d.x⟩ else ⟨d.y, 0⟩
  if d' = d then [Call.tick]
  else if d' = left then [Call.input UserAction_t.Left false, Call.tick]
  else [Call.input UserAction_t.Right false, Call.tick]

/-- The calls that steer the head along a path of which it has reached the second cell. -/
def pathCalls : List Point → List Call
  | a :: b :: c :: rest => stepCalls a b c ++ pathCalls (b :: c :: rest)
  | _ => []

/-- The calls of a won game ended by Terminate: Start, the head steered along `winPath` from
the initial snake on, then Terminate. -/
def winCalls : List Call :=
  Call.input UserAction_t.Start false :: pathCalls (winPath.drop 2) ++
    [Call.input UserAction_t.Terminate false]

/-- The draws that put each new food on the next cell of `winPath`. -/
def winDraws : List Nat :=
  (winPath.drop 5).flatMap fun p => [p.x.toNat, p.y.toNat]

/-- The point of the board cell in row `r` and column `c`. -/
def cellPoint (r : Fin 20) (c : Fin 10) : Point :=
  ⟨(c.val : Int), (r.val : Int)⟩

/-- The cell value the snake alone prescribes at a point: `HEAD` at the first segment, `BODY`
at the others, `EMPTY` elsewhere. -/
def snakeCell (s : List Point) (q : Point) : Int :=
  if s.head? = some q then HEAD else if q ∈ s.tail then BODY else EMPTY

/-- The board shows the snake and nothing else. -/
def snakeOnly (g : Game) : Prop :=
  ∀ (r : Fin 20) (c : Fin 10), g.game_field_ r c = snakeCell g.snake_ (cellPoint r c)

/-- The board mirrors the entities: the cells of the snake show the snake, and off the snake
the cell at the food coordinate is `FOOD` and every other cell is `EMPTY`. -/
def boardMirrors (g : Game) : Prop :=
  ∀ (r : Fin 20) (c : Fin 10),
    g.game_field_ r c =
      if cellPoint r c ∈ g.snake_ then snakeCell g.snake_ (cellPoint r c)
      else if g.food_position_ = cellPoint r c then FOOD
      else EMPTY

/-- The facts on the board carried along every run of the Snake engine: at least two
segments, the food coordinate on the board, the board mirroring the entities, the food under
the snake only when the snake has 200 segments, and 200 segments only in the states
WonGameOver and Terminated and with the food coordinate under the head. -/
def boardInvariant (g : Game) : Prop :=
  2 ≤ g.snake_.length ∧ inBoard g.food_position_ ∧ boardMirrors g ∧
  (g.food_position_ ∈ g.snake_ → 200 ≤ g.snake_.length) ∧
  (200 ≤ g.snake_.length →
    (g.current_state_ = GameState.GAME_OVER_WIN ∨
      g.current_state_ = GameState.TERMINATE_GAME) ∧
    g.snake_.head? = some g.food_position_)

/-- Board consistency in the words of the specification: the cell at the head's coordinate is
`HEAD`, the cells of all other segments are `BODY`, the cell at the food coordinate is `FOOD`,
and every remaining cell is `EMPTY`. -/
def boardExact (g : Game) : Prop :=
  (∀ (r : Fin 20) (c : Fin 10), g.snake_.head? = some (cellPoint r c) →
    g.game_field_ r c = HEAD) ∧
  (∀ (r : Fin 20) (c : Fin 10), cellPoint r c ∈ g.snake_.tail → g.game_field_ r c = BODY) ∧
  (∀ (r : Fin 20) (c : Fin 10), g.food_position_ = cellPoint r c → g.game_field_ r c = FOOD) ∧
  (∀ (r : Fin 20) (c : Fin 10), cellPoint r c ∉ g.snake_ → g.food_position_ ≠ cellPoint r c →
    g.game_field_ r c = EMPTY)

/-- Exactly one cell of the grid holds the value `v`. -/
def exactlyOneCell (f : Field) (v : Int) : Prop :=
  ∃ (r : Fin 20) (c : Fin 10), ∀ (r' : Fin 20) (c' : Fin 10), f r' c' = v ↔ (r' = r ∧ c' = c)

namespace tetris

/-- No row of the board is full. -/
def noFullRow (b : Field) : Prop :=
  ∀ r : Fin 20, ¬ rowFull (b r)

/-- The facts on the piece, the board and the level carried along every run of the Tetris
engine: the inner state is never left in ClearingLines between calls, the look-ahead type is
one of the seven types, an active piece has a type in 0..6, a rotation in 0..3 and a valid
placement, the board has no full row, and below level 10 the score is not negative and the
level is the one derived from it. -/
def playInvariant (s : Tetris) : Prop :=
  s.current_fsm_state ≠ TetrisFSMState_t.TETRIS_STATE_LINE_CLEAR ∧
  (0 ≤ s.next_piece_type ∧ s.next_piece_type ≤ 6) ∧
  (s.current_piece.active = true →
    (0 ≤ s.current_piece.type ∧ s.current_piece.type ≤ 6) ∧
    (0 ≤ s.current_piece.rotation ∧ s.current_piece.rotation ≤ 3) ∧
    validPlacement s.game_board s.current_piece.x s.current_piece.y s.current_piece.type
      s.current_piece.rotation) ∧
  noFullRow s.game_board ∧
  (s.level < 10 → 0 ≤ s.score ∧ s.level = levelOfScore s.score)

/-- States of the Tetris engine reached from process start along calls none of which wrapped
the `int` score around: like `ReachableFrom`, with the ticks restricted to those that leave
the score no lower than it was. -/
inductive ReachableNoWrap (file : Option Int) : Tetris → Prop where
  | init (rnd : Nat) : ReachableNoWrap file (lazyInit (staticState file) rnd)
  | input (s : Tetris) (action : UserAction_t) (hold : Bool) (rnd : Nat) :
      ReachableNoWrap file s → ReachableNoWrap file (userInput s action hold rnd)
  | tick (s : Tetris) (rnd : Nat) :
      ReachableNoWrap file s → s.score ≤ (updateCurrentState s rnd).1.score →
      ReachableNoWrap file (updateCurrentState s rnd).1

/-- The engine with the score, the high score, the level, the step interval, the count of
cleared rows and the high-score file set to fixed values: what remains decides the moves of
the pieces. -/
def core (s : Tetris) : Tetris :=
  { s with
      score := 0
      high_score := 0
      level := 1
      game_speed_ms := 500
      lines_cleared_for_level_up := 0
      high_score_file := none }

/-- The calls that neither reset nor end the game: ticks and the actions other than Start and
Terminate. -/
def Event.keepsGame : Event → Bool
  | Event.tick _ => true
  | Event.input action _ _ =>
    decide (action ≠ UserAction_t.Terminate) && decide (action ≠ UserAction_t.Start)

/-- The calls that drop one piece: the tick that spawns it (the draw 3 makes the O piece the
next look-ahead), the given sideways moves, 19 times Down, of which the last finds the piece
resting, and the tick that locks it. -/
def dropCalls (moves : List UserAction_t) : List Event :=
  Event.tick 3 :: moves.map (fun a => Event.input a false 0) ++
    List.replicate 19 (Event.input UserAction_t.Down false 0) ++ [Event.tick 0]

/-- The calls that drop five O pieces side by side onto the empty board, all but the last
tick: the fifth piece rests in the last gap of the two bottom rows and the inner state is
Locking. -/
def fillCalls : List Event :=
  dropCalls (List.replicate 4 UserAction_t.Left) ++
    dropCalls (List.replicate 2 UserAction_t.Left) ++
    dropCalls [] ++ dropCalls (List.replicate 2 UserAction_t.Right) ++
    (dropCalls (List.replicate 4 UserAction_t.Right)).dropLast

/-- The calls `fillCalls` and the tick that locks the fifth piece and clears the two rows. -/
def clearCycle : List Event :=
  fillCalls ++ [Event.tick 0]

/-- The engine of a fresh process without high-score file after the action Start, the
look-ahead being the O piece. -/
def startedState : Tetris :=
  userInput (lazyInit (staticState none) 3) UserAction_t.Start false 3

/-- The engine after a run of `clearCycle`, with the counters of a fresh game: the board is
empty again, the fifth O piece is inactive where it was locked, the look-ahead is the O piece
and the inner state is Spawning. -/
def clearedState : Tetris :=
  { game_board := fun _ _ => EMPTY
    current_piece := { x := 7, y := 18, type := 3, rotation := 0, active := false }
    next_piece_type := 3
    score := 0
    high_score := 0
    level := 1
    game_speed_ms := 500
    paused := false
    current_fsm_state := TetrisFSMState_t.TETRIS_STATE_SPAWN
    overall_game_state := GameState.GAME_RUNNING
    game_timer_ticks := 1
    lines_cleared_for_level_up := 0
    is_initialized := true
    high_score_file := none }

/-- The two engines agree on everything but the counters and the high-score file. -/
def sameCore (a b : Tetris) : Prop :=
  (∀ (r : Fin 20) (c : Fin 10), a.game_board r c = b.game_board r c) ∧
  a.current_piece = b.current_piece ∧ a.next_piece_type = b.next_piece_type ∧
  a.paused = b.paused ∧ a.current_fsm_state = b.current_fsm_state ∧
  a.overall_game_state = b.overall_game_state ∧ a.game_timer_ticks = b.game_timer_ticks ∧
  a.is_initialized = b.is_initialized

instance (a b : Tetris) : Decidable (sameCore a b) :=
  inferInstanceAs (Decidable (
    (∀ (r : Fin 20) (c : Fin 10), a.game_board r c = b.game_board r c) ∧
    a.current_piece = b.current_piece ∧ a.next_piece_type = b.next_piece_type ∧
    a.paused = b.paused ∧ a.current_fsm_state = b.current_fsm_state ∧
    a.overall_game_state = b.overall_game_state ∧ a.game_timer_ticks = b.game_timer_ticks ∧
    a.is_initialized = b.is_initialized))

/-- Every tick of the run leaves the score no lower than it was. -/
def runKeepsScore : Tetris → List Event → Bool
  | _, [] => true
  | s, Event.tick rnd :: events =>
    decide (s.score ≤ (updateCurrentState s rnd).1.score) &&
      runKeepsScore (updateCurrentState s rnd).1 events
  | s, Event.input action hold rnd :: events =>
    runKeepsScore (userInput s action hold rnd) events



/-- Every cell of the board holds `EMPTY` or `BODY`, the two labels the Tetris engine
writes. -/
def boardBinary (b : Field) : Prop :=
  ∀ (i : Fin 20) (j : Fin 10), b i j = EMPTY ∨ b i j = BODY

end tetris

/-! ## Lemmas on the embedding -/

theorem Point.eq_iff (a b : Point) : a.eq b = true ↔ a = b := by
  cases a; cases b; simp [Point.eq]

theorem foodEaten_iff (p q : Point) : (p.x == q.x && p.y == q.y) = true ↔ p = q := by
  cases p; cases q; simp

theorem wall_iff (p : Point) :
    (p.x < 0 ∨ p.x ≥ FIELD_WIDTH ∨ p.y < 0 ∨ p.y ≥ FIELD_HEIGHT) ↔ ¬ inBoard p := by
  unfold inBoard FIELD_WIDTH FIELD_HEIGHT; omega

theorem checked_any_iff (l : List Point) (p q : Point) :
    ((l.take (l.length - (if (p.x == q.x && p.y == q.y) = true then 0 else 1))).any
        (fun s => p.eq s) = true) ↔
      p ∈ (if p = q then l else l.dropLast) := by
  by_cases h : p = q
  · have h2 : (p.x == q.x && p.y == q.y) = true := (foodEaten_iff p q).2 h
    simp [h2, h, Point.eq_iff]
  · have h2 : ¬ (p.x == q.x && p.y == q.y) = true := fun hh => h ((foodEaten_iff p q).1 hh)
    simp only [h2, h, if_false, List.any_eq_true, Point.eq_iff, List.dropLast_eq_take]
    simp

theorem moveSnake_cons (g : Game) (draws : List Nat) (old_head : Point) (body : List Point)
    (hs : g.snake_ = old_head :: body) :
    moveSnake g draws =
      if stepCollides g (old_head.add g.snake_direction_) then
        some ({ g with current_state_ := GameState.GAME_OVER_LOSE }, draws)
      else if old_head.add g.snake_direction_ = g.food_position_ then
        if 200 ≤ body.length + 2 then
          some ({ grown g old_head body with current_state_ := GameState.GAME_OVER_WIN }, draws)
        else generateFood (grown g old_head body) draws
      else some (advanced g old_head body, draws) := by
  have hw := wall_iff (old_head.add g.snake_direction_)
  have hc := checked_any_iff (old_head :: body) (old_head.add g.snake_direction_) g.food_position_
  have hf := foodEaten_iff (old_head.add g.snake_direction_) g.food_position_
  unfold moveSnake
  rw [hs]
  simp only []
  by_cases hwall : inBoard (old_head.add g.snake_direction_)
  · rw [if_neg (by rw [hw]; exact not_not.mpr hwall)]
    by_cases hfood : old_head.add g.snake_direction_ = g.food_position_
    · have hfb := hf.2 hfood
      by_cases hself : old_head.add g.snake_direction_ ∈ old_head :: body
      · have hcol : stepCollides g (old_head.add g.snake_direction_) := by
          right; rw [if_pos hfood, hs]; exact hself
        rw [if_pos hcol, if_pos (by rw [hc, if_pos hfood]; exact hself)]
      · have hcol : ¬ stepCollides g (old_head.add g.snake_direction_) := by
          rintro (h | h)
          · exact h hwall
          · rw [if_pos hfood, hs] at h; exact hself h
        rw [if_neg hcol, if_pos hfood, if_neg (by rw [hc, if_pos hfood]; exact hself)]
        simp only [hfb, if_true, Bool.not_true, Bool.false_eq_true, if_false]
        simp only [grown, increaseSnakeSpeed, List.length_cons, ge_iff_le]
        have e : body.length + 1 + 1 = body.length + 2 := rfl
        rw [e]
        by_cases hhs : g.score_ + 1 > g.high_score_ <;>
        by_cases hlv : (g.score_ + 1) % 5 = 0 ∧ g.level_ < 10 <;>
        by_cases hwin : 200 ≤ body.length + 2 <;>
        simp only [hhs, hlv, hwin, if_true, if_false, and_self, hs, List.length_cons, e]
    · have hfb : ¬ ((old_head.add g.snake_direction_).x == g.food_position_.x &&
          (old_head.add g.snake_direction_).y == g.food_position_.y) = true :=
        fun h => hfood (hf.1 h)
      by_cases hself : old_head.add g.snake_direction_ ∈ (old_head :: body).dropLast
      · have hcol : stepCollides g (old_head.add g.snake_direction_) := by
          right; rw [if_neg hfood, hs]; exact hself
        rw [if_pos hcol, if_pos (by rw [hc, if_neg hfood]; exact hself)]
      · have hcol : ¬ stepCollides g (old_head.add g.snake_direction_) := by
          rintro (h | h)
          · exact h hwall
          · rw [if_neg hfood, hs] at h; exact hself h
        rw [if_neg hcol, if_neg hfood, if_neg (by rw [hc, if_neg hfood]; exact hself)]
        simp only [hfb, if_true, Bool.not_false, Bool.false_eq_true, if_false, advanced]
  · have hcol : stepCollides g (old_head.add g.snake_direction_) := Or.inl hwall
    rw [if_pos hcol, if_pos (hw.2 hwall)]

theorem occupied_iff (l : List Point) (fx fy : Int) :
    l.any (fun segment => segment.x == fx && segment.y == fy) = true ↔ (⟨fx, fy⟩ : Point) ∈ l := by
  simp only [List.any_eq_true, Bool.and_eq_true, beq_iff_eq]
  constructor
  · rintro ⟨p, hp, hx, hy⟩
    have : p = ⟨fx, fy⟩ := by cases p; simp_all
    exact this ▸ hp
  · intro h
    exact ⟨⟨fx, fy⟩, h, rfl, rfl⟩

theorem generateFood_cons_cons (g : Game) (r1 r2 : Nat) (tl : List Nat) :
    generateFood g (r1 :: r2 :: tl) =
      if drawnCell r1 r2 ∈ g.snake_ then generateFood g tl
      else some (withFood g (drawnCell r1 r2), tl) := by
  have h := occupied_iff g.snake_ ((r1 : Int) % FIELD_WIDTH) ((r2 : Int) % FIELD_HEIGHT)
  rw [generateFood]
  simp only [drawnCell, withFood]
  by_cases hm : (⟨(r1 : Int) % FIELD_WIDTH, (r2 : Int) % FIELD_HEIGHT⟩ : Point) ∈ g.snake_
  · rw [if_pos hm]
    simp only [h.2 hm, Bool.not_true, Bool.false_eq_true, if_false]
  · rw [if_neg hm]
    have : ¬ (g.snake_.any (fun segment =>
        segment.x == (r1 : Int) % FIELD_WIDTH && segment.y == (r2 : Int) % FIELD_HEIGHT)) = true :=
      fun hh => hm (h.1 hh)
    simp only [this, Bool.not_false, if_true]

theorem generateFood_some (g : Game) :
    ∀ (n : Nat) (draws : List Nat), draws.length ≤ n → ∀ (g' : Game) (rest : List Nat),
      generateFood g draws = some (g', rest) →
      ∃ r1 r2 : Nat, drawnCell r1 r2 ∉ g.snake_ ∧ g' = withFood g (drawnCell r1 r2) := by
  intro n
  induction n with
  | zero =>
    intro draws hlen g' rest h
    match draws, hlen with
    | [], _ => simp [generateFood] at h
  | succ n ih =>
    intro draws hlen g' rest h
    match draws, hlen, h with
    | [], _, h => simp [generateFood] at h
    | [_], _, h => simp [generateFood] at h
    | r1 :: r2 :: tl, hlen, h =>
      rw [generateFood_cons_cons] at h
      by_cases hm : drawnCell r1 r2 ∈ g.snake_
      · rw [if_pos hm] at h
        exact ih tl (by simp at hlen; omega) g' rest h
      · rw [if_neg hm] at h
        simp only [Option.some.injEq, Prod.mk.injEq] at h
        exact ⟨r1, r2, hm, h.1.symm⟩

theorem drawnCell_inBoard (r1 r2 : Nat) : inBoard (drawnCell r1 r2) := by
  unfold inBoard drawnCell FIELD_WIDTH FIELD_HEIGHT
  simp only
  omega

theorem generateFood_keeps (g g' : Game) (draws rest : List Nat)
    (h : generateFood g draws = some (g', rest)) :
    g'.current_state_ = g.current_state_ ∧ g'.snake_ = g.snake_ ∧ g'.score_ = g.score_ ∧
      g'.high_score_ = g.high_score_ ∧ g'.level_ = g.level_ ∧ g'.speed_ = g.speed_ ∧
      g'.snake_direction_ = g.snake_direction_ ∧ g'.next_field_ = g.next_field_ := by
  obtain ⟨r1, r2, _, rfl⟩ := generateFood_some g draws.length draws le_rfl g' rest h
  simp [withFood]

theorem consecutiveAdjacent_cons (a : Point) (l : List Point) :
    consecutiveAdjacent (a :: l) ↔ (∀ b ∈ l.head?, adjacent a b) ∧ consecutiveAdjacent l := by
  cases l with
  | nil => simp [consecutiveAdjacent]
  | cons b rest => simp [consecutiveAdjacent]

theorem consecutiveAdjacent_dropLast :
    ∀ l : List Point, consecutiveAdjacent l → consecutiveAdjacent l.dropLast
  | [], _ => trivial
  | [_], _ => trivial
  | [_, _], _ => trivial
  | a :: b :: c :: rest, h => by
    have ih := consecutiveAdjacent_dropLast (b :: c :: rest) h.2
    exact ⟨h.1, ih⟩

theorem head?_dropLast (a : Point) (l : List Point) :
    ∀ b ∈ (a :: l).dropLast.head?, b = a := by
  cases l with
  | nil => simp
  | cons c rest => simp

theorem adjacent_add_unit (p d : Point) (hd : unitDirection d) : adjacent (p.add d) p := by
  rcases hd with rfl | rfl | rfl | rfl <;> simp [adjacent, Point.add]

theorem mem_dropLast (p : Point) : ∀ l : List Point, p ∈ l.dropLast → p ∈ l :=
  fun l h => (List.dropLast_sublist l).subset h

theorem bodyInvariant_advanced (g : Game) (old_head : Point) (body : List Point)
    (hs : g.snake_ = old_head :: body) (hi : engineInvariant g)
    (hc : ¬ stepCollides g (old_head.add g.snake_direction_))
    (hf : old_head.add g.snake_direction_ ≠ g.food_position_) :
    engineInvariant (advanced g old_head body) := by
  obtain ⟨⟨hnd, hadj, hin⟩, _, hdir⟩ := hi
  rw [hs] at hnd hadj hin
  have hnb : inBoard (old_head.add g.snake_direction_) := by
    by_contra h; exact hc (Or.inl h)
  have hnm : old_head.add g.snake_direction_ ∉ (old_head :: body).dropLast := by
    intro h; apply hc; right; rw [if_neg hf, hs]; exact h
  refine ⟨⟨?_, ?_, ?_⟩, List.cons_ne_nil _ _, hdir⟩
  · exact List.nodup_cons.2 ⟨hnm, hnd.sublist (List.dropLast_sublist _)⟩
  · refine (consecutiveAdjacent_cons _ _).2 ⟨?_, consecutiveAdjacent_dropLast _ hadj⟩
    intro b hb
    rw [head?_dropLast old_head body b hb]
    exact adjacent_add_unit old_head _ hdir
  · intro p hp
    rcases List.mem_cons.1 hp with rfl | h
    · exact hnb
    · exact hin p (mem_dropLast p _ h)

theorem bodyInvariant_grown (g : Game) (old_head : Point) (body : List Point)
    (hs : g.snake_ = old_head :: body) (hi : engineInvariant g)
    (hc : ¬ stepCollides g (old_head.add g.snake_direction_))
    (hf : old_head.add g.snake_direction_ = g.food_position_) :
    engineInvariant (grown g old_head body) := by
  obtain ⟨⟨hnd, hadj, hin⟩, _, hdir⟩ := hi
  rw [hs] at hnd hadj hin
  have hnb : inBoard (old_head.add g.snake_direction_) := by
    by_contra h; exact hc (Or.inl h)
  have hnm : old_head.add g.snake_direction_ ∉ old_head :: body := by
    intro h; apply hc; right; rw [if_pos hf, hs]; exact h
  refine ⟨⟨?_, ?_, ?_⟩, List.cons_ne_nil _ _, hdir⟩
  · exact List.nodup_cons.2 ⟨hnm, hnd⟩
  · exact ⟨adjacent_add_unit old_head _ hdir, hadj⟩
  · intro p hp
    rcases List.mem_cons.1 hp with rfl | h
    · exact hnb
    · exact hin p h

theorem engineInvariant_congr (g g' : Game) (h1 : g'.snake_ = g.snake_)
    (h2 : g'.snake_direction_ = g.snake_direction_) (hi : engineInvariant g) :
    engineInvariant g' := by
  unfold engineInvariant at *
  rw [h1, h2]; exact hi

theorem engineInvariant_moveSnake (g g' : Game) (draws rest : List Nat)
    (hi : engineInvariant g) (hret : moveSnake g draws = some (g', rest)) :
    engineInvariant g' := by
  obtain ⟨old_head, body, hs⟩ := List.exists_cons_of_ne_nil hi.2.1
  rw [moveSnake_cons g draws old_head body hs] at hret
  by_cases hc : stepCollides g (old_head.add g.snake_direction_)
  · rw [if_pos hc] at hret
    simp only [Option.some.injEq, Prod.mk.injEq] at hret
    rw [← hret.1]
    exact engineInvariant_congr g _ rfl rfl hi
  · rw [if_neg hc] at hret
    by_cases hf : old_head.add g.snake_direction_ = g.food_position_
    · rw [if_pos hf] at hret
      have hg := bodyInvariant_grown g old_head body hs hi hc hf
      by_cases hw : 200 ≤ body.length + 2
      · rw [if_pos hw] at hret
        simp only [Option.some.injEq, Prod.mk.injEq] at hret
        rw [← hret.1]
        exact engineInvariant_congr _ _ rfl rfl hg
      · rw [if_neg hw] at hret
        have hk := generateFood_keeps _ _ _ _ hret
        exact engineInvariant_congr _ _ hk.2.1 hk.2.2.2.2.2.2.1 hg
    · rw [if_neg hf] at hret
      simp only [Option.some.injEq, Prod.mk.injEq] at hret
      rw [← hret.1]
      exact bodyInvariant_advanced g old_head body hs hi hc hf

theorem initializeGame_some (g g' : Game) (draws rest : List Nat)
    (h : initializeGame g draws = some (g', rest)) :
    g'.snake_ = initialSnake ∧ g'.snake_direction_ = ⟨1, 0⟩ ∧
      g'.current_state_ = g.current_state_ ∧ g'.score_ = g.score_ ∧
      g'.high_score_ = g.high_score_ ∧ g'.level_ = g.level_ ∧ g'.speed_ = g.speed_ := by
  unfold initializeGame at h
  have hk := generateFood_keeps _ _ _ _ h
  simp only at hk
  refine ⟨?_, hk.2.2.2.2.2.2.1, hk.1, hk.2.2.1, hk.2.2.2.1, hk.2.2.2.2.1, hk.2.2.2.2.2.1⟩
  rw [hk.2.1]
  rfl

theorem resetGame_some (g g' : Game) (draws rest : List Nat)
    (h : resetGame g draws = some (g', rest)) :
    g'.snake_ = initialSnake ∧ g'.snake_direction_ = ⟨1, 0⟩ ∧
      g'.current_state_ = GameState.START_SCREEN ∧ g'.score_ = 0 ∧
      g'.high_score_ = g.high_score_ ∧ g'.level_ = 1 ∧ g'.speed_ = 500 := by
  unfold resetGame at h
  split at h
  · rename_i g1 r1 heq
    simp only [Option.some.injEq, Prod.mk.injEq] at h
    have hk := initializeGame_some _ _ _ _ heq
    rw [← h.1]
    exact ⟨hk.1, hk.2.1, rfl, hk.2.2.2.1, hk.2.2.2.2.1, hk.2.2.2.2.2.1, hk.2.2.2.2.2.2⟩
  · exact absurd h (by simp)

theorem engineInvariant_initial (g : Game) (h1 : g.snake_ = initialSnake)
    (h2 : g.snake_direction_ = ⟨1, 0⟩) : engineInvariant g := by
  unfold engineInvariant
  rw [h1, h2]
  decide

theorem unitDirection_turn (d : Point) (hd : unitDirection d) :
    (d.x ≠ 0 → unitDirection ⟨0, -d.x⟩ ∧ unitDirection ⟨0, d.x⟩) ∧
    (¬ d.x ≠ 0 → unitDirection ⟨d.y, 0⟩ ∧ unitDirection ⟨-d.y, 0⟩) := by
  rcases hd with rfl | rfl | rfl | rfl <;> simp [unitDirection]

theorem engineInvariant_handleUserInput (g g' : Game) (action : UserAction_t) (hold : Bool)
    (draws rest : List Nat) (hi : engineInvariant g)
    (hret : handleUserInput g action hold draws = some (g', rest)) :
    engineInvariant g' := by
  have ht := unitDirection_turn g.snake_direction_ hi.2.2
  unfold handleUserInput at hret
  split at hret <;> (try split_ifs at hret) <;>
    first
    | exact engineInvariant_moveSnake g g' draws rest hi hret
    | exact engineInvariant_initial g' (resetGame_some g g' draws rest hret).1
        (resetGame_some g g' draws rest hret).2.1
    | (simp only [Option.some.injEq, Prod.mk.injEq] at hret
       rw [← hret.1]
       first
       | exact hi
       | exact engineInvariant_congr g _ rfl rfl hi
       | exact ⟨hi.1, hi.2.1, (ht.1 ‹_›).1⟩
       | exact ⟨hi.1, hi.2.1, (ht.1 ‹_›).2⟩
       | exact ⟨hi.1, hi.2.1, (ht.2 ‹_›).1⟩
       | exact ⟨hi.1, hi.2.1, (ht.2 ‹_›).2⟩)

theorem engineInvariant_reachable (g : Game) (h : Reachable g) : engineInvariant g := by
  induction h with
  | construct file draws g rest hc =>
    have hk := initializeGame_some _ _ _ _ hc
    exact engineInvariant_initial g hk.1 hk.2.1
  | reset g0 draws g rest hr =>
    have hk := resetGame_some _ _ _ _ hr
    exact engineInvariant_initial g hk.1 hk.2.1
  | input g action hold draws g' rest _ hret ih =>
    exact engineInvariant_handleUserInput g g' action hold draws rest ih hret
  | tick g draws g' rest _ hret ih =>
    unfold updateGameLogic at hret
    split_ifs at hret
    · exact engineInvariant_moveSnake g g' draws rest ih hret
    · simp only [Option.some.injEq, Prod.mk.injEq] at hret
      rw [← hret.1]; exact ih

theorem resetGame_free (g : Game) (r1 r2 : Nat) (tl : List Nat)
    (hfree : drawnCell r1 r2 ∉ initialSnake) :
    (resetGame g (r1 :: r2 :: tl)).isSome = true := by
  unfold resetGame initializeGame
  rw [generateFood_cons_cons]
  rw [if_neg (by exact hfree)]
  rfl

set_option maxRecDepth 1000000 in
theorem bodyInvariant_serpent : bodyInvariant serpent := by decide

set_option maxRecDepth 1000000 in
theorem serpent_cons : serpent = (⟨1, 19⟩ : Point) :: serpent.tail := by decide

set_option maxRecDepth 1000000 in
theorem serpent_tail_length : serpent.tail.length = 198 := by decide

set_option maxRecDepth 1000000 in
theorem winGame_no_collision : ¬ stepCollides winGame ⟨0, 19⟩ := by decide

/-! ## The claims on the Snake engine -/

/-- Claim C1.  A step of `moveSnake` in a Running state, with `new_head = head + direction`:
when the step collides (the new head is off the board, or equals a body segment, the tail being
left out of the comparison exactly when the new head is not on the food) the engine returns with
the state LostGameOver and every other member unchanged; whenever the step returns, the state is
LostGameOver if and only if the step collides; and a non-colliding step that eats no food always
returns. -/
theorem snake_step_loses_iff_collision (g : Game) (draws : List Nat)
    (old_head new_head : Point) (body : List Point)
    (hrun : g.current_state_ = GameState.GAME_RUNNING)
    (hs : g.snake_ = old_head :: body)
    (hn : new_head = old_head.add g.snake_direction_) :
    (stepCollides g new_head →
        moveSnake g draws = some ({ g with current_state_ := GameState.GAME_OVER_LOSE }, draws)) ∧
    (∀ (g' : Game) (rest : List Nat), moveSnake g draws = some (g', rest) →
        (g'.current_state_ = GameState.GAME_OVER_LOSE ↔ stepCollides g new_head)) ∧
    (¬ stepCollides g new_head → new_head ≠ g.food_position_ →
        (moveSnake g draws).isSome = true) := by
  subst hn
  have hm := moveSnake_cons g draws old_head body hs
  refine ⟨fun hc => by rw [hm, if_pos hc], ?_, ?_⟩
  · intro g' rest hret
    by_cases hc : stepCollides g (old_head.add g.snake_direction_)
    · rw [hm, if_pos hc] at hret
      simp only [Option.some.injEq, Prod.mk.injEq] at hret
      rw [← hret.1]
      exact ⟨fun _ => hc, fun _ => rfl⟩
    · rw [hm, if_neg hc] at hret
      refine ⟨fun hl => ?_, fun h => absurd h hc⟩
      exfalso
      by_cases hf : old_head.add g.snake_direction_ = g.food_position_
      · rw [if_pos hf] at hret
        by_cases hw : 200 ≤ body.length + 2
        · rw [if_pos hw] at hret
          simp only [Option.some.injEq, Prod.mk.injEq] at hret
          rw [← hret.1] at hl
          exact GameState.noConfusion hl
        · rw [if_neg hw] at hret
          have hk := (generateFood_keeps _ _ _ _ hret).1
          rw [hk] at hl
          have : g.current_state_ = GameState.GAME_OVER_LOSE := hl
          rw [hrun] at this
          exact GameState.noConfusion this
      · rw [if_neg hf] at hret
        simp only [Option.some.injEq, Prod.mk.injEq] at hret
        rw [← hret.1] at hl
        have : g.current_state_ = GameState.GAME_OVER_LOSE := hl
        rw [hrun] at this
        exact GameState.noConfusion this
  · intro hc hf
    rw [hm, if_neg hc, if_neg hf]
    rfl

/-- Test input for C1: the head in the last column, heading right, runs into the wall. -/
theorem snake_step_loses_iff_collision_witness :
    wallGame.current_state_ = GameState.GAME_RUNNING ∧
    moveSnake wallGame [] =
      some ({ wallGame with current_state_ := GameState.GAME_OVER_LOSE }, []) :=
  ⟨rfl, (snake_step_loses_iff_collision wallGame [] ⟨9, 10⟩ ⟨10, 10⟩
    [⟨8, 10⟩, ⟨7, 10⟩, ⟨6, 10⟩] rfl rfl rfl).1 (Or.inl (by decide))⟩

/-- Claim C2.  A non-colliding step of `moveSnake`: without food it returns with the body
`new_head :: body without its last segment`, same length, same score; with food every result has
the body `new_head :: whole old body`, length plus one, score plus one, and a result exists as
soon as the first drawn cell is free.  For every step that returns, the body length does not
decrease, and after a non-colliding step the head is the old head plus the direction. -/
theorem snake_step_advances_or_grows (g : Game) (draws : List Nat)
    (old_head new_head : Point) (body : List Point)
    (hs : g.snake_ = old_head :: body)
    (hn : new_head = old_head.add g.snake_direction_) :
    (¬ stepCollides g new_head → new_head ≠ g.food_position_ →
        ∃ g' : Game, moveSnake g draws = some (g', draws) ∧
          g'.snake_ = new_head :: g.snake_.dropLast ∧
          g'.snake_.length = g.snake_.length ∧ g'.score_ = g.score_) ∧
    (¬ stepCollides g new_head → new_head = g.food_position_ →
        (∀ (g' : Game) (rest : List Nat), moveSnake g draws = some (g', rest) →
          g'.snake_ = new_head :: g.snake_ ∧
          g'.snake_.length = g.snake_.length + 1 ∧ g'.score_ = g.score_ + 1) ∧
        (∀ (r1 r2 : Nat) (tl : List Nat), drawnCell r1 r2 ∉ new_head :: g.snake_ →
          (moveSnake g (r1 :: r2 :: tl)).isSome = true)) ∧
    (∀ (g' : Game) (rest : List Nat), moveSnake g draws = some (g', rest) →
        g.snake_.length ≤ g'.snake_.length ∧
        (¬ stepCollides g new_head → g'.snake_.head? = some new_head)) := by
  subst hn
  have hm := fun d => moveSnake_cons g d old_head body hs
  have hgrown : (grown g old_head body).snake_ = old_head.add g.snake_direction_ :: g.snake_ := by
    rw [hs]; rfl
  have hgscore : (grown g old_head body).score_ = g.score_ + 1 := rfl
  have hadv : (advanced g old_head body).snake_ =
      old_head.add g.snake_direction_ :: g.snake_.dropLast := by
    rw [hs]; rfl
  have hlen : (old_head.add g.snake_direction_ :: g.snake_.dropLast).length = g.snake_.length := by
    rw [hs]; simp
  refine ⟨?_, ?_, ?_⟩
  · intro hc hf
    refine ⟨advanced g old_head body, ?_, hadv, ?_, rfl⟩
    · rw [hm, if_neg hc, if_neg hf]
    · rw [hadv, hlen]
  · intro hc hf
    refine ⟨?_, ?_⟩
    · intro g' rest hret
      rw [hm, if_neg hc, if_pos hf] at hret
      by_cases hw : 200 ≤ body.length + 2
      · rw [if_pos hw] at hret
        simp only [Option.some.injEq, Prod.mk.injEq] at hret
        rw [← hret.1]
        exact ⟨hgrown, by rw [show ({ grown g old_head body with
            current_state_ := GameState.GAME_OVER_WIN } : Game).snake_ = _ from hgrown]; simp, rfl⟩
      · rw [if_neg hw] at hret
        have hk := generateFood_keeps _ _ _ _ hret
        rw [hk.2.1, hk.2.2.1, hgrown]
        exact ⟨rfl, by simp, rfl⟩
    · intro r1 r2 tl hfree
      rw [hm, if_neg hc, if_pos hf]
      by_cases hw : 200 ≤ body.length + 2
      · rw [if_pos hw]; rfl
      · rw [if_neg hw, generateFood_cons_cons, hgrown, if_neg hfree]; rfl
  · intro g' rest hret
    rw [hm] at hret
    by_cases hc : stepCollides g (old_head.add g.snake_direction_)
    · rw [if_pos hc] at hret
      simp only [Option.some.injEq, Prod.mk.injEq] at hret
      rw [← hret.1]
      exact ⟨le_rfl, fun h => absurd hc h⟩
    · rw [if_neg hc] at hret
      by_cases hf : old_head.add g.snake_direction_ = g.food_position_
      · rw [if_pos hf] at hret
        by_cases hw : 200 ≤ body.length + 2
        · rw [if_pos hw] at hret
          simp only [Option.some.injEq, Prod.mk.injEq] at hret
          rw [← hret.1]
          rw [show ({ grown g old_head body with
            current_state_ := GameState.GAME_OVER_WIN } : Game).snake_ = _ from hgrown]
          exact ⟨by simp, fun _ => rfl⟩
        · rw [if_neg hw] at hret
          have hk := generateFood_keeps _ _ _ _ hret
          rw [hk.2.1, hgrown]
          exact ⟨by simp, fun _ => rfl⟩
      · rw [if_neg hf] at hret
        simp only [Option.some.injEq, Prod.mk.injEq] at hret
        rw [← hret.1, hadv, hlen]
        exact ⟨le_rfl, fun _ => rfl⟩

/-- Test input for C2: the first step after Start moves the head from (5,10) to (6,10). -/
theorem snake_step_advances_or_grows_witness :
    ∃ g' : Game, moveSnake runningGame [] = some (g', []) ∧
      g'.snake_ = (⟨6, 10⟩ : Point) :: runningGame.snake_.dropLast ∧
      g'.snake_.length = runningGame.snake_.length ∧ g'.score_ = runningGame.score_ :=
  (snake_step_advances_or_grows runningGame [] ⟨5, 10⟩ ⟨6, 10⟩
    [⟨4, 10⟩, ⟨3, 10⟩, ⟨2, 10⟩] rfl rfl).1 (by decide) (by decide)

/-- Claim C3.  In every reachable state the segments of the snake are pairwise distinct,
consecutive segments are adjacent, and every segment lies on the 10x20 board. -/
theorem snake_body_invariant_reachable (g : Game) (h : Reachable g) :
    g.snake_.Nodup ∧ consecutiveAdjacent g.snake_ ∧
      ∀ p ∈ g.snake_, 0 ≤ p.x ∧ p.x < 10 ∧ 0 ≤ p.y ∧ p.y < 20 :=
  (engineInvariant_reachable g h).1

/-- Test input for C3: the state after a reset followed by Start is reachable. -/
theorem snake_body_invariant_reachable_witness :
    Reachable runningGame ∧ runningGame.snake_.Nodup ∧ consecutiveAdjacent runningGame.snake_ ∧
      ∀ p ∈ runningGame.snake_, 0 ≤ p.x ∧ p.x < 10 ∧ 0 ≤ p.y ∧ p.y < 20 :=
  have hr : Reachable runningGame :=
    Reachable.input freshGame UserAction_t.Start false [] runningGame []
      (Reachable.reset blankGame [7, 3] freshGame [] rfl) rfl
  ⟨hr, snake_body_invariant_reachable runningGame hr⟩

/-- Counterexample to C4 as stated.  From a Running state with a 199-segment body satisfying
the body invariant, the head steps onto the food at (0,19): the body grows to 200 segments, the
engine stops in WonGameOver before `generateFood` runs, and the food coordinate is left under
the new head. -/
theorem snake_food_not_relocated_on_winning_step :
    winGame.current_state_ = GameState.GAME_RUNNING ∧
    bodyInvariant winGame.snake_ ∧
    winGame.snake_.head? = some ⟨1, 19⟩ ∧
    (⟨1, 19⟩ : Point).add winGame.snake_direction_ = winGame.food_position_ ∧
    ∃ g' : Game, (∀ draws : List Nat, moveSnake winGame draws = some (g', draws)) ∧
      g'.current_state_ = GameState.GAME_OVER_WIN ∧
      g'.food_position_ = winGame.food_position_ ∧
      g'.food_position_ ∈ g'.snake_ := by
  have hs : winGame.snake_ = (⟨1, 19⟩ : Point) :: serpent.tail := serpent_cons
  refine ⟨rfl, bodyInvariant_serpent, ?_, rfl,
    { grown winGame ⟨1, 19⟩ serpent.tail with current_state_ := GameState.GAME_OVER_WIN },
    ?_, rfl, rfl, ?_⟩
  · rw [hs]; rfl
  · intro draws
    rw [moveSnake_cons winGame draws ⟨1, 19⟩ serpent.tail hs]
    rw [if_neg (show ¬ stepCollides winGame ((⟨1, 19⟩ : Point).add winGame.snake_direction_)
      from winGame_no_collision),
      if_pos (show (⟨1, 19⟩ : Point).add winGame.snake_direction_ = winGame.food_position_
        from rfl),
      if_pos (show 200 ≤ serpent.tail.length + 2 by rw [serpent_tail_length])]
  · show (⟨0, 19⟩ : Point) ∈ ((⟨1, 19⟩ : Point).add winGame.snake_direction_) :: (⟨1, 19⟩ : Point) :: serpent.tail
    rw [← serpent_cons]
    exact List.mem_cons_self _ _

/-- Claim C4, amended.  For every Running state satisfying the body invariant and every
non-colliding step that eats the food and leaves the body shorter than 200 segments, every
result of the step has the food on the board, at a cell different from the old food cell and from
every segment of the grown snake (new head included), and the state is still Running; a result
exists as soon as the first drawn cell is free. -/
theorem snake_food_relocated_when_eaten_without_win (g : Game) (draws : List Nat)
    (old_head new_head : Point) (body : List Point)
    (hrun : g.current_state_ = GameState.GAME_RUNNING)
    (_hinv : bodyInvariant g.snake_)
    (hs : g.snake_ = old_head :: body)
    (hn : new_head = old_head.add g.snake_direction_)
    (hnc : ¬ stepCollides g new_head)
    (hfood : new_head = g.food_position_)
    (hlen : body.length + 2 < 200) :
    (∀ (g' : Game) (rest : List Nat), moveSnake g draws = some (g', rest) →
        g'.snake_ = new_head :: g.snake_ ∧
        g'.food_position_ ∉ g'.snake_ ∧
        g'.food_position_ ≠ g.food_position_ ∧
        inBoard g'.food_position_ ∧
        g'.current_state_ = GameState.GAME_RUNNING) ∧
    (∀ (r1 r2 : Nat) (tl : List Nat), drawnCell r1 r2 ∉ new_head :: g.snake_ →
        (moveSnake g (r1 :: r2 :: tl)).isSome = true) := by
  subst hn
  have hm := fun d => moveSnake_cons g d old_head body hs
  have hgrown : (grown g old_head body).snake_ = old_head.add g.snake_direction_ :: g.snake_ := by
    rw [hs]; rfl
  have hw : ¬ 200 ≤ body.length + 2 := by omega
  constructor
  · intro g' rest hret
    rw [hm, if_neg hnc, if_pos hfood, if_neg hw] at hret
    obtain ⟨r1, r2, hfree, rfl⟩ := generateFood_some _ draws.length draws le_rfl g' rest hret
    rw [hgrown] at hfree
    refine ⟨hgrown, ?_, ?_, drawnCell_inBoard r1 r2, hrun⟩
    · show drawnCell r1 r2 ∉ (grown g old_head body).snake_
      rw [hgrown]; exact hfree
    · show drawnCell r1 r2 ≠ g.food_position_
      intro h
      apply hfree
      rw [h, ← hfood]
      exact List.mem_cons_self _ _
  · intro r1 r2 tl hfree
    rw [hm, if_neg hnc, if_pos hfood, if_neg hw, generateFood_cons_cons, hgrown, if_neg hfree]
    rfl

/-- Test input for C4: the food lies right in front of the head; the first drawn cell is the
new head and is rejected, the second one, (1,2), is accepted. -/
theorem snake_food_relocated_when_eaten_without_win_witness :
    moveSnake eatingGame [6, 10, 1, 2] =
      some (withFood (grown eatingGame ⟨5, 10⟩ [⟨4, 10⟩, ⟨3, 10⟩, ⟨2, 10⟩]) ⟨1, 2⟩, []) ∧
    (⟨1, 2⟩ : Point) ∉ (⟨6, 10⟩ : Point) :: eatingGame.snake_ :=
  have h := (snake_food_relocated_when_eaten_without_win eatingGame [6, 10, 1, 2]
    ⟨5, 10⟩ ⟨6, 10⟩ [⟨4, 10⟩, ⟨3, 10⟩, ⟨2, 10⟩] rfl (by decide) rfl rfl (by decide) rfl
    (by decide)).1 (withFood (grown eatingGame ⟨5, 10⟩ [⟨4, 10⟩, ⟨3, 10⟩, ⟨2, 10⟩]) ⟨1, 2⟩)
    [] rfl
  ⟨rfl, h.2.1⟩

/-- Claim C5.  Whenever `generateFood` returns, the food coordinate lies on the 10x20 board,
differs from every segment of the snake, the board cell at that coordinate holds FOOD, every
other board cell is unchanged, and the snake is unchanged. -/
theorem generateFood_places_food_on_free_cell (g g' : Game) (draws rest : List Nat)
    (hret : generateFood g draws = some (g', rest)) :
    inBoard g'.food_position_ ∧
    g'.food_position_ ∉ g.snake_ ∧
    (∃ (r : Fin 20) (c : Fin 10),
      (r.val : Int) = g'.food_position_.y ∧ (c.val : Int) = g'.food_position_.x ∧
      g'.game_field_ r c = FOOD ∧
      ∀ (r' : Fin 20) (c' : Fin 10), (r', c') ≠ (r, c) →
        g'.game_field_ r' c' = g.game_field_ r' c') ∧
    g'.snake_ = g.snake_ := by
  obtain ⟨r1, r2, hfree, rfl⟩ := generateFood_some g draws.length draws le_rfl g' rest hret
  have hb := drawnCell_inBoard r1 r2
  refine ⟨hb, hfree, ?_, rfl⟩
  obtain ⟨hx0, hx1, hy0, hy1⟩ := hb
  refine ⟨⟨(drawnCell r1 r2).y.toNat, by omega⟩, ⟨(drawnCell r1 r2).x.toNat, by omega⟩, ?_, ?_, ?_, ?_⟩
  · simp only [withFood]; omega
  · simp only [withFood]; omega
  · simp only [withFood, setCell]
    rw [if_pos]
    constructor <;> omega
  · intro r' c' hne
    simp only [withFood, setCell]
    rw [if_neg]
    rintro ⟨h1, h2⟩
    apply hne
    ext
    · simp only; omega
    · simp only; omega

/-- Test input for C5: the first drawn cell (5,10) is the head and is rejected, the second
one, (1,2), is accepted. -/
theorem generateFood_places_food_on_free_cell_witness :
    generateFood runningGame [5, 10, 1, 2] = some (withFood runningGame ⟨1, 2⟩, []) ∧
    inBoard (withFood runningGame ⟨1, 2⟩).food_position_ :=
  ⟨rfl, (generateFood_places_food_on_free_cell runningGame (withFood runningGame ⟨1, 2⟩)
    [5, 10, 1, 2] [] rfl).1⟩

/-- Claim C6.  For every state and every action other than Action while Running, every
result of `handleUserInput` carries the state label given by the transition table; the call
returns for every pair that is not a reset (Start in Paused, WonGameOver or LostGameOver), and
for a reset as soon as the first drawn cell is free; Terminated is left by no action, the whole
engine being unchanged there. -/
theorem snake_state_machine_follows_table (g : Game) (action : UserAction_t) (hold : Bool)
    (draws : List Nat)
    (hna : ¬ (g.current_state_ = GameState.GAME_RUNNING ∧ action = UserAction_t.Action)) :
    (∀ (g' : Game) (rest : List Nat), handleUserInput g action hold draws = some (g', rest) →
        g'.current_state_ = transitionTable g.current_state_ action) ∧
    (¬ (action = UserAction_t.Start ∧
          (g.current_state_ = GameState.PAUSED ∨ g.current_state_ = GameState.GAME_OVER_WIN ∨
            g.current_state_ = GameState.GAME_OVER_LOSE)) →
        ∃ g' : Game, handleUserInput g action hold draws = some (g', draws)) ∧
    (∀ (r1 r2 : Nat) (tl : List Nat), drawnCell r1 r2 ∉ initialSnake →
        (handleUserInput g action hold (r1 :: r2 :: tl)).isSome = true) ∧
    (g.current_state_ = GameState.TERMINATE_GAME →
        handleUserInput g action hold draws = some (g, draws)) := by
  have hreset : ∀ (g' : Game) (rest : List Nat), resetGame g draws = some (g', rest) →
      g'.current_state_ = GameState.START_SCREEN :=
    fun g' rest h => (resetGame_some g g' draws rest h).2.2.1
  have hfree := resetGame_free g
  cases hst : g.current_state_ <;> cases action <;>
    simp [handleUserInput, hst, transitionTable] at hna ⊢ <;>
    first
    | exact ⟨hreset, hfree⟩
    | skip
  all_goals
    by_cases hx : g.snake_direction_.x = 0 <;> simp [hx]

/-- Test input for C6: Start on the start screen. -/
theorem snake_state_machine_follows_table_witness :
    ∃ g' : Game, handleUserInput freshGame UserAction_t.Start false [] = some (g', []) :=
  (snake_state_machine_follows_table freshGame UserAction_t.Start false []
    (by decide)).2.1 (by decide)

/-- Claim C7.  Every result of `resetGame` has the state StartScreen, score 0, level 1, step
interval 500, direction (1,0), the body (5,10),(4,10),(3,10),(2,10) with the head first, the
high score of the engine it was called on, and a snapshot whose pause flag is 0 (the tick run
by `getCurrentState` leaves the engine as it is); Start in Paused, WonGameOver or LostGameOver
is exactly `resetGame`; and `resetGame` returns as soon as the first drawn cell is free. -/
theorem snake_reset_restores_initial_state (g : Game) (hold : Bool) (draws : List Nat) :
    (∀ (g' : Game) (rest : List Nat), resetGame g draws = some (g', rest) →
        g'.current_state_ = GameState.START_SCREEN ∧ g'.score_ = 0 ∧ g'.level_ = 1 ∧
        g'.speed_ = 500 ∧ g'.snake_direction_ = ⟨1, 0⟩ ∧
        g'.snake_ = [⟨5, 10⟩, ⟨4, 10⟩, ⟨3, 10⟩, ⟨2, 10⟩] ∧
        g'.high_score_ = g.high_score_ ∧
        (snapshot g').pause = 0 ∧
        ∀ later : List Nat, getCurrentState g' later = some (g', snapshot g', later)) ∧
    (g.current_state_ = GameState.PAUSED ∨ g.current_state_ = GameState.GAME_OVER_WIN ∨
        g.current_state_ = GameState.GAME_OVER_LOSE →
        handleUserInput g UserAction_t.Start hold draws = resetGame g draws) ∧
    (∀ (r1 r2 : Nat) (tl : List Nat),
        drawnCell r1 r2 ∉ ([⟨5, 10⟩, ⟨4, 10⟩, ⟨3, 10⟩, ⟨2, 10⟩] : List Point) →
        (resetGame g (r1 :: r2 :: tl)).isSome = true) := by
  refine ⟨?_, ?_, fun r1 r2 tl h => resetGame_free g r1 r2 tl h⟩
  · intro g' rest h
    have hk := resetGame_some g g' draws rest h
    refine ⟨hk.2.2.1, hk.2.2.2.1, hk.2.2.2.2.2.1, hk.2.2.2.2.2.2, hk.2.1, hk.1, hk.2.2.2.2.1,
      ?_, ?_⟩
    · simp [snapshot, hk.2.2.1]
    · intro later
      simp [getCurrentState, updateGameLogic, hk.2.2.1]
  · rintro (h | h | h) <;> simp [handleUserInput, h]

/-- Test input for C7: a reset of the engine standing in front of the wall, with draws 7
and 3. -/
theorem snake_reset_restores_initial_state_witness :
    resetGame wallGame [7, 3] = some (freshGame, []) ∧
    freshGame.current_state_ = GameState.START_SCREEN ∧ freshGame.score_ = 0 :=
  have h := (snake_reset_restores_initial_state wallGame false [7, 3]).1 freshGame [] rfl
  ⟨rfl, h.1, h.2.1⟩

/-- Counterexample to C8 as stated.  In the reachable Running state heading left, direction
(-1,0), the action Left turns the snake down, (0,1), not up, and the action Right turns it up,
(0,-1), not down. -/
theorem snake_left_from_leftward_heading_turns_down :
    Reachable leftwardGame ∧
    leftwardGame.current_state_ = GameState.GAME_RUNNING ∧
    leftwardGame.snake_direction_ = ⟨-1, 0⟩ ∧
    (∃ g' : Game, handleUserInput leftwardGame UserAction_t.Left false [] = some (g', []) ∧
      g'.snake_direction_ = ⟨0, 1⟩ ∧ g'.snake_direction_ ≠ ⟨0, -1⟩) ∧
    (∃ g' : Game, handleUserInput leftwardGame UserAction_t.Right false [] = some (g', []) ∧
      g'.snake_direction_ = ⟨0, -1⟩ ∧ g'.snake_direction_ ≠ ⟨0, 1⟩) :=
  have hr : Reachable leftwardGame :=
    Reachable.input _ UserAction_t.Left false [] leftwardGame []
      (Reachable.input runningGame UserAction_t.Left false []
        { runningGame with snake_direction_ := ⟨0, -1⟩ } []
        (Reachable.input freshGame UserAction_t.Start false [] runningGame []
          (Reachable.reset blankGame [7, 3] freshGame [] rfl) rfl) rfl) rfl
  ⟨hr, rfl, rfl, ⟨_, rfl, rfl, by decide⟩, ⟨_, rfl, rfl, by decide⟩⟩

/-- Claim C8, amended.  In a Running state heading right, direction (1,0), Left sets the
direction to up (0,-1) and Right sets it to down (0,1); heading left, direction (-1,0), Left sets
it to down (0,1) and Right sets it to up (0,-1); nothing else changes. -/
theorem snake_turn_from_horizontal_heading (g : Game) (hold : Bool) (draws : List Nat)
    (hrun : g.current_state_ = GameState.GAME_RUNNING) :
    (g.snake_direction_ = ⟨1, 0⟩ →
      handleUserInput g UserAction_t.Left hold draws =
        some ({ g with snake_direction_ := ⟨0, -1⟩ }, draws) ∧
      handleUserInput g UserAction_t.Right hold draws =
        some ({ g with snake_direction_ := ⟨0, 1⟩ }, draws)) ∧
    (g.snake_direction_ = ⟨-1, 0⟩ →
      handleUserInput g UserAction_t.Left hold draws =
        some ({ g with snake_direction_ := ⟨0, 1⟩ }, draws) ∧
      handleUserInput g UserAction_t.Right hold draws =
        some ({ g with snake_direction_ := ⟨0, -1⟩ }, draws)) := by
  constructor <;> intro hd <;> simp [handleUserInput, hrun, hd]

/-- Test input for C8: Left right after Start. -/
theorem snake_turn_from_horizontal_heading_witness :
    handleUserInput runningGame UserAction_t.Left false [] =
      some ({ runningGame with snake_direction_ := ⟨0, -1⟩ }, []) :=
  ((snake_turn_from_horizontal_heading runningGame false [] rfl).1 rfl).1

/-- Claim C9.  In every reachable state the direction is one of the four unit vectors, and
in a reachable Running state a single Left or Right yields a unit direction perpendicular to the
previous one, neither its opposite nor the same. -/
theorem snake_direction_unit_turns_perpendicular (g : Game) (h : Reachable g) :
    unitDirection g.snake_direction_ ∧
    ∀ (action : UserAction_t) (hold : Bool) (draws : List Nat),
      g.current_state_ = GameState.GAME_RUNNING →
      (action = UserAction_t.Left ∨ action = UserAction_t.Right) →
      ∃ g' : Game, handleUserInput g action hold draws = some (g', draws) ∧
        unitDirection g'.snake_direction_ ∧
        perpendicular g.snake_direction_ g'.snake_direction_ ∧
        g'.snake_direction_ ≠ g.snake_direction_.neg ∧
        g'.snake_direction_ ≠ g.snake_direction_ := by
  have hd := (engineInvariant_reachable g h).2.2
  refine ⟨hd, ?_⟩
  intro action hold draws hrun ha
  unfold handleUserInput
  rw [hrun]
  rcases ha with rfl | rfl <;> rcases hd with hd | hd | hd | hd <;>
    simp [hd, unitDirection, perpendicular, Point.neg]

/-- Test input for C9: in the reachable engine right after Start, heading (1,0), the action
Left yields a unit direction perpendicular to (1,0), neither (-1,0) nor (1,0). -/
theorem snake_direction_unit_turns_perpendicular_witness :
    Reachable runningGame ∧ unitDirection runningGame.snake_direction_ ∧
    ∃ g' : Game, handleUserInput runningGame UserAction_t.Left false [] = some (g', []) ∧
      unitDirection g'.snake_direction_ ∧
      perpendicular runningGame.snake_direction_ g'.snake_direction_ ∧
      g'.snake_direction_ ≠ runningGame.snake_direction_.neg ∧
      g'.snake_direction_ ≠ runningGame.snake_direction_ :=
  have hr : Reachable runningGame :=
    Reachable.input freshGame UserAction_t.Start false [] runningGame []
      (Reachable.reset blankGame [7, 3] freshGame [] rfl) rfl
  ⟨hr, (snake_direction_unit_turns_perpendicular runningGame hr).1,
    (snake_direction_unit_turns_perpendicular runningGame hr).2 UserAction_t.Left false []
      rfl (Or.inl rfl)⟩

/-- Claim C10.  For every Running state with a unit direction `d`, two Left actions in a row
(no tick in between) yield the direction `-d`, and so do two Right actions in a row. -/
theorem snake_double_turn_reverses (g : Game) (hold1 hold2 : Bool) (draws : List Nat)
    (hrun : g.current_state_ = GameState.GAME_RUNNING)
    (hd : unitDirection g.snake_direction_) :
    (∃ g1 g2 : Game,
      handleUserInput g UserAction_t.Left hold1 draws = some (g1, draws) ∧
      handleUserInput g1 UserAction_t.Left hold2 draws = some (g2, draws) ∧
      g2.snake_direction_ = g.snake_direction_.neg) ∧
    (∃ g1 g2 : Game,
      handleUserInput g UserAction_t.Right hold1 draws = some (g1, draws) ∧
      handleUserInput g1 UserAction_t.Right hold2 draws = some (g2, draws) ∧
      g2.snake_direction_ = g.snake_direction_.neg) := by
  constructor
  · rcases hd with hd | hd | hd | hd <;>
      simp [handleUserInput, hrun, hd, Point.neg]
  · rcases hd with hd | hd | hd | hd <;>
      simp [handleUserInput, hrun, hd, Point.neg]

/-- Test input for C10: Left, Left right after Start turns (1,0) into (-1,0). -/
theorem snake_double_turn_reverses_witness :
    ∃ g1 g2 : Game,
      handleUserInput runningGame UserAction_t.Left false [] = some (g1, []) ∧
      handleUserInput g1 UserAction_t.Left false [] = some (g2, []) ∧
      g2.snake_direction_ = ⟨-1, 0⟩ :=
  (snake_double_turn_reverses runningGame false false [] rfl (by decide)).1

/-- Claim C11.  A non-colliding step of `moveSnake` that eats the food yields the score plus
one; when the new score is a multiple of 5 and the level is below 10 the level grows by one and
the step interval becomes `max(100, interval - 40)`, otherwise level and interval are unchanged;
such a step returns as soon as the first drawn cell is free.  A step that eats no food (it
collides, or the new head is not on the food) returns with score, level and interval unchanged. -/
theorem snake_level_up_rule (g : Game) (draws : List Nat)
    (old_head new_head : Point) (body : List Point)
    (hs : g.snake_ = old_head :: body)
    (hn : new_head = old_head.add g.snake_direction_) :
    (¬ stepCollides g new_head → new_head = g.food_position_ →
      (∀ (g' : Game) (rest : List Nat), moveSnake g draws = some (g', rest) →
        g'.score_ = g.score_ + 1 ∧
        ((5 ∣ g.score_ + 1 ∧ g.level_ < 10) →
          g'.level_ = g.level_ + 1 ∧ g'.speed_ = max 100 (g.speed_ - 40)) ∧
        (¬ (5 ∣ g.score_ + 1 ∧ g.level_ < 10) →
          g'.level_ = g.level_ ∧ g'.speed_ = g.speed_)) ∧
      (∀ (r1 r2 : Nat) (tl : List Nat), drawnCell r1 r2 ∉ new_head :: g.snake_ →
        (moveSnake g (r1 :: r2 :: tl)).isSome = true)) ∧
    (stepCollides g new_head ∨ new_head ≠ g.food_position_ →
      ∃ g' : Game, moveSnake g draws = some (g', draws) ∧
        g'.score_ = g.score_ ∧ g'.level_ = g.level_ ∧ g'.speed_ = g.speed_) := by
  subst hn
  have hm := fun d => moveSnake_cons g d old_head body hs
  have hgrown : (grown g old_head body).snake_ = old_head.add g.snake_direction_ :: g.snake_ := by
    rw [hs]; rfl
  have hdvd : (5 ∣ g.score_ + 1) ↔ (g.score_ + 1) % 5 = 0 := Int.dvd_iff_emod_eq_zero
  have hgl : ((5 ∣ g.score_ + 1 ∧ g.level_ < 10) →
        (grown g old_head body).level_ = g.level_ + 1 ∧
          (grown g old_head body).speed_ = max 100 (g.speed_ - 40)) ∧
      (¬ (5 ∣ g.score_ + 1 ∧ g.level_ < 10) →
        (grown g old_head body).level_ = g.level_ ∧
          (grown g old_head body).speed_ = g.speed_) := by
    rw [hdvd]
    constructor
    · intro h; simp only [grown, if_pos h, and_self]
    · intro h; simp only [grown, if_neg h, and_self]
  refine ⟨fun hc hf => ⟨?_, ?_⟩, ?_⟩
  · intro g' rest hret
    rw [hm, if_neg hc, if_pos hf] at hret
    by_cases hw : 200 ≤ body.length + 2
    · rw [if_pos hw] at hret
      simp only [Option.some.injEq, Prod.mk.injEq] at hret
      rw [← hret.1]
      exact ⟨rfl, hgl⟩
    · rw [if_neg hw] at hret
      have hk := generateFood_keeps _ _ _ _ hret
      rw [hk.2.2.1, hk.2.2.2.2.1, hk.2.2.2.2.2.1]
      exact ⟨rfl, hgl⟩
  · intro r1 r2 tl hfree
    rw [hm, if_neg hc, if_pos hf]
    by_cases hw : 200 ≤ body.length + 2
    · rw [if_pos hw]; rfl
    · rw [if_neg hw, generateFood_cons_cons, hgrown, if_neg hfree]; rfl
  · intro h
    by_cases hc : stepCollides g (old_head.add g.snake_direction_)
    · exact ⟨{ g with current_state_ := GameState.GAME_OVER_LOSE },
        by rw [hm, if_pos hc], rfl, rfl, rfl⟩
    · have hf : old_head.add g.snake_direction_ ≠ g.food_position_ := by
        rcases h with h | h
        · exact absurd h hc
        · exact h
      exact ⟨advanced g old_head body, by rw [hm, if_neg hc, if_neg hf], rfl, rfl, rfl⟩

/-- Test input for C11: a step that eats the food at the score 4 and level 1 returns with the
score 5, the level 2 and the interval 460; the first step after Start eats nothing and leaves
score, level and interval as they are. -/
theorem snake_level_up_rule_witness :
    (moveSnake levelUpGame [7, 3]).isSome = true ∧
    (∀ (g' : Game) (rest : List Nat), moveSnake levelUpGame [7, 3] = some (g', rest) →
      g'.score_ = 5 ∧ g'.level_ = 2 ∧ g'.speed_ = 460) ∧
    ∃ g' : Game, moveSnake runningGame [] = some (g', []) ∧
      g'.score_ = runningGame.score_ ∧ g'.level_ = runningGame.level_ ∧
      g'.speed_ = runningGame.speed_ :=
  ⟨((snake_level_up_rule levelUpGame [7, 3] ⟨5, 10⟩ ⟨6, 10⟩
      [⟨4, 10⟩, ⟨3, 10⟩, ⟨2, 10⟩, ⟨1, 10⟩, ⟨0, 10⟩, ⟨0, 11⟩, ⟨1, 11⟩] rfl rfl).1
      (by decide) (by decide)).2 7 3 [] (by decide),
    fun g' rest h =>
      have hw := ((snake_level_up_rule levelUpGame [7, 3] ⟨5, 10⟩ ⟨6, 10⟩
        [⟨4, 10⟩, ⟨3, 10⟩, ⟨2, 10⟩, ⟨1, 10⟩, ⟨0, 10⟩, ⟨0, 11⟩, ⟨1, 11⟩] rfl rfl).1
        (by decide) (by decide)).1 g' rest h
      ⟨hw.1, (hw.2.1 (by decide)).1, (hw.2.1 (by decide)).2⟩,
    (snake_level_up_rule runningGame [] ⟨5, 10⟩ ⟨6, 10⟩
      [⟨4, 10⟩, ⟨3, 10⟩, ⟨2, 10⟩] rfl rfl).2 (Or.inr (by decide))⟩

/-- Claim C12.  Every result of a non-colliding step from a Running state is in WonGameOver if
and only if the food was eaten in that step and the resulting body has at least 200 segments,
and is Running otherwise; the winning step and the step without food always return. -/
theorem snake_win_condition (g : Game) (draws : List Nat)
    (old_head new_head : Point) (body : List Point)
    (hrun : g.current_state_ = GameState.GAME_RUNNING)
    (hs : g.snake_ = old_head :: body)
    (hn : new_head = old_head.add g.snake_direction_)
    (hnc : ¬ stepCollides g new_head) :
    (∀ (g' : Game) (rest : List Nat), moveSnake g draws = some (g', rest) →
      (g'.current_state_ = GameState.GAME_OVER_WIN ↔
        new_head = g.food_position_ ∧ 200 ≤ g'.snake_.length) ∧
      (¬ (new_head = g.food_position_ ∧ 200 ≤ g'.snake_.length) →
        g'.current_state_ = GameState.GAME_RUNNING)) ∧
    (new_head = g.food_position_ → 200 ≤ g.snake_.length + 1 →
      ∃ g' : Game, moveSnake g draws = some (g', draws) ∧
        g'.current_state_ = GameState.GAME_OVER_WIN) ∧
    (new_head ≠ g.food_position_ →
      ∃ g' : Game, moveSnake g draws = some (g', draws) ∧
        g'.current_state_ = GameState.GAME_RUNNING) := by
  subst hn
  have hm := fun d => moveSnake_cons g d old_head body hs
  have hlen : g.snake_.length + 1 = body.length + 2 := by rw [hs]; rfl
  have hgl : (grown g old_head body).snake_.length = body.length + 2 := rfl
  refine ⟨?_, ?_, ?_⟩
  · intro g' rest hret
    rw [hm, if_neg hnc] at hret
    by_cases hf : old_head.add g.snake_direction_ = g.food_position_
    · rw [if_pos hf] at hret
      by_cases hw : 200 ≤ body.length + 2
      · rw [if_pos hw] at hret
        simp only [Option.some.injEq, Prod.mk.injEq] at hret
        rw [← hret.1]
        exact ⟨⟨fun _ => ⟨hf, by rw [hgl]; exact hw⟩, fun _ => rfl⟩,
          fun h => absurd ⟨hf, by rw [hgl]; exact hw⟩ h⟩
      · rw [if_neg hw] at hret
        have hk := generateFood_keeps _ _ _ _ hret
        have hst : g'.current_state_ = GameState.GAME_RUNNING := by rw [hk.1]; exact hrun
        have hl : g'.snake_.length = body.length + 2 := by rw [hk.2.1]; rfl
        refine ⟨⟨fun h => ?_, fun h => ?_⟩, fun _ => hst⟩
        · rw [hst] at h; exact GameState.noConfusion h
        · rw [hl] at h; exact absurd h.2 hw
    · rw [if_neg hf] at hret
      simp only [Option.some.injEq, Prod.mk.injEq] at hret
      rw [← hret.1]
      have hst : (advanced g old_head body).current_state_ = GameState.GAME_RUNNING := hrun
      refine ⟨⟨fun h => ?_, fun h => absurd h.1 hf⟩, fun _ => hst⟩
      rw [hst] at h; exact GameState.noConfusion h
  · intro hf hw
    rw [hlen] at hw
    exact ⟨{ grown g old_head body with current_state_ := GameState.GAME_OVER_WIN },
      by rw [hm, if_neg hnc, if_pos hf, if_pos hw], rfl⟩
  · intro hf
    exact ⟨advanced g old_head body, by rw [hm, if_neg hnc, if_neg hf], hrun⟩

/-- Test input for C12: the 199-segment snake eats the food at (0,19) and wins. -/
theorem snake_win_condition_witness :
    ∃ g' : Game, moveSnake winGame [] = some (g', []) ∧
      g'.current_state_ = GameState.GAME_OVER_WIN :=
  (snake_win_condition winGame [] ⟨1, 19⟩ ⟨0, 19⟩ serpent.tail rfl serpent_cons rfl
    winGame_no_collision).2.1 rfl (by
      show 200 ≤ serpent.length + 1
      rw [serpent_cons, List.length_cons, serpent_tail_length])

/-! ## Lemmas on the Tetris embedding -/

namespace tetris

theorem shiftRowsDown_apply : ∀ (m : Nat) (b : Field) (i : Fin 20) (c : Fin 10),
    shiftRowsDown b m i c =
      if 0 < i.val ∧ i.val ≤ m then rowAt b (i.val - 1) c else b i c := by
  intro m
  induction m with
  | zero =>
    intro b i c
    have : ¬ (0 < i.val ∧ i.val ≤ 0) := by omega
    rw [if_neg this]; rfl
  | succ m ih =>
    intro b i c
    rw [shiftRowsDown, ih]
    by_cases h1 : 0 < i.val ∧ i.val ≤ m
    · rw [if_pos h1, if_pos (by omega)]
      have hi : i.val - 1 < 20 := by omega
      simp only [rowAt, dif_pos hi, setRow]
      rw [if_neg (by omega)]
    · rw [if_neg h1]
      by_cases h2 : i.val = m + 1
      · rw [if_pos (by omega)]
        simp only [setRow, if_pos h2]
        rw [h2]; rfl
      · rw [if_neg (by omega)]
        simp only [setRow, if_neg h2]

theorem boardRows_length (b : Field) : (boardRows b).length = 20 := by
  simp [boardRows]

theorem boardRows_getElem (b : Field) (i : Nat) (h : i < (boardRows b).length) :
    (boardRows b)[i] = rowAt b i := by
  have hi : i < 20 := by rw [boardRows_length] at h; exact h
  funext c
  simp [boardRows, rowAt, hi]

theorem boardRows_shift (b : Field) (r : Nat) (hr : r < 20) :
    boardRows (setRow (shiftRowsDown b r) 0 emptyRow) = emptyRow :: (boardRows b).eraseIdx r := by
  apply List.ext_getElem
  · simp [boardRows_length, List.length_eraseIdx, hr]
  · intro i h1 h2
    rw [boardRows_getElem]
    have hi : i < 20 := by rw [boardRows_length] at h1; exact h1
    cases i with
    | zero =>
      funext c
      simp [rowAt, setRow]
    | succ j =>
      rw [List.getElem_cons_succ, List.getElem_eraseIdx]
      funext c
      simp only [rowAt, dif_pos hi, setRow]
      rw [if_neg (by simp), shiftRowsDown_apply]
      by_cases hj : j < r
      · rw [dif_pos hj, if_pos (by simp; omega), boardRows_getElem]
        simp [rowAt]
      · rw [dif_neg hj, if_neg (by simp; omega), boardRows_getElem]
        simp [rowAt, hi]

theorem line_complete_iff (b : Field) (r : Nat) :
    line_complete b r = true ↔ rowFull (rowAt b r) := by
  simp [line_complete, rowFull, List.mem_finRange]

theorem emptyRow_not_full : ¬ rowFull emptyRow := fun h => h 0 rfl

theorem replicate_snoc_append {α : Type} (n : Nat) (a : α) (l : List α) :
    List.replicate n a ++ a :: l = List.replicate (n + 1) a ++ l := by
  induction n with
  | zero => rfl
  | succ n ih =>
    rw [List.replicate_succ, List.cons_append, ih]
    rfl

theorem take_eraseIdx_self {α : Type} : ∀ (l : List α) (m : Nat),
    (l.eraseIdx m).take m = l.take m
  | [], m => by simp
  | _ :: _, 0 => by simp
  | a :: l, m + 1 => by
    rw [List.eraseIdx_cons_succ, List.take_succ_cons, List.take_succ_cons,
      take_eraseIdx_self l m]

theorem drop_eraseIdx_self {α : Type} : ∀ (l : List α) (m : Nat),
    (l.eraseIdx m).drop m = l.drop (m + 1)
  | [], m => by simp
  | _ :: _, 0 => by simp
  | a :: l, m + 1 => by
    rw [List.eraseIdx_cons_succ, List.drop_succ_cons, List.drop_succ_cons,
      drop_eraseIdx_self l m]

theorem clearLoop_spec : ∀ (fuel : Nat) (b : Field) (n : Nat) (cnt : Int), n ≤ 20 →
    n + ((boardRows b).take n).countP (fun row => decide (rowFull row)) < fuel →
    ∃ b' : Field,
      clearLoop fuel b ((n : Int) - 1) cnt =
        some (b', cnt + (((boardRows b).take n).countP (fun row => decide (rowFull row)) : Nat)) ∧
      boardRows b' =
        List.replicate (((boardRows b).take n).countP (fun row => decide (rowFull row))) emptyRow ++
          ((boardRows b).take n).filter (fun row => decide (¬ rowFull row)) ++
          (boardRows b).drop n := by
  intro fuel
  induction fuel with
  | zero => intro b n cnt _ h; omega
  | succ fuel ih =>
    intro b n cnt hn hfuel
    cases n with
    | zero =>
      refine ⟨b, ?_, ?_⟩
      · simp [clearLoop]
      · simp
    | succ m =>
      have hm : m < (boardRows b).length := by rw [boardRows_length]; omega
      have htake : (boardRows b).take (m + 1) = (boardRows b).take m ++ [rowAt b m] := by
        rw [List.take_succ, List.getElem?_eq_getElem hm, boardRows_getElem]
        rfl
      have hdrop : (boardRows b).drop m = rowAt b m :: (boardRows b).drop (m + 1) := by
        rw [← boardRows_getElem b m hm]
        exact List.drop_eq_getElem_cons hm
      have hr : ((m + 1 : Nat) : Int) - 1 = (m : Int) := by omega
      have hr0 : ((m : Int)) ≥ 0 := by omega
      rw [hr]
      rw [clearLoop, if_pos hr0, Int.toNat_ofNat]
      by_cases hfull : rowFull (rowAt b m)
      · rw [if_pos ((line_complete_iff b m).2 hfull)]
        have hcnt : ((boardRows b).take (m + 1)).countP (fun row => decide (rowFull row)) =
            ((boardRows b).take m).countP (fun row => decide (rowFull row)) + 1 := by
          rw [htake, List.countP_append]
          simp [hfull]
        have hrows := boardRows_shift b m (by omega)
        have htake1 : (boardRows (setRow (shiftRowsDown b m) 0 emptyRow)).take (m + 1) =
            emptyRow :: (boardRows b).take m := by
          rw [hrows, List.take_succ_cons, take_eraseIdx_self]
        have hdrop1 : (boardRows (setRow (shiftRowsDown b m) 0 emptyRow)).drop (m + 1) =
            (boardRows b).drop (m + 1) := by
          rw [hrows, List.drop_succ_cons, drop_eraseIdx_self]
        have hcnt1 : ((boardRows (setRow (shiftRowsDown b m) 0 emptyRow)).take (m + 1)).countP
            (fun row => decide (rowFull row)) =
            ((boardRows b).take m).countP (fun row => decide (rowFull row)) := by
          rw [htake1, List.countP_cons_of_neg]
          simpa using emptyRow_not_full
        obtain ⟨b', h1, h2⟩ := ih (setRow (shiftRowsDown b m) 0 emptyRow) (m + 1) (cnt + 1) hn
          (by rw [hcnt1]; rw [hcnt] at hfuel; omega)
        rw [hr] at h1
        have h1' : clearLoop fuel (setRow (shiftRowsDown b m) 0 (fun _ => EMPTY)) (m : Int)
            (cnt + 1) = _ := h1
        refine ⟨b', ?_, ?_⟩
        · rw [h1', hcnt1, hcnt]
          congr 2
          push_cast
          ring
        · rw [h2, hcnt1, htake1, hdrop1, hcnt, htake, List.filter_append]
          have e1 : List.filter (fun row => decide (¬ rowFull row)) (emptyRow :: (boardRows b).take m) =
              emptyRow :: List.filter (fun row => decide (¬ rowFull row)) ((boardRows b).take m) := by
            rw [List.filter_cons_of_pos]
            simpa using emptyRow_not_full
          have e2 : List.filter (fun row => decide (¬ rowFull row)) [rowAt b m] = [] := by
            simp [hfull]
          rw [e1, e2, List.append_nil, replicate_snoc_append]
      · have hnc : ¬ line_complete b m = true := fun h => hfull ((line_complete_iff b m).1 h)
        rw [if_neg hnc]
        have hcnt : ((boardRows b).take (m + 1)).countP (fun row => decide (rowFull row)) =
            ((boardRows b).take m).countP (fun row => decide (rowFull row)) := by
          rw [htake, List.countP_append]
          simp [hfull]
        obtain ⟨b', h1, h2⟩ := ih b m cnt (by omega) (by rw [hcnt] at hfuel; omega)
        refine ⟨b', ?_, ?_⟩
        · rw [h1, hcnt]
        · rw [h2, hcnt, htake, List.filter_append, hdrop]
          have e2 : List.filter (fun row => decide (¬ rowFull row)) [rowAt b m] = [rowAt b m] := by
            simp [hfull]
          rw [e2]
          simp

theorem filter_getElem?_countP {α : Type} (p : α → Bool) : ∀ (l : List α) (i : Nat) (a : α),
    l[i]? = some a → p a = true → (l.filter p)[(l.take i).countP p]? = some a
  | [], i, a, h, _ => by simp at h
  | x :: l, 0, a, h, hp => by
    simp only [List.getElem?_cons_zero, Option.some.injEq] at h
    subst h
    simp [List.filter_cons_of_pos hp]
  | x :: l, i + 1, a, h, hp => by
    rw [List.getElem?_cons_succ] at h
    have ih := filter_getElem?_countP p l i a h hp
    rw [List.take_succ_cons]
    by_cases hx : p x = true
    · rw [List.filter_cons_of_pos hx, List.countP_cons_of_pos _ _ hx, List.getElem?_cons_succ]
      exact ih
    · rw [List.filter_cons_of_neg hx, List.countP_cons_of_neg _ _ hx]
      exact ih

theorem countP_not_add {α : Type} (p : α → Prop) [DecidablePred p] (l : List α) :
    l.countP (fun a => decide (p a)) + l.countP (fun a => decide (¬ p a)) = l.length := by
  induction l with
  | nil => rfl
  | cons x l ih =>
    by_cases hx : p x
    · rw [List.countP_cons_of_pos _ _ (by simpa using hx),
        List.countP_cons_of_neg _ _ (by simpa using hx), List.length_cons]
      omega
    · rw [List.countP_cons_of_neg _ _ (by simpa using hx),
        List.countP_cons_of_pos _ _ (by simpa using hx), List.length_cons]
      omega

theorem clear_completed_lines_rows (b : Field) :
    ∃ b' : Field,
      (∀ fuel : Nat, 41 ≤ fuel →
        clearLoop fuel b (TETRIS_BOARD_HEIGHT - 1) 0 = some (b', (fullRowCount b : Int))) ∧
      boardRows b' = clearedRows b := by
  have hlen := boardRows_length b
  have htake : (boardRows b).take 20 = boardRows b := by
    rw [← hlen]; exact List.take_length _
  have hdrop : (boardRows b).drop 20 = [] := by
    rw [← hlen]; exact List.drop_length _
  have hk : fullRowCount b ≤ 20 := by
    unfold fullRowCount
    rw [← hlen]
    exact List.countP_le_length _
  obtain ⟨b', h1, h2⟩ := clearLoop_spec 41 b 20 0 le_rfl (by
    rw [htake]; unfold fullRowCount at hk; omega)
  rw [htake, hdrop, List.append_nil] at h2
  rw [htake] at h1
  refine ⟨b', ?_, h2⟩
  intro fuel hfuel
  obtain ⟨b'', h3, h4⟩ := clearLoop_spec fuel b 20 0 le_rfl (by
    rw [htake]; unfold fullRowCount at hk; omega)
  rw [htake, hdrop, List.append_nil] at h4
  rw [htake] at h3
  have hb : b'' = b' := by
    have h5 : boardRows b'' = boardRows b' := by rw [h4, h2]
    exact List.ofFn_injective h5
  rw [hb] at h3
  have e : TETRIS_BOARD_HEIGHT - 1 = ((20 : Nat) : Int) - 1 := rfl
  rw [e, h3]
  simp [fullRowCount]

theorem rows_not_full_of_cleared (b b' : Field) (h : boardRows b' = clearedRows b) (r : Fin 20) :
    ¬ rowFull (b' r) := by
  have hmem : b' r ∈ boardRows b' := by
    unfold boardRows
    exact (List.mem_ofFn b' (b' r)).2 ⟨r, rfl⟩
  rw [h, clearedRows, List.mem_append] at hmem
  rcases hmem with hm | hm
  · rw [List.eq_of_mem_replicate hm]
    exact emptyRow_not_full
  · have := (List.mem_filter.1 hm).2
    simpa using this

theorem row_moves_down_of_cleared (b b' : Field) (h : boardRows b' = clearedRows b) (r : Fin 20)
    (hr : ¬ rowFull (b r)) :
    r.val + fullRowsBelow b r.val < 20 ∧
      rowAt b' (r.val + fullRowsBelow b r.val) = b r := by
  have hlen := boardRows_length b
  have hrl : r.val < (boardRows b).length := by rw [hlen]; exact r.isLt
  have hget : (boardRows b)[r.val]? = some (b r) := by
    rw [List.getElem?_eq_getElem hrl, boardRows_getElem]
    congr 1
    funext c
    simp [rowAt]
  have hf := filter_getElem?_countP (fun row => decide (¬ rowFull row)) (boardRows b) r.val (b r)
    hget (by simpa using hr)
  -- split the rows around `r`
  have hsplit : boardRows b = (boardRows b).take r.val ++ b r :: (boardRows b).drop (r.val + 1) := by
    have h1 : (boardRows b).drop r.val = (boardRows b)[r.val] :: (boardRows b).drop (r.val + 1) :=
      List.drop_eq_getElem_cons hrl
    have h2 : (boardRows b)[r.val] = b r := by
      have := List.getElem?_eq_getElem hrl
      rw [hget] at this
      exact (Option.some.inj this).symm
    rw [← h2, ← h1, List.take_append_drop]
  have hcount : fullRowCount b =
      ((boardRows b).take r.val).countP (fun row => decide (rowFull row)) +
        fullRowsBelow b r.val := by
    unfold fullRowCount fullRowsBelow
    conv_lhs => rw [hsplit]
    rw [List.countP_append, List.countP_cons_of_neg _ _ (by simpa using hr)]
  have hsum := countP_not_add rowFull ((boardRows b).take r.val)
  have htl : ((boardRows b).take r.val).length = r.val := by
    rw [List.length_take, hlen]; omega
  rw [htl] at hsum
  have hidx : fullRowCount b +
      ((boardRows b).take r.val).countP (fun row => decide (¬ rowFull row)) =
      r.val + fullRowsBelow b r.val := by omega
  have hres : (boardRows b')[r.val + fullRowsBelow b r.val]? = some (b r) := by
    rw [h, clearedRows, ← hidx]
    rw [List.getElem?_append_right (by simp)]
    simp only [List.length_replicate, Nat.add_sub_cancel_left]
    exact hf
  have hlt : r.val + fullRowsBelow b r.val < (boardRows b').length := by
    by_contra hge
    rw [List.getElem?_eq_none (by omega)] at hres
    exact Option.noConfusion hres
  refine ⟨by rw [boardRows_length] at hlt; exact hlt, ?_⟩
  rw [List.getElem?_eq_getElem hlt, boardRows_getElem] at hres
  exact Option.some.inj hres

theorem calculate_speed_from_level_keeps (s : Tetris) :
    (calculate_speed_from_level s).score = s.score ∧
    (calculate_speed_from_level s).high_score = s.high_score ∧
    (calculate_speed_from_level s).game_board = s.game_board ∧
    (calculate_speed_from_level s).current_piece = s.current_piece ∧
    (calculate_speed_from_level s).current_fsm_state = s.current_fsm_state := by
  unfold calculate_speed_from_level
  simp only
  split_ifs <;> simp

theorem calculate_speed_from_level_in_range (s : Tetris) (h1 : 1 ≤ s.level)
    (h2 : s.level ≤ 10) :
    (calculate_speed_from_level s).level = s.level ∧
    (calculate_speed_from_level s).game_speed_ms = 500 - 40 * (s.level - 1) := by
  have h10 : ¬ s.level > 10 := by omega
  have h1' : ¬ s.level < 1 := by omega
  have h50 : ¬ (500 - (s.level - 1) * 40 < 50) := by omega
  simp only [calculate_speed_from_level, MAX_LEVEL, INITIAL_SPEED_MS, h10, h1', h50, if_false]
  constructor
  · trivial
  · ring

theorem wrapInt_of_range (x : Int) (h1 : INT_MIN ≤ x) (h2 : x ≤ INT_MAX) : wrapInt x = x := by
  unfold INT_MIN at h1
  unfold INT_MAX at h2
  unfold wrapInt
  omega

theorem wrapInt_range (x : Int) : INT_MIN ≤ wrapInt x ∧ wrapInt x ≤ INT_MAX := by
  unfold INT_MIN INT_MAX wrapInt
  omega

theorem wrapInt_add_wrapInt (a b : Int) : wrapInt (a + wrapInt b) = wrapInt (a + b) := by
  unfold wrapInt
  omega

theorem wrapInt_wrapInt_add (a b : Int) : wrapInt (wrapInt a + b) = wrapInt (a + b) := by
  unfold wrapInt
  omega

theorem linePoints_wrap (a n : Int) (hn : n > 0) :
    wrapInt (a + linePoints n) = wrapInt (a + scoreTable n) := by
  have h0 : ¬ n ≤ 0 := by omega
  simp only [linePoints, scoreTable, h0, if_false]
  split_ifs
  · rfl
  · rfl
  · rfl
  · rfl
  · unfold wrapInt
    omega

theorem linePoints_eq_scoreTable (n : Int) (hn : n > 0) (hr : scoreTable n ≤ INT_MAX) :
    linePoints n = scoreTable n := by
  have h0 : ¬ n ≤ 0 := by omega
  unfold INT_MAX at hr
  simp only [linePoints, scoreTable, h0, if_false] at hr ⊢
  split_ifs at hr ⊢
  · rfl
  · rfl
  · rfl
  · rfl
  · unfold wrapInt
    omega

theorem update_score_and_level_nonpos (s : Tetris) (n : Int) (hn : n ≤ 0) :
    update_score_and_level s n = s := by
  unfold update_score_and_level
  rw [if_neg (by omega)]

theorem update_score_and_level_score (s : Tetris) (n : Int) (hn : n > 0) :
    (update_score_and_level s n).score = wrapInt (s.score + scoreTable n) := by
  unfold update_score_and_level
  rw [if_pos hn]
  have hpts := linePoints_wrap s.score n hn
  simp only
  split_ifs <;>
    simp only [(calculate_speed_from_level_keeps _).1, hpts]

theorem update_score_and_level_pos (s : Tetris) (n : Int) (hn : n > 0) :
    update_score_and_level s n =
      if Int.tdiv (scored s n).score 600 >
            Int.tdiv (wrapInt ((scored s n).score - prevPoints n)) 600 ∧
          s.level < 10 then
        calculate_speed_from_level
          { scored s n with
              level :=
                if Int.tdiv (scored s n).score 600 + 1 > 10 then 10
                else Int.tdiv (scored s n).score 600 + 1 }
      else scored s n := by
  unfold update_score_and_level
  rw [if_pos hn]
  simp only [scored, prevPoints, POINTS_PER_LEVEL_UP, MAX_LEVEL]
  split_ifs <;> rfl

theorem update_score_and_level_small (s : Tetris) (n : Int) (hs : 0 ≤ s.score)
    (hr : s.score + scoreTable n ≤ INT_MAX)
    (hn1 : 1 ≤ n) (hn4 : n ≤ 4) (hl : s.level = levelOfScore s.score) :
    (update_score_and_level s n).level = levelOfScore (update_score_and_level s n).score ∧
    (s.level < (update_score_and_level s n).level →
      (update_score_and_level s n).game_speed_ms =
        speedOfLevel (update_score_and_level s n).level) := by
  have hpts : linePoints n = prevPoints n ∧ 0 < linePoints n ∧ linePoints n = scoreTable n := by
    have hn : n = 1 ∨ n = 2 ∨ n = 3 ∨ n = 4 := by omega
    rcases hn with rfl | rfl | rfl | rfl <;> decide
  rw [← hpts.2.2] at hr
  have hsc : (scored s n).score = s.score + linePoints n :=
    wrapInt_of_range _ (by unfold INT_MIN; omega) hr
  have hlv : (scored s n).level = s.level := rfl
  have hnew : Int.tdiv (s.score + linePoints n) 600 = (s.score + linePoints n) / 600 :=
    Int.tdiv_eq_ediv (by omega) (by norm_num)
  have hold : Int.tdiv (wrapInt (s.score + linePoints n - prevPoints n)) 600 =
      s.score / 600 := by
    rw [← hpts.1, Int.add_sub_cancel,
      wrapInt_of_range _ (by unfold INT_MIN; omega) (by omega)]
    exact Int.tdiv_eq_ediv hs (by norm_num)
  rw [update_score_and_level_pos s n (by omega), hsc, hnew, hold]
  unfold levelOfScore at hl ⊢
  by_cases hup : (s.score + linePoints n) / 600 > s.score / 600 ∧ s.level < 10
  · rw [if_pos hup]
    have hq : 0 ≤ s.score / 600 := Int.ediv_nonneg hs (by norm_num)
    obtain ⟨hlev, hspd⟩ := calculate_speed_from_level_in_range
      { scored s n with
          level := if (s.score + linePoints n) / 600 + 1 > 10 then 10
            else (s.score + linePoints n) / 600 + 1 }
      (by simp only; split_ifs <;> omega) (by simp only; split_ifs <;> omega)
    rw [hlev, hspd, (calculate_speed_from_level_keeps _).1]
    simp only [hsc]
    constructor
    · split_ifs <;> omega
    · intro _
      unfold speedOfLevel
      split_ifs <;> omega
  · rw [if_neg hup, hlv, hsc]
    constructor
    · rw [hl]
      have hq : s.score / 600 ≤ (s.score + linePoints n) / 600 :=
        Int.ediv_le_ediv (by norm_num) (by omega)
      omega
    · intro h; omega

theorem update_score_and_level_top (s : Tetris) (n : Int) (hl : ¬ s.level < 10) :
    (update_score_and_level s n).level = s.level ∧
    (update_score_and_level s n).game_speed_ms = s.game_speed_ms := by
  by_cases hn : n > 0
  · rw [update_score_and_level_pos s n hn, if_neg (fun h => hl h.2)]
    exact ⟨rfl, rfl⟩
  · rw [update_score_and_level_nonpos s n (by omega)]
    exact ⟨rfl, rfl⟩

theorem is_valid_position_iff (b : Field) (piece_x piece_y type rotation : Int) :
    is_valid_position b piece_x piece_y type rotation = true ↔
      validPlacement b piece_x piece_y type rotation := by
  unfold is_valid_position validPlacement TETROMINO_GRID_SIZE TETRIS_BOARD_WIDTH
    TETRIS_BOARD_HEIGHT
  simp only [List.all_eq_true, List.mem_range]
  constructor
  · intro h r hr c hc hshape
    have := h r hr c hc
    rw [if_pos hshape] at this
    split_ifs at this with h1 h2
    refine ⟨by omega, by omega, by omega, by omega, ?_⟩
    exact not_not.1 h2
  · intro h r hr c hc
    by_cases hshape : shapeAt type rotation r c = 1
    · rw [if_pos hshape]
      obtain ⟨h1, h2, h3, h4, h5⟩ := h r hr c hc hshape
      rw [if_neg (by omega), if_neg (by rw [h5]; simp)]
    · rw [if_neg hshape]

theorem is_valid_position_false_iff (b : Field) (piece_x piece_y type rotation : Int) :
    is_valid_position b piece_x piece_y type rotation = false ↔
      ¬ validPlacement b piece_x piece_y type rotation := by
  rw [← is_valid_position_iff, Bool.not_eq_true]

/-- One step of the inner loop of `lock_current_piece`. -/
theorem lockStep_apply (p : CurrentPieceState) (r_offset c_offset : Nat) (b : Field)
    (i : Fin 20) (j : Fin 10) :
    (if shapeAt p.type p.rotation r_offset c_offset = 1 then
        let board_r : Int := p.y + r_offset
        let board_c : Int := p.x + c_offset
        if board_r ≥ 0 ∧ board_r < TETRIS_BOARD_HEIGHT ∧ board_c ≥ 0 ∧
            board_c < TETRIS_BOARD_WIDTH then
          setCell b board_r board_c BODY
        else b
      else b) i j =
    if shapeAt p.type p.rotation r_offset c_offset = 1 ∧
        (i.val : Int) = p.y + (r_offset : Int) ∧ (j.val : Int) = p.x + (c_offset : Int)
    then BODY else b i j := by
  have hi := i.isLt
  have hj := j.isLt
  by_cases hshape : shapeAt p.type p.rotation r_offset c_offset = 1
  · by_cases hcell : (i.val : Int) = p.y + (r_offset : Int) ∧
        (j.val : Int) = p.x + (c_offset : Int)
    · have hboth : shapeAt p.type p.rotation r_offset c_offset = 1 ∧
          (i.val : Int) = p.y + (r_offset : Int) ∧ (j.val : Int) = p.x + (c_offset : Int) :=
        ⟨hshape, hcell⟩
      have hin : p.y + (r_offset : Int) ≥ 0 ∧ p.y + (r_offset : Int) < TETRIS_BOARD_HEIGHT ∧
          p.x + (c_offset : Int) ≥ 0 ∧ p.x + (c_offset : Int) < TETRIS_BOARD_WIDTH := by
        simp only [TETRIS_BOARD_HEIGHT, TETRIS_BOARD_WIDTH]; omega
      simp only [if_pos hshape, if_pos hboth, if_pos hin, setCell, if_pos hcell]
    · have hboth : ¬ (shapeAt p.type p.rotation r_offset c_offset = 1 ∧
          (i.val : Int) = p.y + (r_offset : Int) ∧ (j.val : Int) = p.x + (c_offset : Int)) :=
        fun h => hcell h.2
      simp only [if_pos hshape, if_neg hboth]
      split_ifs
      · simp only [setCell, if_neg hcell]
      · rfl
  · have hboth : ¬ (shapeAt p.type p.rotation r_offset c_offset = 1 ∧
        (i.val : Int) = p.y + (r_offset : Int) ∧ (j.val : Int) = p.x + (c_offset : Int)) :=
      fun h => hshape h.1
    simp only [if_neg hshape, if_neg hboth]

theorem lockInner_apply (p : CurrentPieceState) (r_offset : Nat) :
    ∀ (cs : List Nat) (b : Field) (i : Fin 20) (j : Fin 10),
      ((∃ c_offset ∈ cs, shapeAt p.type p.rotation r_offset c_offset = 1 ∧
          (i.val : Int) = p.y + (r_offset : Int) ∧ (j.val : Int) = p.x + (c_offset : Int)) →
        (cs.foldl
          (fun b2 c_offset =>
            if shapeAt p.type p.rotation r_offset c_offset = 1 then
              let board_r : Int := p.y + r_offset
              let board_c : Int := p.x + c_offset
              if board_r ≥ 0 ∧ board_r < TETRIS_BOARD_HEIGHT ∧ board_c ≥ 0 ∧
                  board_c < TETRIS_BOARD_WIDTH then
                setCell b2 board_r board_c BODY
              else b2
            else b2) b) i j = BODY) ∧
      ((¬ ∃ c_offset ∈ cs, shapeAt p.type p.rotation r_offset c_offset = 1 ∧
          (i.val : Int) = p.y + (r_offset : Int) ∧ (j.val : Int) = p.x + (c_offset : Int)) →
        (cs.foldl
          (fun b2 c_offset =>
            if shapeAt p.type p.rotation r_offset c_offset = 1 then
              let board_r : Int := p.y + r_offset
              let board_c : Int := p.x + c_offset
              if board_r ≥ 0 ∧ board_r < TETRIS_BOARD_HEIGHT ∧ board_c ≥ 0 ∧
                  board_c < TETRIS_BOARD_WIDTH then
                setCell b2 board_r board_c BODY
              else b2
            else b2) b) i j = b i j) := by
  intro cs
  induction cs with
  | nil =>
    intro b i j
    exact ⟨fun ⟨c, hc, _⟩ => absurd hc (List.not_mem_nil c), fun _ => rfl⟩
  | cons c cs ih =>
    intro b i j
    rw [List.foldl_cons]
    obtain ⟨ih1, ih2⟩ := ih
      (if shapeAt p.type p.rotation r_offset c = 1 then
        let board_r : Int := p.y + r_offset
        let board_c : Int := p.x + c
        if board_r ≥ 0 ∧ board_r < TETRIS_BOARD_HEIGHT ∧ board_c ≥ 0 ∧
            board_c < TETRIS_BOARD_WIDTH then
          setCell b board_r board_c BODY
        else b
      else b) i j
    have hstep := lockStep_apply p r_offset c b i j
    by_cases hex : ∃ c_offset ∈ cs, shapeAt p.type p.rotation r_offset c_offset = 1 ∧
        (i.val : Int) = p.y + (r_offset : Int) ∧ (j.val : Int) = p.x + (c_offset : Int)
    · refine ⟨fun _ => ih1 hex, fun hn => ?_⟩
      obtain ⟨c', hc', h⟩ := hex
      exact absurd ⟨c', List.mem_cons_of_mem _ hc', h⟩ hn
    · rw [ih2 hex, hstep]
      constructor
      · rintro ⟨c', hc', h⟩
        rcases List.mem_cons.1 hc' with rfl | hm
        · rw [if_pos h]
        · exact absurd ⟨c', hm, h⟩ hex
      · intro hn
        rw [if_neg (fun h => hn ⟨c, List.mem_cons_self _ _, h⟩)]

theorem lockOuter_apply (p : CurrentPieceState) :
    ∀ (rs : List Nat) (b : Field) (i : Fin 20) (j : Fin 10),
      ((∃ r_offset ∈ rs, ∃ c_offset < 4, shapeAt p.type p.rotation r_offset c_offset = 1 ∧
          (i.val : Int) = p.y + (r_offset : Int) ∧ (j.val : Int) = p.x + (c_offset : Int)) →
        (rs.foldl
          (fun b1 r_offset =>
            (List.range TETROMINO_GRID_SIZE).foldl
              (fun b2 c_offset =>
                if shapeAt p.type p.rotation r_offset c_offset = 1 then
                  let board_r : Int := p.y + r_offset
                  let board_c : Int := p.x + c_offset
                  if board_r ≥ 0 ∧ board_r < TETRIS_BOARD_HEIGHT ∧ board_c ≥ 0 ∧
                      board_c < TETRIS_BOARD_WIDTH then
                    setCell b2 board_r board_c BODY
                  else b2
                else b2) b1) b) i j = BODY) ∧
      ((¬ ∃ r_offset ∈ rs, ∃ c_offset < 4, shapeAt p.type p.rotation r_offset c_offset = 1 ∧
          (i.val : Int) = p.y + (r_offset : Int) ∧ (j.val : Int) = p.x + (c_offset : Int)) →
        (rs.foldl
          (fun b1 r_offset =>
            (List.range TETROMINO_GRID_SIZE).foldl
              (fun b2 c_offset =>
                if shapeAt p.type p.rotation r_offset c_offset = 1 then
                  let board_r : Int := p.y + r_offset
                  let board_c : Int := p.x + c_offset
                  if board_r ≥ 0 ∧ board_r < TETRIS_BOARD_HEIGHT ∧ board_c ≥ 0 ∧
                      board_c < TETRIS_BOARD_WIDTH then
                    setCell b2 board_r board_c BODY
                  else b2
                else b2) b1) b) i j = b i j) := by
  intro rs
  induction rs with
  | nil =>
    intro b i j
    exact ⟨fun ⟨r, hr, _⟩ => absurd hr (List.not_mem_nil r), fun _ => rfl⟩
  | cons r rs ih =>
    intro b i j
    rw [List.foldl_cons]
    obtain ⟨in1, in2⟩ := lockInner_apply p r (List.range TETROMINO_GRID_SIZE) b i j
    have hrange : (∃ c_offset ∈ List.range TETROMINO_GRID_SIZE,
        shapeAt p.type p.rotation r c_offset = 1 ∧
        (i.val : Int) = p.y + (r : Int) ∧ (j.val : Int) = p.x + (c_offset : Int)) ↔
        ∃ c_offset < 4, shapeAt p.type p.rotation r c_offset = 1 ∧
        (i.val : Int) = p.y + (r : Int) ∧ (j.val : Int) = p.x + (c_offset : Int) := by
      simp only [TETROMINO_GRID_SIZE, List.mem_range]
    rw [hrange] at in1 in2
    obtain ⟨ih1, ih2⟩ := ih
      ((List.range TETROMINO_GRID_SIZE).foldl
        (fun b2 c_offset =>
          if shapeAt p.type p.rotation r c_offset = 1 then
            let board_r : Int := p.y + r
            let board_c : Int := p.x + c_offset
            if board_r ≥ 0 ∧ board_r < TETRIS_BOARD_HEIGHT ∧ board_c ≥ 0 ∧
                board_c < TETRIS_BOARD_WIDTH then
              setCell b2 board_r board_c BODY
            else b2
          else b2) b) i j
    by_cases hex : ∃ r_offset ∈ rs, ∃ c_offset < 4,
        shapeAt p.type p.rotation r_offset c_offset = 1 ∧
        (i.val : Int) = p.y + (r_offset : Int) ∧ (j.val : Int) = p.x + (c_offset : Int)
    · refine ⟨fun _ => ih1 hex, fun hn => ?_⟩
      obtain ⟨r', hr', h⟩ := hex
      exact absurd ⟨r', List.mem_cons_of_mem _ hr', h⟩ hn
    · rw [ih2 hex]
      constructor
      · rintro ⟨r', hr', h⟩
        rcases List.mem_cons.1 hr' with rfl | hm
        · exact in1 h
        · exact absurd ⟨r', hm, h⟩ hex
      · intro hn
        exact in2 (fun h => hn ⟨r, List.mem_cons_self _ _, h⟩)

theorem lockCells_apply (b : Field) (p : CurrentPieceState) (i : Fin 20) (j : Fin 10) :
    (pieceCell p (i.val : Int) (j.val : Int) → lockCells b p i j = BODY) ∧
    (¬ pieceCell p (i.val : Int) (j.val : Int) → lockCells b p i j = b i j) := by
  have h := lockOuter_apply p (List.range TETROMINO_GRID_SIZE) b i j
  have hrange : (∃ r_offset ∈ List.range TETROMINO_GRID_SIZE, ∃ c_offset < 4,
      shapeAt p.type p.rotation r_offset c_offset = 1 ∧
      (i.val : Int) = p.y + (r_offset : Int) ∧ (j.val : Int) = p.x + (c_offset : Int)) ↔
      pieceCell p (i.val : Int) (j.val : Int) := by
    simp only [TETROMINO_GRID_SIZE, List.mem_range, pieceCell]
  rw [hrange] at h
  exact h

theorem update_score_and_level_keeps (s : Tetris) (n : Int) :
    (update_score_and_level s n).game_board = s.game_board ∧
    (update_score_and_level s n).current_piece = s.current_piece ∧
    (update_score_and_level s n).current_fsm_state = s.current_fsm_state := by
  by_cases hn : n > 0
  · rw [update_score_and_level_pos s n hn]
    by_cases hc : Int.tdiv (scored s n).score 600 >
        Int.tdiv (wrapInt ((scored s n).score - prevPoints n)) 600 ∧ s.level < 10
    · rw [if_pos hc]
      have hk := calculate_speed_from_level_keeps
        { scored s n with
            level :=
              if Int.tdiv (scored s n).score 600 + 1 > 10 then 10
              else Int.tdiv (scored s n).score 600 + 1 }
      exact ⟨hk.2.2.1, hk.2.2.2.1, hk.2.2.2.2⟩
    · rw [if_neg hc]
      exact ⟨rfl, rfl, rfl⟩
  · unfold update_score_and_level
    rw [if_neg hn]
    exact ⟨rfl, rfl, rfl⟩

theorem clear_completed_lines_eq (s : Tetris) :
    ∃ b' : Field,
      clear_completed_lines s = ({ s with game_board := b' }, (fullRowCount s.game_board : Int)) ∧
      boardRows b' = clearedRows s.game_board ∧
      ∀ fuel : Nat, 41 ≤ fuel →
        clearLoop fuel s.game_board (TETRIS_BOARD_HEIGHT - 1) 0 =
          some (b', (fullRowCount s.game_board : Int)) := by
  obtain ⟨b', h1, h2⟩ := clear_completed_lines_rows s.game_board
  refine ⟨b', ?_, h2, h1⟩
  unfold clear_completed_lines
  rw [h1 41 le_rfl]

theorem advance_running (s : Tetris) (rnd : Nat) (hinit : s.is_initialized = true)
    (hp : s.paused = false) (hrun : s.overall_game_state = GameState.GAME_RUNNING) :
    advance s rnd =
      fsmStep { s with game_timer_ticks := (s.game_timer_ticks + 1) % 2 ^ 64 } rnd := by
  unfold advance lazyInit
  simp [hinit, hp, hrun]

theorem fsmStep_locking (t : Tetris) (rnd : Nat)
    (h : t.current_fsm_state = TetrisFSMState_t.TETRIS_STATE_LOCKING) :
    fsmStep t rnd =
      { (if (clear_completed_lines (lock_current_piece t)).2 > 0 then
          update_score_and_level (clear_completed_lines (lock_current_piece t)).1
            (clear_completed_lines (lock_current_piece t)).2
        else (clear_completed_lines (lock_current_piece t)).1) with
        current_fsm_state := TetrisFSMState_t.TETRIS_STATE_SPAWN } := by
  unfold fsmStep
  rw [h]

theorem lock_current_piece_fields (t : Tetris) :
    (lock_current_piece t).game_board =
      (if t.current_piece.active = true then lockCells t.game_board t.current_piece
        else t.game_board) ∧
    (lock_current_piece t).current_piece.active = false ∧
    (lock_current_piece t).score = t.score := by
  unfold lock_current_piece
  by_cases ha : t.current_piece.active = true
  · simp [ha]
  · simp [ha]

theorem fsmStep_moving (t : Tetris) (rnd : Nat)
    (h : t.current_fsm_state = TetrisFSMState_t.TETRIS_STATE_MOVING)
    (ha : t.current_piece.active = true) :
    fsmStep t rnd =
      if is_valid_position t.game_board t.current_piece.x (t.current_piece.y + 1)
          t.current_piece.type t.current_piece.rotation = true then
        { t with
            overall_game_state := GameState.GAME_RUNNING
            current_piece := { t.current_piece with y := t.current_piece.y + 1 } }
      else
        { t with
            overall_game_state := GameState.GAME_RUNNING
            current_fsm_state := TetrisFSMState_t.TETRIS_STATE_LOCKING } := by
  unfold fsmStep
  rw [h]
  dsimp only
  rw [if_pos ha]

/-! ## The claims on the Tetris engine -/

/-- Claim C13, amended.  `update_score_and_level(n)` with `n > 0` leaves in the `int` score
the table value for `n` added to the score modulo `2^32`: 100, 300, 700 and 1500 for one to
four rows, `1500 + 800 * (n - 4)` above four.  The new score is the sum itself exactly when
the sum fits an `int`; a sum above `INT_MAX` leaves the sum minus `2^32`, a negative score.
For `n <= 0` nothing is added and the engine is left as it is. -/
theorem tetris_scoring_table (s : Tetris) (n : Int) :
    (0 < n → (update_score_and_level s n).score = wrapInt (s.score + scoreTable n)) ∧
    (0 < n → INT_MIN ≤ s.score + scoreTable n → s.score + scoreTable n ≤ INT_MAX →
      (update_score_and_level s n).score = s.score + scoreTable n) ∧
    (0 < n → INT_MAX < s.score + scoreTable n → s.score ≤ INT_MAX → scoreTable n ≤ INT_MAX →
      (update_score_and_level s n).score = s.score + scoreTable n - 4294967296 ∧
        (update_score_and_level s n).score < 0) ∧
    scoreTable 1 = 100 ∧ scoreTable 2 = 300 ∧ scoreTable 3 = 700 ∧ scoreTable 4 = 1500 ∧
    (4 < n → scoreTable n = 1500 + 800 * (n - 4)) ∧
    (n ≤ 0 → scoreTable n = 0 ∧ update_score_and_level s n = s) := by
  refine ⟨fun hn => update_score_and_level_score s n hn, fun hn h1 h2 => ?_,
    fun hn h1 h2 h3 => ?_, rfl, rfl, rfl, rfl, ?_, ?_⟩
  · rw [update_score_and_level_score s n hn, wrapInt_of_range _ h1 h2]
  · rw [update_score_and_level_score s n hn]
    unfold INT_MAX at h1 h2 h3
    unfold wrapInt
    omega
  · intro h
    unfold scoreTable
    rw [if_neg (by omega), if_neg (by omega), if_neg (by omega), if_neg (by omega),
      if_neg (by omega)]
  · intro h
    exact ⟨by unfold scoreTable; rw [if_pos h], update_score_and_level_nonpos s n h⟩

/-- Test input for C13: seven rows at once score 1500 + 800 * 3, and two rows at the score
2147483400 leave the score -2147483596. -/
theorem tetris_scoring_table_witness :
    scoreTable 7 = 1500 + 800 * (7 - 4) ∧
    (update_score_and_level playState 7).score = playState.score + scoreTable 7 ∧
    (update_score_and_level { playState with score := 2147483400 } 2).score = -2147483596 :=
  ⟨(tetris_scoring_table playState 7).2.2.2.2.2.2.2.1 (by decide),
    (tetris_scoring_table playState 7).2.1 (by decide) (by decide) (by decide),
    ((tetris_scoring_table { playState with score := 2147483400 } 2).2.2.1 (by decide)
      (by decide) (by decide) (by decide)).1.trans (by decide)⟩

/-- The count of five rows, which no lock produces: from the score 0, level 1 and interval 500
the score becomes 2300, for which the level rule gives `min(10, floor(2300/600) + 1) = 4`, but
`update_score_and_level` leaves the level at 1 and the interval at 500, because the previous
score is recomputed by a conditional that has no case for more than four rows. -/
theorem level_not_raised_by_five_rows :
    playState.score = 0 ∧ playState.level = 1 ∧ playState.game_speed_ms = 500 ∧
    playState.level = levelOfScore playState.score ∧
    (update_score_and_level playState 5).score = 2300 ∧
    levelOfScore 2300 = 4 ∧
    (update_score_and_level playState 5).level = 1 ∧
    (update_score_and_level playState 5).game_speed_ms = 500 := by
  decide

/-- Claim C14, amended.  For a count `n` of one to four cleared rows (a lock clears no more), a
score that is not negative and a new score `score + table(n)` that fits an `int`: when the level
was `min(10, floor(score / 600) + 1)` before `update_score_and_level(n)`, it is
`min(10, floor(score' / 600) + 1)` for the new score afterwards, and whenever the level
increased the step interval is `max(50, 500 - 40 * (level - 1))`.  At level 10 the call changes
neither the level nor the interval, whatever becomes of the score. -/
theorem tetris_leveling (s : Tetris) (n : Int) (hs : 0 ≤ s.score)
    (hr : s.score + scoreTable n ≤ INT_MAX)
    (hn1 : 1 ≤ n) (hn4 : n ≤ 4) (hl : s.level = levelOfScore s.score) :
    (update_score_and_level s n).score = s.score + scoreTable n ∧
    (update_score_and_level s n).level = levelOfScore (update_score_and_level s n).score ∧
    (s.level < (update_score_and_level s n).level →
      (update_score_and_level s n).game_speed_ms =
        speedOfLevel (update_score_and_level s n).level) ∧
    (s.level = 10 →
      (update_score_and_level s n).level = 10 ∧
        (update_score_and_level s n).game_speed_ms = s.game_speed_ms) := by
  have h := update_score_and_level_small s n hs hr hn1 hn4 hl
  have hpos : 0 ≤ scoreTable n := by
    have hn : n = 1 ∨ n = 2 ∨ n = 3 ∨ n = 4 := by omega
    rcases hn with rfl | rfl | rfl | rfl <;> decide
  refine ⟨?_, h.1, h.2, fun h10 => ?_⟩
  · rw [update_score_and_level_score s n (by omega),
      wrapInt_of_range _ (by unfold INT_MIN; omega) hr]
  · have ht := update_score_and_level_top s n (by omega)
    exact ⟨ht.1.trans h10, ht.2⟩

/-- Test input for C14: four rows at the score 300 raise the level from 1 to 4 and set the
interval to 380. -/
theorem tetris_leveling_witness :
    (update_score_and_level { playState with score := 300 } 4).score = 1800 ∧
    (update_score_and_level { playState with score := 300 } 4).level = 4 ∧
    (update_score_and_level { playState with score := 300 } 4).game_speed_ms = 380 :=
  have h := tetris_leveling { playState with score := 300 } 4 (by decide) (by decide)
    (by decide) (by decide) (by decide)
  ⟨h.1.trans (by decide), h.2.1.trans (by decide),
    (h.2.2.1 (by decide)).trans (by decide)⟩

/-- Claim C15.  For every board, `clear_completed_lines` returns (the loop ends within 41
body executions) the number of full rows of the board; the rows of the resulting board are that
many all-`EMPTY` rows followed by the rows that were not full, in their order; no row of the
result is full; every row that was not full is found lower by exactly the number of full rows
that were below it; nothing but the board changes. -/
theorem tetris_clear_completed_lines (s : Tetris) (s' : Tetris) (k : Int)
    (hres : (s', k) = clear_completed_lines s) :
    (∀ fuel : Nat, 41 ≤ fuel →
      clearLoop fuel s.game_board (TETRIS_BOARD_HEIGHT - 1) 0 = some (s'.game_board, k)) ∧
    s' = { s with game_board := s'.game_board } ∧
    k = (fullRowCount s.game_board : Int) ∧
    boardRows s'.game_board = clearedRows s.game_board ∧
    (∀ r : Fin 20, ¬ rowFull (s'.game_board r)) ∧
    (∀ r : Fin 20, ¬ rowFull (s.game_board r) →
      r.val + fullRowsBelow s.game_board r.val < 20 ∧
      rowAt s'.game_board (r.val + fullRowsBelow s.game_board r.val) = s.game_board r) := by
  obtain ⟨b', h1, h2, h3⟩ := clear_completed_lines_eq s
  rw [h1] at hres
  simp only [Prod.mk.injEq] at hres
  obtain ⟨rfl, rfl⟩ := hres
  exact ⟨h3, rfl, rfl, h2, rows_not_full_of_cleared s.game_board b' h2,
    fun r hr => row_moves_down_of_cleared s.game_board b' h2 r hr⟩

/-- Test input for C15: a board whose bottom row is full loses exactly that row. -/
theorem tetris_clear_completed_lines_witness :
    (clear_completed_lines lockedState).2 = 1 ∧
    (∀ fuel : Nat, 41 ≤ fuel →
      clearLoop fuel lockedState.game_board (TETRIS_BOARD_HEIGHT - 1) 0 =
        some ((clear_completed_lines lockedState).1.game_board, 1)) ∧
    (∀ r : Fin 20, ¬ rowFull ((clear_completed_lines lockedState).1.game_board r)) :=
  have h := tetris_clear_completed_lines lockedState (clear_completed_lines lockedState).1 1
    (Prod.ext rfl (by decide))
  ⟨by decide, h.1, h.2.2.2.2.1⟩

/-- Claim C16, amended.  One `updateCurrentState` call in a Running, unpaused engine whose
inner state is Locking: the piece is locked (its cells become `BODY`, the other cells stay), the
full rows of the locked board are removed in the same call, so that the committed board has no
full row afterwards, the piece is inactive and the inner state is Spawning.  The `int` score
receives the table value for the number of rows removed modulo `2^32`; it grows by exactly that
value (100 when exactly one row was full) when the sum fits an `int`, and stays when no row
was full. -/
theorem tetris_lock_and_clear_tick (s : Tetris) (rnd : Nat) (s' : Tetris) (locked : Field)
    (hinit : s.is_initialized = true)
    (hp : s.paused = false)
    (hrun : s.overall_game_state = GameState.GAME_RUNNING)
    (hfsm : s.current_fsm_state = TetrisFSMState_t.TETRIS_STATE_LOCKING)
    (hlocked : locked = (lock_current_piece s).game_board)
    (hs' : s' = (updateCurrentState s rnd).1) :
    (s.current_piece.active = true → ∀ (i : Fin 20) (j : Fin 10),
      (pieceCell s.current_piece (i.val : Int) (j.val : Int) → locked i j = BODY) ∧
      (¬ pieceCell s.current_piece (i.val : Int) (j.val : Int) →
        locked i j = s.game_board i j)) ∧
    s'.current_piece.active = false ∧
    boardRows s'.game_board = clearedRows locked ∧
    (∀ r : Fin 20, ¬ rowFull (s'.game_board r)) ∧
    (0 < fullRowCount locked →
      s'.score = wrapInt (s.score + scoreTable (fullRowCount locked : Int))) ∧
    (fullRowCount locked = 0 → s'.score = s.score) ∧
    (INT_MIN ≤ s.score → s.score + scoreTable (fullRowCount locked : Int) ≤ INT_MAX →
      s'.score = s.score + scoreTable (fullRowCount locked : Int) ∧
        (fullRowCount locked = 1 → s'.score = s.score + 100)) ∧
    s'.current_fsm_state = TetrisFSMState_t.TETRIS_STATE_SPAWN := by
  obtain ⟨t, ht⟩ : ∃ t : Tetris,
      t = { s with game_timer_ticks := (s.game_timer_ticks + 1) % 2 ^ 64 } := ⟨_, rfl⟩
  have hadv : s' = fsmStep t rnd := by
    rw [hs', ht, ← advance_running s rnd hinit hp hrun]; rfl
  have htf : t.current_fsm_state = TetrisFSMState_t.TETRIS_STATE_LOCKING := by
    rw [ht]; exact hfsm
  have htb : t.game_board = s.game_board := by rw [ht]
  have htp : t.current_piece = s.current_piece := by rw [ht]
  have hts : t.score = s.score := by rw [ht]
  obtain ⟨hl1, hl2, hl3⟩ := lock_current_piece_fields t
  have hlb : (lock_current_piece t).game_board = locked := by
    rw [hlocked, hl1, (lock_current_piece_fields s).1, htb, htp]
  rw [hts] at hl3
  obtain ⟨b', h1, h2, _⟩ := clear_completed_lines_eq (lock_current_piece t)
  rw [hlb] at h1 h2
  rw [fsmStep_locking t rnd htf, h1] at hadv
  have hscore : 0 < fullRowCount locked →
      s'.score = wrapInt (s.score + scoreTable (fullRowCount locked : Int)) := by
    intro hpos
    have hk : (fullRowCount locked : Int) > 0 := by exact_mod_cast hpos
    rw [hadv]
    simp only [if_pos hk]
    rw [update_score_and_level_score _ _ hk]
    simp only [hl3]
  have hzero : fullRowCount locked = 0 → s'.score = s.score := by
    intro h0
    have hk : ¬ (fullRowCount locked : Int) > 0 := by
      rw [h0]
      decide
    rw [hadv]
    simp only [if_neg hk]
    exact hl3
  have hboard : s'.game_board = b' := by
    rw [hadv]
    by_cases hk : (fullRowCount locked : Int) > 0
    · simp only [if_pos hk]
      rw [(update_score_and_level_keeps _ _).1]
    · simp only [if_neg hk]
  have hactive : s'.current_piece.active = false := by
    rw [hadv]
    by_cases hk : (fullRowCount locked : Int) > 0
    · simp only [if_pos hk]
      rw [(update_score_and_level_keeps _ _).2.1]
      exact hl2
    · simp only [if_neg hk]
      exact hl2
  have hexact : INT_MIN ≤ s.score → s.score + scoreTable (fullRowCount locked : Int) ≤ INT_MAX →
      s'.score = s.score + scoreTable (fullRowCount locked : Int) := by
    intro hlo hhi
    rcases Nat.eq_zero_or_pos (fullRowCount locked) with h0 | hpos
    · rw [hzero h0, h0]
      show s.score = s.score + 0
      omega
    · rw [hscore hpos]
      refine wrapInt_of_range _ ?_ hhi
      have : 0 ≤ scoreTable (fullRowCount locked : Int) := by
        unfold scoreTable
        split_ifs <;> omega
      omega
  refine ⟨?_, hactive, by rw [hboard]; exact h2, ?_, hscore, hzero,
    fun hlo hhi => ⟨hexact hlo hhi, fun h1' => ?_⟩, by rw [hadv]⟩
  · intro ha i j
    have hlb2 : locked = lockCells s.game_board s.current_piece := by
      rw [hlocked, (lock_current_piece_fields s).1, if_pos ha]
    rw [hlb2]
    exact lockCells_apply s.game_board s.current_piece i j
  · rw [hboard]
    exact rows_not_full_of_cleared locked b' h2
  · rw [hexact hlo hhi, h1']
    rfl

/-- Test input for C16: the T piece completes the bottom row; the tick scores 100. -/
theorem tetris_lock_and_clear_tick_witness :
    fullRowCount (lock_current_piece landedState).game_board = 1 ∧
    (updateCurrentState landedState 0).1.score = landedState.score + 100 ∧
    (updateCurrentState landedState 0).1.current_fsm_state =
      TetrisFSMState_t.TETRIS_STATE_SPAWN :=
  have h := tetris_lock_and_clear_tick landedState 0 (updateCurrentState landedState 0).1
    (lock_current_piece landedState).game_board rfl rfl rfl rfl rfl rfl
  ⟨by decide, ((h.2.2.2.2.2.2.1 (by decide) (by decide)).2 (by decide)), h.2.2.2.2.2.2.2⟩

/-- Claim C17.  After `spawn_new_piece` the piece has the previous look-ahead type, rotation
0, column 3 and row 0, the look-ahead type lies in 0..6, and board and score are unchanged; when
that placement is not valid on the board the inner state is GameOver, the outer state
LostGameOver, the piece inactive and the high score `max(high score, score)`; when it is valid
the piece is active, the inner state Falling, the outer state Running. -/
theorem tetris_spawn_new_piece (s : Tetris) (rnd : Nat) (s' : Tetris)
    (hs' : s' = spawn_new_piece s rnd) :
    s'.current_piece.type = s.next_piece_type ∧
    s'.current_piece.rotation = 0 ∧
    s'.current_piece.x = 3 ∧
    s'.current_piece.y = 0 ∧
    (0 ≤ s'.next_piece_type ∧ s'.next_piece_type ≤ 6) ∧
    s'.game_board = s.game_board ∧
    s'.score = s.score ∧
    (¬ validPlacement s.game_board 3 0 s.next_piece_type 0 →
      s'.current_fsm_state = TetrisFSMState_t.TETRIS_STATE_GAME_OVER ∧
      s'.overall_game_state = GameState.GAME_OVER_LOSE ∧
      s'.current_piece.active = false ∧
      s'.high_score = max s.high_score s.score) ∧
    (validPlacement s.game_board 3 0 s.next_piece_type 0 →
      s'.current_piece.active = true ∧
      s'.current_fsm_state = TetrisFSMState_t.TETRIS_STATE_MOVING ∧
      s'.overall_game_state = GameState.GAME_RUNNING ∧
      s'.high_score = s.high_score) := by
  have hx : Int.tdiv TETRIS_BOARD_WIDTH 2 - Int.tdiv (TETROMINO_GRID_SIZE : Int) 2 = 3 := by
    decide
  have hnext : 0 ≤ Int.tmod (rnd : Int) NUM_TETROMINO_TYPES ∧
      Int.tmod (rnd : Int) NUM_TETROMINO_TYPES ≤ 6 := by
    unfold NUM_TETROMINO_TYPES
    rw [Int.tmod_eq_emod (by omega) (by norm_num)]
    omega
  subst hs'
  by_cases hv : validPlacement s.game_board 3 0 s.next_piece_type 0
  · have hb := (is_valid_position_iff s.game_board 3 0 s.next_piece_type 0).2 hv
    have e : spawn_new_piece s rnd =
        { s with
            current_piece := { x := 3, y := 0, type := s.next_piece_type, rotation := 0,
                               active := true }
            next_piece_type := Int.tmod (rnd : Int) NUM_TETROMINO_TYPES
            current_fsm_state := TetrisFSMState_t.TETRIS_STATE_MOVING
            overall_game_state := GameState.GAME_RUNNING
            game_timer_ticks := 0 } := by
      unfold spawn_new_piece
      simp only [hx, hb, Bool.not_true, Bool.false_eq_true, if_false]
    rw [e]
    exact ⟨rfl, rfl, rfl, rfl, hnext, rfl, rfl, fun h => absurd hv h,
      fun _ => ⟨rfl, rfl, rfl, rfl⟩⟩
  · have hb := (is_valid_position_false_iff s.game_board 3 0 s.next_piece_type 0).2 hv
    by_cases hh : s.score > s.high_score
    · have e : spawn_new_piece s rnd =
          { s with
              current_piece := { x := 3, y := 0, type := s.next_piece_type, rotation := 0,
                                 active := false }
              next_piece_type := Int.tmod (rnd : Int) NUM_TETROMINO_TYPES
              current_fsm_state := TetrisFSMState_t.TETRIS_STATE_GAME_OVER
              overall_game_state := GameState.GAME_OVER_LOSE
              high_score := s.score
              high_score_file := some s.score
              game_timer_ticks := 0 } := by
        unfold spawn_new_piece
        simp only [hx, hb, Bool.not_false, if_true, if_pos hh, save_high_score_to_file]
      rw [e]
      refine ⟨rfl, rfl, rfl, rfl, hnext, rfl, rfl, fun _ => ⟨rfl, rfl, rfl, ?_⟩,
        fun h => absurd h hv⟩
      show s.score = max s.high_score s.score
      omega
    · have e : spawn_new_piece s rnd =
          { s with
              current_piece := { x := 3, y := 0, type := s.next_piece_type, rotation := 0,
                                 active := false }
              next_piece_type := Int.tmod (rnd : Int) NUM_TETROMINO_TYPES
              current_fsm_state := TetrisFSMState_t.TETRIS_STATE_GAME_OVER
              overall_game_state := GameState.GAME_OVER_LOSE
              game_timer_ticks := 0 } := by
        unfold spawn_new_piece
        simp only [hx, hb, Bool.not_false, if_true, if_neg hh]
      rw [e]
      refine ⟨rfl, rfl, rfl, rfl, hnext, rfl, rfl, fun _ => ⟨rfl, rfl, rfl, ?_⟩,
        fun h => absurd h hv⟩
      show s.high_score = max s.high_score s.score
      omega

/-- Test input for C17: a T piece spawned on the empty board. -/
theorem tetris_spawn_new_piece_witness :
    validPlacement spawnState.game_board 3 0 spawnState.next_piece_type 0 ∧
    (spawn_new_piece spawnState 14).current_piece.active = true ∧
    (spawn_new_piece spawnState 14).current_fsm_state = TetrisFSMState_t.TETRIS_STATE_MOVING ∧
    (spawn_new_piece spawnState 14).overall_game_state = GameState.GAME_RUNNING ∧
    (spawn_new_piece spawnState 14).high_score = spawnState.high_score :=
  ⟨by decide,
    (tetris_spawn_new_piece spawnState 14 (spawn_new_piece spawnState 14) rfl).2.2.2.2.2.2.2.2
      (by decide)⟩

/-- Claim C18.  One `updateCurrentState` call in a Running, unpaused engine in the Falling
state with an active piece: when the placement one row lower is valid the row grows by one and
the inner state stays Falling, otherwise the piece stays and the inner state becomes Locking; in
both cases board, piece type, rotation, column, score and level are unchanged. -/
theorem tetris_gravity_tick (s : Tetris) (rnd : Nat) (s' : Tetris)
    (hinit : s.is_initialized = true)
    (hp : s.paused = false)
    (hrun : s.overall_game_state = GameState.GAME_RUNNING)
    (hfsm : s.current_fsm_state = TetrisFSMState_t.TETRIS_STATE_MOVING)
    (hact : s.current_piece.active = true)
    (hs' : s' = (updateCurrentState s rnd).1) :
    (validPlacement s.game_board s.current_piece.x (s.current_piece.y + 1)
        s.current_piece.type s.current_piece.rotation →
      s'.current_piece = { s.current_piece with y := s.current_piece.y + 1 } ∧
      s'.current_fsm_state = TetrisFSMState_t.TETRIS_STATE_MOVING) ∧
    (¬ validPlacement s.game_board s.current_piece.x (s.current_piece.y + 1)
        s.current_piece.type s.current_piece.rotation →
      s'.current_piece = s.current_piece ∧
      s'.current_fsm_state = TetrisFSMState_t.TETRIS_STATE_LOCKING) ∧
    s'.game_board = s.game_board ∧
    s'.current_piece.type = s.current_piece.type ∧
    s'.current_piece.rotation = s.current_piece.rotation ∧
    s'.current_piece.x = s.current_piece.x ∧
    s'.score = s.score ∧
    s'.level = s.level := by
  obtain ⟨t, ht⟩ : ∃ t : Tetris,
      t = { s with game_timer_ticks := (s.game_timer_ticks + 1) % 2 ^ 64 } := ⟨_, rfl⟩
  have hadv : s' = fsmStep t rnd := by
    rw [hs', ht, ← advance_running s rnd hinit hp hrun]; rfl
  have htf : t.current_fsm_state = TetrisFSMState_t.TETRIS_STATE_MOVING := by
    rw [ht]; exact hfsm
  have hta : t.current_piece.active = true := by rw [ht]; exact hact
  have htb : t.game_board = s.game_board := by rw [ht]
  have htp : t.current_piece = s.current_piece := by rw [ht]
  have hts : t.score = s.score := by rw [ht]
  have htl : t.level = s.level := by rw [ht]
  rw [fsmStep_moving t rnd htf hta, htb, htp] at hadv
  by_cases hv : validPlacement s.game_board s.current_piece.x (s.current_piece.y + 1)
      s.current_piece.type s.current_piece.rotation
  · rw [if_pos ((is_valid_position_iff _ _ _ _ _).2 hv)] at hadv
    rw [hadv]
    exact ⟨fun _ => ⟨rfl, htf⟩, fun h => absurd hv h, rfl, rfl, rfl, rfl, hts, htl⟩
  · rw [if_neg (fun h => hv ((is_valid_position_iff _ _ _ _ _).1 h))] at hadv
    rw [hadv]
    exact ⟨fun h => absurd h hv, fun _ => ⟨rfl, rfl⟩, rfl, rfl, rfl, rfl, hts, htl⟩

/-- Test input for C18: the T piece at the top of the empty board falls by one row. -/
theorem tetris_gravity_tick_witness :
    (updateCurrentState playState 0).1.current_piece =
      { playState.current_piece with y := playState.current_piece.y + 1 } ∧
    (updateCurrentState playState 0).1.current_fsm_state =
      TetrisFSMState_t.TETRIS_STATE_MOVING :=
  (tetris_gravity_tick playState 0 (updateCurrentState playState 0).1 rfl rfl rfl rfl rfl
    rfl).1 (by decide)

/-- Claim C20.  In a Running, unpaused engine in the Falling state with an active piece, Left
proposes the column minus one, Right the column plus one and Action the rotation
`(rotation + 1) mod 4`; when the proposed placement is valid exactly that field of the piece is
updated and the rest of the engine is unchanged, and when it is not the whole engine is
unchanged. -/
theorem tetris_shift_and_rotate (s : Tetris) (hold : Bool) (rnd : Nat)
    (hinit : s.is_initialized = true)
    (hp : s.paused = false)
    (_hrun : s.overall_game_state = GameState.GAME_RUNNING)
    (hfsm : s.current_fsm_state = TetrisFSMState_t.TETRIS_STATE_MOVING)
    (hact : s.current_piece.active = true) :
    (validPlacement s.game_board (s.current_piece.x - 1) s.current_piece.y
        s.current_piece.type s.current_piece.rotation →
      userInput s UserAction_t.Left hold rnd =
        { s with current_piece := { s.current_piece with x := s.current_piece.x - 1 } }) ∧
    (¬ validPlacement s.game_board (s.current_piece.x - 1) s.current_piece.y
        s.current_piece.type s.current_piece.rotation →
      userInput s UserAction_t.Left hold rnd = s) ∧
    (validPlacement s.game_board (s.current_piece.x + 1) s.current_piece.y
        s.current_piece.type s.current_piece.rotation →
      userInput s UserAction_t.Right hold rnd =
        { s with current_piece := { s.current_piece with x := s.current_piece.x + 1 } }) ∧
    (¬ validPlacement s.game_board (s.current_piece.x + 1) s.current_piece.y
        s.current_piece.type s.current_piece.rotation →
      userInput s UserAction_t.Right hold rnd = s) ∧
    (validPlacement s.game_board s.current_piece.x s.current_piece.y s.current_piece.type
        (Int.tmod (s.current_piece.rotation + 1) 4) →
      userInput s UserAction_t.Action hold rnd =
        { s with
            current_piece :=
              { s.current_piece with rotation := Int.tmod (s.current_piece.rotation + 1) 4 } }) ∧
    (¬ validPlacement s.game_board s.current_piece.x s.current_piece.y s.current_piece.type
        (Int.tmod (s.current_piece.rotation + 1) 4) →
      userInput s UserAction_t.Action hold rnd = s) ∧
    (0 ≤ s.current_piece.rotation →
      Int.tmod (s.current_piece.rotation + 1) 4 = (s.current_piece.rotation + 1) % 4) := by
  have hmove : ∀ action : UserAction_t, action ≠ UserAction_t.Terminate →
      action ≠ UserAction_t.Start → action ≠ UserAction_t.Pause →
      action ≠ UserAction_t.Down →
      userInput s action hold rnd =
        if is_valid_position s.game_board
            (if action = UserAction_t.Left then s.current_piece.x - 1
              else if action = UserAction_t.Right then s.current_piece.x + 1
              else s.current_piece.x)
            s.current_piece.y s.current_piece.type
            (if action = UserAction_t.Action then
              Int.tmod (s.current_piece.rotation + 1) NUM_TETROMINO_ROTATIONS
              else s.current_piece.rotation) = true then
          { s with
              current_piece :=
                { s.current_piece with
                    x := (if action = UserAction_t.Left then s.current_piece.x - 1
                      else if action = UserAction_t.Right then s.current_piece.x + 1
                      else s.current_piece.x)
                    rotation := (if action = UserAction_t.Action then
                      Int.tmod (s.current_piece.rotation + 1) NUM_TETROMINO_ROTATIONS
                      else s.current_piece.rotation) } }
        else s := by
    intro action h1 h2 h3 h4
    unfold userInput lazyInit
    simp only [hinit, Bool.not_true, Bool.false_eq_true, if_false, h1, h2, h3, h4, hfsm, hp,
      hact, and_self, if_true, false_or]
    simp
  refine ⟨?_, ?_, ?_, ?_, ?_, ?_, ?_⟩
  · intro hv
    rw [hmove UserAction_t.Left (by decide) (by decide) (by decide) (by decide)]
    simp only [if_true, if_false, if_neg (show ¬ UserAction_t.Left = UserAction_t.Action by decide)]
    rw [if_pos ((is_valid_position_iff _ _ _ _ _).2 hv)]
  · intro hv
    rw [hmove UserAction_t.Left (by decide) (by decide) (by decide) (by decide)]
    simp only [if_true, if_false, if_neg (show ¬ UserAction_t.Left = UserAction_t.Action by decide)]
    rw [if_neg (fun h => hv ((is_valid_position_iff _ _ _ _ _).1 h))]
  · intro hv
    rw [hmove UserAction_t.Right (by decide) (by decide) (by decide) (by decide)]
    simp only [if_true, if_false,
      if_neg (show ¬ UserAction_t.Right = UserAction_t.Action by decide),
      if_neg (show ¬ UserAction_t.Right = UserAction_t.Left by decide)]
    rw [if_pos ((is_valid_position_iff _ _ _ _ _).2 hv)]
  · intro hv
    rw [hmove UserAction_t.Right (by decide) (by decide) (by decide) (by decide)]
    simp only [if_true, if_false,
      if_neg (show ¬ UserAction_t.Right = UserAction_t.Action by decide),
      if_neg (show ¬ UserAction_t.Right = UserAction_t.Left by decide)]
    rw [if_neg (fun h => hv ((is_valid_position_iff _ _ _ _ _).1 h))]
  · intro hv
    rw [hmove UserAction_t.Action (by decide) (by decide) (by decide) (by decide)]
    simp only [if_true, if_false,
      if_neg (show ¬ UserAction_t.Action = UserAction_t.Right by decide),
      if_neg (show ¬ UserAction_t.Action = UserAction_t.Left by decide)]
    have hv' : validPlacement s.game_board s.current_piece.x s.current_piece.y
        s.current_piece.type
        (Int.tmod (s.current_piece.rotation + 1) NUM_TETROMINO_ROTATIONS) := hv
    rw [if_pos ((is_valid_position_iff _ _ _ _ _).2 hv')]
    rfl
  · intro hv
    rw [hmove UserAction_t.Action (by decide) (by decide) (by decide) (by decide)]
    simp only [if_true, if_false,
      if_neg (show ¬ UserAction_t.Action = UserAction_t.Right by decide),
      if_neg (show ¬ UserAction_t.Action = UserAction_t.Left by decide)]
    have hv' : ¬ validPlacement s.game_board s.current_piece.x s.current_piece.y
        s.current_piece.type
        (Int.tmod (s.current_piece.rotation + 1) NUM_TETROMINO_ROTATIONS) := hv
    rw [if_neg (fun h => hv' ((is_valid_position_iff _ _ _ _ _).1 h))]
  · intro h
    exact Int.tmod_eq_emod (by omega) (by norm_num)

/-- Test input for C20: on the empty board Left moves the T piece one column; against the
left wall Left is rejected. -/
theorem tetris_shift_and_rotate_witness :
    userInput playState UserAction_t.Left false 0 =
      { playState with
          current_piece := { playState.current_piece with x := playState.current_piece.x - 1 } } ∧
    userInput leftWallState UserAction_t.Left false 0 = leftWallState :=
  ⟨(tetris_shift_and_rotate playState false 0 rfl rfl rfl rfl rfl).1 (by decide),
    (tetris_shift_and_rotate leftWallState false 0 rfl rfl rfl rfl rfl).2.1 (by decide)⟩

/-! ## Actions and runs of the Tetris engine: lemmas and claims -/

theorem lazyInit_of_initialized (s : Tetris) (rnd : Nat) (h : s.is_initialized = true) :
    lazyInit s rnd = s := by
  unfold lazyInit
  rw [h]
  rfl

theorem lazyInit_initialized (s : Tetris) (rnd : Nat) :
    (lazyInit s rnd).is_initialized = true := by
  unfold lazyInit
  cases h : s.is_initialized
  · rfl
  · exact h

theorem userInput_lazyInit (s : Tetris) (action : UserAction_t) (hold : Bool) (rnd : Nat) :
    userInput s action hold rnd = userInput (lazyInit s rnd) action hold rnd := by
  have h : lazyInit (lazyInit s rnd) rnd = lazyInit s rnd :=
    lazyInit_of_initialized _ _ (lazyInit_initialized s rnd)
  unfold userInput
  rw [h]

theorem advance_lazyInit (s : Tetris) (rnd : Nat) :
    advance s rnd = advance (lazyInit s rnd) rnd := by
  have h : lazyInit (lazyInit s rnd) rnd = lazyInit s rnd :=
    lazyInit_of_initialized _ _ (lazyInit_initialized s rnd)
  unfold advance
  rw [h]

theorem userInput_down (s : Tetris) (hold : Bool) (rnd : Nat)
    (hinit : s.is_initialized = true) (hp : s.paused = false)
    (hfsm : s.current_fsm_state = TetrisFSMState_t.TETRIS_STATE_MOVING)
    (hact : s.current_piece.active = true) :
    userInput s UserAction_t.Down hold rnd =
      if is_valid_position s.game_board s.current_piece.x (s.current_piece.y + 1)
          s.current_piece.type s.current_piece.rotation = true then
        { s with
            game_timer_ticks := 0
            current_piece := { s.current_piece with y := s.current_piece.y + 1 } }
      else
        { s with
            game_timer_ticks := 0
            current_fsm_state := TetrisFSMState_t.TETRIS_STATE_LOCKING } := by
  unfold userInput
  rw [lazyInit_of_initialized s rnd hinit]
  simp only [hfsm, hp, hact, and_self, if_true, false_or]
  simp

/-- Claim C21.  In a Running, unpaused engine in the Falling state with an active piece, Down
moves the piece one row lower and stays in the Falling state when the placement one row lower
is valid, and otherwise leaves the piece where it is and moves the inner state machine to
Locking within the call; both cases restart the tick counter and change nothing else, so the
board and the score are as before. -/
theorem tetris_soft_drop (s : Tetris) (hold : Bool) (rnd : Nat)
    (hinit : s.is_initialized = true)
    (hp : s.paused = false)
    (_hrun : s.overall_game_state = GameState.GAME_RUNNING)
    (hfsm : s.current_fsm_state = TetrisFSMState_t.TETRIS_STATE_MOVING)
    (hact : s.current_piece.active = true) :
    (validPlacement s.game_board s.current_piece.x (s.current_piece.y + 1)
        s.current_piece.type s.current_piece.rotation →
      userInput s UserAction_t.Down hold rnd =
        { s with
            game_timer_ticks := 0
            current_piece := { s.current_piece with y := s.current_piece.y + 1 } } ∧
      (userInput s UserAction_t.Down hold rnd).current_fsm_state =
        TetrisFSMState_t.TETRIS_STATE_MOVING) ∧
    (¬ validPlacement s.game_board s.current_piece.x (s.current_piece.y + 1)
        s.current_piece.type s.current_piece.rotation →
      userInput s UserAction_t.Down hold rnd =
        { s with
            game_timer_ticks := 0
            current_fsm_state := TetrisFSMState_t.TETRIS_STATE_LOCKING } ∧
      (userInput s UserAction_t.Down hold rnd).current_piece = s.current_piece) ∧
    (userInput s UserAction_t.Down hold rnd).game_board = s.game_board ∧
    (userInput s UserAction_t.Down hold rnd).score = s.score := by
  have e := userInput_down s hold rnd hinit hp hfsm hact
  by_cases hv : validPlacement s.game_board s.current_piece.x (s.current_piece.y + 1)
      s.current_piece.type s.current_piece.rotation
  · rw [if_pos ((is_valid_position_iff _ _ _ _ _).2 hv)] at e
    rw [e]
    exact ⟨fun _ => ⟨rfl, hfsm⟩, fun h => absurd hv h, rfl, rfl⟩
  · rw [if_neg (fun h => hv ((is_valid_position_iff _ _ _ _ _).1 h))] at e
    rw [e]
    exact ⟨fun h => absurd h hv, fun _ => ⟨rfl, rfl⟩, rfl, rfl⟩

/-- Test input for C21: Down on the T piece at the top of the empty board keeps the Falling
state, and Down on the T piece resting on the floor leaves the piece where it is. -/
theorem tetris_soft_drop_witness :
    (userInput playState UserAction_t.Down false 0).current_fsm_state =
      TetrisFSMState_t.TETRIS_STATE_MOVING ∧
    (userInput flooredState UserAction_t.Down false 0).current_piece =
      flooredState.current_piece :=
  ⟨((tetris_soft_drop playState false 0 rfl rfl rfl rfl rfl).1 (by decide)).2,
    ((tetris_soft_drop flooredState false 0 rfl rfl rfl rfl rfl).2.1 (by decide)).2⟩

theorem any_range_four (p : Nat → Bool) :
    (List.range 4).any p = true ↔ ∃ k < 4, p k = true := by
  simp [List.any_eq_true, List.mem_range]

theorem copy_board_to_game_info_field_apply (s : Tetris) (r : Fin 20) (c : Fin 10) :
    copy_board_to_game_info_field s r c =
      if s.current_piece.active = true ∧ pieceCell s.current_piece r.val c.val then BODY
      else s.game_board r c := by
  have hiff : ((List.range TETROMINO_GRID_SIZE).any (fun pr =>
          (List.range TETROMINO_GRID_SIZE).any (fun pc =>
            decide (shapeAt s.current_piece.type s.current_piece.rotation pr pc = 1 ∧
              s.current_piece.y + pr = r.val ∧ s.current_piece.x + pc = c.val))) = true) ↔
      pieceCell s.current_piece r.val c.val := by
    unfold pieceCell TETROMINO_GRID_SIZE
    rw [any_range_four]
    constructor
    · rintro ⟨pr, hpr, h⟩
      rw [any_range_four] at h
      obtain ⟨pc, hpc, h⟩ := h
      have h' := of_decide_eq_true h
      exact ⟨pr, hpr, pc, hpc, h'.1, h'.2.1.symm, h'.2.2.symm⟩
    · rintro ⟨pr, hpr, pc, hpc, h1, h2, h3⟩
      refine ⟨pr, hpr, ?_⟩
      rw [any_range_four]
      exact ⟨pc, hpc, decide_eq_true ⟨h1, h2.symm, h3.symm⟩⟩
  unfold copy_board_to_game_info_field
  by_cases h : s.current_piece.active = true ∧ pieceCell s.current_piece r.val c.val
  · rw [if_pos h, if_pos ⟨h.1, hiff.2 h.2⟩]
  · rw [if_neg h, if_neg (fun h' => h ⟨h'.1, hiff.1 h'.2⟩)]

/-- Claim C26.  The state left by `updateCurrentState` is the one produced by its state
machine, so building the snapshot changes no committed cell; in the snapshot, `field[r][c]`
is `BODY` when the piece is active and `(r, c)` is one of its occupied cells and otherwise
the committed board cell, and `next[r][c]` is `BODY` where the rotation-0 shape of the
look-ahead type has a block and `EMPTY` elsewhere. -/
theorem tetris_snapshot_composition (s0 : Tetris) (rnd : Nat) :
    (updateCurrentState s0 rnd).1 = advance s0 rnd ∧
    (∀ (r : Fin 20) (c : Fin 10),
      (updateCurrentState s0 rnd).2.field r c =
        if (updateCurrentState s0 rnd).1.current_piece.active = true ∧
            pieceCell (updateCurrentState s0 rnd).1.current_piece r.val c.val then BODY
        else (updateCurrentState s0 rnd).1.game_board r c) ∧
    (∀ (r c : Fin 4),
      (updateCurrentState s0 rnd).2.next r c =
        if shapeAt (updateCurrentState s0 rnd).1.next_piece_type 0 r.val c.val = 1 then BODY
        else EMPTY) :=
  ⟨rfl, fun r c => copy_board_to_game_info_field_apply (advance s0 rnd) r c, fun _ _ => rfl⟩

/-- Test input for C26: the snapshot of the T piece fallen to row 1 of the empty board, and the
preview of the I piece. -/
theorem tetris_snapshot_composition_witness :
    (updateCurrentState playState 0).2.field 1 4 = BODY ∧
    (updateCurrentState playState 0).2.field 5 5 = EMPTY ∧
    (updateCurrentState playState 0).2.next 1 1 = BODY := by
  have h := tetris_snapshot_composition playState 0
  refine ⟨?_, ?_, ?_⟩
  · rw [h.2.1]; decide
  · rw [h.2.1]; decide
  · rw [h.2.2]; decide

theorem advance_frozen (s : Tetris) (rnd : Nat) (hinit : s.is_initialized = true)
    (h : s.overall_game_state = GameState.TERMINATE_GAME ∨
      (s.paused = true ∧ s.overall_game_state = GameState.PAUSED) ∨
      (s.paused = false ∧ (s.overall_game_state = GameState.START_SCREEN ∨
        s.overall_game_state = GameState.GAME_OVER_LOSE))) :
    advance s rnd = s := by
  unfold advance
  rw [lazyInit_of_initialized s rnd hinit]
  rcases h with h | ⟨hp, h⟩ | ⟨hp, h | h⟩
  · simp [h]
  · cases s
    simp only at hp h
    subst hp h
    simp
  · simp [h, hp]
  · simp [h, hp]

theorem userInput_terminate (s : Tetris) (hold : Bool) (rnd : Nat)
    (hinit : s.is_initialized = true) :
    userInput s UserAction_t.Terminate hold rnd =
      { s with
          current_fsm_state := TetrisFSMState_t.TETRIS_STATE_GAME_OVER
          overall_game_state := GameState.TERMINATE_GAME
          high_score_file :=
            if s.score > s.high_score then some s.high_score else s.high_score_file } := by
  unfold userInput
  rw [lazyInit_of_initialized s rnd hinit]
  by_cases h : s.score > s.high_score
  · simp [h, save_high_score_to_file]
  · simp [h]

theorem userInput_ignored (s : Tetris) (action : UserAction_t) (hold : Bool) (rnd : Nat)
    (hinit : s.is_initialized = true)
    (ht : action ≠ UserAction_t.Terminate) (hs : action ≠ UserAction_t.Start)
    (h : s.current_fsm_state = TetrisFSMState_t.TETRIS_STATE_START_SCREEN ∨
      s.current_fsm_state = TetrisFSMState_t.TETRIS_STATE_GAME_OVER ∨
      (action ≠ UserAction_t.Pause ∧ s.paused = true)) :
    userInput s action hold rnd = s := by
  unfold userInput
  rw [lazyInit_of_initialized s rnd hinit]
  simp only [ht, hs, if_false]
  rcases h with h | h | ⟨hp, h⟩
  · simp [h]
  · simp [h]
  · simp only [hp, h, if_false, if_true]
    split_ifs <;> rfl

theorem terminated_step (t : Tetris) (hinit : t.is_initialized = true)
    (hfsm : t.current_fsm_state = TetrisFSMState_t.TETRIS_STATE_GAME_OVER)
    (hov : t.overall_game_state = GameState.TERMINATE_GAME)
    (hfile : t.score > t.high_score → t.high_score_file = some t.high_score)
    (e : Event) (he : ¬ e.isStart) : step t e = t := by
  cases e with
  | tick rnd => exact advance_frozen t rnd hinit (Or.inl hov)
  | input action hold rnd =>
    by_cases ht : action = UserAction_t.Terminate
    · subst ht
      show userInput t UserAction_t.Terminate hold rnd = t
      rw [userInput_terminate t hold rnd hinit]
      obtain ⟨gb, cp, np, sc, hs, lv, sp, pa, fs, os, tk, lc, ii, hf⟩ := t
      simp only at hfsm hov hfile
      subst hfsm hov
      by_cases h : sc > hs
      · simp [h, hfile h]
      · simp [h]
    · exact userInput_ignored t action hold rnd hinit ht he (Or.inr (Or.inl hfsm))

theorem run_fixed (t : Tetris) (p : Event → Prop) (h : ∀ e, p e → step t e = t) :
    ∀ events : List Event, (∀ e ∈ events, p e) → run t events = t := by
  intro events
  induction events with
  | nil => intro _; rfl
  | cons e es ih =>
    intro hall
    show run (step t e) es = t
    rw [h e (hall e (List.mem_cons_self _ _))]
    exact ih (fun e' he' => hall e' (List.mem_cons_of_mem _ he'))

/-- Claim C25.  From every state, the uninitialised one included, Terminate sets the outer
state to Terminated and leaves the board, the piece, the score, the level and the step
interval as the lazy initialisation of the call found or made them; afterwards every tick,
and every action other than Start, leaves the whole engine as it is. -/
theorem tetris_terminate_is_final (s0 : Tetris) (hold : Bool) (rnd : Nat)
    (events : List Event) (hev : ∀ e ∈ events, ¬ e.isStart) :
    (userInput s0 UserAction_t.Terminate hold rnd).overall_game_state =
      GameState.TERMINATE_GAME ∧
    (userInput s0 UserAction_t.Terminate hold rnd).game_board = (lazyInit s0 rnd).game_board ∧
    (userInput s0 UserAction_t.Terminate hold rnd).current_piece =
      (lazyInit s0 rnd).current_piece ∧
    (userInput s0 UserAction_t.Terminate hold rnd).score = (lazyInit s0 rnd).score ∧
    (userInput s0 UserAction_t.Terminate hold rnd).level = (lazyInit s0 rnd).level ∧
    (userInput s0 UserAction_t.Terminate hold rnd).game_speed_ms =
      (lazyInit s0 rnd).game_speed_ms ∧
    (s0.is_initialized = true → lazyInit s0 rnd = s0) ∧
    run (userInput s0 UserAction_t.Terminate hold rnd) events =
      userInput s0 UserAction_t.Terminate hold rnd := by
  have e := userInput_terminate (lazyInit s0 rnd) hold rnd (lazyInit_initialized s0 rnd)
  rw [← userInput_lazyInit] at e
  refine ⟨?_, ?_, ?_, ?_, ?_, ?_, lazyInit_of_initialized s0 rnd, ?_⟩
  · rw [e]
  · rw [e]
  · rw [e]
  · rw [e]
  · rw [e]
  · rw [e]
  · refine run_fixed _ (fun e => ¬ e.isStart) (fun ev hev' => ?_) events hev
    refine terminated_step _ ?_ ?_ ?_ ?_ ev hev'
    · rw [e]; exact lazyInit_initialized s0 rnd
    · rw [e]
    · rw [e]
    · rw [e]
      intro h
      exact if_pos h

/-- Test input for C25: Terminate in the middle of a game, followed by a tick, Down and a
tick. -/
theorem tetris_terminate_is_final_witness :
    (userInput playState UserAction_t.Terminate false 0).overall_game_state =
      GameState.TERMINATE_GAME ∧
    run (userInput playState UserAction_t.Terminate false 0)
        [Event.tick 1, Event.input UserAction_t.Down true 2, Event.tick 3] =
      userInput playState UserAction_t.Terminate false 0 :=
  ⟨(tetris_terminate_is_final playState false 0 [] (by simp)).1,
    (tetris_terminate_is_final playState false 0
      [Event.tick 1, Event.input UserAction_t.Down true 2, Event.tick 3]
      (by simp [Event.isStart])).2.2.2.2.2.2.2⟩

theorem userInput_pause (s : Tetris) (hold : Bool) (rnd : Nat)
    (hinit : s.is_initialized = true)
    (h1 : s.current_fsm_state ≠ TetrisFSMState_t.TETRIS_STATE_START_SCREEN)
    (h2 : s.current_fsm_state ≠ TetrisFSMState_t.TETRIS_STATE_GAME_OVER) :
    userInput s UserAction_t.Pause hold rnd =
      if s.paused = false then
        { s with paused := true, overall_game_state := GameState.PAUSED }
      else
        { s with
            paused := false
            overall_game_state := GameState.GAME_RUNNING
            game_timer_ticks := 0 } := by
  unfold userInput
  rw [lazyInit_of_initialized s rnd hinit]
  cases hp : s.paused <;> simp [h1, h2, hp]

theorem paused_step (p : Tetris) (hinit : p.is_initialized = true)
    (hp : p.paused = true) (hov : p.overall_game_state = GameState.PAUSED)
    (e : Event) (he : e.playOnly) : step p e = p := by
  cases e with
  | tick rnd => exact advance_frozen p rnd hinit (Or.inr (Or.inl ⟨hp, hov⟩))
  | input action hold rnd =>
    have ha : action ≠ UserAction_t.Terminate ∧ action ≠ UserAction_t.Start ∧
        action ≠ UserAction_t.Pause := by
      rcases he with h | h | h | h | h <;> subst h <;> decide
    exact userInput_ignored p action hold rnd hinit ha.1 ha.2.1 (Or.inr (Or.inr ⟨ha.2.2, hp⟩))

/-- Claim C24.  In an initialised engine whose inner state is neither StartScreen nor GameOver
and that is not paused, Pause sets the paused flag; then every sequence of ticks and of the
actions Left, Right, Up, Down and Action leaves the whole engine as Pause left it, with the
board, the piece, the score, the level, the step interval and the inner state of before the
Pause; the snapshot of a tick reports the state Paused with `pause = 1`; and a second Pause
clears the flag and gives the engine of before the first Pause with outer state Running and
the tick counter restarted. -/
theorem tetris_pause_freeze (s : Tetris) (hold hold2 : Bool) (rnd rnd2 rnd3 : Nat)
    (events : List Event)
    (hinit : s.is_initialized = true)
    (hfsm1 : s.current_fsm_state ≠ TetrisFSMState_t.TETRIS_STATE_START_SCREEN)
    (hfsm2 : s.current_fsm_state ≠ TetrisFSMState_t.TETRIS_STATE_GAME_OVER)
    (hp : s.paused = false)
    (hev : ∀ e ∈ events, e.playOnly) :
    (userInput s UserAction_t.Pause hold rnd).paused = true ∧
    run (userInput s UserAction_t.Pause hold rnd) events =
      userInput s UserAction_t.Pause hold rnd ∧
    (run (userInput s UserAction_t.Pause hold rnd) events).game_board = s.game_board ∧
    (run (userInput s UserAction_t.Pause hold rnd) events).current_piece = s.current_piece ∧
    (run (userInput s UserAction_t.Pause hold rnd) events).score = s.score ∧
    (run (userInput s UserAction_t.Pause hold rnd) events).level = s.level ∧
    (run (userInput s UserAction_t.Pause hold rnd) events).game_speed_ms = s.game_speed_ms ∧
    (run (userInput s UserAction_t.Pause hold rnd) events).current_fsm_state =
      s.current_fsm_state ∧
    (updateCurrentState (run (userInput s UserAction_t.Pause hold rnd) events)
      rnd3).2.current_game_state = GameState.PAUSED ∧
    (updateCurrentState (run (userInput s UserAction_t.Pause hold rnd) events) rnd3).2.pause = 1 ∧
    userInput (run (userInput s UserAction_t.Pause hold rnd) events) UserAction_t.Pause hold2
        rnd2 =
      { s with overall_game_state := GameState.GAME_RUNNING, game_timer_ticks := 0 } := by
  have e : userInput s UserAction_t.Pause hold rnd =
      { s with paused := true, overall_game_state := GameState.PAUSED } := by
    rw [userInput_pause s hold rnd hinit hfsm1 hfsm2, if_pos hp]
  obtain ⟨p, hpdef⟩ : ∃ p : Tetris,
      p = { s with paused := true, overall_game_state := GameState.PAUSED } := ⟨_, rfl⟩
  rw [← hpdef] at e
  have hpi : p.is_initialized = true := by rw [hpdef]; exact hinit
  have hpp : p.paused = true := by rw [hpdef]
  have hpo : p.overall_game_state = GameState.PAUSED := by rw [hpdef]
  have hrun : run p events = p :=
    run_fixed p Event.playOnly (fun ev h => paused_step p hpi hpp hpo ev h) events hev
  have hadv : advance p rnd3 = p := advance_frozen p rnd3 hpi (Or.inr (Or.inl ⟨hpp, hpo⟩))
  have h2 : userInput p UserAction_t.Pause hold2 rnd2 =
      { s with overall_game_state := GameState.GAME_RUNNING, game_timer_ticks := 0 } := by
    rw [userInput_pause p hold2 rnd2 hpi (by rw [hpdef]; exact hfsm1)
      (by rw [hpdef]; exact hfsm2), if_neg (by rw [hpp]; decide), hpdef]
    obtain ⟨gb, cp, np, sc, hs, lv, sp, pa, fs, os, tk, lc, ii, hf⟩ := s
    simp only at hp
    subst hp
    rfl
  rw [e, hrun]
  refine ⟨hpp, rfl, ?_, ?_, ?_, ?_, ?_, ?_, ?_, ?_, h2⟩
  · rw [hpdef]
  · rw [hpdef]
  · rw [hpdef]
  · rw [hpdef]
  · rw [hpdef]
  · rw [hpdef]
  · show (advance p rnd3).overall_game_state = GameState.PAUSED
    rw [hadv]; exact hpo
  · show (if (advance p rnd3).paused = true then (1 : Int) else 0) = 1
    rw [hadv, if_pos hpp]

/-- Test input for C24: Pause in the middle of a game, then a tick, Left, Action and a tick,
then Pause again. -/
theorem tetris_pause_freeze_witness :
    run (userInput playState UserAction_t.Pause false 0)
        [Event.tick 1, Event.input UserAction_t.Left false 2,
          Event.input UserAction_t.Action true 3, Event.tick 4] =
      userInput playState UserAction_t.Pause false 0 ∧
    userInput (run (userInput playState UserAction_t.Pause false 0)
        [Event.tick 1, Event.input UserAction_t.Left false 2,
          Event.input UserAction_t.Action true 3, Event.tick 4]) UserAction_t.Pause false 5 =
      { playState with overall_game_state := GameState.GAME_RUNNING, game_timer_ticks := 0 } :=
  ⟨(tetris_pause_freeze playState false false 0 5 6
      [Event.tick 1, Event.input UserAction_t.Left false 2,
        Event.input UserAction_t.Action true 3, Event.tick 4]
      rfl (by decide) (by decide) rfl (by simp [Event.playOnly])).2.1,
    (tetris_pause_freeze playState false false 0 5 6
      [Event.tick 1, Event.input UserAction_t.Left false 2,
        Event.input UserAction_t.Action true 3, Event.tick 4]
      rfl (by decide) (by decide) rfl (by simp [Event.playOnly])).2.2.2.2.2.2.2.2.2.2⟩

theorem calculate_speed_from_level_frame (s : Tetris) :
    (calculate_speed_from_level s).paused = s.paused ∧
    (calculate_speed_from_level s).overall_game_state = s.overall_game_state ∧
    (calculate_speed_from_level s).is_initialized = s.is_initialized ∧
    (calculate_speed_from_level s).high_score_file = s.high_score_file ∧
    (calculate_speed_from_level s).next_piece_type = s.next_piece_type := by
  unfold calculate_speed_from_level
  simp only
  split_ifs <;> simp

theorem update_score_and_level_frame (s : Tetris) (n : Int) :
    (update_score_and_level s n).paused = s.paused ∧
    (update_score_and_level s n).overall_game_state = s.overall_game_state ∧
    (update_score_and_level s n).is_initialized = s.is_initialized ∧
    (update_score_and_level s n).high_score_file = s.high_score_file := by
  by_cases hn : n > 0
  · rw [update_score_and_level_pos s n hn]
    by_cases hc : Int.tdiv (scored s n).score 600 >
        Int.tdiv (wrapInt ((scored s n).score - prevPoints n)) 600 ∧ s.level < 10
    · rw [if_pos hc]
      have hk := calculate_speed_from_level_frame
        { scored s n with
            level :=
              if Int.tdiv (scored s n).score 600 + 1 > 10 then 10
              else Int.tdiv (scored s n).score 600 + 1 }
      exact ⟨hk.1, hk.2.1, hk.2.2.1, hk.2.2.2.1⟩
    · rw [if_neg hc]
      exact ⟨rfl, rfl, rfl, rfl⟩
  · unfold update_score_and_level
    rw [if_neg hn]
    exact ⟨rfl, rfl, rfl, rfl⟩

theorem update_score_and_level_scored (s : Tetris) (n : Int) (hn : n > 0) :
    (update_score_and_level s n).score = (scored s n).score ∧
    (update_score_and_level s n).high_score = (scored s n).high_score := by
  rw [update_score_and_level_pos s n hn]
  by_cases hc : Int.tdiv (scored s n).score 600 >
      Int.tdiv (wrapInt ((scored s n).score - prevPoints n)) 600 ∧ s.level < 10
  · rw [if_pos hc, (calculate_speed_from_level_keeps _).1,
      (calculate_speed_from_level_keeps _).2.1]
    exact ⟨rfl, rfl⟩
  · rw [if_neg hc]
    exact ⟨rfl, rfl⟩

theorem update_score_and_level_high_score (s : Tetris) (n : Int) (hn : n > 0) :
    (update_score_and_level s n).high_score =
      max s.high_score (update_score_and_level s n).score := by
  obtain ⟨e1, e2⟩ := update_score_and_level_scored s n hn
  rw [e1, e2]
  show (if wrapInt (s.score + linePoints n) > s.high_score then wrapInt (s.score + linePoints n)
    else s.high_score) = max s.high_score (wrapInt (s.score + linePoints n))
  split_ifs with h
  · exact (max_eq_right (le_of_lt h)).symm
  · exact (max_eq_left (not_lt.1 h)).symm

theorem calculate_speed_from_level_stats (t : Tetris) :
    1 ≤ (calculate_speed_from_level t).level ∧ (calculate_speed_from_level t).level ≤ 10 ∧
    (calculate_speed_from_level t).game_speed_ms =
      500 - 40 * ((calculate_speed_from_level t).level - 1) := by
  unfold calculate_speed_from_level MAX_LEVEL INITIAL_SPEED_MS
  by_cases h10 : t.level > 10
  · simp [h10]
  · by_cases h1 : t.level < 1
    · simp [h10, h1]
    · have h50 : ¬ (500 - (t.level - 1) * 40 < 50) := by omega
      simp only [h10, h1, h50, if_false]
      refine ⟨by omega, by omega, ?_⟩
      ring

theorem tetrisStats_update_score_and_level (s : Tetris) (n : Int) (h : tetrisStats s) :
    tetrisStats (update_score_and_level s n) := by
  by_cases hn : n > 0
  · obtain ⟨_, _, h1, h10, hsp⟩ := h
    have hsc := update_score_and_level_score s n hn
    have hr := wrapInt_range (s.score + scoreTable n)
    unfold tetrisStats
    rw [hsc]
    refine ⟨hr.1, hr.2, ?_⟩
    rw [update_score_and_level_pos s n hn]
    by_cases hc : Int.tdiv (scored s n).score 600 >
        Int.tdiv (wrapInt ((scored s n).score - prevPoints n)) 600 ∧ s.level < 10
    · rw [if_pos hc]
      exact calculate_speed_from_level_stats _
    · rw [if_neg hc]
      exact ⟨h1, h10, hsp⟩
  · rw [update_score_and_level_nonpos s n (by omega)]
    exact h

theorem lock_current_piece_frame (t : Tetris) :
    (lock_current_piece t).score = t.score ∧
    (lock_current_piece t).high_score = t.high_score ∧
    (lock_current_piece t).level = t.level ∧
    (lock_current_piece t).game_speed_ms = t.game_speed_ms ∧
    (lock_current_piece t).paused = t.paused ∧
    (lock_current_piece t).overall_game_state = t.overall_game_state ∧
    (lock_current_piece t).is_initialized = t.is_initialized ∧
    (lock_current_piece t).high_score_file = t.high_score_file := by
  unfold lock_current_piece
  by_cases ha : t.current_piece.active = true
  · simp [ha]
  · simp [ha]

theorem clear_completed_lines_frame (t : Tetris) :
    (clear_completed_lines t).1.score = t.score ∧
    (clear_completed_lines t).1.high_score = t.high_score ∧
    (clear_completed_lines t).1.level = t.level ∧
    (clear_completed_lines t).1.game_speed_ms = t.game_speed_ms ∧
    (clear_completed_lines t).1.paused = t.paused ∧
    (clear_completed_lines t).1.overall_game_state = t.overall_game_state ∧
    (clear_completed_lines t).1.is_initialized = t.is_initialized ∧
    (clear_completed_lines t).1.high_score_file = t.high_score_file := by
  obtain ⟨b', h, _⟩ := clear_completed_lines_eq t
  rw [h]
  exact ⟨rfl, rfl, rfl, rfl, rfl, rfl, rfl, rfl⟩

theorem spawn_new_piece_eq (s : Tetris) (rnd : Nat) :
    (validPlacement s.game_board 3 0 s.next_piece_type 0 →
      spawn_new_piece s rnd =
        { s with
            current_piece := { x := 3, y := 0, type := s.next_piece_type, rotation := 0,
                               active := true }
            next_piece_type := Int.tmod (rnd : Int) NUM_TETROMINO_TYPES
            current_fsm_state := TetrisFSMState_t.TETRIS_STATE_MOVING
            overall_game_state := GameState.GAME_RUNNING
            game_timer_ticks := 0 }) ∧
    (¬ validPlacement s.game_board 3 0 s.next_piece_type 0 →
      spawn_new_piece s rnd =
        { s with
            current_piece := { x := 3, y := 0, type := s.next_piece_type, rotation := 0,
                               active := false }
            next_piece_type := Int.tmod (rnd : Int) NUM_TETROMINO_TYPES
            current_fsm_state := TetrisFSMState_t.TETRIS_STATE_GAME_OVER
            overall_game_state := GameState.GAME_OVER_LOSE
            high_score := if s.score > s.high_score then s.score else s.high_score
            high_score_file :=
              if s.score > s.high_score then some s.score else s.high_score_file
            game_timer_ticks := 0 }) := by
  have hx : Int.tdiv TETRIS_BOARD_WIDTH 2 - Int.tdiv (TETROMINO_GRID_SIZE : Int) 2 = 3 := by
    decide
  constructor
  · intro hv
    have hb := (is_valid_position_iff s.game_board 3 0 s.next_piece_type 0).2 hv
    unfold spawn_new_piece
    simp only [hx, hb, Bool.not_true, Bool.false_eq_true, if_false]
  · intro hv
    have hb := (is_valid_position_false_iff s.game_board 3 0 s.next_piece_type 0).2 hv
    by_cases hh : s.score > s.high_score
    · unfold spawn_new_piece
      simp only [hx, hb, Bool.not_false, if_true, if_pos hh, save_high_score_to_file]
    · unfold spawn_new_piece
      simp only [hx, hb, Bool.not_false, if_true, if_neg hh]

theorem fsmStep_line_clear (t : Tetris) (rnd : Nat)
    (h : t.current_fsm_state = TetrisFSMState_t.TETRIS_STATE_LINE_CLEAR) :
    fsmStep t rnd =
      { (if (clear_completed_lines t).2 > 0 then
          update_score_and_level (clear_completed_lines t).1 (clear_completed_lines t).2
        else (clear_completed_lines t).1) with
        current_fsm_state := TetrisFSMState_t.TETRIS_STATE_SPAWN } := by
  unfold fsmStep
  rw [h]

theorem fsmStep_spawn (t : Tetris) (rnd : Nat)
    (h : t.current_fsm_state = TetrisFSMState_t.TETRIS_STATE_SPAWN) :
    (validPlacement t.game_board 3 0 t.next_piece_type 0 →
      fsmStep t rnd =
        { t with
            current_piece := { x := 3, y := 0, type := t.next_piece_type, rotation := 0,
                               active := true }
            next_piece_type := Int.tmod (rnd : Int) NUM_TETROMINO_TYPES
            current_fsm_state := TetrisFSMState_t.TETRIS_STATE_MOVING
            overall_game_state := GameState.GAME_RUNNING
            game_timer_ticks := 0 }) ∧
    (¬ validPlacement t.game_board 3 0 t.next_piece_type 0 →
      fsmStep t rnd =
        { t with
            current_piece := { x := 3, y := 0, type := t.next_piece_type, rotation := 0,
                               active := false }
            next_piece_type := Int.tmod (rnd : Int) NUM_TETROMINO_TYPES
            current_fsm_state := TetrisFSMState_t.TETRIS_STATE_GAME_OVER
            overall_game_state := GameState.GAME_OVER_LOSE
            high_score := if t.score > t.high_score then t.score else t.high_score
            high_score_file :=
              if t.score > t.high_score then some t.score else t.high_score_file
            game_timer_ticks := 0 }) := by
  constructor
  · intro hv
    unfold fsmStep
    rw [h]
    dsimp only
    rw [(spawn_new_piece_eq t rnd).1 hv]
    rfl
  · intro hv
    unfold fsmStep
    rw [h]
    dsimp only
    rw [(spawn_new_piece_eq t rnd).2 hv]
    rfl

theorem fsmStep_moving_inactive (t : Tetris) (rnd : Nat)
    (h : t.current_fsm_state = TetrisFSMState_t.TETRIS_STATE_MOVING)
    (ha : t.current_piece.active = false) :
    fsmStep t rnd =
      { t with
          overall_game_state := GameState.GAME_RUNNING
          current_fsm_state := TetrisFSMState_t.TETRIS_STATE_SPAWN } := by
  unfold fsmStep
  rw [h]
  dsimp only
  rw [if_neg (by rw [ha]; decide)]

theorem fsmStep_start_screen (t : Tetris) (rnd : Nat)
    (h : t.current_fsm_state = TetrisFSMState_t.TETRIS_STATE_START_SCREEN) :
    fsmStep t rnd = { t with overall_game_state := GameState.START_SCREEN } := by
  unfold fsmStep
  rw [h]

theorem fsmStep_game_over (t : Tetris) (rnd : Nat)
    (h : t.current_fsm_state = TetrisFSMState_t.TETRIS_STATE_GAME_OVER) :
    fsmStep t rnd =
      { t with
          overall_game_state := GameState.GAME_OVER_LOSE
          high_score := if t.score > t.high_score then t.score else t.high_score
          high_score_file :=
            if t.score > t.high_score then some t.score else t.high_score_file } := by
  unfold fsmStep
  rw [h]
  dsimp only
  by_cases hh : t.score > t.high_score
  · rw [if_pos hh, if_pos hh, if_pos hh]
    rfl
  · rw [if_neg hh, if_neg hh, if_neg hh]

theorem counterStep_quiet (t s' : Tetris)
    (hp : s'.paused = t.paused) (hi : s'.is_initialized = t.is_initialized)
    (h1 : s'.score = t.score) (h2 : s'.level = t.level)
    (h3 : s'.game_speed_ms = t.game_speed_ms)
    (hfsm : s'.current_fsm_state ≠ TetrisFSMState_t.TETRIS_STATE_GAME_OVER)
    (h4 : s'.high_score = t.high_score) (h5 : s'.high_score_file = t.high_score_file) :
    counterStep t s' := by
  refine ⟨hp, hi, Or.inl ⟨h1, h2, h3, ?_, ?_⟩⟩
  · rw [if_neg (fun h => hfsm h.2)]; exact h4
  · rw [if_neg (fun h => hfsm h.2)]; exact h5

theorem counterStep_over (t s' : Tetris)
    (hp : s'.paused = t.paused) (hi : s'.is_initialized = t.is_initialized)
    (h1 : s'.score = t.score) (h2 : s'.level = t.level)
    (h3 : s'.game_speed_ms = t.game_speed_ms)
    (hfsm : s'.current_fsm_state = TetrisFSMState_t.TETRIS_STATE_GAME_OVER)
    (h4 : s'.high_score = if t.score > t.high_score then t.score else t.high_score)
    (h5 : s'.high_score_file =
      if t.score > t.high_score then some t.score else t.high_score_file) :
    counterStep t s' := by
  refine ⟨hp, hi, Or.inl ⟨h1, h2, h3, ?_, ?_⟩⟩
  · rw [h4]
    by_cases hh : t.score > t.high_score
    · rw [if_pos hh, if_pos ⟨hh, hfsm⟩]
    · rw [if_neg hh, if_neg (fun h => hh h.1)]
  · rw [h5]
    by_cases hh : t.score > t.high_score
    · rw [if_pos hh, if_pos ⟨hh, hfsm⟩]
    · rw [if_neg hh, if_neg (fun h => hh h.1)]

theorem counterStep_scoring (t s' u : Tetris) (n : Int)
    (h1 : u.score = t.score) (h2 : u.level = t.level)
    (h3 : u.game_speed_ms = t.game_speed_ms) (h4 : u.high_score = t.high_score)
    (h5 : u.high_score_file = t.high_score_file) (h6 : u.paused = t.paused)
    (h7 : u.is_initialized = t.is_initialized)
    (e : s' =
        { (if n > 0 then update_score_and_level u n else u) with
          current_fsm_state := TetrisFSMState_t.TETRIS_STATE_SPAWN }) :
    counterStep t s' := by
  by_cases hn : n > 0
  · rw [if_pos hn] at e
    have hf := update_score_and_level_frame u n
    exact ⟨by rw [e]; exact hf.1.trans h6, by rw [e]; exact hf.2.2.1.trans h7,
      Or.inr ⟨u, n, hn, h1, h2, h3, h4, h5, by rw [e], by rw [e], by rw [e], by rw [e],
        by rw [e]; exact hf.2.2.2.trans h5⟩⟩
  · rw [if_neg hn] at e
    exact counterStep_quiet t s' (by rw [e]; exact h6) (by rw [e]; exact h7)
      (by rw [e]; exact h1) (by rw [e]; exact h2) (by rw [e]; exact h3)
      (by rw [e]; intro h; cases h) (by rw [e]; exact h4) (by rw [e]; exact h5)

theorem counterStep_fsmStep (t : Tetris) (rnd : Nat) : counterStep t (fsmStep t rnd) := by
  cases hf : t.current_fsm_state with
  | TETRIS_STATE_START_SCREEN =>
    rw [fsmStep_start_screen t rnd hf]
    exact counterStep_quiet t _ rfl rfl rfl rfl rfl
      (fun h => absurd (hf.symm.trans h) (by decide)) rfl rfl
  | TETRIS_STATE_SPAWN =>
    by_cases hv : validPlacement t.game_board 3 0 t.next_piece_type 0
    · rw [(fsmStep_spawn t rnd hf).1 hv]
      exact counterStep_quiet t _ rfl rfl rfl rfl rfl (by intro h; cases h) rfl rfl
    · rw [(fsmStep_spawn t rnd hf).2 hv]
      exact counterStep_over t _ rfl rfl rfl rfl rfl rfl rfl rfl
  | TETRIS_STATE_MOVING =>
    cases ha : t.current_piece.active with
    | false =>
      rw [fsmStep_moving_inactive t rnd hf ha]
      exact counterStep_quiet t _ rfl rfl rfl rfl rfl (by intro h; cases h) rfl rfl
    | true =>
      rw [fsmStep_moving t rnd hf ha]
      split_ifs with hv
      · exact counterStep_quiet t _ rfl rfl rfl rfl rfl
          (fun h => absurd (hf.symm.trans h) (by decide)) rfl rfl
      · exact counterStep_quiet t _ rfl rfl rfl rfl rfl (by intro h; cases h) rfl rfl
  | TETRIS_STATE_LOCKING =>
    have hl := lock_current_piece_frame t
    have hc := clear_completed_lines_frame (lock_current_piece t)
    exact counterStep_scoring t _ (clear_completed_lines (lock_current_piece t)).1
      (clear_completed_lines (lock_current_piece t)).2
      (hc.1.trans hl.1) (hc.2.2.1.trans hl.2.2.1) (hc.2.2.2.1.trans hl.2.2.2.1)
      (hc.2.1.trans hl.2.1) (hc.2.2.2.2.2.2.2.trans hl.2.2.2.2.2.2.2)
      (hc.2.2.2.2.1.trans hl.2.2.2.2.1) (hc.2.2.2.2.2.2.1.trans hl.2.2.2.2.2.2.1)
      (fsmStep_locking t rnd hf)
  | TETRIS_STATE_LINE_CLEAR =>
    have hc := clear_completed_lines_frame t
    exact counterStep_scoring t _ (clear_completed_lines t).1 (clear_completed_lines t).2
      hc.1 hc.2.2.1 hc.2.2.2.1 hc.2.1 hc.2.2.2.2.2.2.2 hc.2.2.2.2.1 hc.2.2.2.2.2.2.1
      (fsmStep_line_clear t rnd hf)
  | TETRIS_STATE_GAME_OVER =>
    rw [fsmStep_game_over t rnd hf]
    exact counterStep_over t _ rfl rfl rfl rfl rfl hf rfl rfl

theorem reset_game_state_eq (s : Tetris) :
    reset_game_state s =
      { s with
          game_board := fun _ _ => EMPTY
          current_piece := { s.current_piece with active := false }
          score := 0
          level := 1
          lines_cleared_for_level_up := 0
          game_speed_ms := 500
          paused := false
          game_timer_ticks := 0 } := rfl

theorem load_high_score_from_file_eq (s : Tetris) :
    load_high_score_from_file s =
      { s with high_score := storedHighScore s.high_score_file } := by
  unfold storedHighScore load_high_score_from_file
  cases h : s.high_score_file <;> rfl

theorem userInput_start (s : Tetris) (hold : Bool) (rnd : Nat)
    (hinit : s.is_initialized = true) :
    (startAccepted s →
      userInput s UserAction_t.Start hold rnd =
        { s with
            game_board := fun _ _ => EMPTY
            current_piece := { s.current_piece with active := false }
            score := 0
            level := 1
            lines_cleared_for_level_up := 0
            game_speed_ms := 500
            paused := false
            game_timer_ticks := 0
            high_score := storedHighScore s.high_score_file
            current_fsm_state := TetrisFSMState_t.TETRIS_STATE_SPAWN
            overall_game_state := GameState.GAME_RUNNING }) ∧
    (¬ startAccepted s → userInput s UserAction_t.Start hold rnd = s) := by
  constructor
  · intro h
    have h' : s.current_fsm_state = TetrisFSMState_t.TETRIS_STATE_START_SCREEN ∨
        s.current_fsm_state = TetrisFSMState_t.TETRIS_STATE_GAME_OVER ∨
        s.overall_game_state = GameState.PAUSED := h
    unfold userInput
    rw [lazyInit_of_initialized s rnd hinit]
    dsimp only
    rw [if_neg (by decide), if_pos rfl, if_pos h', load_high_score_from_file_eq,
      reset_game_state_eq]
  · intro h
    have h' : ¬ (s.current_fsm_state = TetrisFSMState_t.TETRIS_STATE_START_SCREEN ∨
        s.current_fsm_state = TetrisFSMState_t.TETRIS_STATE_GAME_OVER ∨
        s.overall_game_state = GameState.PAUSED) := h
    unfold userInput
    rw [lazyInit_of_initialized s rnd hinit]
    dsimp only
    rw [if_neg (by decide), if_pos rfl, if_neg h']

theorem lazyInit_static (file : Option Int) (rnd : Nat) :
    lazyInit (staticState file) rnd =
      { staticState file with
          level := 1
          game_speed_ms := 500
          high_score := storedHighScore file
          next_piece_type := Int.tmod (rnd : Int) NUM_TETROMINO_TYPES
          is_initialized := true } := by
  unfold lazyInit initialize_tetris_game
  rw [load_high_score_from_file_eq, reset_game_state_eq]
  rfl

theorem userInput_move (s : Tetris) (action : UserAction_t) (hold : Bool) (rnd : Nat)
    (hinit : s.is_initialized = true)
    (ht : action ≠ UserAction_t.Terminate) (hs : action ≠ UserAction_t.Start)
    (hp : action ≠ UserAction_t.Pause) :
    (userInput s action hold rnd).game_board = s.game_board ∧
    (userInput s action hold rnd).score = s.score ∧
    (userInput s action hold rnd).high_score = s.high_score ∧
    (userInput s action hold rnd).level = s.level ∧
    (userInput s action hold rnd).game_speed_ms = s.game_speed_ms ∧
    (userInput s action hold rnd).paused = s.paused ∧
    (userInput s action hold rnd).overall_game_state = s.overall_game_state ∧
    (userInput s action hold rnd).is_initialized = s.is_initialized ∧
    (userInput s action hold rnd).high_score_file = s.high_score_file ∧
    ((userInput s action hold rnd).current_fsm_state = s.current_fsm_state ∨
      (s.current_fsm_state = TetrisFSMState_t.TETRIS_STATE_MOVING ∧
        (userInput s action hold rnd).current_fsm_state =
          TetrisFSMState_t.TETRIS_STATE_LOCKING)) := by
  unfold userInput
  rw [lazyInit_of_initialized s rnd hinit]
  simp only [ht, hs, hp, if_false]
  split_ifs <;> simp_all

theorem fsmStep_scoring_mode (t : Tetris) (rnd : Nat)
    (h : t.current_fsm_state = TetrisFSMState_t.TETRIS_STATE_LOCKING ∨
      t.current_fsm_state = TetrisFSMState_t.TETRIS_STATE_LINE_CLEAR) :
    (fsmStep t rnd).current_fsm_state = TetrisFSMState_t.TETRIS_STATE_SPAWN ∧
    (fsmStep t rnd).overall_game_state = t.overall_game_state := by
  have htail : ∀ (u : Tetris) (n : Int), u.overall_game_state = t.overall_game_state →
      ({ (if n > 0 then update_score_and_level u n else u) with
          current_fsm_state := TetrisFSMState_t.TETRIS_STATE_SPAWN } :
            Tetris).overall_game_state = t.overall_game_state := by
    intro u n hu
    by_cases hn : n > 0
    · rw [if_pos hn]
      exact (update_score_and_level_frame u n).2.1.trans hu
    · rw [if_neg hn]
      exact hu
  rcases h with h | h
  · rw [fsmStep_locking t rnd h]
    exact ⟨rfl, htail _ _ ((clear_completed_lines_frame _).2.2.2.2.2.1.trans
      (lock_current_piece_frame t).2.2.2.2.2.1)⟩
  · rw [fsmStep_line_clear t rnd h]
    exact ⟨rfl, htail _ _ (clear_completed_lines_frame t).2.2.2.2.2.1⟩

theorem modeInvariant_fsmStep (t : Tetris) (rnd : Nat)
    (hinit : t.is_initialized = true) (hp : t.paused = false)
    (hrun : t.overall_game_state = GameState.GAME_RUNNING)
    (hfsm : t.current_fsm_state = TetrisFSMState_t.TETRIS_STATE_SPAWN ∨
      t.current_fsm_state = TetrisFSMState_t.TETRIS_STATE_MOVING ∨
      t.current_fsm_state = TetrisFSMState_t.TETRIS_STATE_LOCKING ∨
      t.current_fsm_state = TetrisFSMState_t.TETRIS_STATE_LINE_CLEAR) :
    modeInvariant (fsmStep t rnd) := by
  have hc := counterStep_fsmStep t rnd
  refine ⟨hc.2.1.trans hinit, ?_⟩
  have hp' : (fsmStep t rnd).paused = false := hc.1.trans hp
  rcases hfsm with h | h | h | h
  · by_cases hv : validPlacement t.game_board 3 0 t.next_piece_type 0
    · rw [(fsmStep_spawn t rnd h).1 hv]
      exact Or.inr (Or.inl ⟨Or.inr (Or.inl rfl), Or.inl ⟨hp, rfl⟩⟩)
    · rw [(fsmStep_spawn t rnd h).2 hv]
      exact Or.inr (Or.inr (Or.inl ⟨rfl, rfl, hp⟩))
  · cases ha : t.current_piece.active with
    | false =>
      rw [fsmStep_moving_inactive t rnd h ha]
      exact Or.inr (Or.inl ⟨Or.inl rfl, Or.inl ⟨hp, rfl⟩⟩)
    | true =>
      rw [fsmStep_moving t rnd h ha]
      split_ifs with hv
      · exact Or.inr (Or.inl ⟨Or.inr (Or.inl h), Or.inl ⟨hp, rfl⟩⟩)
      · exact Or.inr (Or.inl ⟨Or.inr (Or.inr (Or.inl rfl)), Or.inl ⟨hp, rfl⟩⟩)
  · have hm := fsmStep_scoring_mode t rnd (Or.inl h)
    exact Or.inr (Or.inl ⟨Or.inl hm.1, Or.inl ⟨hp', hm.2.trans hrun⟩⟩)
  · have hm := fsmStep_scoring_mode t rnd (Or.inr h)
    exact Or.inr (Or.inl ⟨Or.inl hm.1, Or.inl ⟨hp', hm.2.trans hrun⟩⟩)

/-- The tick of an initialised engine: a step of the inner state machine when the engine is
Running and not paused, and no change in the other modes. -/
theorem advance_of_modeInvariant (s : Tetris) (rnd : Nat) (h : modeInvariant s) :
    (s.paused = false ∧ s.overall_game_state = GameState.GAME_RUNNING ∧
      (s.current_fsm_state = TetrisFSMState_t.TETRIS_STATE_SPAWN ∨
        s.current_fsm_state = TetrisFSMState_t.TETRIS_STATE_MOVING ∨
        s.current_fsm_state = TetrisFSMState_t.TETRIS_STATE_LOCKING ∨
        s.current_fsm_state = TetrisFSMState_t.TETRIS_STATE_LINE_CLEAR) ∧
      advance s rnd =
        fsmStep { s with game_timer_ticks := (s.game_timer_ticks + 1) % 2 ^ 64 } rnd) ∨
    (s.overall_game_state ≠ GameState.GAME_RUNNING ∧ advance s rnd = s) := by
  obtain ⟨hinit, hm⟩ := h
  rcases hm with ⟨_, ho, hp⟩ | ⟨hf, ⟨hp, ho⟩ | ⟨hp, ho⟩⟩ | ⟨_, ho, hp⟩ | ⟨_, ho⟩
  · exact Or.inr ⟨by rw [ho]; decide,
      advance_frozen s rnd hinit (Or.inr (Or.inr ⟨hp, Or.inl ho⟩))⟩
  · exact Or.inl ⟨hp, ho, hf, advance_running s rnd hinit hp ho⟩
  · exact Or.inr ⟨by rw [ho]; decide, advance_frozen s rnd hinit (Or.inr (Or.inl ⟨hp, ho⟩))⟩
  · exact Or.inr ⟨by rw [ho]; decide,
      advance_frozen s rnd hinit (Or.inr (Or.inr ⟨hp, Or.inr ho⟩))⟩
  · exact Or.inr ⟨by rw [ho]; decide, advance_frozen s rnd hinit (Or.inl ho)⟩

theorem modeInvariant_advance (s : Tetris) (rnd : Nat) (h : modeInvariant s) :
    modeInvariant (advance s rnd) := by
  rcases advance_of_modeInvariant s rnd h with ⟨hp, ho, hf, e⟩ | ⟨_, e⟩
  · rw [e]
    exact modeInvariant_fsmStep _ rnd h.1 hp ho hf
  · rw [e]
    exact h

theorem modeInvariant_userInput (s : Tetris) (action : UserAction_t) (hold : Bool) (rnd : Nat)
    (h : modeInvariant s) : modeInvariant (userInput s action hold rnd) := by
  obtain ⟨hinit, hm⟩ := h
  by_cases ht : action = UserAction_t.Terminate
  · subst ht
    rw [userInput_terminate s hold rnd hinit]
    exact ⟨hinit, Or.inr (Or.inr (Or.inr ⟨rfl, rfl⟩))⟩
  by_cases hs : action = UserAction_t.Start
  · subst hs
    by_cases ha : startAccepted s
    · rw [(userInput_start s hold rnd hinit).1 ha]
      exact ⟨hinit, Or.inr (Or.inl ⟨Or.inl rfl, Or.inl ⟨rfl, rfl⟩⟩)⟩
    · rw [(userInput_start s hold rnd hinit).2 ha]
      exact ⟨hinit, hm⟩
  by_cases hpa : action = UserAction_t.Pause
  · subst hpa
    rcases hm with ⟨hf, ho, hp⟩ | ⟨hf, hpo⟩ | ⟨hf, ho, hp⟩ | ⟨hf, ho⟩
    · rw [userInput_ignored s _ hold rnd hinit ht hs (Or.inl hf)]
      exact ⟨hinit, Or.inl ⟨hf, ho, hp⟩⟩
    · have h1 : s.current_fsm_state ≠ TetrisFSMState_t.TETRIS_STATE_START_SCREEN := by
        rcases hf with h | h | h | h <;> rw [h] <;> decide
      have h2 : s.current_fsm_state ≠ TetrisFSMState_t.TETRIS_STATE_GAME_OVER := by
        rcases hf with h | h | h | h <;> rw [h] <;> decide
      rw [userInput_pause s hold rnd hinit h1 h2]
      rcases hpo with ⟨hp, _⟩ | ⟨hp, _⟩
      · rw [if_pos hp]
        exact ⟨hinit, Or.inr (Or.inl ⟨hf, Or.inr ⟨rfl, rfl⟩⟩)⟩
      · rw [if_neg (by rw [hp]; decide)]
        exact ⟨hinit, Or.inr (Or.inl ⟨hf, Or.inl ⟨rfl, rfl⟩⟩)⟩
    · rw [userInput_ignored s _ hold rnd hinit ht hs (Or.inr (Or.inl hf))]
      exact ⟨hinit, Or.inr (Or.inr (Or.inl ⟨hf, ho, hp⟩))⟩
    · rw [userInput_ignored s _ hold rnd hinit ht hs (Or.inr (Or.inl hf))]
      exact ⟨hinit, Or.inr (Or.inr (Or.inr ⟨hf, ho⟩))⟩
  · obtain ⟨_, _, _, _, _, e6, e7, e8, _, e10⟩ := userInput_move s action hold rnd hinit ht hs hpa
    refine ⟨e8.trans hinit, ?_⟩
    rw [e6, e7]
    rcases e10 with e | ⟨hmv, e⟩
    · rw [e]
      exact hm
    · rw [e]
      rcases hm with ⟨hf, _⟩ | ⟨_, hpo⟩ | ⟨hf, _⟩ | ⟨hf, _⟩
      · exact absurd (hmv.symm.trans hf) (by decide)
      · exact Or.inr (Or.inl ⟨Or.inr (Or.inr (Or.inl rfl)), hpo⟩)
      · exact absurd (hmv.symm.trans hf) (by decide)
      · exact absurd (hmv.symm.trans hf) (by decide)

theorem modeInvariant_reachable (file : Option Int) (s : Tetris) (h : ReachableFrom file s) :
    modeInvariant s := by
  induction h with
  | init rnd =>
    rw [lazyInit_static]
    exact ⟨rfl, Or.inl ⟨rfl, rfl, rfl⟩⟩
  | input s action hold rnd _ ih => exact modeInvariant_userInput s action hold rnd ih
  | tick s rnd _ ih => exact modeInvariant_advance s rnd ih

theorem tetrisStats_of_counterStep (t s' : Tetris) (h : counterStep t s')
    (hs : tetrisStats t) : tetrisStats s' := by
  obtain ⟨_, _, ⟨e1, e2, e3, _, _⟩ | ⟨u, n, hn, u1, u2, u3, _, _, e1, e2, e3, _, _⟩⟩ := h
  · unfold tetrisStats
    rw [e1, e2, e3]
    exact hs
  · have hu : tetrisStats u := by
      unfold tetrisStats
      rw [u1, u2, u3]
      exact hs
    have hst := tetrisStats_update_score_and_level u n hu
    unfold tetrisStats at hst ⊢
    rw [e1, e2, e3]
    exact hst

theorem highInvariant_of_counterStep (t s' : Tetris) (h : counterStep t s')
    (hh : highInvariant t) : highInvariant s' := by
  obtain ⟨hle, hfile⟩ := hh
  have hnot : ¬ t.score > t.high_score := not_lt.2 hle
  obtain ⟨_, _, ⟨e1, _, _, e4, e5⟩ | ⟨u, n, hn, _, _, _, u4, _, e1, _, _, e4, e5⟩⟩ := h
  · rw [if_neg (fun h => hnot h.1)] at e4 e5
    unfold highInvariant
    rw [e1, e4, e5]
    exact ⟨hle, hfile⟩
  · unfold highInvariant
    rw [e1, e4, e5, update_score_and_level_high_score u n hn]
    exact ⟨le_max_right _ _, hfile⟩

theorem tetrisStats_advance (s : Tetris) (rnd : Nat) (hm : modeInvariant s)
    (hs : tetrisStats s) : tetrisStats (advance s rnd) := by
  rcases advance_of_modeInvariant s rnd hm with ⟨_, _, _, e⟩ | ⟨_, e⟩
  · rw [e]
    exact tetrisStats_of_counterStep
      { s with game_timer_ticks := (s.game_timer_ticks + 1) % 2 ^ 64 } _
      (counterStep_fsmStep _ rnd) hs
  · rw [e]
    exact hs

theorem highInvariant_advance (s : Tetris) (rnd : Nat) (hm : modeInvariant s)
    (hh : highInvariant s) : highInvariant (advance s rnd) := by
  rcases advance_of_modeInvariant s rnd hm with ⟨_, _, _, e⟩ | ⟨_, e⟩
  · rw [e]
    exact highInvariant_of_counterStep
      { s with game_timer_ticks := (s.game_timer_ticks + 1) % 2 ^ 64 } _
      (counterStep_fsmStep _ rnd) hh
  · rw [e]
    exact hh

/-- The counters across an action that is not an accepted Start: score, level, step interval
and high score stay, and so does the stored high score unless the action is Terminate with
the score above the high score. -/
theorem userInput_counters (s : Tetris) (action : UserAction_t) (hold : Bool) (rnd : Nat)
    (hinit : s.is_initialized = true)
    (hno : ¬ (action = UserAction_t.Start ∧ startAccepted s)) :
    (userInput s action hold rnd).score = s.score ∧
    (userInput s action hold rnd).level = s.level ∧
    (userInput s action hold rnd).game_speed_ms = s.game_speed_ms ∧
    (userInput s action hold rnd).high_score = s.high_score ∧
    (userInput s action hold rnd).high_score_file =
      (if action = UserAction_t.Terminate ∧ s.score > s.high_score then some s.high_score
        else s.high_score_file) := by
  by_cases ht : action = UserAction_t.Terminate
  · subst ht
    rw [userInput_terminate s hold rnd hinit]
    refine ⟨rfl, rfl, rfl, rfl, ?_⟩
    show (if s.score > s.high_score then some s.high_score else s.high_score_file) = _
    by_cases hh : s.score > s.high_score
    · rw [if_pos hh, if_pos (⟨rfl, hh⟩ :
        UserAction_t.Terminate = UserAction_t.Terminate ∧ s.score > s.high_score)]
    · rw [if_neg hh, if_neg (fun h :
        UserAction_t.Terminate = UserAction_t.Terminate ∧ s.score > s.high_score => hh h.2)]
  have hfile : (if action = UserAction_t.Terminate ∧ s.score > s.high_score
      then some s.high_score else s.high_score_file) = s.high_score_file :=
    if_neg (fun h => ht h.1)
  rw [hfile]
  by_cases hs : action = UserAction_t.Start
  · subst hs
    rw [(userInput_start s hold rnd hinit).2 (fun h => hno ⟨rfl, h⟩)]
    exact ⟨rfl, rfl, rfl, rfl, rfl⟩
  by_cases hpa : action = UserAction_t.Pause
  · subst hpa
    by_cases hf : s.current_fsm_state = TetrisFSMState_t.TETRIS_STATE_START_SCREEN ∨
        s.current_fsm_state = TetrisFSMState_t.TETRIS_STATE_GAME_OVER
    · have e : userInput s UserAction_t.Pause hold rnd = s :=
        userInput_ignored s _ hold rnd hinit ht hs
          (hf.elim Or.inl (fun h => Or.inr (Or.inl h)))
      rw [e]
      exact ⟨rfl, rfl, rfl, rfl, rfl⟩
    · rw [userInput_pause s hold rnd hinit (fun h => hf (Or.inl h)) (fun h => hf (Or.inr h))]
      split_ifs <;> exact ⟨rfl, rfl, rfl, rfl, rfl⟩
  · obtain ⟨_, e2, e3, e4, e5, _, _, _, e9, _⟩ :=
      userInput_move s action hold rnd hinit ht hs hpa
    exact ⟨e2, e4, e5, e3, e9⟩

theorem tetrisStats_userInput (s : Tetris) (action : UserAction_t) (hold : Bool) (rnd : Nat)
    (hinit : s.is_initialized = true) (hs : tetrisStats s) :
    tetrisStats (userInput s action hold rnd) := by
  by_cases hno : action = UserAction_t.Start ∧ startAccepted s
  · obtain ⟨ha, hacc⟩ := hno
    subst ha
    rw [(userInput_start s hold rnd hinit).1 hacc]
    show INT_MIN ≤ 0 ∧ (0 : Int) ≤ INT_MAX ∧ (1 : Int) ≤ 1 ∧ (1 : Int) ≤ 10 ∧
      (500 : Int) = 500 - 40 * (1 - 1)
    decide
  · obtain ⟨e1, e2, e3, _, _⟩ := userInput_counters s action hold rnd hinit hno
    unfold tetrisStats
    rw [e1, e2, e3]
    exact hs

theorem highInvariant_userInput (s : Tetris) (action : UserAction_t) (hold : Bool) (rnd : Nat)
    (hinit : s.is_initialized = true) (hh : highInvariant s) :
    highInvariant (userInput s action hold rnd) := by
  by_cases hno : action = UserAction_t.Start ∧ startAccepted s
  · obtain ⟨ha, hacc⟩ := hno
    subst ha
    rw [(userInput_start s hold rnd hinit).1 hacc]
    exact ⟨hh.2, hh.2⟩
  · obtain ⟨e1, _, _, e4, e5⟩ := userInput_counters s action hold rnd hinit hno
    rw [if_neg (fun h => absurd h.2 (not_lt.2 hh.1))] at e5
    unfold highInvariant
    rw [e1, e4, e5]
    exact hh

theorem tetrisStats_reachable (file : Option Int) (s : Tetris) (h : ReachableFrom file s) :
    tetrisStats s := by
  induction h with
  | init rnd =>
    rw [lazyInit_static]
    show INT_MIN ≤ 0 ∧ (0 : Int) ≤ INT_MAX ∧ (1 : Int) ≤ 1 ∧ (1 : Int) ≤ 10 ∧
      (500 : Int) = 500 - 40 * (1 - 1)
    decide
  | input s action hold rnd hr ih =>
    exact tetrisStats_userInput s action hold rnd (modeInvariant_reachable file s hr).1 ih
  | tick s rnd hr ih =>
    exact tetrisStats_advance s rnd (modeInvariant_reachable file s hr) ih

theorem highInvariant_reachable (file : Option Int) (hfile : 0 ≤ storedHighScore file)
    (s : Tetris)
    (h : ReachableFrom file s) : highInvariant s := by
  induction h with
  | init rnd =>
    rw [lazyInit_static]
    exact ⟨hfile, hfile⟩
  | input s action hold rnd hr ih =>
    exact highInvariant_userInput s action hold rnd (modeInvariant_reachable file s hr).1 ih
  | tick s rnd hr ih =>
    exact highInvariant_advance s rnd (modeInvariant_reachable file s hr) ih

/-- Claim C22.  In a reachable engine whose outer state is Running, Start leaves the whole
engine unchanged; in a reachable engine whose outer state is Terminated, Start is accepted,
because Terminate leaves the inner state machine in GameOver: the board and the counters are
reset, the inner state becomes Spawning and the outer state Running, so Terminated is left. -/
theorem tetris_start_after_terminate (file : Option Int) (s : Tetris) (hold : Bool)
    (rnd : Nat) (hr : ReachableFrom file s) :
    (s.overall_game_state = GameState.GAME_RUNNING →
      s.paused = false ∧ userInput s UserAction_t.Start hold rnd = s) ∧
    (s.overall_game_state = GameState.TERMINATE_GAME →
      (userInput s UserAction_t.Start hold rnd).overall_game_state = GameState.GAME_RUNNING ∧
      (userInput s UserAction_t.Start hold rnd).current_fsm_state =
        TetrisFSMState_t.TETRIS_STATE_SPAWN ∧
      (userInput s UserAction_t.Start hold rnd).score = 0 ∧
      (userInput s UserAction_t.Start hold rnd).level = 1 ∧
      ∀ (r : Fin 20) (c : Fin 10),
        (userInput s UserAction_t.Start hold rnd).game_board r c = EMPTY) := by
  obtain ⟨hinit, hm⟩ := modeInvariant_reachable file s hr
  constructor
  · intro hrun
    rcases hm with ⟨_, ho, _⟩ | ⟨hf, ⟨hp, _⟩ | ⟨_, ho⟩⟩ | ⟨_, ho, _⟩ | ⟨_, ho⟩
    · exact absurd (hrun.symm.trans ho) (by decide)
    · refine ⟨hp, (userInput_start s hold rnd hinit).2 ?_⟩
      rintro (h | h | h)
      · rcases hf with h' | h' | h' | h' <;> exact absurd (h'.symm.trans h) (by decide)
      · rcases hf with h' | h' | h' | h' <;> exact absurd (h'.symm.trans h) (by decide)
      · exact absurd (hrun.symm.trans h) (by decide)
    · exact absurd (hrun.symm.trans ho) (by decide)
    · exact absurd (hrun.symm.trans ho) (by decide)
    · exact absurd (hrun.symm.trans ho) (by decide)
  · intro hterm
    have hf : s.current_fsm_state = TetrisFSMState_t.TETRIS_STATE_GAME_OVER := by
      rcases hm with ⟨_, ho, _⟩ | ⟨_, ⟨_, ho⟩ | ⟨_, ho⟩⟩ | ⟨_, ho, _⟩ | ⟨hf, _⟩
      · exact absurd (hterm.symm.trans ho) (by decide)
      · exact absurd (hterm.symm.trans ho) (by decide)
      · exact absurd (hterm.symm.trans ho) (by decide)
      · exact absurd (hterm.symm.trans ho) (by decide)
      · exact hf
    rw [(userInput_start s hold rnd hinit).1 (Or.inr (Or.inl hf))]
    exact ⟨rfl, rfl, rfl, rfl, fun _ _ => rfl⟩

/-- Test input for C22: a fresh process, the action Terminate, then the action Start. -/
theorem tetris_start_after_terminate_witness :
    terminatedState.overall_game_state = GameState.TERMINATE_GAME ∧
    (userInput terminatedState UserAction_t.Start false 0).overall_game_state =
      GameState.GAME_RUNNING ∧
    (userInput terminatedState UserAction_t.Start false 0).current_fsm_state =
      TetrisFSMState_t.TETRIS_STATE_SPAWN :=
  ⟨rfl,
    ((tetris_start_after_terminate none terminatedState false 0
      (ReachableFrom.input _ UserAction_t.Terminate false 3 (ReachableFrom.init 3))).2 rfl).1,
    ((tetris_start_after_terminate none terminatedState false 0
      (ReachableFrom.input _ UserAction_t.Terminate false 3 (ReachableFrom.init 3))).2 rfl).2.1⟩

/-- Claim C23.  In a reachable engine whose outer state is StartScreen, LostGameOver or
Paused, Start is accepted, and the engine it leaves has every board cell `EMPTY`, score 0,
level 1, step interval 500, the paused flag cleared, no active piece, the inner state
Spawning and the outer state Running, with the look-ahead piece type of before. -/
theorem tetris_start_resets (file : Option Int) (s : Tetris) (hold : Bool) (rnd : Nat)
    (hr : ReachableFrom file s)
    (hout : s.overall_game_state = GameState.START_SCREEN ∨
      s.overall_game_state = GameState.GAME_OVER_LOSE ∨
      s.overall_game_state = GameState.PAUSED) :
    startAccepted s ∧
    (∀ (r : Fin 20) (c : Fin 10),
      (userInput s UserAction_t.Start hold rnd).game_board r c = EMPTY) ∧
    (userInput s UserAction_t.Start hold rnd).score = 0 ∧
    (userInput s UserAction_t.Start hold rnd).level = 1 ∧
    (userInput s UserAction_t.Start hold rnd).game_speed_ms = 500 ∧
    (userInput s UserAction_t.Start hold rnd).paused = false ∧
    (userInput s UserAction_t.Start hold rnd).current_piece.active = false ∧
    (userInput s UserAction_t.Start hold rnd).current_fsm_state =
      TetrisFSMState_t.TETRIS_STATE_SPAWN ∧
    (userInput s UserAction_t.Start hold rnd).overall_game_state = GameState.GAME_RUNNING ∧
    (userInput s UserAction_t.Start hold rnd).next_piece_type = s.next_piece_type := by
  obtain ⟨hinit, hm⟩ := modeInvariant_reachable file s hr
  have hacc : startAccepted s := by
    rcases hout with ho | ho | ho
    · rcases hm with ⟨hf, _⟩ | ⟨_, ⟨_, ho'⟩ | ⟨_, ho'⟩⟩ | ⟨_, ho', _⟩ | ⟨_, ho'⟩
      · exact Or.inl hf
      · exact absurd (ho.symm.trans ho') (by decide)
      · exact absurd (ho.symm.trans ho') (by decide)
      · exact absurd (ho.symm.trans ho') (by decide)
      · exact absurd (ho.symm.trans ho') (by decide)
    · rcases hm with ⟨_, ho', _⟩ | ⟨_, ⟨_, ho'⟩ | ⟨_, ho'⟩⟩ | ⟨hf, _⟩ | ⟨_, ho'⟩
      · exact absurd (ho.symm.trans ho') (by decide)
      · exact absurd (ho.symm.trans ho') (by decide)
      · exact absurd (ho.symm.trans ho') (by decide)
      · exact Or.inr (Or.inl hf)
      · exact absurd (ho.symm.trans ho') (by decide)
    · exact Or.inr (Or.inr ho)
  rw [(userInput_start s hold rnd hinit).1 hacc]
  exact ⟨hacc, fun _ _ => rfl, rfl, rfl, rfl, rfl, rfl, rfl, rfl, rfl⟩

/-- Test input for C23: a fresh process, then Start, Pause and Start again. -/
theorem tetris_start_resets_witness :
    (userInput (userInput (lazyInit (staticState none) 4) UserAction_t.Start false 0)
      UserAction_t.Pause false 0).overall_game_state = GameState.PAUSED ∧
    (userInput (userInput (userInput (lazyInit (staticState none) 4) UserAction_t.Start false 0)
      UserAction_t.Pause false 0) UserAction_t.Start false 0).current_fsm_state =
        TetrisFSMState_t.TETRIS_STATE_SPAWN ∧
    (userInput (userInput (userInput (lazyInit (staticState none) 4) UserAction_t.Start false 0)
      UserAction_t.Pause false 0) UserAction_t.Start false 0).next_piece_type = 4 :=
  ⟨rfl,
    (tetris_start_resets none _ false 0
      (ReachableFrom.input _ UserAction_t.Pause false 0
        (ReachableFrom.input _ UserAction_t.Start false 0 (ReachableFrom.init 4)))
      (Or.inr (Or.inr rfl))).2.2.2.2.2.2.2.1,
    (tetris_start_resets none _ false 0
      (ReachableFrom.input _ UserAction_t.Pause false 0
        (ReachableFrom.input _ UserAction_t.Start false 0 (ReachableFrom.init 4)))
      (Or.inr (Or.inr rfl))).2.2.2.2.2.2.2.2.2.trans rfl⟩

/-! ## Reachable states of the Tetris engine: spawning, placement and derived quantities -/

theorem validPlacement_spawn_empty (type : Int) (h0 : 0 ≤ type) (h6 : type ≤ 6) :
    validPlacement (fun _ _ => EMPTY) 3 0 type 0 := by
  interval_cases type <;> decide

theorem tmod_seven_range (rnd : Nat) :
    0 ≤ Int.tmod (rnd : Int) NUM_TETROMINO_TYPES ∧
      Int.tmod (rnd : Int) NUM_TETROMINO_TYPES ≤ 6 := by
  unfold NUM_TETROMINO_TYPES
  rw [Int.tmod_eq_emod (by omega) (by norm_num)]
  omega

/-- Claim C35.  In a fresh process the first call Start followed by one tick leaves, whatever
the look-ahead type drawn at initialisation (a value in 0..6, and the rotation-0 shape of each
of the seven types is a valid placement at column 3, row 0 of the empty board), the outer
state Running, the inner state Falling and an active piece of that type with rotation 0 at
column 3, row 0, on a committed board that is entirely `EMPTY`; the snapshot of that tick
reports the state Running. -/
theorem tetris_spawn_scenario (file : Option Int) (hold : Bool) (rnd rnd2 : Nat) :
    (0 ≤ (lazyInit (staticState file) rnd).next_piece_type ∧
      (lazyInit (staticState file) rnd).next_piece_type ≤ 6) ∧
    (∀ type : Int, 0 ≤ type → type ≤ 6 → validPlacement (fun _ _ => EMPTY) 3 0 type 0) ∧
    (updateCurrentState (userInput (staticState file) UserAction_t.Start hold rnd)
      rnd2).1.overall_game_state = GameState.GAME_RUNNING ∧
    (updateCurrentState (userInput (staticState file) UserAction_t.Start hold rnd)
      rnd2).1.current_fsm_state = TetrisFSMState_t.TETRIS_STATE_MOVING ∧
    (updateCurrentState (userInput (staticState file) UserAction_t.Start hold rnd)
      rnd2).1.current_piece =
        { x := 3, y := 0, type := (lazyInit (staticState file) rnd).next_piece_type,
          rotation := 0, active := true } ∧
    (∀ (r : Fin 20) (c : Fin 10),
      (updateCurrentState (userInput (staticState file) UserAction_t.Start hold rnd)
        rnd2).1.game_board r c = EMPTY) ∧
    (updateCurrentState (userInput (staticState file) UserAction_t.Start hold rnd)
      rnd2).2.current_game_state = GameState.GAME_RUNNING := by
  have hty := tmod_seven_range rnd
  obtain ⟨s1, hs1⟩ : ∃ s1 : Tetris, s1 = lazyInit (staticState file) rnd := ⟨_, rfl⟩
  have e0 := lazyInit_static file rnd
  rw [← hs1] at e0
  have hnext : s1.next_piece_type = Int.tmod (rnd : Int) NUM_TETROMINO_TYPES :=
    congrArg (fun u => u.next_piece_type) e0
  have hacc : startAccepted s1 := Or.inl (congrArg (fun u => u.current_fsm_state) e0)
  have hinit1 : s1.is_initialized = true := congrArg (fun u => u.is_initialized) e0
  obtain ⟨t, ht⟩ : ∃ t : Tetris, t = userInput (staticState file) UserAction_t.Start hold rnd :=
    ⟨_, rfl⟩
  have e1 := (userInput_start s1 hold rnd hinit1).1 hacc
  rw [hs1, ← userInput_lazyInit, ← ht, ← hs1] at e1
  have hinit : t.is_initialized = true := (congrArg (fun u => u.is_initialized) e1).trans hinit1
  have hp : t.paused = false := congrArg (fun u => u.paused) e1
  have hrun : t.overall_game_state = GameState.GAME_RUNNING :=
    congrArg (fun u => u.overall_game_state) e1
  have hfsm : t.current_fsm_state = TetrisFSMState_t.TETRIS_STATE_SPAWN :=
    congrArg (fun u => u.current_fsm_state) e1
  have hb : t.game_board = fun _ _ => EMPTY := congrArg (fun u => u.game_board) e1
  have hn : t.next_piece_type = Int.tmod (rnd : Int) NUM_TETROMINO_TYPES :=
    (congrArg (fun u => u.next_piece_type) e1).trans hnext
  have hv : validPlacement t.game_board 3 0 t.next_piece_type 0 := by
    rw [hb, hn]
    exact validPlacement_spawn_empty _ hty.1 hty.2
  have hadv := (advance_running t rnd2 hinit hp hrun).trans
    ((fsmStep_spawn { t with game_timer_ticks := (t.game_timer_ticks + 1) % 2 ^ 64 } rnd2
      hfsm).1 hv)
  rw [← ht, ← hs1, hnext]
  refine ⟨hty, validPlacement_spawn_empty, ?_, ?_, ?_, ?_, ?_⟩
  · exact congrArg (fun u => u.overall_game_state) hadv
  · exact congrArg (fun u => u.current_fsm_state) hadv
  · refine (congrArg (fun u => u.current_piece) hadv).trans ?_
    show ({ x := 3, y := 0, type := t.next_piece_type, rotation := 0, active := true } :
      CurrentPieceState) = _
    rw [hn]
  · intro r c
    exact (congrFun (congrFun ((congrArg (fun u => u.game_board) hadv).trans hb) r) c)
  · exact congrArg (fun u => u.overall_game_state) hadv

/-- Test input for C35: a fresh process whose initialisation draws 5, the T piece. -/
theorem tetris_spawn_scenario_witness :
    (updateCurrentState (userInput (staticState none) UserAction_t.Start false 5)
      0).1.current_piece = { x := 3, y := 0, type := 5, rotation := 0, active := true } :=
  (tetris_spawn_scenario none false 5 0).2.2.2.2.1

theorem boardRows_eq_map (b : Field) : boardRows b = (List.range 20).map (rowAt b) := by
  apply List.ext_getElem
  · rw [boardRows_length, List.length_map, List.length_range]
  · intro i h1 h2
    rw [boardRows_getElem b i h1, List.getElem_map, List.getElem_range]

theorem fullRowCount_eq (b : Field) :
    fullRowCount b = (List.range 20).countP (fun i => decide (rowFull (rowAt b i))) := by
  unfold fullRowCount
  rw [boardRows_eq_map, List.countP_map]
  rfl

theorem countP_window (y : Int) :
    ∀ n : Nat,
      (((List.range n).countP (fun i : Nat => decide (y ≤ (i : Int) ∧ (i : Int) ≤ y + 3)) : Nat) :
        Int) ≤ max 0 (min 4 ((n : Int) - y))
  | 0 => by
    simp only [List.range_zero, List.countP_nil, Nat.cast_zero]
    omega
  | n + 1 => by
    have ih := countP_window y n
    rw [List.range_succ, List.countP_append, List.countP_singleton]
    by_cases h : y ≤ (n : Int) ∧ (n : Int) ≤ y + 3
    · rw [if_pos (by simpa using h)]
      push_cast
      omega
    · rw [if_neg (by simpa using h)]
      push_cast
      omega

theorem rowAt_of_lt (b : Field) (i : Nat) (h : i < 20) : rowAt b i = b ⟨i, h⟩ := by
  funext c
  simp [rowAt, h]

theorem noFullRow_fullRowCount (b : Field) (h : noFullRow b) : fullRowCount b = 0 := by
  rw [fullRowCount_eq, List.countP_eq_zero]
  intro i hi
  rw [List.mem_range] at hi
  rw [rowAt_of_lt b i hi]
  simpa using h ⟨i, hi⟩

/-- Locking a piece on a board without full row completes at most four rows: a row that the
piece does not touch is as before. -/
theorem fullRowCount_lockCells_le (b : Field) (p : CurrentPieceState) (h : noFullRow b) :
    fullRowCount (lockCells b p) ≤ 4 := by
  rw [fullRowCount_eq]
  have hmono : (List.range 20).countP
        (fun i => decide (rowFull (rowAt (lockCells b p) i))) ≤
      (List.range 20).countP
        (fun i : Nat => decide (p.y ≤ (i : Int) ∧ (i : Int) ≤ p.y + 3)) := by
    apply List.countP_mono_left
    intro i hi hfull
    rw [List.mem_range] at hi
    rw [rowAt_of_lt _ i hi] at hfull
    have hfull' : rowFull (lockCells b p ⟨i, hi⟩) := by simpa using hfull
    by_contra hout
    have hout' : ¬ (p.y ≤ (i : Int) ∧ (i : Int) ≤ p.y + 3) := by simpa using hout
    apply h ⟨i, hi⟩
    intro c
    have hnc : ¬ pieceCell p ((⟨i, hi⟩ : Fin 20).val : Int) (c.val : Int) := by
      rintro ⟨r_offset, hr, c_offset, _, _, hrow, _⟩
      apply hout'
      simp only at hrow
      omega
    rw [← (lockCells_apply b p ⟨i, hi⟩ c).2 hnc]
    exact hfull' c
  have hw := countP_window p.y 20
  omega

theorem userInput_piece (s : Tetris) (action : UserAction_t) (hold : Bool) (rnd : Nat)
    (hinit : s.is_initialized = true)
    (ht : action ≠ UserAction_t.Terminate) (hs : action ≠ UserAction_t.Start)
    (hp : action ≠ UserAction_t.Pause) :
    (userInput s action hold rnd).current_piece = s.current_piece ∨
    (s.current_piece.active = true ∧
      ∃ x y rot : Int,
        (userInput s action hold rnd).current_piece =
          { s.current_piece with x := x, y := y, rotation := rot } ∧
        is_valid_position s.game_board x y s.current_piece.type rot = true ∧
        (rot = s.current_piece.rotation ∨
          rot = Int.tmod (s.current_piece.rotation + 1) NUM_TETROMINO_ROTATIONS)) := by
  unfold userInput
  rw [lazyInit_of_initialized s rnd hinit]
  simp only [ht, hs, hp, if_false]
  by_cases h1 : s.current_fsm_state = TetrisFSMState_t.TETRIS_STATE_START_SCREEN ∨
      s.current_fsm_state = TetrisFSMState_t.TETRIS_STATE_GAME_OVER
  · rw [if_pos h1]; exact Or.inl rfl
  rw [if_neg h1]
  by_cases h2 : s.paused = true
  · rw [if_pos h2]; exact Or.inl rfl
  rw [if_neg h2]
  by_cases h3 : s.current_piece.active = true ∧
      s.current_fsm_state = TetrisFSMState_t.TETRIS_STATE_MOVING
  · rw [if_pos h3]
    cases action <;>
      first
      | exact absurd rfl ht
      | exact absurd rfl hs
      | exact absurd rfl hp
      | (simp only [reduceCtorEq, if_true, if_false]
         split_ifs with hv
         all_goals first
           | exact Or.inl rfl
           | exact Or.inr ⟨h3.1, _, _, _, rfl, hv, Or.inl rfl⟩
           | exact Or.inr ⟨h3.1, _, _, _, rfl, hv, Or.inr rfl⟩)
  · rw [if_neg h3]; exact Or.inl rfl

theorem userInput_move_next (s : Tetris) (action : UserAction_t) (hold : Bool) (rnd : Nat)
    (hinit : s.is_initialized = true)
    (ht : action ≠ UserAction_t.Terminate) (hs : action ≠ UserAction_t.Start)
    (hp : action ≠ UserAction_t.Pause) :
    (userInput s action hold rnd).next_piece_type = s.next_piece_type := by
  unfold userInput
  rw [lazyInit_of_initialized s rnd hinit]
  simp only [ht, hs, hp, if_false]
  split_ifs <;> simp_all

theorem lock_current_piece_next (t : Tetris) :
    (lock_current_piece t).next_piece_type = t.next_piece_type ∧
    (lock_current_piece t).current_piece.active = false := by
  unfold lock_current_piece
  by_cases ha : t.current_piece.active = true
  · simp [ha]
  · simp [ha]

theorem update_score_and_level_next (s : Tetris) (n : Int) :
    (update_score_and_level s n).next_piece_type = s.next_piece_type := by
  by_cases hn : n > 0
  · rw [update_score_and_level_pos s n hn]
    by_cases hc : Int.tdiv (scored s n).score 600 >
        Int.tdiv (wrapInt ((scored s n).score - prevPoints n)) 600 ∧ s.level < 10
    · rw [if_pos hc]
      exact (calculate_speed_from_level_frame
        { scored s n with
            level :=
              if Int.tdiv (scored s n).score 600 + 1 > 10 then 10
              else Int.tdiv (scored s n).score 600 + 1 }).2.2.2.2
    · rw [if_neg hc]
      rfl
  · unfold update_score_and_level
    rw [if_neg hn]

theorem noFullRow_empty : noFullRow (fun _ _ => EMPTY) :=
  fun _ hfull => hfull 0 rfl

theorem rotation_next_range (rotation : Int) (h : 0 ≤ rotation) :
    0 ≤ Int.tmod (rotation + 1) NUM_TETROMINO_ROTATIONS ∧
    Int.tmod (rotation + 1) NUM_TETROMINO_ROTATIONS ≤ 3 := by
  unfold NUM_TETROMINO_ROTATIONS
  rw [Int.tmod_eq_emod (by omega) (by norm_num)]
  omega

theorem playInvariant_userInput (s : Tetris) (action : UserAction_t) (hold : Bool) (rnd : Nat)
    (hinit : s.is_initialized = true) (h : playInvariant s) :
    playInvariant (userInput s action hold rnd) := by
  obtain ⟨h1, h2, h3, h4, h5⟩ := h
  by_cases ht : action = UserAction_t.Terminate
  · subst ht
    rw [userInput_terminate s hold rnd hinit]
    exact ⟨(by intro h; cases h), h2, h3, h4, h5⟩
  by_cases hs : action = UserAction_t.Start
  · subst hs
    by_cases ha : startAccepted s
    · rw [(userInput_start s hold rnd hinit).1 ha]
      refine ⟨(by intro h; cases h), h2, fun hact => absurd hact (by intro h; cases h),
        noFullRow_empty, fun _ => ⟨le_refl _, ?_⟩⟩
      show (1 : Int) = levelOfScore 0
      decide
    · rw [(userInput_start s hold rnd hinit).2 ha]
      exact ⟨h1, h2, h3, h4, h5⟩
  by_cases hpa : action = UserAction_t.Pause
  · subst hpa
    by_cases hf : s.current_fsm_state = TetrisFSMState_t.TETRIS_STATE_START_SCREEN ∨
        s.current_fsm_state = TetrisFSMState_t.TETRIS_STATE_GAME_OVER
    · have e : userInput s UserAction_t.Pause hold rnd = s :=
        userInput_ignored s _ hold rnd hinit ht hs
          (hf.elim Or.inl (fun h => Or.inr (Or.inl h)))
      rw [e]
      exact ⟨h1, h2, h3, h4, h5⟩
    · rw [userInput_pause s hold rnd hinit (fun h => hf (Or.inl h)) (fun h => hf (Or.inr h))]
      split_ifs <;> exact ⟨h1, h2, h3, h4, h5⟩
  · obtain ⟨e1, e2, _, e4, _, _, _, _, _, e10⟩ :=
      userInput_move s action hold rnd hinit ht hs hpa
    have enext := userInput_move_next s action hold rnd hinit ht hs hpa
    have hpiece := userInput_piece s action hold rnd hinit ht hs hpa
    refine ⟨?_, by rw [enext]; exact h2, ?_, by rw [e1]; exact h4,
      by rw [e4, e2]; exact h5⟩
    · rcases e10 with e | ⟨_, e⟩
      · rw [e]; exact h1
      · rw [e]; intro h; cases h
    · rw [e1]
      rcases hpiece with e | ⟨hact, x, y, rot, e, hv, hrot⟩
      · rw [e]; exact h3
      · rw [e]
        intro _
        obtain ⟨ht', hr', _⟩ := h3 hact
        refine ⟨ht', ?_, (is_valid_position_iff _ _ _ _ _).1 hv⟩
        rcases hrot with hrot | hrot
        · rw [hrot]; exact hr'
        · rw [hrot]
          exact rotation_next_range _ hr'.1

theorem scoreTable_nonneg (n : Int) : 0 ≤ scoreTable n := by
  unfold scoreTable
  split_ifs <;> omega

theorem scoreTable_le (n : Int) (hn : n ≤ 4) : scoreTable n ≤ 1500 := by
  unfold scoreTable
  split_ifs <;> omega

/-- The rows cleared by a lock on a board without full row: at most four. -/
theorem lock_clears_at_most_four (t : Tetris) (h : noFullRow t.game_board) :
    (clear_completed_lines (lock_current_piece t)).2 =
      (fullRowCount (lock_current_piece t).game_board : Int) ∧
    fullRowCount (lock_current_piece t).game_board ≤ 4 := by
  obtain ⟨b', hclear, _, _⟩ := clear_completed_lines_eq (lock_current_piece t)
  refine ⟨by rw [hclear], ?_⟩
  rw [(lock_current_piece_fields t).1]
  split_ifs
  · exact fullRowCount_lockCells_le _ _ h
  · rw [noFullRow_fullRowCount _ h]
    omega

/-- Below level 10 the score is under 5400, so that one to four rows more fit an `int`. -/
theorem levelRule_small (u : Tetris) (n : Int) (hn4 : n ≤ 4) (hl : u.level < 10)
    (hlv : u.level = levelOfScore u.score) :
    u.score + scoreTable n ≤ INT_MAX := by
  have ht := scoreTable_le n hn4
  unfold levelOfScore at hlv
  unfold INT_MAX
  omega

theorem levelRule_update_score_and_level (u : Tetris) (n : Int) (hn1 : 1 ≤ n) (hn4 : n ≤ 4)
    (h5 : u.level < 10 → 0 ≤ u.score ∧ u.level = levelOfScore u.score) :
    (update_score_and_level u n).level < 10 →
      0 ≤ (update_score_and_level u n).score ∧
        (update_score_and_level u n).level = levelOfScore (update_score_and_level u n).score := by
  intro hl'
  by_cases hl : u.level < 10
  · obtain ⟨h0, hlv⟩ := h5 hl
    have hr := levelRule_small u n hn4 hl hlv
    have hst := scoreTable_nonneg n
    refine ⟨?_, (update_score_and_level_small u n h0 hr hn1 hn4 hlv).1⟩
    rw [update_score_and_level_score u n (by omega),
      wrapInt_of_range _ (by unfold INT_MIN; omega) hr]
    omega
  · rw [(update_score_and_level_top u n hl).1] at hl'
    exact absurd hl' hl

theorem playInvariant_scoring (u : Tetris) (n : Int) (hn4 : n ≤ 4)
    (h2 : 0 ≤ u.next_piece_type ∧ u.next_piece_type ≤ 6)
    (h3 : u.current_piece.active = false) (h4 : noFullRow u.game_board)
    (h5 : u.level < 10 → 0 ≤ u.score ∧ u.level = levelOfScore u.score) :
    playInvariant
      { (if n > 0 then update_score_and_level u n else u) with
        current_fsm_state := TetrisFSMState_t.TETRIS_STATE_SPAWN } := by
  by_cases hn : n > 0
  · rw [if_pos hn]
    have hk := update_score_and_level_keeps u n
    have hnx := update_score_and_level_next u n
    refine ⟨(by intro h; cases h), ?_, ?_, ?_, ?_⟩
    · show 0 ≤ (update_score_and_level u n).next_piece_type ∧ _
      rw [hnx]; exact h2
    · intro hact
      have hact' : (update_score_and_level u n).current_piece.active = true := hact
      rw [hk.2.1, h3] at hact'
      exact absurd hact' (by decide)
    · show noFullRow (update_score_and_level u n).game_board
      rw [hk.1]; exact h4
    · exact levelRule_update_score_and_level u n (by omega) hn4 h5
  · rw [if_neg hn]
    refine ⟨(by intro h; cases h), h2, ?_, h4, h5⟩
    intro hact
    have hact' : u.current_piece.active = true := hact
    rw [h3] at hact'
    exact absurd hact' (by decide)

theorem playInvariant_fsmStep (t : Tetris) (rnd : Nat) (h : playInvariant t)
    (hfsm : t.current_fsm_state = TetrisFSMState_t.TETRIS_STATE_SPAWN ∨
      t.current_fsm_state = TetrisFSMState_t.TETRIS_STATE_MOVING ∨
      t.current_fsm_state = TetrisFSMState_t.TETRIS_STATE_LOCKING ∨
      t.current_fsm_state = TetrisFSMState_t.TETRIS_STATE_LINE_CLEAR) :
    playInvariant (fsmStep t rnd) := by
  obtain ⟨h1, h2, h3, h4, h5⟩ := h
  rcases hfsm with hf | hf | hf | hf
  · by_cases hv : validPlacement t.game_board 3 0 t.next_piece_type 0
    · rw [(fsmStep_spawn t rnd hf).1 hv]
      exact ⟨(by intro h; cases h), tmod_seven_range rnd,
        fun _ => ⟨h2, ⟨le_refl _, (show (0 : Int) ≤ 3 by decide)⟩, hv⟩, h4, h5⟩
    · rw [(fsmStep_spawn t rnd hf).2 hv]
      exact ⟨(by intro h; cases h), tmod_seven_range rnd,
        fun hact => absurd hact (by intro h; cases h), h4, h5⟩
  · cases ha : t.current_piece.active with
    | false =>
      rw [fsmStep_moving_inactive t rnd hf ha]
      refine ⟨(by intro h; cases h), h2, fun hact => ?_, h4, h5⟩
      have hact' : t.current_piece.active = true := hact
      rw [ha] at hact'
      exact absurd hact' (by decide)
    | true =>
      obtain ⟨ht', hr', _⟩ := h3 ha
      rw [fsmStep_moving t rnd hf ha]
      split_ifs with hv
      · exact ⟨(by rw [hf]; intro h; cases h), h2,
          fun _ => ⟨ht', hr', (is_valid_position_iff _ _ _ _ _).1 hv⟩, h4, h5⟩
      · exact ⟨(by intro h; cases h), h2, h3, h4, h5⟩
  · rw [fsmStep_locking t rnd hf]
    obtain ⟨hn, hle⟩ := lock_clears_at_most_four t h4
    obtain ⟨b', hclear, hrows, _⟩ := clear_completed_lines_eq (lock_current_piece t)
    have hl := lock_current_piece_frame t
    have hl2 := lock_current_piece_next t
    have hu1 : (clear_completed_lines (lock_current_piece t)).1 =
        { lock_current_piece t with game_board := b' } := by rw [hclear]
    refine playInvariant_scoring _ _ (by rw [hn]; exact_mod_cast hle) ?_ ?_ ?_ ?_
    · rw [hu1]
      show 0 ≤ (lock_current_piece t).next_piece_type ∧ _
      rw [hl2.1]; exact h2
    · rw [hu1]
      exact hl2.2
    · rw [hu1]
      exact fun r => rows_not_full_of_cleared _ b' hrows r
    · rw [hu1]
      show (lock_current_piece t).level < 10 → 0 ≤ (lock_current_piece t).score ∧
        (lock_current_piece t).level = levelOfScore (lock_current_piece t).score
      rw [hl.1, hl.2.2.1]; exact h5
  · exact absurd hf h1

theorem playInvariant_advance (s : Tetris) (rnd : Nat) (hm : modeInvariant s)
    (h : playInvariant s) : playInvariant (advance s rnd) := by
  rcases advance_of_modeInvariant s rnd hm with ⟨_, _, hf, e⟩ | ⟨_, e⟩
  · rw [e]
    exact playInvariant_fsmStep _ rnd h hf
  · rw [e]
    exact h

theorem playInvariant_reachable (file : Option Int) (s : Tetris) (h : ReachableFrom file s) :
    playInvariant s := by
  induction h with
  | init rnd =>
    rw [lazyInit_static]
    refine ⟨(by intro h; cases h), tmod_seven_range rnd,
      fun hact => absurd hact (by intro h; cases h), fun _ hfull => hfull 0 rfl,
      fun _ => ⟨le_refl _, ?_⟩⟩
    show (1 : Int) = levelOfScore 0
    decide
  | input s action hold rnd hr ih =>
    exact playInvariant_userInput s action hold rnd (modeInvariant_reachable file s hr).1 ih
  | tick s rnd hr ih =>
    exact playInvariant_advance s rnd (modeInvariant_reachable file s hr) ih

/-- The counters across one step of the inner state machine on a board without full row. -/
theorem scoreStep_fsmStep (t : Tetris) (rnd : Nat) (h4 : noFullRow t.game_board)
    (hfsm : t.current_fsm_state = TetrisFSMState_t.TETRIS_STATE_SPAWN ∨
      t.current_fsm_state = TetrisFSMState_t.TETRIS_STATE_MOVING ∨
      t.current_fsm_state = TetrisFSMState_t.TETRIS_STATE_LOCKING) :
    scoreStep t (fsmStep t rnd) := by
  rcases hfsm with hf | hf | hf
  · by_cases hv : validPlacement t.game_board 3 0 t.next_piece_type 0
    · rw [(fsmStep_spawn t rnd hf).1 hv]
      exact Or.inl ⟨rfl, rfl, rfl⟩
    · rw [(fsmStep_spawn t rnd hf).2 hv]
      exact Or.inl ⟨rfl, rfl, rfl⟩
  · cases ha : t.current_piece.active with
    | false =>
      rw [fsmStep_moving_inactive t rnd hf ha]
      exact Or.inl ⟨rfl, rfl, rfl⟩
    | true =>
      rw [fsmStep_moving t rnd hf ha]
      split_ifs <;> exact Or.inl ⟨rfl, rfl, rfl⟩
  · rw [fsmStep_locking t rnd hf]
    obtain ⟨hn, hle⟩ := lock_clears_at_most_four t h4
    have hl := lock_current_piece_frame t
    have hc := clear_completed_lines_frame (lock_current_piece t)
    have e1 : (clear_completed_lines (lock_current_piece t)).1.score = t.score :=
      hc.1.trans hl.1
    have e2 : (clear_completed_lines (lock_current_piece t)).1.level = t.level :=
      hc.2.2.1.trans hl.2.2.1
    have e3 : (clear_completed_lines (lock_current_piece t)).1.game_speed_ms =
        t.game_speed_ms := hc.2.2.2.1.trans hl.2.2.2.1
    by_cases hk : (clear_completed_lines (lock_current_piece t)).2 > 0
    · rw [if_pos hk]
      exact Or.inr ⟨_, _, by omega, by rw [hn]; exact_mod_cast hle, e1, e2, e3, rfl, rfl, rfl⟩
    · rw [if_neg hk]
      exact Or.inl ⟨e1, e2, e3⟩

theorem scoreStep_advance (s : Tetris) (rnd : Nat) (hm : modeInvariant s)
    (h : playInvariant s) : scoreStep s (advance s rnd) := by
  rcases advance_of_modeInvariant s rnd hm with ⟨_, _, hf, e⟩ | ⟨_, e⟩
  · rw [e]
    rcases hf with hf | hf | hf | hf
    · exact scoreStep_fsmStep _ rnd h.2.2.2.1 (Or.inl hf)
    · exact scoreStep_fsmStep _ rnd h.2.2.2.1 (Or.inr (Or.inl hf))
    · exact scoreStep_fsmStep _ rnd h.2.2.2.1 (Or.inr (Or.inr hf))
    · exact absurd hf h.1
  · rw [e]
    exact Or.inl ⟨rfl, rfl, rfl⟩

theorem levelOfScore_mono (a b : Int) (h : a ≤ b) : levelOfScore a ≤ levelOfScore b := by
  unfold levelOfScore
  have hq : a / 600 ≤ b / 600 := Int.ediv_le_ediv (by norm_num) h
  omega

/-- Progress across a step of the counters, from a state with the bounds and the level rule
of the runs. -/
theorem tetrisProgress_of_scoreStep (t s' : Tetris) (h : scoreStep t s') (hs : tetrisStats t)
    (h5 : t.level < 10 → 0 ≤ t.score ∧ t.level = levelOfScore t.score) :
    tetrisProgress t s' := by
  obtain ⟨hlo, hhi, h1, h10, hsp⟩ := hs
  rcases h with ⟨e1, e2, e3⟩ | ⟨u, n, hn1, hn4, u1, u2, u3, e1, e2, e3⟩
  · unfold tetrisProgress
    rw [e1, e2, e3]
    exact ⟨fun _ => le_refl _, le_refl _, le_refl _⟩
  · have hu : tetrisStats u := by
      unfold tetrisStats
      rw [u1, u2, u3]
      exact ⟨hlo, hhi, h1, h10, hsp⟩
    obtain ⟨_, _, k1, k10, ksp⟩ := tetrisStats_update_score_and_level u n hu
    have hst := scoreTable_nonneg n
    have hst4 := scoreTable_le n hn4
    have hlevel : t.level ≤ (update_score_and_level u n).level := by
      by_cases hl : u.level < 10
      · obtain ⟨h0t, hlvt⟩ := h5 (u2 ▸ hl)
        have h0 : 0 ≤ u.score := by rw [u1]; exact h0t
        have hlv : u.level = levelOfScore u.score := by rw [u1, u2]; exact hlvt
        have hr := levelRule_small u n hn4 hl hlv
        rw [(update_score_and_level_small u n h0 hr hn1 hn4 hlv).1,
          update_score_and_level_score u n (by omega),
          wrapInt_of_range _ (by unfold INT_MIN; omega) hr, ← u2, hlv]
        exact levelOfScore_mono _ _ (by omega)
      · rw [(update_score_and_level_top u n hl).1, u2]
    unfold tetrisProgress
    rw [e1, e2, e3]
    refine ⟨fun hr => ?_, hlevel, ?_⟩
    · rw [update_score_and_level_score u n (by omega), u1,
        wrapInt_of_range _ (by omega) (by omega)]
      omega
    · rw [ksp, hsp]
      omega

/-- The score and the level rule across a step of the counters that does not lower the
score. -/
theorem exactStats_of_scoreStep (t s' : Tetris) (h : scoreStep t s') (hs : tetrisStats t)
    (he : 0 ≤ t.score ∧ t.level = levelOfScore t.score) (hmono : t.score ≤ s'.score) :
    0 ≤ s'.score ∧ s'.level = levelOfScore s'.score := by
  obtain ⟨hlo, hhi, h1, h10, hsp⟩ := hs
  rcases h with ⟨e1, e2, e3⟩ | ⟨u, n, hn1, hn4, u1, u2, u3, e1, e2, e3⟩
  · rw [e1, e2]
    exact he
  · have hst := scoreTable_nonneg n
    have hst4 := scoreTable_le n hn4
    have hsc := update_score_and_level_score u n (by omega)
    have hr : u.score + scoreTable n ≤ INT_MAX := by
      rw [e1, hsc, u1] at hmono
      rw [u1]
      unfold INT_MAX at hhi ⊢
      unfold wrapInt at hmono
      omega
    have h0 : 0 ≤ u.score := by rw [u1]; exact he.1
    have hlv : u.level = levelOfScore u.score := by rw [u1, u2]; exact he.2
    rw [e1, e2]
    refine ⟨?_, (update_score_and_level_small u n h0 hr hn1 hn4 hlv).1⟩
    rw [hsc, wrapInt_of_range _ (by unfold INT_MIN; omega) hr]
    omega

theorem reachable_of_noWrap (file : Option Int) (s : Tetris) (h : ReachableNoWrap file s) :
    ReachableFrom file s := by
  induction h with
  | init rnd => exact ReachableFrom.init rnd
  | input s action hold rnd _ ih => exact ReachableFrom.input s action hold rnd ih
  | tick s rnd _ _ ih => exact ReachableFrom.tick s rnd ih

/-- Along calls that never wrapped the score around, the score is not negative and the level
is the one derived from it. -/
theorem exactStats_noWrap (file : Option Int) (s : Tetris) (h : ReachableNoWrap file s) :
    0 ≤ s.score ∧ s.level = levelOfScore s.score := by
  induction h with
  | init rnd =>
    rw [lazyInit_static]
    refine ⟨le_refl _, ?_⟩
    show (1 : Int) = levelOfScore 0
    decide
  | input s action hold rnd hr ih =>
    have hinit := (modeInvariant_reachable file s (reachable_of_noWrap file s hr)).1
    by_cases hno : action = UserAction_t.Start ∧ startAccepted s
    · obtain ⟨ha, hacc⟩ := hno
      subst ha
      rw [(userInput_start s hold rnd hinit).1 hacc]
      refine ⟨le_refl _, ?_⟩
      show (1 : Int) = levelOfScore 0
      decide
    · obtain ⟨e1, e2, _, _, _⟩ := userInput_counters s action hold rnd hinit hno
      rw [e1, e2]
      exact ih
  | tick s rnd hr hmono ih =>
    have hreach := reachable_of_noWrap file s hr
    exact exactStats_of_scoreStep s _
      (scoreStep_advance s rnd (modeInvariant_reachable file s hreach)
        (playInvariant_reachable file s hreach))
      (tetrisStats_reachable file s hreach) ih hmono

theorem cellAt_of_inBounds (b : Field) (r c : Int) (h : 0 ≤ r ∧ r < 20 ∧ 0 ≤ c ∧ c < 10) :
    cellAt b r c = b ⟨r.toNat, by omega⟩ ⟨c.toNat, by omega⟩ := by
  unfold cellAt
  rw [dif_pos h]

/-- Claim C39.  In every state reached from initialisation through `userInput` and
`updateCurrentState` with an active piece, the type lies in 0..6, the rotation in 0..3, and
every block of the piece lies inside the board on an `EMPTY` committed cell; so the bounds
test of `lock_current_piece` holds for every block, and locking writes `BODY` on each of
them. -/
theorem tetris_active_piece_valid (file : Option Int) (s : Tetris)
    (hr : ReachableFrom file s) (hact : s.current_piece.active = true) :
    (0 ≤ s.current_piece.type ∧ s.current_piece.type ≤ 6) ∧
    (0 ≤ s.current_piece.rotation ∧ s.current_piece.rotation ≤ 3) ∧
    ∀ r_offset < 4, ∀ c_offset < 4,
      shapeAt s.current_piece.type s.current_piece.rotation r_offset c_offset = 1 →
      (s.current_piece.y + (r_offset : Int) ≥ 0 ∧
        s.current_piece.y + (r_offset : Int) < TETRIS_BOARD_HEIGHT ∧
        s.current_piece.x + (c_offset : Int) ≥ 0 ∧
        s.current_piece.x + (c_offset : Int) < TETRIS_BOARD_WIDTH) ∧
      cellAt s.game_board (s.current_piece.y + (r_offset : Int))
        (s.current_piece.x + (c_offset : Int)) = EMPTY ∧
      cellAt (lock_current_piece s).game_board (s.current_piece.y + (r_offset : Int))
        (s.current_piece.x + (c_offset : Int)) = BODY := by
  obtain ⟨_, _, h3, _, _⟩ := playInvariant_reachable file s hr
  obtain ⟨ht, hrot, hv⟩ := h3 hact
  refine ⟨ht, hrot, ?_⟩
  intro r_offset hro c_offset hco hshape
  obtain ⟨b1, b2, b3, b4, hcell⟩ := hv r_offset hro c_offset hco hshape
  refine ⟨⟨b3, b4, b1, b2⟩, hcell, ?_⟩
  rw [(lock_current_piece_fields s).1, if_pos hact,
    cellAt_of_inBounds _ _ _ ⟨b3, b4, b1, b2⟩]
  apply (lockCells_apply s.game_board s.current_piece _ _).1
  refine ⟨r_offset, hro, c_offset, hco, hshape, ?_, ?_⟩
  · simp only
    rw [Int.toNat_of_nonneg b3]
  · simp only
    rw [Int.toNat_of_nonneg b1]

/-- Test input for C39: the T piece spawned by the first tick after Start in a fresh
process. -/
theorem tetris_active_piece_valid_witness :
    (updateCurrentState (userInput (lazyInit (staticState none) 5) UserAction_t.Start false 0)
      0).1.current_piece.active = true ∧
    cellAt (lock_current_piece
      (updateCurrentState (userInput (lazyInit (staticState none) 5) UserAction_t.Start false 0)
        0).1).game_board 0 4 = BODY :=
  ⟨rfl,
    ((tetris_active_piece_valid none _
      (ReachableFrom.tick _ 0
        (ReachableFrom.input _ UserAction_t.Start false 0 (ReachableFrom.init 5)))
      rfl).2.2 0 (by decide) 1 (by decide) (by decide)).2.2⟩

/-! ## Runs that score: the counters, the `int` score and the cells of the board -/

theorem core_fields (s : Tetris) :
    (core s).game_board = s.game_board ∧ (core s).current_piece = s.current_piece ∧
    (core s).next_piece_type = s.next_piece_type ∧ (core s).paused = s.paused ∧
    (core s).current_fsm_state = s.current_fsm_state ∧
    (core s).overall_game_state = s.overall_game_state ∧
    (core s).game_timer_ticks = s.game_timer_ticks ∧
    (core s).is_initialized = s.is_initialized :=
  ⟨rfl, rfl, rfl, rfl, rfl, rfl, rfl, rfl⟩

theorem core_eq_of_sameCore (a b : Tetris) (h : sameCore a b) : core a = core b := by
  obtain ⟨gb, cp, np, sc, hsc, lv, sp, pa, fsm, ov, tk, ln, ini, hf⟩ := a
  obtain ⟨gb', cp', np', sc', hsc', lv', sp', pa', fsm', ov', tk', ln', ini', hf'⟩ := b
  obtain ⟨h1, h2, h3, h4, h5, h6, h7, h8⟩ := h
  simp only at h1 h2 h3 h4 h5 h6 h7 h8
  have hb : gb = gb' := funext fun r => funext fun c => h1 r c
  subst hb h2 h3 h4 h5 h6 h7 h8
  rfl

theorem core_userInput (s : Tetris) (action : UserAction_t) (hold : Bool) (rnd : Nat)
    (hinit : s.is_initialized = true) (ht : action ≠ UserAction_t.Terminate)
    (hs : action ≠ UserAction_t.Start) :
    core (userInput s action hold rnd) = core (userInput (core s) action hold rnd) := by
  obtain ⟨c1, c2, c3, c4, c5, c6, c7, c8⟩ := core_fields s
  unfold userInput
  rw [lazyInit_of_initialized s rnd hinit, lazyInit_of_initialized (core s) rnd hinit]
  cases action <;>
    first
    | exact absurd rfl ht
    | exact absurd rfl hs
    | (simp only [reduceCtorEq, if_false, if_true, c1, c2, c4, c5]
       split_ifs <;> rfl)

theorem core_calculate_speed_from_level (t : Tetris) :
    core (calculate_speed_from_level t) = core t := by
  unfold calculate_speed_from_level
  simp only
  split_ifs <;> rfl

theorem core_update_score_and_level (t : Tetris) (n : Int) :
    core (update_score_and_level t n) = core t := by
  by_cases hn : n > 0
  · rw [update_score_and_level_pos t n hn]
    by_cases hc : Int.tdiv (scored t n).score 600 >
        Int.tdiv (wrapInt ((scored t n).score - prevPoints n)) 600 ∧ t.level < 10
    · rw [if_pos hc, core_calculate_speed_from_level]
      rfl
    · rw [if_neg hc]
      rfl
  · rw [update_score_and_level_nonpos t n (by omega)]

theorem lock_current_piece_core (t : Tetris) :
    lock_current_piece (core t) = core (lock_current_piece t) := by
  unfold lock_current_piece
  have c2 : (core t).current_piece = t.current_piece := rfl
  rw [c2]
  split_ifs <;> rfl

theorem clear_completed_lines_core (t : Tetris) :
    clear_completed_lines (core t) =
      (core (clear_completed_lines t).1, (clear_completed_lines t).2) := by
  obtain ⟨b', h1, _, h3⟩ := clear_completed_lines_eq t
  have h41 := h3 41 le_rfl
  rw [h1]
  unfold clear_completed_lines
  have c1 : (core t).game_board = t.game_board := rfl
  rw [c1, h41]
  rfl

theorem scoring_core (u : Tetris) (n : Int) :
    core { (if n > 0 then update_score_and_level u n else u) with
        current_fsm_state := TetrisFSMState_t.TETRIS_STATE_SPAWN } =
      { core u with current_fsm_state := TetrisFSMState_t.TETRIS_STATE_SPAWN } := by
  have h : ∀ x : Tetris, core { x with current_fsm_state := TetrisFSMState_t.TETRIS_STATE_SPAWN } =
      { core x with current_fsm_state := TetrisFSMState_t.TETRIS_STATE_SPAWN } := fun _ => rfl
  rw [h]
  split_ifs
  · rw [core_update_score_and_level]
  · rfl

theorem scoring_score (u : Tetris) (n : Int) (hr : INT_MIN ≤ u.score ∧ u.score ≤ INT_MAX) :
    ({ (if n > 0 then update_score_and_level u n else u) with
        current_fsm_state := TetrisFSMState_t.TETRIS_STATE_SPAWN } : Tetris).score =
      wrapInt (u.score +
        ({ (if n > 0 then update_score_and_level (core u) n else core u) with
          current_fsm_state := TetrisFSMState_t.TETRIS_STATE_SPAWN } : Tetris).score) := by
  show (if n > 0 then update_score_and_level u n else u).score =
    wrapInt (u.score + (if n > 0 then update_score_and_level (core u) n else core u).score)
  by_cases hn : n > 0
  · rw [if_pos hn, if_pos hn, update_score_and_level_score u n hn,
      update_score_and_level_score (core u) n hn, wrapInt_add_wrapInt]
    show _ = wrapInt (u.score + (0 + scoreTable n))
    rw [zero_add]
  · rw [if_neg hn, if_neg hn]
    show u.score = wrapInt (u.score + 0)
    rw [add_zero, wrapInt_of_range _ hr.1 hr.2]

theorem fsmStep_core (t : Tetris) (rnd : Nat)
    (hr : INT_MIN ≤ t.score ∧ t.score ≤ INT_MAX)
    (hfsm : t.current_fsm_state = TetrisFSMState_t.TETRIS_STATE_SPAWN ∨
      t.current_fsm_state = TetrisFSMState_t.TETRIS_STATE_MOVING ∨
      t.current_fsm_state = TetrisFSMState_t.TETRIS_STATE_LOCKING ∨
      t.current_fsm_state = TetrisFSMState_t.TETRIS_STATE_LINE_CLEAR) :
    core (fsmStep t rnd) = core (fsmStep (core t) rnd) ∧
    (fsmStep t rnd).score = wrapInt (t.score + (fsmStep (core t) rnd).score) := by
  have hz : t.score = wrapInt (t.score + 0) := by
    rw [add_zero, wrapInt_of_range _ hr.1 hr.2]
  rcases hfsm with hf | hf | hf | hf
  · by_cases hv : validPlacement t.game_board 3 0 t.next_piece_type 0
    · rw [(fsmStep_spawn t rnd hf).1 hv, (fsmStep_spawn (core t) rnd hf).1 hv]
      exact ⟨rfl, hz⟩
    · rw [(fsmStep_spawn t rnd hf).2 hv, (fsmStep_spawn (core t) rnd hf).2 hv]
      exact ⟨rfl, hz⟩
  · cases ha : t.current_piece.active with
    | false =>
      rw [fsmStep_moving_inactive t rnd hf ha, fsmStep_moving_inactive (core t) rnd hf ha]
      exact ⟨rfl, hz⟩
    | true =>
      rw [fsmStep_moving t rnd hf ha, fsmStep_moving (core t) rnd hf ha]
      have c1 : (core t).game_board = t.game_board := rfl
      have c2 : (core t).current_piece = t.current_piece := rfl
      rw [c1, c2]
      split_ifs <;> exact ⟨rfl, hz⟩
  · rw [fsmStep_locking t rnd hf, fsmStep_locking (core t) rnd hf, lock_current_piece_core,
      clear_completed_lines_core]
    have hu : (clear_completed_lines (lock_current_piece t)).1.score = t.score :=
      (clear_completed_lines_frame _).1.trans (lock_current_piece_frame t).1
    refine ⟨?_, ?_⟩
    · rw [scoring_core, scoring_core]
      rfl
    · have h := scoring_score (clear_completed_lines (lock_current_piece t)).1
        (clear_completed_lines (lock_current_piece t)).2 (by rw [hu]; exact hr)
      rw [hu] at h
      exact h
  · rw [fsmStep_line_clear t rnd hf, fsmStep_line_clear (core t) rnd hf,
      clear_completed_lines_core]
    have hu : (clear_completed_lines t).1.score = t.score := (clear_completed_lines_frame _).1
    refine ⟨?_, ?_⟩
    · rw [scoring_core, scoring_core]
      rfl
    · have h := scoring_score (clear_completed_lines t).1 (clear_completed_lines t).2
        (by rw [hu]; exact hr)
      rw [hu] at h
      exact h

theorem modeInvariant_core (s : Tetris) (h : modeInvariant s) : modeInvariant (core s) := h

theorem advance_core (s : Tetris) (rnd : Nat) (hm : modeInvariant s)
    (hr : INT_MIN ≤ s.score ∧ s.score ≤ INT_MAX) :
    core (advance s rnd) = core (advance (core s) rnd) ∧
    (advance s rnd).score = wrapInt (s.score + (advance (core s) rnd).score) := by
  rcases advance_of_modeInvariant s rnd hm with ⟨hp, ho, hf, e⟩ | ⟨ho, e⟩
  · rw [e, advance_running (core s) rnd hm.1 hp ho]
    exact fsmStep_core { s with game_timer_ticks := (s.game_timer_ticks + 1) % 2 ^ 64 } rnd
      hr hf
  · rcases advance_of_modeInvariant (core s) rnd (modeInvariant_core s hm) with
      ⟨_, ho', _, _⟩ | ⟨_, e'⟩
    · exact absurd ho' ho
    · rw [e, e']
      refine ⟨rfl, ?_⟩
      show s.score = wrapInt (s.score + 0)
      rw [add_zero, wrapInt_of_range _ hr.1 hr.2]

theorem step_core (s : Tetris) (e : Event) (hk : e.keepsGame = true) (hm : modeInvariant s)
    (hr : INT_MIN ≤ s.score ∧ s.score ≤ INT_MAX) :
    core (step s e) = core (step (core s) e) ∧
    (step s e).score = wrapInt (s.score + (step (core s) e).score) := by
  cases e with
  | tick rnd => exact advance_core s rnd hm hr
  | input action hold rnd =>
    have hk' : (decide (action ≠ UserAction_t.Terminate) &&
        decide (action ≠ UserAction_t.Start)) = true := hk
    simp only [Bool.and_eq_true, decide_eq_true_eq] at hk'
    obtain ⟨ht, hs⟩ := hk'
    refine ⟨core_userInput s action hold rnd hm.1 ht hs, ?_⟩
    have e1 := (userInput_counters s action hold rnd hm.1 (fun h => hs h.1)).1
    have e2 := (userInput_counters (core s) action hold rnd hm.1 (fun h => hs h.1)).1
    show (userInput s action hold rnd).score =
      wrapInt (s.score + (userInput (core s) action hold rnd).score)
    rw [e1, e2]
    show s.score = wrapInt (s.score + 0)
    rw [add_zero, wrapInt_of_range _ hr.1 hr.2]

theorem modeInvariant_step (s : Tetris) (e : Event) (hm : modeInvariant s) :
    modeInvariant (step s e) := by
  cases e with
  | tick rnd => exact modeInvariant_advance s rnd hm
  | input action hold rnd => exact modeInvariant_userInput s action hold rnd hm

theorem run_cons (s : Tetris) (e : Event) (events : List Event) :
    run s (e :: events) = run (step s e) events := rfl

theorem run_append (s : Tetris) (events events' : List Event) :
    run s (events ++ events') = run (run s events) events' := by
  unfold run
  rw [List.foldl_append]

theorem run_core :
    ∀ (events : List Event) (s : Tetris), modeInvariant s →
      (INT_MIN ≤ s.score ∧ s.score ≤ INT_MAX) → events.all Event.keepsGame = true →
      core (run s events) = core (run (core s) events) ∧
      (run s events).score = wrapInt (s.score + (run (core s) events).score)
  | [], s, _, hr, _ => by
    refine ⟨rfl, ?_⟩
    show s.score = wrapInt (s.score + 0)
    rw [add_zero, wrapInt_of_range _ hr.1 hr.2]
  | e :: events, s, hm, hr, hall => by
    rw [List.all_cons, Bool.and_eq_true] at hall
    obtain ⟨b1, b2⟩ := step_core s e hall.1 hm hr
    obtain ⟨_, b2'⟩ := step_core (core s) e hall.1 (modeInvariant_core s hm)
      ⟨(show INT_MIN ≤ (0 : Int) by decide), (show (0 : Int) ≤ INT_MAX by decide)⟩
    obtain ⟨i1, i2⟩ := run_core events (step s e) (modeInvariant_step s e hm)
      (by rw [b2]; exact wrapInt_range _) hall.2
    obtain ⟨j1, j2⟩ := run_core events (step (core s) e)
      (modeInvariant_step _ e (modeInvariant_core s hm))
      (by rw [b2']; exact wrapInt_range _) hall.2
    rw [run_cons, run_cons]
    rw [b1] at i1 i2
    refine ⟨i1.trans j1.symm, ?_⟩
    rw [i2, j2, b2]
    unfold wrapInt
    omega

theorem reachable_run (file : Option Int) :
    ∀ (events : List Event) (s : Tetris), ReachableFrom file s →
      ReachableFrom file (run s events)
  | [], _, h => h
  | Event.tick rnd :: events, s, h =>
    reachable_run file events _ (ReachableFrom.tick s rnd h)
  | Event.input action hold rnd :: events, s, h =>
    reachable_run file events _ (ReachableFrom.input s action hold rnd h)

theorem noWrap_run (file : Option Int) :
    ∀ (events : List Event) (s : Tetris), ReachableNoWrap file s →
      runKeepsScore s events = true → ReachableNoWrap file (run s events)
  | [], _, h, _ => h
  | Event.tick rnd :: events, s, h, hk => by
    have hk' : (decide (s.score ≤ (updateCurrentState s rnd).1.score) &&
        runKeepsScore (updateCurrentState s rnd).1 events) = true := hk
    rw [Bool.and_eq_true, decide_eq_true_eq] at hk'
    exact noWrap_run file events _ (ReachableNoWrap.tick s rnd h hk'.1) hk'.2
  | Event.input action hold rnd :: events, s, h, hk =>
    noWrap_run file events _ (ReachableNoWrap.input s action hold rnd h) hk

theorem clearCycle_keepsGame : clearCycle.all Event.keepsGame = true := by decide

theorem fillCalls_keepsGame : fillCalls.all Event.keepsGame = true := by decide

set_option maxRecDepth 1000000 in
theorem clearCycle_first :
    sameCore (run startedState clearCycle) clearedState ∧
      (run startedState clearCycle).score = 300 := by
  decide!

set_option maxRecDepth 1000000 in
theorem clearCycle_again :
    sameCore (run clearedState clearCycle) clearedState ∧
      (run clearedState clearCycle).score = 300 := by
  decide!

set_option maxRecDepth 1000000 in
theorem fillCalls_result :
    (core (run clearedState fillCalls)).current_fsm_state =
      TetrisFSMState_t.TETRIS_STATE_LOCKING ∧
    (core (run clearedState fillCalls)).paused = false ∧
    (core (run clearedState fillCalls)).overall_game_state = GameState.GAME_RUNNING ∧
    (run clearedState fillCalls).score = 0 ∧
    fullRowCount (lock_current_piece (core (run clearedState fillCalls))).game_board = 2 ∧
    (advance (core (run clearedState fillCalls)) 0).score = 300 := by
  decide!

theorem startedState_reachable : ReachableFrom none startedState :=
  ReachableFrom.input _ UserAction_t.Start false 3 (ReachableFrom.init 3)

/-- Every multiple of 300 is, modulo `2^32`, the score of a reachable engine that stands as
after a run of `clearCycle`. -/
theorem cleared_reachable (n : Nat) :
    ∃ s : Tetris, ReachableFrom none s ∧ core s = clearedState ∧
      s.score = wrapInt (300 * ((n : Int) + 1)) := by
  induction n with
  | zero =>
    refine ⟨run startedState clearCycle, reachable_run none _ _ startedState_reachable, ?_, ?_⟩
    · exact core_eq_of_sameCore _ _ clearCycle_first.1
    · rw [clearCycle_first.2]
      decide
  | succ n ih =>
    obtain ⟨s, hs, hc, hsc⟩ := ih
    obtain ⟨c1, c2⟩ := run_core clearCycle s (modeInvariant_reachable none s hs)
      ⟨(tetrisStats_reachable none s hs).1, (tetrisStats_reachable none s hs).2.1⟩
      clearCycle_keepsGame
    rw [hc] at c1 c2
    refine ⟨run s clearCycle, reachable_run none _ _ hs, ?_, ?_⟩
    · rw [c1]
      exact core_eq_of_sameCore _ _ clearCycle_again.1
    · rw [c2, clearCycle_again.2, hsc]
      push_cast
      unfold wrapInt
      omega

/-- A reachable engine in which the next tick takes the score above `INT_MAX`: Running,
unpaused, Locking, with the score 2147483400 at level 10 and a piece that completes two
rows. -/
theorem overflow_reachable :
    ∃ s : Tetris, ReachableFrom none s ∧ s.is_initialized = true ∧ s.paused = false ∧
      s.overall_game_state = GameState.GAME_RUNNING ∧
      s.current_fsm_state = TetrisFSMState_t.TETRIS_STATE_LOCKING ∧
      s.score = 2147483400 ∧ s.level = 10 ∧
      fullRowCount (lock_current_piece s).game_board = 2 ∧
      (updateCurrentState s 0).1.score = -2147483596 ∧
      (updateCurrentState s 0).1.level = 10 := by
  obtain ⟨s0, hs0, hc0, hsc0⟩ := cleared_reachable 7158277
  have hsc : s0.score = 2147483400 := by
    rw [hsc0]
    decide
  obtain ⟨c1, c2⟩ := run_core fillCalls s0 (modeInvariant_reachable none s0 hs0)
    ⟨(tetrisStats_reachable none s0 hs0).1, (tetrisStats_reachable none s0 hs0).2.1⟩
    fillCalls_keepsGame
  rw [hc0] at c1 c2
  obtain ⟨f1, f2, f3, f4, f5, f6⟩ := fillCalls_result
  obtain ⟨s, hsdef⟩ : ∃ s : Tetris, s = run s0 fillCalls := ⟨_, rfl⟩
  rw [← hsdef] at c1 c2
  have hs : ReachableFrom none s := by
    rw [hsdef]
    exact reachable_run none _ _ hs0
  have hm := modeInvariant_reachable none s hs
  have hst := tetrisStats_reachable none s hs
  have hscore : s.score = 2147483400 := by
    rw [c2, f4, hsc]
    decide
  have hfsm : s.current_fsm_state = TetrisFSMState_t.TETRIS_STATE_LOCKING :=
    (show s.current_fsm_state = (core s).current_fsm_state from rfl).trans
      ((congrArg Tetris.current_fsm_state c1).trans f1)
  have hp : s.paused = false :=
    (show s.paused = (core s).paused from rfl).trans ((congrArg Tetris.paused c1).trans f2)
  have ho : s.overall_game_state = GameState.GAME_RUNNING :=
    (show s.overall_game_state = (core s).overall_game_state from rfl).trans
      ((congrArg Tetris.overall_game_state c1).trans f3)
  have hlevel : s.level = 10 := by
    have hj := (playInvariant_reachable none s hs).2.2.2.2
    have h10 := hst.2.2.2.1
    by_contra hne
    obtain ⟨_, hl⟩ := hj (by omega)
    rw [hscore] at hl
    have : levelOfScore 2147483400 = 10 := by unfold levelOfScore; omega
    exact hne (hl.trans this)
  have hrows : fullRowCount (lock_current_piece s).game_board = 2 := by
    have e : (lock_current_piece s).game_board =
        (lock_current_piece (core (run clearedState fillCalls))).game_board := by
      rw [← c1, lock_current_piece_core]
      rfl
    rw [e]
    exact f5
  obtain ⟨_, a2⟩ := advance_core s 0 hm ⟨hst.1, hst.2.1⟩
  rw [c1, f6, hscore] at a2
  have hscore' : (updateCurrentState s 0).1.score = -2147483596 := by
    show (advance s 0).score = _
    rw [a2]
    decide
  have hprog := tetrisProgress_of_scoreStep s (advance s 0)
    (scoreStep_advance s 0 hm (playInvariant_reachable none s hs)) hst
    (playInvariant_reachable none s hs).2.2.2.2
  have hst' := tetrisStats_advance s 0 hm hst
  refine ⟨s, hs, hm.1, hp, ho, hfsm, hscore, hlevel, hrows, hscore', ?_⟩
  show (advance s 0).level = 10
  have := hprog.2.1
  have := hst'.2.2.2.1
  omega

theorem boardBinary_empty : boardBinary (fun _ _ => EMPTY) :=
  fun _ _ => Or.inl rfl

theorem boardBinary_lockCells (b : Field) (p : CurrentPieceState) (h : boardBinary b) :
    boardBinary (lockCells b p) := by
  intro i j
  by_cases hpc : pieceCell p (i.val : Int) (j.val : Int)
  · exact Or.inr ((lockCells_apply b p i j).1 hpc)
  · rw [(lockCells_apply b p i j).2 hpc]
    exact h i j

theorem boardBinary_cleared (b b' : Field) (h : boardRows b' = clearedRows b)
    (hb : boardBinary b) : boardBinary b' := by
  intro i j
  have hmem : b' i ∈ boardRows b' := by
    unfold boardRows
    exact (List.mem_ofFn b' (b' i)).2 ⟨i, rfl⟩
  rw [h, clearedRows, List.mem_append] at hmem
  rcases hmem with hm | hm
  · rw [List.eq_of_mem_replicate hm]
    exact Or.inl rfl
  · have hrow := (List.mem_filter.1 hm).1
    unfold boardRows at hrow
    obtain ⟨k, hk⟩ := (List.mem_ofFn b (b' i)).1 hrow
    rw [← hk]
    exact hb k j

theorem boardBinary_userInput (s : Tetris) (action : UserAction_t) (hold : Bool) (rnd : Nat)
    (hinit : s.is_initialized = true) (h : boardBinary s.game_board) :
    boardBinary (userInput s action hold rnd).game_board := by
  by_cases ht : action = UserAction_t.Terminate
  · subst ht
    rw [userInput_terminate s hold rnd hinit]
    exact h
  by_cases hs : action = UserAction_t.Start
  · subst hs
    by_cases ha : startAccepted s
    · rw [(userInput_start s hold rnd hinit).1 ha]
      exact boardBinary_empty
    · rw [(userInput_start s hold rnd hinit).2 ha]
      exact h
  by_cases hpa : action = UserAction_t.Pause
  · subst hpa
    by_cases hf : s.current_fsm_state = TetrisFSMState_t.TETRIS_STATE_START_SCREEN ∨
        s.current_fsm_state = TetrisFSMState_t.TETRIS_STATE_GAME_OVER
    · have e : userInput s UserAction_t.Pause hold rnd = s :=
        userInput_ignored s _ hold rnd hinit ht hs
          (hf.elim Or.inl (fun h => Or.inr (Or.inl h)))
      rw [e]
      exact h
    · rw [userInput_pause s hold rnd hinit (fun h => hf (Or.inl h)) (fun h => hf (Or.inr h))]
      split_ifs <;> exact h
  · rw [(userInput_move s action hold rnd hinit ht hs hpa).1]
    exact h

theorem boardBinary_fsmStep (t : Tetris) (rnd : Nat) (h : boardBinary t.game_board)
    (hfsm : t.current_fsm_state = TetrisFSMState_t.TETRIS_STATE_SPAWN ∨
      t.current_fsm_state = TetrisFSMState_t.TETRIS_STATE_MOVING ∨
      t.current_fsm_state = TetrisFSMState_t.TETRIS_STATE_LOCKING ∨
      t.current_fsm_state = TetrisFSMState_t.TETRIS_STATE_LINE_CLEAR) :
    boardBinary (fsmStep t rnd).game_board := by
  have hscoring : ∀ u : Tetris, boardBinary u.game_board →
      boardBinary ({ (if (clear_completed_lines u).2 > 0 then
          update_score_and_level (clear_completed_lines u).1 (clear_completed_lines u).2
        else (clear_completed_lines u).1) with
        current_fsm_state := TetrisFSMState_t.TETRIS_STATE_SPAWN } : Tetris).game_board := by
    intro u hu
    obtain ⟨b', hclear, hrows, _⟩ := clear_completed_lines_eq u
    have hb' : boardBinary (clear_completed_lines u).1.game_board := by
      rw [hclear]
      exact boardBinary_cleared _ b' hrows hu
    show boardBinary (if (clear_completed_lines u).2 > 0 then
          update_score_and_level (clear_completed_lines u).1 (clear_completed_lines u).2
        else (clear_completed_lines u).1).game_board
    split_ifs
    · rw [(update_score_and_level_keeps _ _).1]
      exact hb'
    · exact hb'
  rcases hfsm with hf | hf | hf | hf
  · by_cases hv : validPlacement t.game_board 3 0 t.next_piece_type 0
    · rw [(fsmStep_spawn t rnd hf).1 hv]
      exact h
    · rw [(fsmStep_spawn t rnd hf).2 hv]
      exact h
  · cases ha : t.current_piece.active with
    | false =>
      rw [fsmStep_moving_inactive t rnd hf ha]
      exact h
    | true =>
      rw [fsmStep_moving t rnd hf ha]
      split_ifs <;> exact h
  · rw [fsmStep_locking t rnd hf]
    refine hscoring (lock_current_piece t) ?_
    rw [(lock_current_piece_fields t).1]
    split_ifs
    · exact boardBinary_lockCells _ _ h
    · exact h
  · rw [fsmStep_line_clear t rnd hf]
    exact hscoring t h

theorem boardBinary_reachable (file : Option Int) (s : Tetris) (h : ReachableFrom file s) :
    boardBinary s.game_board := by
  induction h with
  | init rnd =>
    rw [lazyInit_static]
    exact fun _ _ => Or.inl rfl
  | input s action hold rnd hr ih =>
    exact boardBinary_userInput s action hold rnd (modeInvariant_reachable file s hr).1 ih
  | tick s rnd hr ih =>
    show boardBinary (advance s rnd).game_board
    rcases advance_of_modeInvariant s rnd (modeInvariant_reachable file s hr) with
      ⟨_, _, hf, e⟩ | ⟨_, e⟩
    · rw [e]
      exact boardBinary_fsmStep _ rnd ih hf
    · rw [e]
      exact ih

/-- Claim C19.  `lock_current_piece` with an active piece at a valid placement: every cell
occupied by the shape at its anchor lies on the board, was `EMPTY` and is `BODY` afterwards,
every other cell is unchanged; hence, on a board whose cells are `EMPTY` or `BODY`, as the
board of every reachable state is, a cell is `BODY` afterwards exactly when it was not `EMPTY`
or is a cell of the piece; the piece is inactive, the inner state is ClearingLines and nothing
else changes.  With an inactive piece the call changes nothing. -/
theorem tetris_lock_current_piece (s : Tetris) (s' : Tetris)
    (hs' : s' = lock_current_piece s) :
    (s.current_piece.active = true →
      validPlacement s.game_board s.current_piece.x s.current_piece.y s.current_piece.type
        s.current_piece.rotation →
      (∀ (i : Fin 20) (j : Fin 10), pieceCell s.current_piece (i.val : Int) (j.val : Int) →
        s'.game_board i j = BODY) ∧
      (∀ (i : Fin 20) (j : Fin 10), ¬ pieceCell s.current_piece (i.val : Int) (j.val : Int) →
        s'.game_board i j = s.game_board i j) ∧
      (∀ r_offset < 4, ∀ c_offset < 4,
        shapeAt s.current_piece.type s.current_piece.rotation r_offset c_offset = 1 →
        ∃ (i : Fin 20) (j : Fin 10),
          (i.val : Int) = s.current_piece.y + (r_offset : Int) ∧
          (j.val : Int) = s.current_piece.x + (c_offset : Int) ∧
          s.game_board i j = EMPTY ∧ s'.game_board i j = BODY) ∧
      ((∀ (i : Fin 20) (j : Fin 10), s.game_board i j = EMPTY ∨ s.game_board i j = BODY) →
        ∀ (i : Fin 20) (j : Fin 10),
          (s'.game_board i j = BODY ↔
            s.game_board i j ≠ EMPTY ∨ pieceCell s.current_piece (i.val : Int) (j.val : Int))) ∧
      (∀ file : Option Int, ReachableFrom file s →
        ∀ (i : Fin 20) (j : Fin 10),
          (s'.game_board i j = BODY ↔
            s.game_board i j ≠ EMPTY ∨ pieceCell s.current_piece (i.val : Int) (j.val : Int))) ∧
      s' =
        { s with
            game_board := s'.game_board
            current_piece := { s.current_piece with active := false }
            current_fsm_state := TetrisFSMState_t.TETRIS_STATE_LINE_CLEAR }) ∧
    (s.current_piece.active = false → s' = s) := by
  subst hs'
  constructor
  · intro hact hv
    have e : lock_current_piece s =
        { s with
            game_board := lockCells s.game_board s.current_piece
            current_piece := { s.current_piece with active := false }
            current_fsm_state := TetrisFSMState_t.TETRIS_STATE_LINE_CLEAR } := by
      unfold lock_current_piece
      simp only [hact, Bool.not_true, Bool.false_eq_true, if_false]
    rw [e]
    have hcells := lockCells_apply s.game_board s.current_piece
    have hiff : (∀ (i : Fin 20) (j : Fin 10),
          s.game_board i j = EMPTY ∨ s.game_board i j = BODY) →
        ∀ (i : Fin 20) (j : Fin 10),
          (lockCells s.game_board s.current_piece i j = BODY ↔
            s.game_board i j ≠ EMPTY ∨
              pieceCell s.current_piece (i.val : Int) (j.val : Int)) := by
      intro hdom i j
      by_cases hpc : pieceCell s.current_piece (i.val : Int) (j.val : Int)
      · rw [(hcells i j).1 hpc]
        exact ⟨fun _ => Or.inr hpc, fun _ => rfl⟩
      · rw [(hcells i j).2 hpc]
        constructor
        · intro h
          left
          rw [h]
          decide
        · rintro (h | h)
          · rcases hdom i j with h0 | h2
            · exact absurd h0 h
            · exact h2
          · exact absurd h hpc
    refine ⟨fun i j h => (hcells i j).1 h, fun i j h => (hcells i j).2 h, ?_, hiff,
      fun file hr => hiff (boardBinary_reachable file s hr), rfl⟩
    · intro r hr c hc hshape
      obtain ⟨h1, h2, h3, h4, h5⟩ := hv r hr c hc hshape
      refine ⟨⟨(s.current_piece.y + (r : Int)).toNat, by omega⟩,
        ⟨(s.current_piece.x + (c : Int)).toNat, by omega⟩, by simp only; omega,
        by simp only; omega, ?_, ?_⟩
      · have hin : 0 ≤ s.current_piece.y + (r : Int) ∧ s.current_piece.y + (r : Int) < 20 ∧
            0 ≤ s.current_piece.x + (c : Int) ∧ s.current_piece.x + (c : Int) < 10 :=
          ⟨h3, h4, h1, h2⟩
        unfold cellAt at h5
        rw [dif_pos hin] at h5
        exact h5
      · apply (hcells _ _).1
        exact ⟨r, hr, c, hc, hshape, by simp only; omega, by simp only; omega⟩
  · intro hact
    unfold lock_current_piece
    simp [hact]

/-- Test input for C19: the landed T piece fills the cell (19,4); and in the reachable engine
whose O piece has just spawned on the empty board, the cell (0,4) is `BODY` after locking
because it is a cell of the piece. -/
theorem tetris_lock_current_piece_witness :
    landedState.current_piece.active = true ∧
    validPlacement landedState.game_board 3 18 5 0 ∧
    (lock_current_piece landedState).game_board ⟨19, by decide⟩ ⟨4, by decide⟩ = BODY ∧
    ((lock_current_piece (updateCurrentState startedState 3).1).game_board 0 4 = BODY ↔
      (updateCurrentState startedState 3).1.game_board 0 4 ≠ EMPTY ∨
        pieceCell (updateCurrentState startedState 3).1.current_piece
          (((0 : Fin 20).val : Nat) : Int) (((4 : Fin 10).val : Nat) : Int)) :=
  ⟨rfl, by decide,
    ((tetris_lock_current_piece landedState (lock_current_piece landedState) rfl).1 rfl
      (by decide)).1 ⟨19, by decide⟩ ⟨4, by decide⟩ (by decide),
    ((tetris_lock_current_piece (updateCurrentState startedState 3).1
      (lock_current_piece (updateCurrentState startedState 3).1) rfl).1 rfl
      (by decide)).2.2.2.2.1 none (ReachableFrom.tick startedState 3 startedState_reachable)
        0 4⟩

set_option maxRecDepth 1000000 in
theorem clearCycle_keepsScore : runKeepsScore startedState clearCycle = true := by
  decide!

set_option maxRecDepth 1000000 in
theorem fillCalls_first :
    (run startedState fillCalls).score = 0 ∧
      (updateCurrentState (run startedState fillCalls) 0).1.score = 300 := by
  decide!

theorem clear_completed_lines_count (t : Tetris) :
    (clear_completed_lines t).2 = (fullRowCount t.game_board : Int) := by
  obtain ⟨b', hclear, _, _⟩ := clear_completed_lines_eq t
  rw [hclear]

theorem startedState_noWrap : ReachableNoWrap none startedState :=
  ReachableNoWrap.input _ UserAction_t.Start false 3 (ReachableNoWrap.init 3)

/-- Claim C13, counterexample.  A reachable engine, Running, unpaused and Locking with the
score 2147483400, in which the tick clears two rows and calls `update_score_and_level(2)`: the
call leaves the score -2147483596, not 2147483400 + 300.  The engine is reached from a fresh
process by Start and 7158278 runs of `clearCycle`, each of which drops five O pieces side by
side and scores 300 for the two rows they complete, followed by `fillCalls`. -/
theorem tetris_score_wraps_above_int_max :
    ∃ s : Tetris, ReachableFrom none s ∧
      s.current_fsm_state = TetrisFSMState_t.TETRIS_STATE_LOCKING ∧
      (clear_completed_lines (lock_current_piece s)).2 = 2 ∧
      (clear_completed_lines (lock_current_piece s)).1.score = 2147483400 ∧
      (update_score_and_level (clear_completed_lines (lock_current_piece s)).1 2).score =
        -2147483596 ∧
      (update_score_and_level (clear_completed_lines (lock_current_piece s)).1 2).score ≠
        (clear_completed_lines (lock_current_piece s)).1.score + scoreTable 2 := by
  obtain ⟨s, hs, _, _, _, hfsm, hscore, _, hrows, _, _⟩ := overflow_reachable
  have hn : (clear_completed_lines (lock_current_piece s)).2 = 2 := by
    rw [clear_completed_lines_count, hrows]
    rfl
  have hu : (clear_completed_lines (lock_current_piece s)).1.score = 2147483400 :=
    ((clear_completed_lines_frame _).1.trans (lock_current_piece_frame s).1).trans hscore
  have hsc : (update_score_and_level (clear_completed_lines (lock_current_piece s)).1 2).score =
      -2147483596 := by
    rw [update_score_and_level_score _ 2 (by decide), hu]
    decide
  refine ⟨s, hs, hfsm, hn, hu, hsc, ?_⟩
  rw [hsc, hu]
  decide

/-- Claim C14, counterexample.  In the reachable engine of `overflow_reachable` the tick calls
`update_score_and_level(2)` at the score 2147483400 and level 10, which is
`min(10, floor(score / 600) + 1)`; afterwards the score is -2147483596 and the level is still
10, while `min(10, floor(score' / 600) + 1)` is negative. -/
theorem tetris_level_rule_fails_after_wrap :
    ∃ s : Tetris, ReachableFrom none s ∧
      s.current_fsm_state = TetrisFSMState_t.TETRIS_STATE_LOCKING ∧
      (clear_completed_lines (lock_current_piece s)).2 = 2 ∧
      (clear_completed_lines (lock_current_piece s)).1.level =
        levelOfScore (clear_completed_lines (lock_current_piece s)).1.score ∧
      (update_score_and_level (clear_completed_lines (lock_current_piece s)).1 2).level = 10 ∧
      levelOfScore
        (update_score_and_level (clear_completed_lines (lock_current_piece s)).1 2).score < 0 := by
  obtain ⟨s, hs, _, _, _, hfsm, hscore, hlevel, hrows, _, _⟩ := overflow_reachable
  have hn : (clear_completed_lines (lock_current_piece s)).2 = 2 := by
    rw [clear_completed_lines_count, hrows]
    rfl
  have hu : (clear_completed_lines (lock_current_piece s)).1.score = 2147483400 :=
    ((clear_completed_lines_frame _).1.trans (lock_current_piece_frame s).1).trans hscore
  have hl : (clear_completed_lines (lock_current_piece s)).1.level = 10 :=
    ((clear_completed_lines_frame _).2.2.1.trans (lock_current_piece_frame s).2.2.1).trans
      hlevel
  have hsc : (update_score_and_level (clear_completed_lines (lock_current_piece s)).1 2).score =
      -2147483596 := by
    rw [update_score_and_level_score _ 2 (by decide), hu]
    decide
  refine ⟨s, hs, hfsm, hn, ?_, ?_, ?_⟩
  · rw [hl, hu]
    unfold levelOfScore
    omega
  · rw [(update_score_and_level_top _ 2 (by rw [hl]; decide)).1, hl]
  · rw [hsc]
    unfold levelOfScore
    omega

/-- Claim C16, counterexample.  In the reachable engine of `overflow_reachable`, Running,
unpaused and Locking with the score 2147483400, the tick locks the piece, removes the two rows
it completes and leaves the score -2147483596, not the score plus the table value 300. -/
theorem tetris_lock_tick_wraps_score :
    ∃ s : Tetris, ReachableFrom none s ∧ s.is_initialized = true ∧ s.paused = false ∧
      s.overall_game_state = GameState.GAME_RUNNING ∧
      s.current_fsm_state = TetrisFSMState_t.TETRIS_STATE_LOCKING ∧
      fullRowCount (lock_current_piece s).game_board = 2 ∧
      s.score + scoreTable (fullRowCount (lock_current_piece s).game_board : Int) = 2147483700 ∧
      (updateCurrentState s 0).1.score = -2147483596 := by
  obtain ⟨s, hs, hi, hp, ho, hfsm, hscore, _, hrows, hsc, _⟩ := overflow_reachable
  refine ⟨s, hs, hi, hp, ho, hfsm, hrows, ?_, hsc⟩
  rw [hrows, hscore]
  decide

/-- Claim C40, counterexample.  A reachable engine whose level is not
`min(10, floor(score / 600) + 1)`: the engine of `overflow_reachable` after its next tick has
the score -2147483596 and the level 10. -/
theorem tetris_level_after_wrap :
    ∃ s : Tetris, ReachableFrom none s ∧ s.score = -2147483596 ∧ s.level = 10 ∧
      s.level ≠ min 10 (s.score / 600 + 1) := by
  obtain ⟨s, hs, _, _, _, _, _, _, _, hsc, hl⟩ := overflow_reachable
  refine ⟨(updateCurrentState s 0).1, ReachableFrom.tick s 0 hs, hsc, hl, ?_⟩
  rw [hl, hsc]
  omega

/-- Claim C40, amended.  In every state reached from initialisation through `userInput` and
`updateCurrentState`, no row of the committed board is full, a lock in that state clears at
most four rows, the level lies in 1..10 and the step interval is `500 - 40 * (level - 1)`; so
the interval is at least 140 and the test against the floor of 50 in
`calculate_speed_from_level` never succeeds.  Below level 10 the score is not negative and
the level is `min(10, floor(score / 600) + 1)`; the same holds at every level in the states
reached along calls none of which wrapped the `int` score around (`ReachableNoWrap`: no tick
lowered the score). -/
theorem tetris_derived_quantities (file : Option Int) (s : Tetris)
    (hr : ReachableFrom file s) :
    (∀ r : Fin 20, ¬ rowFull (s.game_board r)) ∧
    (clear_completed_lines (lock_current_piece s)).2 ≤ 4 ∧
    (1 ≤ s.level ∧ s.level ≤ 10) ∧
    s.game_speed_ms = 500 - 40 * (s.level - 1) ∧
    140 ≤ s.game_speed_ms ∧
    ¬ (INITIAL_SPEED_MS - (s.level - 1) * 40 < 50) ∧
    (calculate_speed_from_level s).game_speed_ms = s.game_speed_ms ∧
    (s.level < 10 → 0 ≤ s.score ∧ s.level = min 10 (s.score / 600 + 1)) ∧
    (ReachableNoWrap file s → 0 ≤ s.score ∧ s.level = min 10 (s.score / 600 + 1)) := by
  obtain ⟨_, _, _, h4, h5⟩ := playInvariant_reachable file s hr
  obtain ⟨_, _, l1, l10, hsp⟩ := tetrisStats_reachable file s hr
  obtain ⟨hn, hle⟩ := lock_clears_at_most_four s h4
  refine ⟨h4, by rw [hn]; exact_mod_cast hle, ⟨l1, l10⟩, hsp, by omega, ?_, ?_, h5,
    fun hnw => exactStats_noWrap file s hnw⟩
  · unfold INITIAL_SPEED_MS
    omega
  · rw [(calculate_speed_from_level_in_range s l1 l10).2, hsp]

/-- Test input for C40: the engine of a fresh process after Start and the run `clearCycle`,
which has scored 300 for two rows. -/
theorem tetris_derived_quantities_witness :
    (run startedState clearCycle).score = 300 ∧
    (run startedState clearCycle).level =
      min 10 ((run startedState clearCycle).score / 600 + 1) ∧
    (run startedState clearCycle).game_speed_ms =
      500 - 40 * ((run startedState clearCycle).level - 1) ∧
    (clear_completed_lines (lock_current_piece (run startedState clearCycle))).2 ≤ 4 :=
  ⟨clearCycle_first.2,
    ((tetris_derived_quantities none (run startedState clearCycle)
      (reachable_run none clearCycle startedState startedState_reachable)).2.2.2.2.2.2.2.2
        (noWrap_run none clearCycle startedState startedState_noWrap clearCycle_keepsScore)).2,
    (tetris_derived_quantities none (run startedState clearCycle)
      (reachable_run none clearCycle startedState startedState_reachable)).2.2.2.1,
    (tetris_derived_quantities none (run startedState clearCycle)
      (reachable_run none clearCycle startedState startedState_reachable)).2.1⟩

end tetris

/-! ## Runs of the Snake engine and facts on both engines -/

theorem moveSnake_counterStep (g g' : Game) (draws rest : List Nat)
    (h : moveSnake g draws = some (g', rest)) : snakeCounterStep g g' := by
  cases hs : g.snake_ with
  | nil =>
    unfold moveSnake at h
    rw [hs] at h
    exact absurd h (by simp)
  | cons old_head body =>
    have hmax : (if g.score_ + 1 > g.high_score_ then g.score_ + 1 else g.high_score_) =
        max g.high_score_ (g.score_ + 1) := by
      split_ifs with hh
      · exact (max_eq_right (le_of_lt hh)).symm
      · exact (max_eq_left (not_lt.1 hh)).symm
    rw [moveSnake_cons g draws old_head body hs] at h
    split_ifs at h
    · simp only [Option.some.injEq, Prod.mk.injEq] at h
      rw [← h.1]
      exact Or.inl ⟨rfl, rfl, rfl, rfl⟩
    · simp only [Option.some.injEq, Prod.mk.injEq] at h
      rw [← h.1]
      exact Or.inr ⟨rfl, hmax, rfl, rfl⟩
    · have hk := generateFood_keeps _ _ _ _ h
      exact Or.inr ⟨hk.2.2.1, hk.2.2.2.1.trans hmax, hk.2.2.2.2.1, hk.2.2.2.2.2.1⟩
    · simp only [Option.some.injEq, Prod.mk.injEq] at h
      rw [← h.1]
      exact Or.inl ⟨rfl, rfl, rfl, rfl⟩

theorem updateGameLogic_counterStep (g g' : Game) (draws rest : List Nat)
    (h : updateGameLogic g draws = some (g', rest)) : snakeCounterStep g g' := by
  unfold updateGameLogic at h
  split_ifs at h
  · exact moveSnake_counterStep g g' draws rest h
  · simp only [Option.some.injEq, Prod.mk.injEq] at h
    rw [← h.1]
    exact Or.inl ⟨rfl, rfl, rfl, rfl⟩

theorem handleUserInput_counterStep (g g' : Game) (action : UserAction_t) (hold : Bool)
    (draws rest : List Nat) (hno : ¬ isResetInput g action)
    (h : handleUserInput g action hold draws = some (g', rest)) : snakeCounterStep g g' := by
  unfold isResetInput at hno
  unfold handleUserInput at h
  split at h <;> (try split_ifs at h) <;>
    first
    | exact moveSnake_counterStep g g' draws rest h
    | (simp only [Option.some.injEq, Prod.mk.injEq] at h
       rw [← h.1]
       exact Or.inl ⟨rfl, rfl, rfl, rfl⟩)
    | exact absurd ⟨‹action = UserAction_t.Start›, Or.inl ‹_›⟩ hno
    | exact absurd ⟨‹action = UserAction_t.Start›, Or.inr (Or.inl ‹_›)⟩ hno
    | exact absurd ⟨‹action = UserAction_t.Start›, Or.inr (Or.inr ‹_›)⟩ hno

theorem snakeStats_of_counterStep (g g' : Game) (h : snakeCounterStep g g')
    (hs : snakeStats g) : snakeStats g' ∧ snakeProgress g g' := by
  obtain ⟨h1, h10, h100⟩ := hs
  unfold snakeStats snakeProgress
  rcases h with ⟨e1, _, e3, e4⟩ | ⟨e1, _, e3, e4⟩
  · rw [e1, e3, e4]
    exact ⟨⟨h1, h10, h100⟩, le_refl _, le_refl _, le_refl _⟩
  · rw [e1, e3, e4]
    split_ifs with hc
    · have := le_max_left (100 : Int) (g.speed_ - 40)
      have := max_le h100 (show g.speed_ - 40 ≤ g.speed_ by omega)
      exact ⟨⟨by omega, by omega, by assumption⟩, by omega, by omega, by assumption⟩
    · exact ⟨⟨h1, h10, h100⟩, by omega, le_refl _, le_refl _⟩

theorem snakeHighInvariant_of_counterStep (g g' : Game) (h : snakeCounterStep g g')
    (hh : snakeHighInvariant g) : snakeHighInvariant g' := by
  obtain ⟨hle, h0⟩ := hh
  unfold snakeHighInvariant
  rcases h with ⟨e1, e2, _, _⟩ | ⟨e1, e2, _, _⟩
  · rw [e1, e2]
    exact ⟨hle, h0⟩
  · rw [e1, e2]
    exact ⟨le_max_right _ _, le_trans h0 (le_max_left _ _)⟩

theorem construct_some (file : Option Int) (draws : List Nat) (g : Game) (rest : List Nat)
    (h : Game.construct file draws = some (g, rest)) :
    g.score_ = 0 ∧ g.high_score_ = storedHighScore file ∧ g.level_ = 1 ∧ g.speed_ = 500 := by
  unfold Game.construct at h
  have hk := initializeGame_some _ _ _ _ h
  refine ⟨hk.2.2.2.1.trans ?_, hk.2.2.2.2.1.trans ?_, hk.2.2.2.2.2.1.trans ?_,
    hk.2.2.2.2.2.2.trans ?_⟩ <;> cases file <;> rfl

theorem handleUserInput_reset (g g' : Game) (action : UserAction_t) (hold : Bool)
    (draws rest : List Nat) (hno : isResetInput g action)
    (hret : handleUserInput g action hold draws = some (g', rest)) :
    resetGame g draws = some (g', rest) := by
  obtain ⟨ha, hst⟩ := hno
  subst ha
  unfold handleUserInput at hret
  rcases hst with hst | hst | hst <;> rw [hst] at hret <;> exact hret

theorem snakeStats_reachable (g : Game) (h : Reachable g) : snakeStats g := by
  induction h with
  | construct file draws g rest hc =>
    have hk := construct_some file draws g rest hc
    unfold snakeStats
    rw [hk.2.2.1, hk.2.2.2]
    decide
  | reset g0 draws g rest hr =>
    have hk := resetGame_some _ _ _ _ hr
    unfold snakeStats
    rw [hk.2.2.2.2.2.1, hk.2.2.2.2.2.2]
    decide
  | input g action hold draws g' rest _ hret ih =>
    by_cases hno : isResetInput g action
    · have hk := resetGame_some _ _ _ _
        (handleUserInput_reset g g' action hold draws rest hno hret)
      unfold snakeStats
      rw [hk.2.2.2.2.2.1, hk.2.2.2.2.2.2]
      decide
    · exact (snakeStats_of_counterStep g g'
        (handleUserInput_counterStep g g' action hold draws rest hno hret) ih).1
  | tick g draws g' rest _ hret ih =>
    exact (snakeStats_of_counterStep g g' (updateGameLogic_counterStep g g' draws rest hret) ih).1

theorem snakeHighInvariant_reachable (file : Option Int) (hfile : 0 ≤ storedHighScore file)
    (g : Game) (h : ReachableFrom file g) : snakeHighInvariant g := by
  induction h with
  | construct draws g rest hc =>
    have hk := construct_some file draws g rest hc
    unfold snakeHighInvariant
    rw [hk.1, hk.2.1]
    exact ⟨hfile, hfile⟩
  | reset g draws g' rest _ hr ih =>
    have hk := resetGame_some _ _ _ _ hr
    unfold snakeHighInvariant
    rw [hk.2.2.2.1, hk.2.2.2.2.1]
    exact ⟨ih.2, ih.2⟩
  | input g action hold draws g' rest _ hret ih =>
    by_cases hno : isResetInput g action
    · have hk := resetGame_some _ _ _ _
        (handleUserInput_reset g g' action hold draws rest hno hret)
      unfold snakeHighInvariant
      rw [hk.2.2.2.1, hk.2.2.2.2.1]
      exact ⟨ih.2, ih.2⟩
    · exact snakeHighInvariant_of_counterStep g g'
        (handleUserInput_counterStep g g' action hold draws rest hno hret) ih
  | tick g draws g' rest _ hret ih =>
    exact snakeHighInvariant_of_counterStep g g'
      (updateGameLogic_counterStep g g' draws rest hret) ih

theorem updateGameLogic_not_running (g : Game) (draws : List Nat)
    (h : g.current_state_ ≠ GameState.GAME_RUNNING) :
    updateGameLogic g draws = some (g, draws) := by
  unfold updateGameLogic
  rw [if_neg h]

theorem tickN_not_running (g : Game) (draws : List Nat)
    (h : g.current_state_ ≠ GameState.GAME_RUNNING) :
    ∀ n : Nat, tickN n g draws = some (g, draws)
  | 0 => rfl
  | n + 1 => by
    unfold tickN
    rw [updateGameLogic_not_running g draws h]
    exact tickN_not_running g draws h n

/-- Claim C30.  A tick in a state other than Running returns the engine unchanged; so for a
Running engine the action Pause, then any number of ticks, then Pause again returns exactly
the engine of before, with no random draw consumed, the engine in between being the same
engine in the state Paused; and the pause flag of the snapshot is 1 exactly when the state is
Paused. -/
theorem snake_pause_persistence (g : Game) (hold hold2 : Bool) (draws : List Nat) (n : Nat) :
    (g.current_state_ ≠ GameState.GAME_RUNNING → updateGameLogic g draws = some (g, draws)) ∧
    (g.current_state_ = GameState.GAME_RUNNING →
      handleUserInput g UserAction_t.Pause hold draws =
        some ({ g with current_state_ := GameState.PAUSED }, draws) ∧
      tickN n { g with current_state_ := GameState.PAUSED } draws =
        some ({ g with current_state_ := GameState.PAUSED }, draws) ∧
      handleUserInput { g with current_state_ := GameState.PAUSED } UserAction_t.Pause hold2
        draws = some (g, draws) ∧
      ((handleUserInput g UserAction_t.Pause hold draws).bind fun r =>
        (tickN n r.1 r.2).bind fun r2 =>
          handleUserInput r2.1 UserAction_t.Pause hold2 r2.2) = some (g, draws)) ∧
    ((snapshot g).pause = 1 ↔ g.current_state_ = GameState.PAUSED) := by
  refine ⟨updateGameLogic_not_running g draws, ?_, ?_⟩
  · intro hrun
    have h1 : handleUserInput g UserAction_t.Pause hold draws =
        some ({ g with current_state_ := GameState.PAUSED }, draws) := by
      unfold handleUserInput
      rw [hrun]
      rfl
    have h2 : tickN n { g with current_state_ := GameState.PAUSED } draws =
        some ({ g with current_state_ := GameState.PAUSED }, draws) :=
      tickN_not_running _ draws (by intro h; cases h) n
    have h3 : handleUserInput { g with current_state_ := GameState.PAUSED }
        UserAction_t.Pause hold2 draws = some (g, draws) := by
      obtain ⟨st, gf, nf, sn, fp, sc, hs, lv, sp, sd⟩ := g
      simp only at hrun
      subst hrun
      rfl
    refine ⟨h1, h2, h3, ?_⟩
    rw [h1, Option.some_bind]
    show (tickN n { g with current_state_ := GameState.PAUSED } draws).bind _ = _
    rw [h2, Option.some_bind]
    exact h3
  · show (if g.current_state_ = GameState.PAUSED then (1 : Int) else 0) = 1 ↔ _
    by_cases h : g.current_state_ = GameState.PAUSED
    · rw [if_pos h]
      exact ⟨fun _ => h, fun _ => rfl⟩
    · rw [if_neg h]
      exact ⟨fun h0 => absurd h0 (by decide), fun h1 => absurd h1 h⟩

/-- Test input for C30: Pause, three ticks and Pause on the engine right after Start. -/
theorem snake_pause_persistence_witness :
    ((handleUserInput runningGame UserAction_t.Pause false [4, 2]).bind fun r =>
      (tickN 3 r.1 r.2).bind fun r2 =>
        handleUserInput r2.1 UserAction_t.Pause true r2.2) = some (runningGame, [4, 2]) :=
  ((snake_pause_persistence runningGame false true [4, 2] 3).2.1 rfl).2.2.2

/-- Claim C27, counterexample.  A reachable Tetris engine in which a tick, which is no
reset, lowers the score: the engine of `overflow_reachable` has the score 2147483400 and its
tick leaves -2147483596. -/
theorem tetris_score_decreases_on_wrap :
    ∃ s : tetris.Tetris, tetris.ReachableFrom none s ∧
      (tetris.updateCurrentState s 0).1.score < s.score := by
  obtain ⟨s, hs, _, _, _, _, hsc, _, _, hsc', _⟩ := tetris.overflow_reachable
  refine ⟨s, hs, ?_⟩
  rw [hsc, hsc']
  decide

/-- Claim C27, amended.  Along every run of either engine, each `userInput` call other than a
Start that resets and each tick leaves the level no lower and the step interval no higher than
before, the level within 1..10 and the step interval at or above its floor, 100 in the Snake
engine and 50 in the Tetris engine.  The score of the Snake engine is never lowered.  The
`int` score of the Tetris engine is left alone by the actions, and a tick leaves it alone or
adds the table value for one to four rows modulo `2^32`: the score is not lowered as long as
1500 more points fit an `int`, that is, as long as it is at most `INT_MAX - 1500`. -/
theorem monotonic_progress (g : Game) (hg : Reachable g) (file : Option Int)
    (s : tetris.Tetris) (hs : tetris.ReachableFrom file s) :
    (∀ (action : UserAction_t) (hold : Bool) (draws : List Nat) (g' : Game) (rest : List Nat),
      ¬ isResetInput g action → handleUserInput g action hold draws = some (g', rest) →
      g.score_ ≤ g'.score_ ∧ g.level_ ≤ g'.level_ ∧ 1 ≤ g'.level_ ∧ g'.level_ ≤ 10 ∧
        g'.speed_ ≤ g.speed_ ∧ 100 ≤ g'.speed_) ∧
    (∀ (draws : List Nat) (g' : Game) (rest : List Nat),
      updateGameLogic g draws = some (g', rest) →
      g.score_ ≤ g'.score_ ∧ g.level_ ≤ g'.level_ ∧ 1 ≤ g'.level_ ∧ g'.level_ ≤ 10 ∧
        g'.speed_ ≤ g.speed_ ∧ 100 ≤ g'.speed_) ∧
    (∀ (action : UserAction_t) (hold : Bool) (rnd : Nat),
      ¬ (action = UserAction_t.Start ∧ tetris.startAccepted s) →
      (tetris.userInput s action hold rnd).score = s.score ∧
        s.level ≤ (tetris.userInput s action hold rnd).level ∧
        1 ≤ (tetris.userInput s action hold rnd).level ∧
        (tetris.userInput s action hold rnd).level ≤ 10 ∧
        (tetris.userInput s action hold rnd).game_speed_ms ≤ s.game_speed_ms ∧
        50 ≤ (tetris.userInput s action hold rnd).game_speed_ms) ∧
    (∀ rnd : Nat,
      (s.score + 1500 ≤ INT_MAX → s.score ≤ (tetris.updateCurrentState s rnd).1.score) ∧
        ((tetris.updateCurrentState s rnd).1.score = s.score ∨
          ∃ n : Int, 1 ≤ n ∧ n ≤ 4 ∧
            (tetris.updateCurrentState s rnd).1.score =
              wrapInt (s.score + tetris.scoreTable n)) ∧
        s.level ≤ (tetris.updateCurrentState s rnd).1.level ∧
        1 ≤ (tetris.updateCurrentState s rnd).1.level ∧
        (tetris.updateCurrentState s rnd).1.level ≤ 10 ∧
        (tetris.updateCurrentState s rnd).1.game_speed_ms ≤ s.game_speed_ms ∧
        50 ≤ (tetris.updateCurrentState s rnd).1.game_speed_ms) := by
  have hsnake : ∀ g' : Game, snakeCounterStep g g' →
      g.score_ ≤ g'.score_ ∧ g.level_ ≤ g'.level_ ∧ 1 ≤ g'.level_ ∧ g'.level_ ≤ 10 ∧
        g'.speed_ ≤ g.speed_ ∧ 100 ≤ g'.speed_ := by
    intro g' hstep
    obtain ⟨⟨a1, a2, a3⟩, b1, b2, b3⟩ :=
      snakeStats_of_counterStep g g' hstep (snakeStats_reachable g hg)
    exact ⟨b1, b2, a1, a2, b3, a3⟩
  have hm := tetris.modeInvariant_reachable file s hs
  have hst := tetris.tetrisStats_reachable file s hs
  have hpl := tetris.playInvariant_reachable file s hs
  refine ⟨?_, ?_, ?_, ?_⟩
  · intro action hold draws g' rest hno hret
    exact hsnake g' (handleUserInput_counterStep g g' action hold draws rest hno hret)
  · intro draws g' rest hret
    exact hsnake g' (updateGameLogic_counterStep g g' draws rest hret)
  · intro action hold rnd hno
    obtain ⟨e1, e2, e3, _, _⟩ := tetris.userInput_counters s action hold rnd hm.1 hno
    obtain ⟨_, _, l1, l10, hsp⟩ := hst
    rw [e1, e2, e3]
    exact ⟨rfl, le_refl _, l1, l10, le_refl _, by omega⟩
  · intro rnd
    have hstep := tetris.scoreStep_advance s rnd hm hpl
    obtain ⟨p1, p2, p3⟩ := tetris.tetrisProgress_of_scoreStep s _ hstep hst hpl.2.2.2.2
    obtain ⟨_, _, l1, l10, hsp⟩ := tetris.tetrisStats_advance s rnd hm hst
    refine ⟨p1, ?_, p2, l1, l10, p3,
      by show 50 ≤ (tetris.advance s rnd).game_speed_ms; rw [hsp]; omega⟩
    rcases hstep with ⟨e1, _, _⟩ | ⟨u, n, hn1, hn4, u1, _, _, e1, _, _⟩
    · exact Or.inl e1
    · refine Or.inr ⟨n, hn1, hn4, e1.trans ?_⟩
      rw [tetris.update_score_and_level_score u n (by omega), u1]

/-- Test input for C27: the Snake engine with the food in front of the head, whose tick eats
and scores 1, and the Tetris engine whose fifth O piece rests in the last gap of the two bottom
rows, whose tick scores 300. -/
theorem monotonic_progress_witness :
    Reachable eatingGame ∧
    (updateGameLogic eatingGame [7, 3]).map (fun p => p.1.score_) = some 1 ∧
    (∀ (g' : Game) (rest : List Nat), updateGameLogic eatingGame [7, 3] = some (g', rest) →
      eatingGame.score_ ≤ g'.score_ ∧ 100 ≤ g'.speed_) ∧
    (tetris.updateCurrentState (tetris.run tetris.startedState tetris.fillCalls) 0).1.score =
      300 ∧
    (tetris.run tetris.startedState tetris.fillCalls).score ≤
      (tetris.updateCurrentState (tetris.run tetris.startedState tetris.fillCalls)
        0).1.score :=
  have hr : Reachable eatingGame :=
    Reachable.input loopFoodGame UserAction_t.Start false [] eatingGame []
      (Reachable.reset blankGame [6, 10] loopFoodGame [] rfl) rfl
  ⟨hr, by decide,
    fun g' rest h =>
      have hw := (monotonic_progress eatingGame hr none
        (tetris.run tetris.startedState tetris.fillCalls)
        (tetris.reachable_run none tetris.fillCalls tetris.startedState
          tetris.startedState_reachable)).2.1 [7, 3] g' rest h
      ⟨hw.1, hw.2.2.2.2.2⟩,
    tetris.fillCalls_first.2,
    ((monotonic_progress eatingGame hr none
      (tetris.run tetris.startedState tetris.fillCalls)
      (tetris.reachable_run none tetris.fillCalls tetris.startedState
        tetris.startedState_reachable)).2.2.2 0).1
      (by rw [tetris.fillCalls_first.1]; decide)⟩

theorem moveSnake_eats (g g' : Game) (draws rest : List Nat) (old_head : Point)
    (body : List Point) (hs : g.snake_ = old_head :: body)
    (hfood : old_head.add g.snake_direction_ = g.food_position_)
    (hfree : ¬ stepCollides g (old_head.add g.snake_direction_))
    (h : moveSnake g draws = some (g', rest)) :
    g'.score_ = g.score_ + 1 ∧ g'.high_score_ = max g.high_score_ (g.score_ + 1) := by
  have hmax : (if g.score_ + 1 > g.high_score_ then g.score_ + 1 else g.high_score_) =
      max g.high_score_ (g.score_ + 1) := by
    split_ifs with hh
    · exact (max_eq_right (le_of_lt hh)).symm
    · exact (max_eq_left (not_lt.1 hh)).symm
  rw [moveSnake_cons g draws old_head body hs, if_neg hfree, if_pos hfood] at h
  split_ifs at h
  · simp only [Option.some.injEq, Prod.mk.injEq] at h
    rw [← h.1]
    exact ⟨rfl, hmax⟩
  · have hk := generateFood_keeps _ _ _ _ h
    exact ⟨hk.2.2.1, hk.2.2.2.1.trans hmax⟩

theorem moveSnake_eats_returns (g : Game) (old_head : Point) (body : List Point)
    (hs : g.snake_ = old_head :: body)
    (hfood : old_head.add g.snake_direction_ = g.food_position_)
    (hfree : ¬ stepCollides g (old_head.add g.snake_direction_))
    (r1 r2 : Nat) (tl : List Nat)
    (hcell : drawnCell r1 r2 ∉ old_head.add g.snake_direction_ :: g.snake_) :
    (moveSnake g (r1 :: r2 :: tl)).isSome = true := by
  have hgrown : (grown g old_head body).snake_ = old_head.add g.snake_direction_ :: g.snake_ := by
    rw [hs]; rfl
  rw [moveSnake_cons g _ old_head body hs, if_neg hfree, if_pos hfood]
  by_cases hw : 200 ≤ body.length + 2
  · rw [if_pos hw]; rfl
  · rw [if_neg hw, generateFood_cons_cons, hgrown, if_neg hcell]; rfl

/-- Claim C28.  A Snake step that eats the food returns as soon as the first drawn cell is
free, raises the score by one and leaves the high score at the maximum of the previous high
score and the new score; `update_score_and_level` with a positive row count leaves the high
score of the Tetris engine at the maximum of the previous high score and the new score; and
when the high score loaded from the file is not negative, the high score is at least the
score in every state either engine reaches. -/
theorem high_score_tracks_score (file file' : Option Int)
    (hfile : 0 ≤ storedHighScore file) (hfile' : 0 ≤ tetris.storedHighScore file')
    (g : Game) (hg : ReachableFrom file g)
    (s : tetris.Tetris) (hs : tetris.ReachableFrom file' s)
    (g0 : Game) (t : tetris.Tetris) :
    (∀ (old_head : Point) (body : List Point),
      g0.snake_ = old_head :: body →
      old_head.add g0.snake_direction_ = g0.food_position_ →
      ¬ stepCollides g0 (old_head.add g0.snake_direction_) →
      (∀ (draws rest : List Nat) (g' : Game), moveSnake g0 draws = some (g', rest) →
        g'.score_ = g0.score_ + 1 ∧ g'.high_score_ = max g0.high_score_ g'.score_) ∧
      (∀ (r1 r2 : Nat) (tl : List Nat),
        drawnCell r1 r2 ∉ old_head.add g0.snake_direction_ :: g0.snake_ →
        (moveSnake g0 (r1 :: r2 :: tl)).isSome = true)) ∧
    (∀ n : Int, 1 ≤ n →
      (tetris.update_score_and_level t n).high_score =
        max t.high_score (tetris.update_score_and_level t n).score) ∧
    g.score_ ≤ g.high_score_ ∧
    s.score ≤ s.high_score := by
  refine ⟨?_, ?_, (snakeHighInvariant_reachable file hfile g hg).1,
    (tetris.highInvariant_reachable file' hfile' s hs).1⟩
  · intro old_head body h1 h2 h3
    refine ⟨fun draws rest g' h4 => ?_,
      fun r1 r2 tl hcell => moveSnake_eats_returns g0 old_head body h1 h2 h3 r1 r2 tl hcell⟩
    obtain ⟨e1, e2⟩ := moveSnake_eats g0 g' draws rest old_head body h1 h2 h3 h4
    rw [e1]
    exact ⟨rfl, e2⟩
  · intro n hn
    exact tetris.update_score_and_level_high_score t n (by omega)

/-- Test input for C28: the Snake step that eats the food in front of the head returns with
the score 1 and the high score 1; two rows scored on a fresh Tetris engine leave the high score
300; and both engines right after their construction with the stored high score 7. -/
theorem high_score_tracks_score_witness :
    (moveSnake eatingGame [7, 3]).isSome = true ∧
    (∀ (rest : List Nat) (g' : Game), moveSnake eatingGame [7, 3] = some (g', rest) →
      g'.score_ = 1 ∧ g'.high_score_ = 1) ∧
    (tetris.update_score_and_level tetris.playState 2).high_score = 300 ∧
    (∀ (g : Game) (rest : List Nat), Game.construct (some 7) [7, 3] = some (g, rest) →
      g.score_ ≤ g.high_score_) ∧
    (tetris.lazyInit (tetris.staticState (some 7)) 0).score ≤
      (tetris.lazyInit (tetris.staticState (some 7)) 0).high_score :=
  ⟨((high_score_tracks_score (some 7) (some 7) (by decide) (by decide) _
      (ReachableFrom.construct [7, 3] _ [] rfl)
      (tetris.lazyInit (tetris.staticState (some 7)) 0) (tetris.ReachableFrom.init 0)
      eatingGame tetris.playState).1 ⟨5, 10⟩ [⟨4, 10⟩, ⟨3, 10⟩, ⟨2, 10⟩] rfl rfl
      (by decide)).2 7 3 [] (by decide),
    fun rest g' h =>
      have hw := ((high_score_tracks_score (some 7) (some 7) (by decide) (by decide) _
        (ReachableFrom.construct [7, 3] _ [] rfl)
        (tetris.lazyInit (tetris.staticState (some 7)) 0) (tetris.ReachableFrom.init 0)
        eatingGame tetris.playState).1 ⟨5, 10⟩ [⟨4, 10⟩, ⟨3, 10⟩, ⟨2, 10⟩] rfl rfl
        (by decide)).1 [7, 3] rest g' h
      ⟨hw.1, hw.2.trans (by rw [hw.1]; decide)⟩,
    ((high_score_tracks_score (some 7) (some 7) (by decide) (by decide) _
      (ReachableFrom.construct [7, 3] _ [] rfl)
      (tetris.lazyInit (tetris.staticState (some 7)) 0) (tetris.ReachableFrom.init 0)
      freshGame tetris.playState).2.1 2 (by decide)).trans (by decide),
    fun g rest h =>
      (high_score_tracks_score (some 7) (some 7) (by decide) (by decide) g
        (ReachableFrom.construct [7, 3] g rest h)
        (tetris.lazyInit (tetris.staticState (some 7)) 0) (tetris.ReachableFrom.init 0)
        freshGame tetris.playState).2.2.1,
    (high_score_tracks_score (some 7) (some 7) (by decide) (by decide) _
      (ReachableFrom.construct [7, 3] _ [] rfl)
      (tetris.lazyInit (tetris.staticState (some 7)) 0) (tetris.ReachableFrom.init 0)
      freshGame tetris.playState).2.2.2⟩

/-- Claim C29.  The flag `hold` is inert in both engines: for every engine state, action and
outcome of the random draws, the Snake handler and the Tetris handler give the same result
with `hold = true` as with `hold = false`. -/
theorem hold_flag_is_inert (g : Game) (s : tetris.Tetris) (action : UserAction_t)
    (draws : List Nat) (rnd : Nat) :
    handleUserInput g action true draws = handleUserInput g action false draws ∧
    tetris.userInput s action true rnd = tetris.userInput s action false rnd :=
  ⟨rfl, rfl⟩

/-! ## Scenarios of the Snake engine, food placement and the board -/

/-- Claim C31.  An action with no defined effect in the current state (Up and Down everywhere,
Start while Running, Pause in StartScreen, WonGameOver and LostGameOver, Left, Right and
Action outside Running, every action in Terminated) returns the engine and the draws
unchanged, so the snapshot of the next `getCurrentState` is the one produced without the
action. -/
theorem snake_undefined_actions_ignored (g : Game) (action : UserAction_t) (hold : Bool)
    (draws : List Nat) (h : undefinedAction g.current_state_ action) :
    handleUserInput g action hold draws = some (g, draws) ∧
    ((handleUserInput g action hold draws).bind fun p => getCurrentState p.1 p.2) =
      getCurrentState g draws := by
  have e : handleUserInput g action hold draws = some (g, draws) := by
    unfold undefinedAction at h
    unfold handleUserInput
    cases hs : g.current_state_ <;> cases action <;> simp_all
  rw [e]
  exact ⟨rfl, rfl⟩

/-- Test input for C31: Up on the engine right after Start, and Left on the start screen. -/
theorem snake_undefined_actions_ignored_witness :
    handleUserInput runningGame UserAction_t.Up false [1, 2] = some (runningGame, [1, 2]) ∧
    handleUserInput freshGame UserAction_t.Left true [] = some (freshGame, []) :=
  ⟨(snake_undefined_actions_ignored runningGame UserAction_t.Up false [1, 2] (by decide)).1,
    (snake_undefined_actions_ignored freshGame UserAction_t.Left true [] (by decide)).1⟩

theorem action_eq_tick (g : Game) (hold : Bool) (draws : List Nat) :
    handleUserInput g UserAction_t.Action hold draws = updateGameLogic g draws := by
  unfold handleUserInput updateGameLogic
  cases hs : g.current_state_ <;> simp

theorem runCalls_actions (hold : Bool) :
    ∀ (n : Nat) (g : Game) (draws : List Nat),
      runCalls (List.replicate n (Call.input UserAction_t.Action hold)) g draws =
        tickN n g draws
  | 0, _, _ => rfl
  | n + 1, g, draws => by
    show (match handleUserInput g UserAction_t.Action hold draws with
      | some (g1, rest) =>
        runCalls (List.replicate n (Call.input UserAction_t.Action hold)) g1 rest
      | none => none) = _
    rw [action_eq_tick]
    unfold tickN
    cases updateGameLogic g draws with
    | none => rfl
    | some p =>
      obtain ⟨g1, rest⟩ := p
      exact runCalls_actions hold n g1 rest

theorem straightRun_step (k : Nat) (g : Game) (draws : List Nat) (hk : k < 4)
    (h : straightRun k g) :
    (∀ (g' : Game) (rest : List Nat), moveSnake g draws = some (g', rest) →
      straightRun (k + 1) g') ∧
    (foodOffRow g draws →
      ∃ (g' : Game) (rest : List Nat), moveSnake g draws = some (g', rest) ∧
        foodOffRow g' rest) := by
  obtain ⟨hst, hdir, body, hs, hlen, hbody⟩ := h
  have hnew : (⟨5 + (k : Int), 10⟩ : Point).add g.snake_direction_ =
      ⟨5 + ((k + 1 : Nat) : Int), 10⟩ := by
    rw [hdir]
    simp only [Point.add, Point.mk.injEq, Nat.cast_add, Nat.cast_one]
    omega
  have hnotin : (⟨5 + ((k + 1 : Nat) : Int), 10⟩ : Point) ∉
      (⟨5 + (k : Int), 10⟩ : Point) :: body := by
    intro hm
    rcases List.mem_cons.1 hm with he | hb
    · simp only [Point.mk.injEq, Nat.cast_add, Nat.cast_one] at he
      omega
    · have := (hbody _ hb).2
      simp only [Nat.cast_add, Nat.cast_one] at this
      omega
  have hfree : ¬ stepCollides g ((⟨5 + (k : Int), 10⟩ : Point).add g.snake_direction_) := by
    rw [hnew]
    rintro (hw | hm)
    · apply hw
      unfold inBoard
      simp only [Nat.cast_add, Nat.cast_one]
      omega
    · rw [hs] at hm
      split_ifs at hm
      · exact hnotin hm
      · exact hnotin (List.mem_of_mem_dropLast hm)
  have hwin : ¬ 200 ≤ body.length + 2 := by omega
  have hmove := moveSnake_cons g draws _ body hs
  rw [if_neg hfree, hnew] at hmove
  have hgrown : straightRun (k + 1) (grown g ⟨5 + (k : Int), 10⟩ body) := by
    refine ⟨hst, hdir, (⟨5 + (k : Int), 10⟩ : Point) :: body, ?_, ?_, ?_⟩
    · show (⟨5 + (k : Int), 10⟩ : Point).add g.snake_direction_ :: _ = _
      rw [hnew]
    · simp only [List.length_cons]
      omega
    · intro p hp
      rcases List.mem_cons.1 hp with he | hb
      · rw [he]
        refine ⟨rfl, ?_⟩
        show 5 + (k : Int) < 5 + ((k + 1 : Nat) : Int)
        push_cast
        omega
      · have := hbody p hb
        simp only [Nat.cast_add, Nat.cast_one]
        omega
  constructor
  · intro g' rest hret
    rw [hmove] at hret
    split_ifs at hret with hfood
    · obtain ⟨e1, e2, _, _, _, _, e7, _⟩ := generateFood_keeps _ _ _ _ hret
      obtain ⟨h1, h2, b, h3, h4, h5⟩ := hgrown
      exact ⟨e1.trans h1, e7.trans h2, b, e2.trans h3, h4, h5⟩
    · simp only [Option.some.injEq, Prod.mk.injEq] at hret
      rw [← hret.1]
      refine ⟨hst, hdir, ((⟨5 + (k : Int), 10⟩ : Point) :: body).dropLast, ?_, ?_, ?_⟩
      · show (⟨5 + (k : Int), 10⟩ : Point).add g.snake_direction_ :: _ = _
        rw [hnew]
      · simp only [List.length_dropLast, List.length_cons]
        omega
      · intro p hp
        rcases List.mem_cons.1 (List.mem_of_mem_dropLast hp) with he | hb
        · rw [he]
          refine ⟨rfl, ?_⟩
          show 5 + (k : Int) < 5 + ((k + 1 : Nat) : Int)
          push_cast
          omega
        · have := hbody p hb
          simp only [Nat.cast_add, Nat.cast_one]
          omega
  · intro hoff
    rw [hmove]
    by_cases hfood : (⟨5 + ((k + 1 : Nat) : Int), 10⟩ : Point) = g.food_position_
    · rw [if_pos hfood, if_neg hwin]
      rcases hoff with hy | ⟨r1, r2, tl, hd, hr2⟩
      · rw [← hfood] at hy
        exact absurd rfl hy
      · have hcell : drawnCell r1 r2 ∉ (grown g ⟨5 + (k : Int), 10⟩ body).snake_ := by
          intro hm
          obtain ⟨_, _, b, h3, _, h5⟩ := hgrown
          rw [h3] at hm
          rcases List.mem_cons.1 hm with he | hb
          · apply hr2
            have := congrArg Point.y he
            simpa [drawnCell, FIELD_HEIGHT] using this
          · apply hr2
            have := (h5 _ hb).1
            simpa [drawnCell, FIELD_HEIGHT] using this
        rw [hd, generateFood_cons_cons, if_neg hcell]
        refine ⟨_, _, rfl, Or.inl ?_⟩
        show (drawnCell r1 r2).y ≠ 10
        simpa [drawnCell, FIELD_HEIGHT] using hr2
    · rw [if_neg hfood]
      exact ⟨_, _, rfl, hoff⟩

theorem straightRun_wall (g : Game) (draws : List Nat) (h : straightRun 4 g) :
    moveSnake g draws = some ({ g with current_state_ := GameState.GAME_OVER_LOSE }, draws) := by
  obtain ⟨_, hdir, body, hs, _, _⟩ := h
  rw [moveSnake_cons g draws _ body hs, if_pos]
  left
  rw [hdir]
  unfold inBoard Point.add
  simp only
  omega

theorem updateGameLogic_running (g : Game) (draws : List Nat)
    (h : g.current_state_ = GameState.GAME_RUNNING) :
    updateGameLogic g draws = moveSnake g draws := by
  unfold updateGameLogic
  rw [if_pos h]

theorem straightRun_tickN :
    ∀ (n k : Nat) (g : Game) (draws : List Nat), straightRun k g → k ≤ 4 →
      (∀ (g' : Game) (rest : List Nat), tickN n g draws = some (g', rest) →
        (k + n ≤ 4 → straightRun (k + n) g') ∧
        (5 ≤ k + n → g'.current_state_ = GameState.GAME_OVER_LOSE)) ∧
      (foodOffRow g draws → (tickN n g draws).isSome = true)
  | 0, k, g, draws, h, hk => by
    refine ⟨fun g' rest hret => ?_, fun _ => rfl⟩
    simp only [tickN, Option.some.injEq, Prod.mk.injEq] at hret
    rw [← hret.1]
    exact ⟨fun _ => h, fun h5 => absurd h5 (by omega)⟩
  | n + 1, k, g, draws, h, hk => by
    have hupd := updateGameLogic_running g draws h.1
    by_cases hk4 : k < 4
    · obtain ⟨hstep, htot⟩ := straightRun_step k g draws hk4 h
      constructor
      · intro g' rest hret
        unfold tickN at hret
        rw [hupd] at hret
        cases hm : moveSnake g draws with
        | none =>
          rw [hm] at hret
          exact absurd hret (by simp)
        | some p =>
          obtain ⟨g1, r1⟩ := p
          rw [hm] at hret
          have ih := (straightRun_tickN n (k + 1) g1 r1 (hstep g1 r1 hm) (by omega)).1
            g' rest hret
          refine ⟨fun h4 => ?_, fun h5 => ih.2 (by omega)⟩
          have := ih.1 (by omega)
          rwa [show k + 1 + n = k + (n + 1) by omega] at this
      · intro hoff
        obtain ⟨g1, r1, hm, hoff1⟩ := htot hoff
        unfold tickN
        rw [hupd, hm]
        exact (straightRun_tickN n (k + 1) g1 r1 (hstep g1 r1 hm) (by omega)).2 hoff1
    · have hk' : k = 4 := by omega
      subst hk'
      have hm := straightRun_wall g draws h
      have hlose : tickN n { g with current_state_ := GameState.GAME_OVER_LOSE } draws =
          some ({ g with current_state_ := GameState.GAME_OVER_LOSE }, draws) :=
        tickN_not_running _ draws (by intro h'; cases h') n
      constructor
      · intro g' rest hret
        unfold tickN at hret
        rw [hupd, hm] at hret
        simp only at hret
        rw [hlose] at hret
        simp only [Option.some.injEq, Prod.mk.injEq] at hret
        rw [← hret.1]
        exact ⟨fun h4 => absurd h4 (by omega), fun _ => rfl⟩
      · intro _
        unfold tickN
        rw [hupd, hm]
        simp only
        rw [hlose]
        rfl

theorem straightRun_start (g0 g1 : Game) (d r : List Nat)
    (hreset : resetGame g0 d = some (g1, r)) :
    straightRun 0 { g1 with current_state_ := GameState.GAME_RUNNING } := by
  obtain ⟨h1, h2, _⟩ := resetGame_some g0 g1 d r hreset
  refine ⟨rfl, h2, [⟨4, 10⟩, ⟨3, 10⟩, ⟨2, 10⟩], ?_, by decide, by decide⟩
  show g1.snake_ = _
  rw [h1]
  rfl

theorem start_after_reset (g0 g1 : Game) (d r : List Nat) (hold : Bool) (draws : List Nat)
    (hreset : resetGame g0 d = some (g1, r)) :
    handleUserInput g1 UserAction_t.Start hold draws =
      some ({ g1 with current_state_ := GameState.GAME_RUNNING }, draws) := by
  have h3 := (resetGame_some g0 g1 d r hreset).2.2.1
  unfold handleUserInput
  rw [h3]
  rfl

theorem runCalls_speedUp (g0 g1 : Game) (d r : List Nat) (hold : Bool) (draws : List Nat)
    (hreset : resetGame g0 d = some (g1, r)) :
    runCalls (speedUpCalls hold) g1 draws =
      tickN 5 { g1 with current_state_ := GameState.GAME_RUNNING } draws := by
  show (match handleUserInput g1 UserAction_t.Start hold draws with
    | some (g2, rest) =>
      runCalls (List.replicate 5 (Call.input UserAction_t.Action hold)) g2 rest
    | none => none) = _
  rw [start_after_reset g0 g1 d r hold draws hreset]
  exact runCalls_actions hold 5 _ draws

/-- Claim C32.  In a Running engine the action Action returns exactly what a tick returns,
the result of `moveSnake` on the same draws; and from a fresh reset, Start followed by five
times Action ends in LostGameOver whenever the calls return, which they do when the food is
off row 10 or the next two draws select a cell off row 10. -/
theorem snake_action_steps_now (g : Game) (hold : Bool) (draws : List Nat)
    (hrun : g.current_state_ = GameState.GAME_RUNNING)
    (g0 g1 : Game) (d r : List Nat) (hreset : resetGame g0 d = some (g1, r)) :
    handleUserInput g UserAction_t.Action hold draws = updateGameLogic g draws ∧
    handleUserInput g UserAction_t.Action hold draws = moveSnake g draws ∧
    (∀ (g' : Game) (rest : List Nat),
      runCalls (speedUpCalls hold) g1 draws = some (g', rest) →
      g'.current_state_ = GameState.GAME_OVER_LOSE) ∧
    (foodOffRow g1 draws → (runCalls (speedUpCalls hold) g1 draws).isSome = true) := by
  have hs := straightRun_start g0 g1 d r hreset
  have ht := straightRun_tickN 5 0 _ draws hs (by omega)
  rw [runCalls_speedUp g0 g1 d r hold draws hreset]
  refine ⟨action_eq_tick g hold draws, ?_, ?_, ?_⟩
  · rw [action_eq_tick, updateGameLogic_running g draws hrun]
  · intro g' rest hret
    exact (ht.1 g' rest hret).2 (by omega)
  · intro hoff
    exact ht.2 hoff

/-- Test input for C32: the test `SpeedUp` on the engine reset with the food at (7,3). -/
theorem snake_action_steps_now_witness :
    handleUserInput runningGame UserAction_t.Action false [] = moveSnake runningGame [] ∧
    (runCalls (speedUpCalls false) freshGame []).isSome = true ∧
    ∀ (g' : Game) (rest : List Nat),
      runCalls (speedUpCalls false) freshGame [] = some (g', rest) →
      g'.current_state_ = GameState.GAME_OVER_LOSE :=
  ⟨(snake_action_steps_now runningGame false [] rfl blankGame freshGame [7, 3] [] rfl).2.1,
    (snake_action_steps_now runningGame false [] rfl blankGame freshGame [7, 3] [] rfl).2.2.2
      (Or.inl (by decide)),
    (snake_action_steps_now runningGame false [] rfl blankGame freshGame [7, 3] [] rfl).2.2.1⟩

/-- Claim C33.  After a fresh reset, Start makes the engine Running; with no turn, whatever
the food positions, the `k`-th tick for `k` up to 4 leaves the engine Running with the head
at `(5 + k, 10)`; from the fifth tick on the state is LostGameOver; a Start that follows
returns the engine to StartScreen with score 0.  The ticks return when the food is off row 10
or the next two draws select a cell off row 10, and that Start returns when the next two
draws select a cell off the initial snake. -/
theorem snake_wall_scenario (g0 g1 : Game) (d r : List Nat) (hold : Bool)
    (hreset : resetGame g0 d = some (g1, r)) :
    (∀ draws : List Nat,
      handleUserInput g1 UserAction_t.Start hold draws =
        some ({ g1 with current_state_ := GameState.GAME_RUNNING }, draws)) ∧
    (∀ (k : Nat) (draws : List Nat) (g' : Game) (rest : List Nat), k ≤ 4 →
      tickN k { g1 with current_state_ := GameState.GAME_RUNNING } draws = some (g', rest) →
      g'.current_state_ = GameState.GAME_RUNNING ∧
        g'.snake_.head? = some (⟨5 + (k : Int), 10⟩ : Point)) ∧
    (∀ (n : Nat) (draws : List Nat) (g' : Game) (rest : List Nat), 5 ≤ n →
      tickN n { g1 with current_state_ := GameState.GAME_RUNNING } draws = some (g', rest) →
      g'.current_state_ = GameState.GAME_OVER_LOSE ∧
        (∀ (hold2 : Bool) (g'' : Game) (rest' : List Nat),
          handleUserInput g' UserAction_t.Start hold2 rest = some (g'', rest') →
          g''.current_state_ = GameState.START_SCREEN ∧ g''.score_ = 0) ∧
        (∀ (hold2 : Bool) (r1 r2 : Nat) (tl : List Nat), drawnCell r1 r2 ∉ initialSnake →
          (handleUserInput g' UserAction_t.Start hold2 (r1 :: r2 :: tl)).isSome = true)) ∧
    (∀ (n : Nat) (draws : List Nat),
      foodOffRow { g1 with current_state_ := GameState.GAME_RUNNING } draws →
      (tickN n { g1 with current_state_ := GameState.GAME_RUNNING } draws).isSome = true) := by
  have hs := straightRun_start g0 g1 d r hreset
  refine ⟨fun draws => start_after_reset g0 g1 d r hold draws hreset, ?_, ?_, ?_⟩
  · intro k draws g' rest hk hret
    have h := ((straightRun_tickN k 0 _ draws hs (by omega)).1 g' rest hret).1 (by omega)
    obtain ⟨h1, _, body, h3, _, _⟩ := h
    refine ⟨h1, ?_⟩
    rw [h3]
    simp
  · intro n draws g' rest hn hret
    have hl := ((straightRun_tickN n 0 _ draws hs (by omega)).1 g' rest hret).2 (by omega)
    have hstart : ∀ (hold2 : Bool) (ds : List Nat),
        handleUserInput g' UserAction_t.Start hold2 ds = resetGame g' ds := by
      intro hold2 ds
      unfold handleUserInput
      rw [hl]
      rfl
    refine ⟨hl, ?_, ?_⟩
    · intro hold2 g'' rest' h
      rw [hstart] at h
      have hk := resetGame_some g' g'' rest rest' h
      exact ⟨hk.2.2.1, hk.2.2.2.1⟩
    · intro hold2 r1 r2 tl hfree
      rw [hstart]
      exact resetGame_free g' r1 r2 tl hfree
  · intro n draws hoff
    exact (straightRun_tickN n 0 _ draws hs (by omega)).2 hoff

/-- Test input for C33: the engine reset with the food at (7,3); five ticks after Start end
in LostGameOver. -/
theorem snake_wall_scenario_witness :
    (tickN 5 runningGame []).isSome = true ∧
    ∀ (g' : Game) (rest : List Nat), tickN 5 runningGame [] = some (g', rest) →
      g'.current_state_ = GameState.GAME_OVER_LOSE :=
  ⟨(snake_wall_scenario blankGame freshGame [7, 3] [] false rfl).2.2.2 5 []
      (Or.inl (by decide)),
    fun g' rest h =>
      ((snake_wall_scenario blankGame freshGame [7, 3] [] false rfl).2.2.1 5 [] g' rest
        (by omega) h).1⟩

theorem resetGame_food (g0 g1 : Game) (d r : List Nat)
    (hreset : resetGame g0 d = some (g1, r)) : g1.food_position_ ∉ initialSnake := by
  unfold resetGame at hreset
  split at hreset
  · rename_i g2 r2 heq
    simp only [Option.some.injEq, Prod.mk.injEq] at hreset
    unfold initializeGame at heq
    obtain ⟨r1, r2', hfree, hg⟩ := generateFood_some _ d.length d le_rfl g2 r2 heq
    rw [← hreset.1, hg]
    exact hfree
  · exact absurd hreset (by simp)

theorem dropLast_four_append (a b c e : Point) (t : List Point) :
    (a :: b :: c :: e :: t).dropLast =
      [a, b, c] ++ (if t = [] then [] else e :: t.dropLast) := by
  cases t with
  | nil => rfl
  | cons x xs => simp [List.dropLast]

theorem turn_right_running (g : Game) (hold : Bool) (draws : List Nat)
    (hrun : g.current_state_ = GameState.GAME_RUNNING) :
    handleUserInput g UserAction_t.Right hold draws =
      some ({ g with
                snake_direction_ :=
                  if g.snake_direction_.x ≠ 0 then ⟨0, g.snake_direction_.x⟩
                  else ⟨-g.snake_direction_.y, 0⟩ }, draws) := by
  unfold handleUserInput
  rw [hrun]
  by_cases hx : g.snake_direction_.x ≠ 0
  · simp [hx]
  · simp [hx]

/-- One tick of the run of `loopCalls` followed by the action Right: from a stage with cells
`a, b, c, e`, heading `D` and next head `n`, every returned result is the next stage, with
cells `n, a, b` and `c` and the heading turned right; the tick returns without drawing when
the food is not on `n`, and it returns when the draws supply a cell off rows 10 and 11. -/
theorem loopStage_step (a b c e n D D' f0 : Point) (passed : List Point) (g : Game)
    (hold : Bool) (draws : List Nat)
    (h : loopStage [a, b, c, e] D passed f0 g)
    (hpl : passed.length ≤ 3)
    (hn : a.add D = n) (hin : inBoard n) (hnot : n ∉ [a, b, c, e])
    (hoff : ¬ (n.y = 10 ∧ n.x ≤ 4)) (he : e.y = 10 ∧ e.x ≤ 4) (hpath : n ∈ loopPath)
    (hrows : ∀ p ∈ [n, a, b, c, e], p.y = 10 ∨ p.y = 11)
    (hturn : (if D.x ≠ 0 then (⟨0, D.x⟩ : Point) else ⟨-D.y, 0⟩) = D') :
    (∀ (g' : Game) (rest : List Nat), updateGameLogic g draws = some (g', rest) →
      ∃ g'' : Game, handleUserInput g' UserAction_t.Right hold rest = some (g'', rest) ∧
        loopStage [n, a, b, c] D' (passed ++ [n]) f0 g'') ∧
    (n ≠ g.food_position_ → ∃ g' : Game, updateGameLogic g draws = some (g', draws)) ∧
    (foodOffLoop g draws →
      ∃ (g' : Game) (rest : List Nat), updateGameLogic g draws = some (g', rest) ∧
        ∀ g'' : Game, handleUserInput g' UserAction_t.Right hold rest = some (g'', rest) →
          foodOffLoop g'' rest) := by
  obtain ⟨hst, hdir, t, hs, hlen, ht, hcase⟩ := h
  have hs' : g.snake_ = a :: (b :: c :: e :: t) := hs
  have hnt : n ∉ t := fun hm => hoff (ht n hm)
  have hnotin : n ∉ a :: b :: c :: e :: t := by
    intro hm
    have : n ∈ [a, b, c, e] ++ t := hm
    rcases List.mem_append.1 this with h1 | h1
    · exact hnot h1
    · exact hnt h1
  have hfree : ¬ stepCollides g (a.add g.snake_direction_) := by
    rw [hdir, hn]
    rintro (hw | hm)
    · exact hw hin
    · rw [hs'] at hm
      split_ifs at hm
      · exact hnotin hm
      · exact hnotin (List.mem_of_mem_dropLast hm)
  have hmove := moveSnake_cons g draws a (b :: c :: e :: t) hs'
  rw [if_neg hfree, hdir, hn] at hmove
  have hupd := updateGameLogic_running g draws hst
  have hturn' : ∀ g' : Game, g'.current_state_ = GameState.GAME_RUNNING →
      g'.snake_direction_ = D → ∀ rest : List Nat,
      handleUserInput g' UserAction_t.Right hold rest =
        some ({ g' with snake_direction_ := D' }, rest) := by
    intro g' h1 h2 rest
    rw [turn_right_running g' hold rest h1, h2, hturn]
  have hmem_t' : ∀ p ∈ e :: t, p.y = 10 ∧ p.x ≤ 4 := by
    intro p hp
    rcases List.mem_cons.1 hp with h1 | h1
    · rw [h1]; exact he
    · exact ht p h1
  refine ⟨?_, ?_, ?_⟩
  · intro g' rest hret
    rw [hupd, hmove] at hret
    by_cases hfood : n = g.food_position_
    · rw [if_pos hfood] at hret
      have hwin : ¬ 200 ≤ (b :: c :: e :: t).length + 2 := by
        simp only [List.length_cons]
        omega
      rw [if_neg hwin] at hret
      obtain ⟨e1, e2, _, _, _, _, e7, _⟩ := generateFood_keeps _ _ _ _ hret
      have hst' : g'.current_state_ = GameState.GAME_RUNNING := e1.trans hst
      have hdir' : g'.snake_direction_ = D := e7.trans hdir
      refine ⟨_, hturn' g' hst' hdir' rest, hst', rfl, e :: t, ?_, ?_, hmem_t',
        Or.inr ⟨by simp, ?_⟩⟩
      · show g'.snake_ = _
        rw [e2]
        show a.add g.snake_direction_ :: a :: b :: c :: e :: t = _
        rw [hdir, hn]
        rfl
      · simp only [List.length_cons, List.length_append, List.length_nil]
        omega
      · rcases hcase with ⟨_, hf, _⟩ | ⟨_, hf⟩
        · rw [← hf, ← hfood]; exact hpath
        · exact hf
    · rw [if_neg hfood] at hret
      simp only [Option.some.injEq, Prod.mk.injEq] at hret
      obtain ⟨hg', hrest⟩ := hret
      subst hrest
      have hst' : g'.current_state_ = GameState.GAME_RUNNING := by rw [← hg']; exact hst
      have hdir' : g'.snake_direction_ = D := by rw [← hg']; exact hdir
      have hsn : g'.snake_ = [n, a, b, c] ++ (if t = [] then [] else e :: t.dropLast) := by
        rw [← hg']
        show a.add g.snake_direction_ :: (a :: b :: c :: e :: t).dropLast = _
        rw [hdir, hn, dropLast_four_append]
        rfl
      have hfd : g'.food_position_ = g.food_position_ := by rw [← hg']; rfl
      refine ⟨_, hturn' g' hst' hdir' draws, hst', rfl,
        (if t = [] then [] else e :: t.dropLast), hsn, ?_, ?_, ?_⟩
      · split_ifs with h0
        · simp
        · have : 0 < t.length := List.length_pos.2 h0
          simp only [List.length_cons, List.length_dropLast, List.length_append,
            List.length_nil]
          omega
      · intro p hp
        split_ifs at hp with h0
        · exact absurd hp (List.not_mem_nil _)
        · rcases List.mem_cons.1 hp with h1 | h1
          · rw [h1]; exact he
          · exact ht p (List.mem_of_mem_dropLast h1)
      · rcases hcase with ⟨h0, hf, hp⟩ | ⟨h0, hf⟩
        · refine Or.inl ⟨by rw [if_pos h0], hfd.trans hf, ?_⟩
          intro hm
          rcases List.mem_append.1 hm with h1 | h1
          · exact hp h1
          · rw [List.mem_singleton] at h1
            exact hfood (h1 ▸ hf.symm ▸ rfl)
        · exact Or.inr ⟨by rw [if_neg h0]; simp, hf⟩
  · intro hfood
    rw [hupd, hmove, if_neg hfood]
    exact ⟨_, rfl⟩
  · intro hsup
    rw [hupd, hmove]
    by_cases hfood : n = g.food_position_
    · have hwin : ¬ 200 ≤ (b :: c :: e :: t).length + 2 := by
        simp only [List.length_cons]
        omega
      rw [if_pos hfood, if_neg hwin]
      rcases hsup with ⟨hy1, hy2⟩ | ⟨r1, r2, tl, hd, hr1, hr2⟩
      · rw [← hfood] at hy1 hy2
        rcases hrows n (List.mem_cons_self _ _) with h1 | h1
        · exact absurd h1 hy1
        · exact absurd h1 hy2
      · have hcy : (drawnCell r1 r2).y ≠ 10 ∧ (drawnCell r1 r2).y ≠ 11 := by
          constructor
          · simpa [drawnCell, FIELD_HEIGHT] using hr1
          · simpa [drawnCell, FIELD_HEIGHT] using hr2
        have hcell : drawnCell r1 r2 ∉ (grown g a (b :: c :: e :: t)).snake_ := by
          intro hm
          have hm' : drawnCell r1 r2 ∈ [n, a, b, c, e] ++ t := by
            have : (grown g a (b :: c :: e :: t)).snake_ =
                a.add g.snake_direction_ :: a :: b :: c :: e :: t := rfl
            rw [this, hdir, hn] at hm
            exact hm
          rcases List.mem_append.1 hm' with h1 | h1
          · rcases hrows _ h1 with h2 | h2
            · exact hcy.1 h2
            · exact hcy.2 h2
          · exact hcy.1 (ht _ h1).1
        rw [hd, generateFood_cons_cons, if_neg hcell]
        refine ⟨_, _, rfl, fun g'' hg'' => Or.inl ?_⟩
        have hst' : (withFood (grown g a (b :: c :: e :: t)) (drawnCell r1 r2)).current_state_ =
            GameState.GAME_RUNNING := hst
        rw [turn_right_running _ hold tl hst'] at hg''
        simp only [Option.some.injEq, Prod.mk.injEq, and_true] at hg''
        rw [← hg'']
        exact hcy
    · rw [if_neg hfood]
      refine ⟨_, _, rfl, fun g'' hg'' => ?_⟩
      have hst' : (advanced g a (b :: c :: e :: t)).current_state_ =
          GameState.GAME_RUNNING := hst
      rw [turn_right_running _ hold draws hst'] at hg''
      simp only [Option.some.injEq, Prod.mk.injEq, and_true] at hg''
      rw [← hg'']
      exact hsup

theorem runCalls_cons_of_some (c : Call) (cs : List Call) (g g1 : Game) (draws r1 : List Nat)
    (h : applyCall g draws c = some (g1, r1)) :
    runCalls (c :: cs) g draws = runCalls cs g1 r1 := by
  show (match applyCall g draws c with
    | some (g1, rest) => runCalls cs g1 rest
    | none => none) = _
  rw [h]

theorem runCalls_cons_some (c : Call) (cs : List Call) (g g' : Game) (draws rest : List Nat)
    (h : runCalls (c :: cs) g draws = some (g', rest)) :
    ∃ (g1 : Game) (r1 : List Nat), applyCall g draws c = some (g1, r1) ∧
      runCalls cs g1 r1 = some (g', rest) := by
  cases hc : applyCall g draws c with
  | none =>
    have : runCalls (c :: cs) g draws = none := by
      show (match applyCall g draws c with
        | some (g1, rest) => runCalls cs g1 rest
        | none => none) = _
      rw [hc]
    rw [this] at h
    exact absurd h (by simp)
  | some p =>
    obtain ⟨g1, r1⟩ := p
    rw [runCalls_cons_of_some c cs g g1 draws r1 hc] at h
    exact ⟨g1, r1, rfl, h⟩

/-- The calls tick, Right of the run of `loopCalls`, in terms of the stages. -/
theorem loopStage_pair (a b c e n D D' f0 : Point) (passed : List Point) (g : Game)
    (hold : Bool) (draws : List Nat) (cs : List Call)
    (h : loopStage [a, b, c, e] D passed f0 g)
    (hpl : passed.length ≤ 3)
    (hn : a.add D = n) (hin : inBoard n) (hnot : n ∉ [a, b, c, e])
    (hoff : ¬ (n.y = 10 ∧ n.x ≤ 4)) (he : e.y = 10 ∧ e.x ≤ 4) (hpath : n ∈ loopPath)
    (hrows : ∀ p ∈ [n, a, b, c, e], p.y = 10 ∨ p.y = 11)
    (hturn : (if D.x ≠ 0 then (⟨0, D.x⟩ : Point) else ⟨-D.y, 0⟩) = D') :
    (∀ (g' : Game) (rest : List Nat),
      runCalls (Call.tick :: Call.input UserAction_t.Right hold :: cs) g draws =
        some (g', rest) →
      ∃ (g'' : Game) (r'' : List Nat), loopStage [n, a, b, c] D' (passed ++ [n]) f0 g'' ∧
        runCalls cs g'' r'' = some (g', rest)) ∧
    (n ≠ g.food_position_ →
      ∃ g'' : Game, loopStage [n, a, b, c] D' (passed ++ [n]) f0 g'' ∧
        runCalls (Call.tick :: Call.input UserAction_t.Right hold :: cs) g draws =
          runCalls cs g'' draws) ∧
    (foodOffLoop g draws →
      ∃ (g'' : Game) (r'' : List Nat), loopStage [n, a, b, c] D' (passed ++ [n]) f0 g'' ∧
        foodOffLoop g'' r'' ∧
        runCalls (Call.tick :: Call.input UserAction_t.Right hold :: cs) g draws =
          runCalls cs g'' r'') := by
  obtain ⟨h1, h2, h3⟩ := loopStage_step a b c e n D D' f0 passed g hold draws h hpl hn hin
    hnot hoff he hpath hrows hturn
  refine ⟨?_, ?_, ?_⟩
  · intro g' rest hret
    obtain ⟨ga, ra, hca, hret⟩ := runCalls_cons_some _ _ _ _ _ _ hret
    obtain ⟨gb, rb, hcb, hret⟩ := runCalls_cons_some _ _ _ _ _ _ hret
    obtain ⟨g'', hr, hstage⟩ := h1 ga ra hca
    have hcb' : handleUserInput ga UserAction_t.Right hold ra = some (gb, rb) := hcb
    rw [hr] at hcb'
    simp only [Option.some.injEq, Prod.mk.injEq] at hcb'
    rw [← hcb'.1, ← hcb'.2] at hret
    exact ⟨g'', ra, hstage, hret⟩
  · intro hfood
    obtain ⟨ga, hca⟩ := h2 hfood
    obtain ⟨g'', hr, hstage⟩ := h1 ga draws hca
    refine ⟨g'', hstage, ?_⟩
    rw [runCalls_cons_of_some Call.tick _ g ga draws draws hca,
      runCalls_cons_of_some (Call.input UserAction_t.Right hold) cs ga g'' draws draws hr]
  · intro hsup
    obtain ⟨ga, ra, hca, hoffa⟩ := h3 hsup
    obtain ⟨g'', hr, hstage⟩ := h1 ga ra hca
    refine ⟨g'', ra, hstage, hoffa g'' hr, ?_⟩
    rw [runCalls_cons_of_some Call.tick _ g ga draws ra hca,
      runCalls_cons_of_some (Call.input UserAction_t.Right hold) cs ga g'' ra ra hr]

/-- The last tick of the run of `loopCalls`: the head enters (5,10); the engine stays Running
with four segments when nothing was eaten, and the step is a self-collision otherwise. -/
theorem loopStage_last (f0 : Point) (g : Game) (draws : List Nat)
    (h : loopStage [⟨5, 11⟩, ⟨6, 11⟩, ⟨6, 10⟩, ⟨5, 10⟩] ⟨0, -1⟩ loopPath f0 g)
    (hf0 : f0 ∉ initialSnake) :
    (f0 ∉ loopPath →
      ∃ g' : Game, updateGameLogic g draws = some (g', draws) ∧
        g'.current_state_ = GameState.GAME_RUNNING ∧
        g'.snake_ = [⟨5, 10⟩, ⟨5, 11⟩, ⟨6, 11⟩, ⟨6, 10⟩]) ∧
    (f0 ∈ loopPath →
      updateGameLogic g draws =
        some ({ g with current_state_ := GameState.GAME_OVER_LOSE }, draws)) := by
  obtain ⟨hst, hdir, t, hs, _, ht, hcase⟩ := h
  have hs' : g.snake_ = (⟨5, 11⟩ : Point) :: (⟨6, 11⟩ :: ⟨6, 10⟩ :: ⟨5, 10⟩ :: t) := hs
  have hnew : (⟨5, 11⟩ : Point).add g.snake_direction_ = ⟨5, 10⟩ := by
    rw [hdir]; rfl
  have hmove := moveSnake_cons g draws _ _ hs'
  rw [hnew] at hmove
  rw [updateGameLogic_running g draws hst, hmove]
  constructor
  · intro hnp
    rcases hcase with ⟨h0, hf, _⟩ | ⟨_, hf⟩
    · subst h0
      have hfood : (⟨5, 10⟩ : Point) ≠ g.food_position_ := by
        rw [hf]
        intro h'
        exact hf0 (h' ▸ by decide)
      have hfree : ¬ stepCollides g ⟨5, 10⟩ := by
        rintro (hw | hm)
        · exact hw (by decide)
        · rw [if_neg hfood, hs'] at hm
          exact absurd hm (by decide)
      rw [if_neg hfree, if_neg hfood]
      refine ⟨_, rfl, hst, ?_⟩
      show (⟨5, 11⟩ : Point).add g.snake_direction_ ::
        ((⟨5, 11⟩ : Point) :: [⟨6, 11⟩, ⟨6, 10⟩, ⟨5, 10⟩]).dropLast = _
      rw [hnew]
      rfl
    · exact absurd hf hnp
  · intro hp
    rcases hcase with ⟨_, _, hn⟩ | ⟨h0, _⟩
    · exact absurd hp hn
    · have hcol : stepCollides g ⟨5, 10⟩ := by
        right
        rw [hs']
        split_ifs
        · simp
        · rw [dropLast_four_append, if_neg h0]
          simp
      rw [if_pos hcol]

theorem loopStage_start (g0 g1 : Game) (d r : List Nat)
    (hreset : resetGame g0 d = some (g1, r)) :
    loopStage [⟨5, 10⟩, ⟨4, 10⟩, ⟨3, 10⟩, ⟨2, 10⟩] ⟨1, 0⟩ [] g1.food_position_
      { g1 with current_state_ := GameState.GAME_RUNNING } := by
  obtain ⟨h1, h2, _⟩ := resetGame_some g0 g1 d r hreset
  refine ⟨rfl, h2, [], ?_, le_refl _, fun p hp => absurd hp (List.not_mem_nil _),
    Or.inl ⟨rfl, rfl, List.not_mem_nil _⟩⟩
  show g1.snake_ = _
  rw [h1]
  rfl

theorem loopStage_food (P : List Point) (D : Point) (passed : List Point) (f0 : Point)
    (g : Game) (h : loopStage P D passed f0 g) (hnp : f0 ∉ loopPath) :
    g.food_position_ = f0 := by
  obtain ⟨_, _, t, _, _, _, ⟨_, hf, _⟩ | ⟨_, hf⟩⟩ := h
  · exact hf
  · exact absurd hf hnp

/-- Counterexample to C34 as stated.  The reset with the draws 6 and 10 puts the food at
(6,10), in front of the head; the first tick of `loopCalls` eats it, the snake has five
segments from then on, and on the last tick the head enters (5,10), which the fourth segment
still occupies: the state is LostGameOver. -/
theorem snake_tight_loop_collides_after_eating :
    resetGame blankGame [6, 10] = some (loopFoodGame, []) ∧
    loopFoodGame.food_position_ = ⟨6, 10⟩ ∧
    (runCalls (loopCalls false) loopFoodGame [0, 0]).map (fun p => p.1.current_state_) =
      some GameState.GAME_OVER_LOSE ∧
    (runCalls (loopCalls false) loopFoodGame [0, 0]).map (fun p => p.1.snake_.length) =
      some 5 :=
  ⟨rfl, rfl, by decide, by decide⟩

/-- Claim C34, amended.  After a fresh reset whose food is on none of the cells (6,10), (6,11)
and (5,11) that the head enters, the calls Start, tick, Right, tick, Right, tick, Right, tick
return for every list of draws without consuming a draw, and leave the engine Running with
the snake on (5,10), (5,11), (6,11), (6,10): the head has entered the cell the tail left.
When the food is on one of the three cells, every returned result is LostGameOver, and the
calls return when the draws select a cell off rows 10 and 11. -/
theorem snake_tight_loop_without_food (g0 g1 : Game) (d r : List Nat) (hold : Bool)
    (hreset : resetGame g0 d = some (g1, r)) :
    (g1.food_position_ ∉ loopPath →
      ∀ draws : List Nat, ∃ g' : Game,
        runCalls (loopCalls hold) g1 draws = some (g', draws) ∧
        g'.current_state_ = GameState.GAME_RUNNING ∧
        g'.snake_ = [⟨5, 10⟩, ⟨5, 11⟩, ⟨6, 11⟩, ⟨6, 10⟩]) ∧
    (g1.food_position_ ∈ loopPath →
      (∀ (draws : List Nat) (g' : Game) (rest : List Nat),
        runCalls (loopCalls hold) g1 draws = some (g', rest) →
        g'.current_state_ = GameState.GAME_OVER_LOSE) ∧
      (∀ draws : List Nat, foodOffLoop g1 draws →
        (runCalls (loopCalls hold) g1 draws).isSome = true)) := by
  have hf0 := resetGame_food g0 g1 d r hreset
  have hs0 := loopStage_start g0 g1 d r hreset
  have hstart : ∀ draws : List Nat,
      runCalls (loopCalls hold) g1 draws =
        runCalls [Call.tick, Call.input UserAction_t.Right hold, Call.tick,
          Call.input UserAction_t.Right hold, Call.tick, Call.input UserAction_t.Right hold,
          Call.tick] { g1 with current_state_ := GameState.GAME_RUNNING } draws :=
    fun draws => runCalls_cons_of_some _ _ g1 _ draws draws
      (start_after_reset g0 g1 d r hold draws hreset)
  have p1 := fun (g : Game) (draws : List Nat) (cs : List Call)
      (h : loopStage [⟨5, 10⟩, ⟨4, 10⟩, ⟨3, 10⟩, ⟨2, 10⟩] ⟨1, 0⟩ [] g1.food_position_ g) =>
    loopStage_pair ⟨5, 10⟩ ⟨4, 10⟩ ⟨3, 10⟩ ⟨2, 10⟩ ⟨6, 10⟩ ⟨1, 0⟩ ⟨0, 1⟩ g1.food_position_ []
      g hold draws cs h (by decide) rfl (by decide) (by decide) (by decide) (by decide)
      (by decide) (by decide) rfl
  have p2 := fun (g : Game) (draws : List Nat) (cs : List Call)
      (h : loopStage [⟨6, 10⟩, ⟨5, 10⟩, ⟨4, 10⟩, ⟨3, 10⟩] ⟨0, 1⟩ [⟨6, 10⟩]
        g1.food_position_ g) =>
    loopStage_pair ⟨6, 10⟩ ⟨5, 10⟩ ⟨4, 10⟩ ⟨3, 10⟩ ⟨6, 11⟩ ⟨0, 1⟩ ⟨-1, 0⟩ g1.food_position_
      [⟨6, 10⟩] g hold draws cs h (by decide) rfl (by decide) (by decide) (by decide)
      (by decide) (by decide) (by decide) rfl
  have p3 := fun (g : Game) (draws : List Nat) (cs : List Call)
      (h : loopStage [⟨6, 11⟩, ⟨6, 10⟩, ⟨5, 10⟩, ⟨4, 10⟩] ⟨-1, 0⟩ [⟨6, 10⟩, ⟨6, 11⟩]
        g1.food_position_ g) =>
    loopStage_pair ⟨6, 11⟩ ⟨6, 10⟩ ⟨5, 10⟩ ⟨4, 10⟩ ⟨5, 11⟩ ⟨-1, 0⟩ ⟨0, -1⟩ g1.food_position_
      [⟨6, 10⟩, ⟨6, 11⟩] g hold draws cs h (by decide) rfl (by decide) (by decide) (by decide)
      (by decide) (by decide) (by decide) rfl
  have hlast : ∀ (g : Game) (draws : List Nat),
      runCalls [Call.tick] g draws =
        (updateGameLogic g draws).bind fun p => some (p.1, p.2) := by
    intro g draws
    show (match updateGameLogic g draws with
      | some (g1, rest) => runCalls [] g1 rest
      | none => none) = _
    cases updateGameLogic g draws with
    | none => rfl
    | some p => rfl
  constructor
  · intro hnp draws
    have hne : ∀ (P : List Point) (D : Point) (passed : List Point) (g : Game) (n : Point),
        loopStage P D passed g1.food_position_ g → n ∈ loopPath → n ≠ g.food_position_ := by
      intro P D passed g n h hn heq
      rw [loopStage_food P D passed _ g h hnp] at heq
      exact hnp (heq ▸ hn)
    rw [hstart]
    obtain ⟨ga, hsa, ea⟩ := (p1 _ draws _ hs0).2.1 (hne _ _ _ _ _ hs0 (by decide))
    rw [ea]
    obtain ⟨gb, hsb, eb⟩ := (p2 ga draws _ hsa).2.1 (hne _ _ _ _ _ hsa (by decide))
    rw [eb]
    obtain ⟨gc, hsc, ec⟩ := (p3 gb draws _ hsb).2.1 (hne _ _ _ _ _ hsb (by decide))
    rw [ec, hlast]
    obtain ⟨g', hg', h1, h2⟩ := (loopStage_last _ gc draws hsc hf0).1 hnp
    rw [hg']
    exact ⟨g', rfl, h1, h2⟩
  · intro hp
    constructor
    · intro draws g' rest hret
      rw [hstart] at hret
      obtain ⟨ga, ra, hsa, hret⟩ := (p1 _ draws _ hs0).1 g' rest hret
      obtain ⟨gb, rb, hsb, hret⟩ := (p2 ga ra _ hsa).1 g' rest hret
      obtain ⟨gc, rc, hsc, hret⟩ := (p3 gb rb _ hsb).1 g' rest hret
      rw [hlast, (loopStage_last _ gc rc hsc hf0).2 hp] at hret
      simp only [Option.some_bind, Option.some.injEq, Prod.mk.injEq] at hret
      rw [← hret.1]
    · intro draws hsup
      rw [hstart]
      obtain ⟨ga, ra, hsa, hoa, ea⟩ := (p1 _ draws _ hs0).2.2 hsup
      rw [ea]
      obtain ⟨gb, rb, hsb, hob, eb⟩ := (p2 ga ra _ hsa).2.2 hoa
      rw [eb]
      obtain ⟨gc, rc, hsc, _, ec⟩ := (p3 gb rb _ hsb).2.2 hob
      rw [ec, hlast, (loopStage_last _ gc rc hsc hf0).2 hp]
      rfl

/-- Test input for C34: the engine reset with the food at (7,3), off the path of the head. -/
theorem snake_tight_loop_without_food_witness :
    ∃ g' : Game, runCalls (loopCalls false) freshGame [] = some (g', []) ∧
      g'.current_state_ = GameState.GAME_RUNNING ∧
      g'.snake_ = [⟨5, 10⟩, ⟨5, 11⟩, ⟨6, 11⟩, ⟨6, 10⟩] :=
  (snake_tight_loop_without_food blankGame freshGame [7, 3] [] false rfl).1 (by decide) []

theorem setCell_apply (f : Field) (p : Point) (v : Int) (r : Fin 20) (c : Fin 10) :
    setCell f p.y p.x v r c = if cellPoint r c = p then v else f r c := by
  unfold setCell cellPoint
  cases p with
  | mk x y =>
    simp only [Point.mk.injEq]
    by_cases h : (r.val : Int) = y ∧ (c.val : Int) = x
    · rw [if_pos h, if_pos ⟨h.2, h.1⟩]
    · rw [if_neg h, if_neg (fun h' => h ⟨h'.2, h'.1⟩)]

theorem snakeCell_not_mem (s : List Point) (q : Point) (h : q ∉ s) : snakeCell s q = EMPTY := by
  unfold snakeCell
  cases s with
  | nil => simp
  | cons a t =>
    have h1 : q ≠ a := fun e => h (e ▸ List.mem_cons_self _ _)
    have h2 : q ∉ t := fun e => h (List.mem_cons_of_mem _ e)
    simp only [List.head?_cons, Option.some.injEq, List.tail_cons]
    rw [if_neg (fun e => h1 e.symm), if_neg h2]

theorem snakeCell_head (a : Point) (t : List Point) : snakeCell (a :: t) a = HEAD := by
  unfold snakeCell
  simp

theorem snakeCell_tail (a q : Point) (t : List Point) (h1 : q ≠ a) (h2 : q ∈ t) :
    snakeCell (a :: t) q = BODY := by
  unfold snakeCell
  simp only [List.head?_cons, Option.some.injEq, List.tail_cons]
  rw [if_neg (fun e => h1 e.symm), if_pos h2]

theorem snakeOnly_of_mirrors (g : Game) (h : boardMirrors g)
    (hf : g.food_position_ ∈ g.snake_) : snakeOnly g := by
  intro r c
  rw [h r c]
  by_cases hq : cellPoint r c ∈ g.snake_
  · rw [if_pos hq]
  · rw [if_neg hq, if_neg (fun e : g.food_position_ = cellPoint r c => hq (e ▸ hf)),
      snakeCell_not_mem _ _ hq]

theorem mirrors_of_snakeOnly (g : Game) (h : snakeOnly g)
    (hf : g.food_position_ ∈ g.snake_) : boardMirrors g := by
  intro r c
  rw [h r c]
  by_cases hq : cellPoint r c ∈ g.snake_
  · rw [if_pos hq]
  · rw [if_neg hq, if_neg (fun e : g.food_position_ = cellPoint r c => hq (e ▸ hf)),
      snakeCell_not_mem _ _ hq]

theorem mirrors_withFood (g : Game) (p : Point) (h : snakeOnly g) (hp : p ∉ g.snake_) :
    boardMirrors (withFood g p) := by
  intro r c
  show setCell g.game_field_ p.y p.x FOOD r c =
    if cellPoint r c ∈ g.snake_ then snakeCell g.snake_ (cellPoint r c)
    else if p = cellPoint r c then FOOD else EMPTY
  rw [setCell_apply, h r c]
  by_cases hq : cellPoint r c = p
  · rw [if_pos hq, if_neg (by rw [hq]; exact hp), if_pos hq.symm]
  · rw [if_neg hq]
    by_cases hm : cellPoint r c ∈ g.snake_
    · rw [if_pos hm]
    · rw [if_neg hm, if_neg (fun e => hq e.symm), snakeCell_not_mem _ _ hm]

theorem snakeOnly_grown (g : Game) (old_head : Point) (body : List Point)
    (hs : g.snake_ = old_head :: body) (h : boardMirrors g)
    (hfood : old_head.add g.snake_direction_ = g.food_position_)
    (hnew : old_head.add g.snake_direction_ ∉ old_head :: body) :
    snakeOnly (grown g old_head body) := by
  intro r c
  show setCell (setCell g.game_field_ (old_head.add g.snake_direction_).y
      (old_head.add g.snake_direction_).x HEAD) old_head.y old_head.x BODY r c =
    snakeCell (old_head.add g.snake_direction_ :: old_head :: body) (cellPoint r c)
  have hne : old_head ≠ old_head.add g.snake_direction_ :=
    fun e => hnew (e ▸ List.mem_cons_self _ _)
  rw [setCell_apply, setCell_apply, h r c, hs]
  by_cases h1 : cellPoint r c = old_head
  · rw [if_pos h1, h1, snakeCell_tail _ _ _ hne (List.mem_cons_self _ _)]
  · rw [if_neg h1]
    by_cases h2 : cellPoint r c = old_head.add g.snake_direction_
    · rw [if_pos h2, h2, snakeCell_head]
    · rw [if_neg h2]
      by_cases h3 : cellPoint r c ∈ old_head :: body
      · have h4 : cellPoint r c ∈ body := by
          rcases List.mem_cons.1 h3 with e | e
          · exact absurd e h1
          · exact e
        rw [if_pos h3, snakeCell_tail _ _ _ h1 h4, snakeCell_tail _ _ _ h2 h3]
      · rw [if_neg h3, ← hfood, if_neg (fun e => h2 e.symm), snakeCell_not_mem]
        intro hm
        rcases List.mem_cons.1 hm with e | e
        · exact h2 e
        · exact h3 e

theorem mirrors_advanced (g : Game) (old_head : Point) (body : List Point)
    (hs : g.snake_ = old_head :: body) (hb : body ≠ []) (hnd : (old_head :: body).Nodup)
    (h : boardMirrors g) (hf : g.food_position_ ∉ g.snake_)
    (hnew : old_head.add g.snake_direction_ ∉ (old_head :: body).dropLast) :
    boardMirrors (advanced g old_head body) := by
  obtain ⟨n, hn⟩ : ∃ n : Point, n = old_head.add g.snake_direction_ := ⟨_, rfl⟩
  obtain ⟨t, ht⟩ : ∃ t : Point,
      t = (old_head :: body).getLast (List.cons_ne_nil old_head body) := ⟨_, rfl⟩
  obtain ⟨dl, hdl⟩ : ∃ dl : List Point, dl = (old_head :: body).dropLast := ⟨_, rfl⟩
  have happ : old_head :: body = dl ++ [t] := by
    rw [hdl, ht]
    exact (List.dropLast_append_getLast (List.cons_ne_nil old_head body)).symm
  have hhd : old_head ∈ dl := by
    rw [hdl]
    cases body with
    | nil => exact absurd rfl hb
    | cons x xs => simp [List.dropLast]
  have hnd' : (dl ++ [t]).Nodup := happ ▸ hnd
  have htdl : t ∉ dl := by
    intro hm
    exact (List.nodup_append.1 hnd').2.2 hm (List.mem_singleton_self t)
  rw [← hn, ← hdl] at hnew
  have hnh : n ≠ old_head := fun e => hnew (e ▸ hhd)
  have htn : ∀ q : Point, q ∈ old_head :: body ↔ q ∈ dl ∨ q = t := by
    intro q
    rw [happ, List.mem_append, List.mem_singleton]
  have hft : g.food_position_ ≠ t := by
    intro e
    apply hf
    rw [hs, e]
    exact (htn t).2 (Or.inr rfl)
  intro r c
  show setCell (setCell (setCell g.game_field_ _ _ EMPTY) _ _ HEAD) old_head.y old_head.x BODY
      r c =
    if cellPoint r c ∈ old_head.add g.snake_direction_ :: (old_head :: body).dropLast then
      snakeCell (old_head.add g.snake_direction_ :: (old_head :: body).dropLast)
        (cellPoint r c)
    else if g.food_position_ = cellPoint r c then FOOD else EMPTY
  rw [setCell_apply, setCell_apply, setCell_apply, h r c, hs, ← hn, ← ht, ← hdl]
  by_cases h1 : cellPoint r c = old_head
  · rw [if_pos h1, h1, if_pos (List.mem_cons_of_mem _ hhd),
      snakeCell_tail _ _ _ (fun e => hnh e.symm) hhd]
  · rw [if_neg h1]
    by_cases h2 : cellPoint r c = n
    · rw [if_pos h2, h2, if_pos (List.mem_cons_self _ _), snakeCell_head]
    · rw [if_neg h2]
      by_cases h3 : cellPoint r c = t
      · rw [if_pos h3, h3, if_neg, if_neg hft]
        intro hm
        rcases List.mem_cons.1 hm with e | e
        · exact h2 (h3.trans e)
        · exact htdl e
      · rw [if_neg h3]
        by_cases h4 : cellPoint r c ∈ dl
        · have h5 : cellPoint r c ∈ old_head :: body := (htn _).2 (Or.inl h4)
          have h6 : cellPoint r c ∈ body := by
            rcases List.mem_cons.1 h5 with e | e
            · exact absurd e h1
            · exact e
          rw [if_pos h5, if_pos (List.mem_cons_of_mem _ h4), snakeCell_tail _ _ _ h1 h6,
            snakeCell_tail _ _ _ h2 h4]
        · have h5 : cellPoint r c ∉ old_head :: body := by
            intro hm
            rcases (htn _).1 hm with e | e
            · exact h4 e
            · exact h3 e
          have h7 : cellPoint r c ∉ n :: dl := by
            intro hm
            rcases List.mem_cons.1 hm with e | e
            · exact h2 e
            · exact h4 e
          rw [if_neg h5, if_neg h7]

theorem snakeOnly_initial :
    ∀ (r : Fin 20) (c : Fin 10),
      placeBody (setCell (fun _ _ => 0) (FIELD_HEIGHT / 2) (FIELD_WIDTH / 2) HEAD)
          [⟨FIELD_WIDTH / 2 - 1, FIELD_HEIGHT / 2⟩, ⟨FIELD_WIDTH / 2 - 2, FIELD_HEIGHT / 2⟩,
            ⟨FIELD_WIDTH / 2 - 3, FIELD_HEIGHT / 2⟩] r c =
        snakeCell initialSnake (cellPoint r c) := by
  decide

theorem initializeGame_board (g g' : Game) (draws rest : List Nat)
    (h : initializeGame g draws = some (g', rest)) :
    g'.snake_ = initialSnake ∧ inBoard g'.food_position_ ∧ boardMirrors g' ∧
      g'.food_position_ ∉ g'.snake_ := by
  unfold initializeGame at h
  obtain ⟨r1, r2, hfree, rfl⟩ := generateFood_some _ draws.length draws le_rfl g' rest h
  exact ⟨rfl, drawnCell_inBoard r1 r2, mirrors_withFood _ _ snakeOnly_initial hfree, hfree⟩

theorem boardInvariant_initial (g : Game) (hs : g.snake_ = initialSnake)
    (hf : inBoard g.food_position_) (hm : boardMirrors g) (hn : g.food_position_ ∉ g.snake_) :
    boardInvariant g := by
  have hl : g.snake_.length = 4 := by rw [hs]; rfl
  refine ⟨by omega, hf, hm, fun h => absurd h hn, fun h => ?_⟩
  omega

theorem boardInvariant_resetGame (g g' : Game) (draws rest : List Nat)
    (h : resetGame g draws = some (g', rest)) : boardInvariant g' := by
  unfold resetGame at h
  split at h
  · rename_i g1 r1 heq
    simp only [Option.some.injEq, Prod.mk.injEq] at h
    have hk := initializeGame_board _ _ _ _ heq
    rw [← h.1]
    exact boardInvariant_initial _ hk.1 hk.2.1 hk.2.2.1 hk.2.2.2
  · exact absurd h (by simp)

theorem boardInvariant_congr (g g' : Game) (h1 : g'.snake_ = g.snake_)
    (h2 : g'.food_position_ = g.food_position_) (h3 : g'.game_field_ = g.game_field_)
    (h4 : 200 ≤ g.snake_.length →
      g'.current_state_ = GameState.GAME_OVER_WIN ∨
        g'.current_state_ = GameState.TERMINATE_GAME)
    (hb : boardInvariant g) : boardInvariant g' := by
  unfold boardInvariant boardMirrors at *
  rw [h1, h2, h3]
  exact ⟨hb.1, hb.2.1, hb.2.2.1, hb.2.2.2.1, fun h => ⟨h4 h, (hb.2.2.2.2 h).2⟩⟩

theorem boardInvariant_short (g : Game) (hb : boardInvariant g)
    (hs : g.current_state_ ≠ GameState.GAME_OVER_WIN)
    (ht : g.current_state_ ≠ GameState.TERMINATE_GAME) :
    g.snake_.length < 200 ∧ g.food_position_ ∉ g.snake_ := by
  have hl : g.snake_.length < 200 := by
    by_contra hc
    rcases (hb.2.2.2.2 (by omega)).1 with e | e
    · exact hs e
    · exact ht e
  refine ⟨hl, fun hm => ?_⟩
  have := hb.2.2.2.1 hm
  omega

theorem boardInvariant_moveSnake (g g' : Game) (draws rest : List Nat)
    (hi : engineInvariant g) (hb : boardInvariant g)
    (hrun : g.current_state_ = GameState.GAME_RUNNING)
    (hret : moveSnake g draws = some (g', rest)) : boardInvariant g' := by
  obtain ⟨hshort, hfree⟩ := boardInvariant_short g hb (by rw [hrun]; intro h; cases h)
    (by rw [hrun]; intro h; cases h)
  obtain ⟨old_head, body, hs⟩ := List.exists_cons_of_ne_nil hi.2.1
  have hlen : g.snake_.length = body.length + 1 := by rw [hs]; rfl
  have hnd : (old_head :: body).Nodup := hs ▸ hi.1.1
  rw [moveSnake_cons g draws old_head body hs] at hret
  by_cases hc : stepCollides g (old_head.add g.snake_direction_)
  · rw [if_pos hc] at hret
    simp only [Option.some.injEq, Prod.mk.injEq] at hret
    rw [← hret.1]
    exact boardInvariant_congr g _ rfl rfl rfl (fun h => by omega) hb
  · rw [if_neg hc] at hret
    have hnb : inBoard (old_head.add g.snake_direction_) := by
      by_contra h; exact hc (Or.inl h)
    by_cases hf : old_head.add g.snake_direction_ = g.food_position_
    · rw [if_pos hf] at hret
      have hnm : old_head.add g.snake_direction_ ∉ old_head :: body := by
        intro h; apply hc; right; rw [if_pos hf, hs]; exact h
      have hso := snakeOnly_grown g old_head body hs hb.2.2.1 hf hnm
      by_cases hw : 200 ≤ body.length + 2
      · rw [if_pos hw] at hret
        simp only [Option.some.injEq, Prod.mk.injEq] at hret
        rw [← hret.1]
        have hfm : (grown g old_head body).food_position_ ∈ (grown g old_head body).snake_ := by
          show g.food_position_ ∈ old_head.add g.snake_direction_ :: old_head :: body
          rw [hf]
          exact List.mem_cons_self _ _
        refine ⟨?_, hb.2.1, mirrors_of_snakeOnly _ hso hfm, fun _ => ?_,
          fun _ => ⟨Or.inl rfl, ?_⟩⟩
        · show 2 ≤ (old_head.add g.snake_direction_ :: old_head :: body).length
          simp only [List.length_cons]
          omega
        · show 200 ≤ (old_head.add g.snake_direction_ :: old_head :: body).length
          simp only [List.length_cons]
          omega
        · show some (old_head.add g.snake_direction_) = some g.food_position_
          rw [hf]
      · rw [if_neg hw] at hret
        obtain ⟨r1, r2, hcell, rfl⟩ := generateFood_some _ draws.length draws le_rfl g' rest hret
        have hl : (withFood (grown g old_head body) (drawnCell r1 r2)).snake_.length =
            body.length + 2 := by
          show (old_head.add g.snake_direction_ :: old_head :: body).length = body.length + 2
          simp only [List.length_cons]
        refine ⟨by omega, drawnCell_inBoard r1 r2, mirrors_withFood _ _ hso hcell,
          fun h => absurd h hcell, fun h => ?_⟩
        omega
    · rw [if_neg hf] at hret
      simp only [Option.some.injEq, Prod.mk.injEq] at hret
      rw [← hret.1]
      have hnm : old_head.add g.snake_direction_ ∉ (old_head :: body).dropLast := by
        intro h; apply hc; right; rw [if_neg hf, hs]; exact h
      have hbne : body ≠ [] := by
        intro e
        have := hb.1
        rw [hlen, e] at this
        simp at this
      have hl : (advanced g old_head body).snake_.length = body.length + 1 := by
        show (old_head.add g.snake_direction_ :: (old_head :: body).dropLast).length =
          body.length + 1
        simp only [List.length_cons, List.length_dropLast]
        omega
      have h2 := hb.1
      refine ⟨?_, hb.2.1, mirrors_advanced g old_head body hs hbne hnd hb.2.2.1 hfree hnm,
        fun h => ?_, fun h => ?_⟩
      · rw [hl]
        omega
      · exfalso
        have h' : g.food_position_ ∈
            old_head.add g.snake_direction_ :: (old_head :: body).dropLast := h
        rcases List.mem_cons.1 h' with e | e
        · exact hf e.symm
        · exact hfree (hs ▸ mem_dropLast _ _ e)
      · rw [hl] at h
        omega

theorem boardInvariant_handleUserInput (g g' : Game) (action : UserAction_t) (hold : Bool)
    (draws rest : List Nat) (hi : engineInvariant g) (hb : boardInvariant g)
    (hret : handleUserInput g action hold draws = some (g', rest)) :
    boardInvariant g' := by
  unfold handleUserInput at hret
  split at hret <;> rename_i hstate <;> (try split_ifs at hret) <;>
    first
    | exact boardInvariant_moveSnake g g' draws rest hi hb hstate hret
    | exact boardInvariant_resetGame g g' draws rest hret
    | (simp only [Option.some.injEq, Prod.mk.injEq] at hret
       rw [← hret.1]
       first
       | exact hb
       | exact boardInvariant_congr g _ rfl rfl rfl (fun _ => Or.inr rfl) hb
       | (refine boardInvariant_congr g _ rfl rfl rfl (fun h => ?_) hb
          have h' := (hb.2.2.2.2 h).1
          rw [hstate] at h'
          rcases h' with e | e <;> cases e))

theorem boardInvariant_reachable (g : Game) (h : Reachable g) : boardInvariant g := by
  induction h with
  | construct file draws g rest hc =>
    have hk := initializeGame_board _ _ _ _ hc
    exact boardInvariant_initial g hk.1 hk.2.1 hk.2.2.1 hk.2.2.2
  | reset g0 draws g rest hr =>
    exact boardInvariant_resetGame g0 g draws rest hr
  | input g action hold draws g' rest hg hret ih =>
    exact boardInvariant_handleUserInput g g' action hold draws rest
      (engineInvariant_reachable g hg) ih hret
  | tick g draws g' rest hg hret ih =>
    unfold updateGameLogic at hret
    split_ifs at hret with hrun
    · exact boardInvariant_moveSnake g g' draws rest (engineInvariant_reachable g hg) ih hrun hret
    · simp only [Option.some.injEq, Prod.mk.injEq] at hret
      rw [← hret.1]; exact ih

theorem reachable_runCalls :
    ∀ (cs : List Call) (g g' : Game) (draws rest : List Nat),
      Reachable g → runCalls cs g draws = some (g', rest) → Reachable g'
  | [], g, g', draws, rest, hg, h => by
    have h' : some (g, draws) = some (g', rest) := h
    simp only [Option.some.injEq, Prod.mk.injEq] at h'
    exact h'.1 ▸ hg
  | c :: cs, g, g', draws, rest, hg, h => by
    obtain ⟨g1, r1, hc, hrun⟩ := runCalls_cons_some c cs g g' draws rest h
    refine reachable_runCalls cs g1 g' r1 rest ?_ hrun
    cases c with
    | tick => exact Reachable.tick g draws g1 r1 hg hc
    | input action hold => exact Reachable.input g action hold draws g1 r1 hg hc

theorem cellPoint_inj (r r' : Fin 20) (c c' : Fin 10) (h : cellPoint r' c' = cellPoint r c) :
    r' = r ∧ c' = c := by
  unfold cellPoint at h
  simp only [Point.mk.injEq, Nat.cast_inj] at h
  exact ⟨Fin.ext h.2, Fin.ext h.1⟩

theorem cellPoint_surj (p : Point) (h : inBoard p) :
    ∃ (r : Fin 20) (c : Fin 10), cellPoint r c = p := by
  obtain ⟨h1, h2, h3, h4⟩ := h
  refine ⟨⟨p.y.toNat, by omega⟩, ⟨p.x.toNat, by omega⟩, ?_⟩
  cases p with
  | mk x y =>
    unfold cellPoint
    simp only [Point.mk.injEq]
    constructor
    · exact Int.toNat_of_nonneg h1
    · exact Int.toNat_of_nonneg h3

theorem board_of_mirrors (g : Game) (hm : boardMirrors g) (hnd : g.snake_.Nodup) :
    (∀ (r : Fin 20) (c : Fin 10), g.snake_.head? = some (cellPoint r c) →
      g.game_field_ r c = HEAD) ∧
    (∀ (r : Fin 20) (c : Fin 10), cellPoint r c ∈ g.snake_.tail →
      g.game_field_ r c = BODY) ∧
    (∀ (r : Fin 20) (c : Fin 10), cellPoint r c ∉ g.snake_ →
      g.game_field_ r c = if g.food_position_ = cellPoint r c then FOOD else EMPTY) := by
  refine ⟨fun r c h => ?_, fun r c h => ?_, fun r c h => ?_⟩
  · rw [hm r c, if_pos (List.mem_of_mem_head? h)]
    unfold snakeCell
    rw [if_pos h]
  · rw [hm r c, if_pos (List.mem_of_mem_tail h)]
    cases hs : g.snake_ with
    | nil => rw [hs] at h; simp at h
    | cons a t =>
      rw [hs] at h hnd
      have h' : cellPoint r c ∈ t := h
      refine snakeCell_tail a _ t (fun e => ?_) h'
      exact (List.nodup_cons.1 hnd).1 (e ▸ h')
  · rw [hm r c, if_neg h]

theorem boardExact_of_mirrors (g : Game) (hm : boardMirrors g) (hnd : g.snake_.Nodup)
    (hf : g.food_position_ ∉ g.snake_) : boardExact g := by
  obtain ⟨h1, h2, h3⟩ := board_of_mirrors g hm hnd
  refine ⟨h1, h2, fun r c h => ?_, fun r c h4 h5 => ?_⟩
  · rw [h3 r c (h ▸ hf), if_pos h]
  · rw [h3 r c h4, if_neg h5]

theorem snakeCell_values (s : List Point) (q : Point) :
    (snakeCell s q = HEAD ↔ s.head? = some q) ∧ snakeCell s q ≠ FOOD := by
  unfold snakeCell
  by_cases h1 : s.head? = some q
  · rw [if_pos h1]
    exact ⟨⟨fun _ => h1, fun _ => rfl⟩, by decide⟩
  · rw [if_neg h1]
    by_cases h2 : q ∈ s.tail
    · rw [if_pos h2]
      exact ⟨⟨fun h => absurd h (by decide), fun h => absurd h h1⟩, by decide⟩
    · rw [if_neg h2]
      exact ⟨⟨fun h => absurd h (by decide), fun h => absurd h h1⟩, by decide⟩

theorem exactlyOne_of_mirrors (g : Game) (hm : boardMirrors g) (hne : g.snake_ ≠ [])
    (hin : ∀ p ∈ g.snake_, inBoard p) (hfb : inBoard g.food_position_)
    (hf : g.food_position_ ∉ g.snake_) :
    exactlyOneCell (snapshot g).field HEAD ∧ exactlyOneCell (snapshot g).field FOOD := by
  obtain ⟨a, t, hs⟩ := List.exists_cons_of_ne_nil hne
  have ha : inBoard a := hin a (hs ▸ List.mem_cons_self a t)
  obtain ⟨r, c, hrc⟩ := cellPoint_surj a ha
  obtain ⟨rf, cf, hrcf⟩ := cellPoint_surj g.food_position_ hfb
  constructor
  · refine ⟨r, c, fun r' c' => ?_⟩
    show g.game_field_ r' c' = HEAD ↔ _
    rw [hm r' c']
    constructor
    · intro h
      by_cases hq : cellPoint r' c' ∈ g.snake_
      · rw [if_pos hq] at h
        have h2 := (snakeCell_values g.snake_ (cellPoint r' c')).1.1 h
        rw [hs] at h2
        simp only [List.head?_cons, Option.some.injEq] at h2
        exact cellPoint_inj r r' c c' (h2 ▸ hrc.symm ▸ rfl)
      · rw [if_neg hq] at h
        split_ifs at h <;> exact absurd h (by decide)
    · rintro ⟨rfl, rfl⟩
      rw [hrc, if_pos (hs ▸ List.mem_cons_self a t), hs, snakeCell_head]
  · refine ⟨rf, cf, fun r' c' => ?_⟩
    show g.game_field_ r' c' = FOOD ↔ _
    rw [hm r' c']
    constructor
    · intro h
      by_cases hq : cellPoint r' c' ∈ g.snake_
      · rw [if_pos hq] at h
        exact absurd h (snakeCell_values g.snake_ (cellPoint r' c')).2
      · rw [if_neg hq] at h
        by_cases he : g.food_position_ = cellPoint r' c'
        · exact cellPoint_inj rf r' cf c' (he ▸ hrcf.symm ▸ rfl)
        · rw [if_neg he] at h
          exact absurd h (by decide)
    · rintro ⟨rfl, rfl⟩
      rw [hrcf, if_neg hf, if_pos rfl]

set_option maxRecDepth 1000000 in
theorem winCalls_result :
    (runCalls winCalls loopFoodGame winDraws).map
        (fun p => (p.1.current_state_, p.1.snake_.head?, p.1.snake_.length, p.1.food_position_,
          p.1.game_field_ 11 2)) =
      some (GameState.TERMINATE_GAME, some ⟨2, 11⟩, 200, ⟨2, 11⟩, HEAD) := by
  decide!

/-- Claim C37, counterexample.  A state other than WonGameOver is reachable in which the cell at
the food coordinate is not `FOOD`.  From the reset with the food drawn at (6,10), the calls
`winCalls` are Start, then the turns and ticks that steer the head along `winPath` through
all 200 cells of the board, then Terminate; the draws `winDraws` put every new food on the
next cell of the path.  The last tick eats the food at (2,11) with a body of 200 segments:
`moveSnake` enters WonGameOver and returns before `generateFood`, and Terminate changes only
the state.  The engine is then Terminated, its head and its food coordinate are both (2,11),
and the cell in row 11, column 2 holds `HEAD`. -/
theorem snake_board_after_won_game_terminated :
    ∃ g : Game, Reachable g ∧ g.current_state_ = GameState.TERMINATE_GAME ∧
      g.current_state_ ≠ GameState.GAME_OVER_WIN ∧ g.snake_.length = 200 ∧
      g.snake_.head? = some ⟨2, 11⟩ ∧ g.food_position_ = ⟨2, 11⟩ ∧
      g.game_field_ 11 2 = HEAD ∧ ¬ boardExact g := by
  have hev := winCalls_result
  cases hrun : runCalls winCalls loopFoodGame winDraws with
  | none =>
    rw [hrun] at hev
    cases hev
  | some p =>
    obtain ⟨g, rest⟩ := p
    rw [hrun] at hev
    simp only [Option.map_some', Option.some.injEq, Prod.mk.injEq] at hev
    obtain ⟨h1, h2, h3, h4, h5⟩ := hev
    have hr : Reachable g :=
      reachable_runCalls winCalls loopFoodGame g winDraws rest
        (Reachable.reset blankGame [6, 10] loopFoodGame [] rfl) hrun
    refine ⟨g, hr, h1, ?_, h3, h2, h4, h5, fun hb => ?_⟩
    · rw [h1]
      intro h
      cases h
    · have h6 := hb.2.2.1 11 2 h4
      rw [h5] at h6
      exact absurd h6 (by decide)

/-- Claim C37, amended.  In every reachable state of the Snake engine the cell at the head's
coordinate is `HEAD`, the cells of all other segments are `BODY`, and off the snake the cell at
the food coordinate is `FOOD` and every other cell is `EMPTY`.  A state with a snake of fewer
than 200 segments has its food off the snake, so there the board mirrors the entities exactly
(`boardExact`: head cell `HEAD`, other segments `BODY`, food cell `FOOD`, remaining cells
`EMPTY`) and the snapshot has exactly one `HEAD` cell and exactly one `FOOD` cell.  Every
reachable state other than WonGameOver and Terminated has fewer than 200 segments; with 200
segments the food coordinate can only be under the snake, whose cells show the snake. -/
theorem snake_board_mirrors_entities (g : Game) (h : Reachable g) :
    ((∀ (r : Fin 20) (c : Fin 10), g.snake_.head? = some (cellPoint r c) →
        g.game_field_ r c = HEAD) ∧
      (∀ (r : Fin 20) (c : Fin 10), cellPoint r c ∈ g.snake_.tail →
        g.game_field_ r c = BODY) ∧
      (∀ (r : Fin 20) (c : Fin 10), cellPoint r c ∉ g.snake_ →
        g.game_field_ r c = if g.food_position_ = cellPoint r c then FOOD else EMPTY)) ∧
    (g.snake_.length < 200 →
      g.food_position_ ∉ g.snake_ ∧ boardExact g ∧
        exactlyOneCell (snapshot g).field HEAD ∧ exactlyOneCell (snapshot g).field FOOD) ∧
    (g.current_state_ ≠ GameState.GAME_OVER_WIN →
      g.current_state_ ≠ GameState.TERMINATE_GAME → g.snake_.length < 200) ∧
    (200 ≤ g.snake_.length →
      g.snake_.head? = some g.food_position_ ∧
        (g.current_state_ = GameState.GAME_OVER_WIN ∨
          g.current_state_ = GameState.TERMINATE_GAME)) := by
  have hb := boardInvariant_reachable g h
  have hi := engineInvariant_reachable g h
  refine ⟨board_of_mirrors g hb.2.2.1 hi.1.1, fun hl => ?_, fun h1 h2 => ?_, fun hl => ?_⟩
  · have hf : g.food_position_ ∉ g.snake_ := by
      intro hm
      have := hb.2.2.2.1 hm
      omega
    exact ⟨hf, boardExact_of_mirrors g hb.2.2.1 hi.1.1 hf,
      exactlyOne_of_mirrors g hb.2.2.1 hi.2.1 hi.1.2.2 hb.2.1 hf⟩
  · exact (boardInvariant_short g hb h1 h2).1
  · exact ⟨(hb.2.2.2.2 hl).2, (hb.2.2.2.2 hl).1⟩

theorem snake_board_mirrors_entities_witness :
    Reachable freshGame ∧ boardExact freshGame ∧
      exactlyOneCell (snapshot freshGame).field HEAD ∧
      exactlyOneCell (snapshot freshGame).field FOOD :=
  ⟨Reachable.reset blankGame [7, 3] freshGame [] rfl,
    ((snake_board_mirrors_entities freshGame
      (Reachable.reset blankGame [7, 3] freshGame [] rfl)).2.1 (by decide)).2⟩

end s21
